import Mathlib

/-!
# A verification development for `pnelson/when`

The package `when` turns an English phrase ("2nd last Tuesday of March at noon",
"1y2M3w4d5h6m7s ago") into an instant, relative to a reference instant.  This file
embeds the lexer (`lexer.go`), the parser (`parser.go`) and the parts of the Go
standard library they call (`unicode`, `strings`, `strconv`, `time`) as Lean
definitions, and proves properties of `ParseNow`.

Conventions of the embedding.

* A Go string is a sequence of runes: `List Char`.  An ill-formed byte, which Go decodes
  as `utf8.RuneError` of width one, is the rune U+FFFD of the list.  The cursors `i`, `j`
  and `width` of the lexer therefore count runes, not bytes.
* `int` is 64 bits wide.  Arithmetic written in `parser.go` wraps (`wrap64`); the
  instants of package `time` are integers without a bound.
* The Unicode tables beyond ASCII are a parameter (`RuneTables`).
* A Go `stateFn` loop, and the tail calls of the recursive-descent parser, are run by a
  step function under a fuel counter; running out of fuel is the error `Error.fuel`.
-/

namespace When

/-! ## Package `unicode` and `strings` -/

/-- The Unicode tables for the runes beyond ASCII: `unicode.IsLetter`, `unicode.IsDigit`
and `unicode.ToLower` there.  They depend on the Unicode version of the Go release. -/
structure RuneTables where
  letter : Char → Bool
  digit : Char → Bool
  lower : Char → Char

/-- The tables that know no letter and no digit beyond ASCII. -/
def asciiTables : RuneTables := ⟨fun _ => false, fun _ => false, fun c => c⟩

/-- Go's `unicode.IsSpace`: the Latin-1 spaces and the property `White_Space`. -/
def isSpace (c : Char) : Bool :=
  let n := c.toNat
  n == 0x20 || (0x09 ≤ n && n ≤ 0x0D) || n == 0x85 || n == 0xA0 || n == 0x1680 ||
    (0x2000 ≤ n && n ≤ 0x200A) || n == 0x2028 || n == 0x2029 || n == 0x202F ||
    n == 0x205F || n == 0x3000

/-- An ASCII decimal digit. -/
def isAsciiDigit (c : Char) : Bool := 48 ≤ c.toNat && c.toNat ≤ 57

/-- Go's `unicode.IsDigit`. -/
def isDigit (U : RuneTables) (c : Char) : Bool :=
  if c.toNat < 128 then isAsciiDigit c else U.digit c

/-- Go's `unicode.IsLetter`. -/
def isLetter (U : RuneTables) (c : Char) : Bool :=
  if c.toNat < 128 then (65 ≤ c.toNat && c.toNat ≤ 90) || (97 ≤ c.toNat && c.toNat ≤ 122)
  else U.letter c

/-- Go's `unicode.ToLower`. -/
def toLower (U : RuneTables) (c : Char) : Char :=
  if c.toNat < 128 then (if 65 ≤ c.toNat && c.toNat ≤ 90 then Char.ofNat (c.toNat + 32) else c)
  else U.lower c

/-- Go's `strings.ToLower`. -/
def stringsToLower (U : RuneTables) (s : String) : String := String.mk (s.data.map (toLower U))

/-! ## Integers -/

/-- A mathematical integer as a Go `int64`: two's complement wrap-around. -/
def wrap64 (x : Int) : Int := (x + 9223372036854775808) % 18446744073709551616 - 9223372036854775808

/-- The largest `int64`. -/
def maxInt64 : Int := 9223372036854775807

/-! ## Errors -/

/-- The token kinds of `lexer.go`, and `tokenDateSeparator`, which `parser.go` names and
`lexer.go` does not declare. -/
inductive tokenType
  | tokenAgo
  | tokenBefore
  | tokenColon
  | tokenDate
  | tokenDigit
  | tokenEOF
  | tokenError
  | tokenFrom
  | tokenKeyword
  | tokenMonth
  | tokenNow
  | tokenOperatorAdd
  | tokenOperatorSub
  | tokenOrdinal
  | tokenTime
  | tokenTwelveHour
  | tokenUnit
  | tokenWeekday
  | tokenDateSeparator
  deriving DecidableEq, Repr

/-- A token: its kind and the text it was read from. -/
structure token where
  typ : tokenType
  val : String
  deriving DecidableEq, Repr

/-- The error values `ParseNow` can return. -/
inductive Error
  /-- The `errors.New` of `lex`: the text of the error token. -/
  | lex (msg : String)
  /-- A `parseError` of `parser.go`. -/
  | parse (t : token) (message : String)
  /-- The `*strconv.NumError` of `strconv.Atoi`; `range` tells `ErrRange` from `ErrSyntax`. -/
  | num (s : String) (range : Bool)
  /-- The `*time.ParseError` of `time.ParseInLocation`. -/
  | timeParse (layout value : String)
  /-- The step counter of the embedding ran out (never a result of the Go code). -/
  | fuel
  deriving DecidableEq, Repr

/-! ## Package `strconv` -/

/-- The value of a run of ASCII digits, `none` when a rune is not an ASCII digit. -/
def digitsValue : List Char → Nat → Option Nat
  | [], acc => some acc
  | c :: cs, acc => if isAsciiDigit c then digitsValue cs (10 * acc + (c.toNat - 48)) else none

/-- The sign `strconv.Atoi` takes off the front: the rest, and whether it was a minus. -/
def splitSign : List Char → List Char × Bool
  | '-' :: cs => (cs, true)
  | '+' :: cs => (cs, false)
  | cs => (cs, false)

/-- Go's `strconv.Atoi` for a 64-bit `int`: an optional sign, then ASCII digits, with the
value in the range of `int64`. -/
def Atoi (s : String) : Except Error Int :=
  let body : List Char × Bool := splitSign s.data
  match body.1 with
  | [] => .error (.num s false)
  | cs =>
    match digitsValue cs 0 with
    | none => .error (.num s false)
    | some v =>
      let n : Int := if body.2 then -(v : Int) else (v : Int)
      if n < -9223372036854775808 ∨ maxInt64 < n then .error (.num s true) else .ok n

/-! ## Package `time` -/

/-- A time zone: the offset (seconds east of UTC) in force before the first transition, and
the transitions `(when, offset)` in ascending order of `when` (Unix seconds). -/
structure Location where
  name : String
  base : Int
  tx : List (Int × Int)
  deriving DecidableEq, Repr

/-- Go's `time.UTC`. -/
def UTC : Location := ⟨"UTC", 0, []⟩

/-- The walk of `Location.lookup` over the transitions. -/
def lookupAux : Int → Option Int → List (Int × Int) → Int → Int × Option Int × Option Int
  | off, start, [], _ => (off, start, none)
  | off, start, (w, o) :: rest, sec =>
    if sec < w then (off, start, some w) else lookupAux o (some w) rest sec

/-- Go's `(*Location).lookup`: the offset in force at the instant `sec`, and the bounds
`[start, end)` of the period it is in force (`none` for no bound). -/
def Location.lookup (l : Location) (sec : Int) : Int × Option Int × Option Int :=
  lookupAux l.base none l.tx sec

/-- An instant: Unix seconds, nanoseconds within the second, and the zone it is shown in. -/
structure Time where
  sec : Int
  nsec : Int
  loc : Location
  deriving DecidableEq, Repr

/-- Seconds from 0001-01-01T00:00:00Z to the Unix epoch. -/
def unixToInternal : Int := 62135596800

/-- The zero `time.Time`: 0001-01-01T00:00:00 UTC. -/
def Time.zero : Time := ⟨-62135596800, 0, UTC⟩

/-- Go's `isLeap`. -/
def isLeap (year : Int) : Bool :=
  year % 4 == 0 && (year % 100 != 0 || year % 400 == 0)

/-- Days from 0001-01-01 to January 1 of `year` (proleptic Gregorian calendar). -/
def daysSinceEpoch (year : Int) : Int :=
  let y := year - 1
  365 * y + y / 4 - y / 100 + y / 400

/-- Go's table `daysBefore`: the days of a non-leap year before month `m + 1`. -/
def daysBefore (m : Int) : Int :=
  if m ≤ 0 then 0 else if m = 1 then 31 else if m = 2 then 59 else if m = 3 then 90
  else if m = 4 then 120 else if m = 5 then 151 else if m = 6 then 181
  else if m = 7 then 212 else if m = 8 then 243 else if m = 9 then 273
  else if m = 10 then 304 else if m = 11 then 334 else 365

/-- Go's `norm`: `(hi, lo)` with `lo` brought into `[0, base)`. -/
def norm (hi lo base : Int) : Int × Int :=
  let (hi, lo) :=
    if lo < 0 then
      let n := (-lo - 1) / base + 1
      (hi - n, lo + n * base)
    else (hi, lo)
  if lo ≥ base then
    let n := lo / base
    (hi + n, lo - n * base)
  else (hi, lo)

/-- Go's `time.Date`. -/
def Date (year month day hour min sec nsec : Int) (loc : Location) : Time :=
  let m := month - 1
  let (year, m) := norm year m 12
  let month := m + 1
  let (sec, nsec) := norm sec nsec 1000000000
  let (min, sec) := norm min sec 60
  let (hour, min) := norm hour min 60
  let (day, hour) := norm day hour 24
  let d := daysSinceEpoch year + daysBefore (month - 1) +
    (if isLeap year && month ≥ 3 then 1 else 0) + (day - 1)
  let abs := d * 86400 + (hour * 3600 + min * 60 + sec)
  let unix := abs - unixToInternal
  let (offset, start, stop) := loc.lookup unix
  let unix :=
    if offset ≠ 0 then
      let utc := unix - offset
      let before : Bool := match start with
        | some s => utc < s
        | none => false
      let after : Bool := match stop with
        | some e => utc ≥ e
        | none => false
      let offset := if before || after then (loc.lookup utc).1 else offset
      unix - offset
    else unix
  ⟨unix, nsec, loc⟩

/-- Go's `Time.abs`: the seconds since 0001-01-01T00:00:00 of the wall clock in the zone. -/
def Time.abs (t : Time) : Int := t.sec + (t.loc.lookup t.sec).1 + unixToInternal

/-- The year and the day of the year (from 0) of a day counted from 0001-01-01. -/
def absYear (d : Int) : Int × Int :=
  let n400 := d / 146097
  let d1 := d - 146097 * n400
  let n100 := d1 / 36524
  let n100 := n100 - n100 / 4
  let d2 := d1 - 36524 * n100
  let n4 := d2 / 1461
  let d3 := d2 - 1461 * n4
  let n1 := d3 / 365
  let n1 := n1 - n1 / 4
  let d4 := d3 - 365 * n1
  (400 * n400 + 100 * n100 + 4 * n4 + n1 + 1, d4)

/-- The month and the day of the month of day `yday` (from 0) of `year`: the second half of
Go's `absDate`. -/
def monthDay (year yday : Int) : Int × Int :=
  if isLeap year && yday = 59 then (2, 29)
  else
    let day := if isLeap year && yday > 59 then yday - 1 else yday
    let month := day / 31
    let stop := daysBefore (month + 1)
    if day ≥ stop then (month + 2, day - stop + 1)
    else (month + 1, day - daysBefore month + 1)

/-- Go's `absDate` on a count of days: year, month, day. -/
def civil (d : Int) : Int × Int × Int :=
  let (year, yday) := absYear d
  let (month, day) := monthDay year yday
  (year, month, day)

/-- Go's `Time.Date`. -/
def Time.Date (t : Time) : Int × Int × Int := civil (t.abs / 86400)

/-- Go's `Time.Year`. -/
def Time.Year (t : Time) : Int := t.Date.1

/-- Go's `Time.Month`. -/
def Time.Month (t : Time) : Int := t.Date.2.1

/-- Go's `Time.Clock`. -/
def Time.Clock (t : Time) : Int × Int × Int :=
  let s := t.abs % 86400
  (s / 3600, s % 3600 / 60, s % 60)

/-- Go's `Time.Hour`. -/
def Time.Hour (t : Time) : Int := t.Clock.1

/-- Go's `Time.Minute`. -/
def Time.Minute (t : Time) : Int := t.Clock.2.1

/-- Go's `Time.Second`. -/
def Time.Second (t : Time) : Int := t.Clock.2.2

/-- Go's `Time.Weekday`, Sunday being 0: 0001-01-01 is a Monday. -/
def Time.Weekday (t : Time) : Int := (t.abs / 86400 + 1) % 7

/-- Go's `Time.Location`. -/
def Time.Location (t : Time) : Location := t.loc

/-- Go's `Time.IsZero`. -/
def Time.IsZero (t : Time) : Bool := t.sec == -62135596800 && t.nsec == 0

/-- Go's `Time.Equal`. -/
def Time.Equal (t u : Time) : Bool := t.sec == u.sec && t.nsec == u.nsec

/-- Go's `Time.After`. -/
def Time.After (t u : Time) : Bool := decide (t.sec > u.sec) || (t.sec == u.sec && decide (t.nsec > u.nsec))

/-- Go's `Time.Add`, the duration in nanoseconds. -/
def Time.Add (t : Time) (d : Int) : Time :=
  let dsec := Int.tdiv d 1000000000
  let nsec := t.nsec + Int.tmod d 1000000000
  if nsec ≥ 1000000000 then ⟨t.sec + (dsec + 1), nsec - 1000000000, t.loc⟩
  else if nsec < 0 then ⟨t.sec + (dsec - 1), nsec + 1000000000, t.loc⟩
  else ⟨t.sec + dsec, nsec, t.loc⟩

/-- Go's `Time.AddDate`. -/
def Time.AddDate (t : Time) (years months days : Int) : Time :=
  let (year, month, day) := t.Date
  let (hour, min, sec) := t.Clock
  When.Date (year + years) (month + months) (day + days) hour min sec t.nsec t.Location

/-- Go's `time.Second`, `time.Minute` and `time.Hour` in nanoseconds. -/
def Second : Int := 1000000000

/-- Go's `time.Minute`. -/
def Minute : Int := 60 * Second

/-- Go's `time.Hour`. -/
def Hour : Int := 60 * Minute

/-- The elements of the layouts that `parser.go` hands to `time.ParseInLocation`:
`3` (`stdHour12`), `15` (`stdHour`), `04` (`stdZeroMinute`), `05` (`stdZeroSecond`),
`pm` (`stdpm`) and the literal colon. -/
inductive layoutElem
  | hour12
  | hour
  | zeroMinute
  | zeroSecond
  | pm
  | colon
  deriving DecidableEq, Repr

/-- The fields `time.Parse` collects while it walks the layout. -/
structure parsed where
  hour : Int
  min : Int
  sec : Int
  pmSet : Bool
  amSet : Bool
  deriving DecidableEq, Repr

/-- Go's `getnum`: one or two ASCII digits, two when `fixed`. -/
def getnum (s : List Char) (fixed : Bool) : Option (Int × List Char) :=
  match s with
  | [] => none
  | c0 :: rest =>
    if isAsciiDigit c0 then
      match rest with
      | [] => if fixed then none else some (((c0.toNat - 48 : Nat) : Int), rest)
      | c1 :: rest1 =>
        if isAsciiDigit c1 then some ((((c0.toNat - 48) * 10 + (c1.toNat - 48) : Nat) : Int), rest1)
        else if fixed then none else some (((c0.toNat - 48 : Nat) : Int), rest)
    else none

/-- One turn of the loop of `time.Parse` for one layout element; `none` is a
`*time.ParseError` (a malformed or an out-of-range field). -/
def parseElem (e : layoutElem) (value : List Char) (r : parsed) : Option (List Char × parsed) :=
  match e with
  | .hour12 =>
    match getnum value false with
    | none => none
    | some (h, rest) => if h < 0 ∨ 12 < h then none else some (rest, { r with hour := h })
  | .hour =>
    match getnum value false with
    | none => none
    | some (h, rest) => if h < 0 ∨ 24 ≤ h then none else some (rest, { r with hour := h })
  | .zeroMinute =>
    match getnum value true with
    | none => none
    | some (m, rest) => if m < 0 ∨ 60 ≤ m then none else some (rest, { r with min := m })
  | .zeroSecond =>
    match getnum value true with
    | none => none
    | some (s, rest) => if s < 0 ∨ 60 ≤ s then none else some (rest, { r with sec := s })
  | .pm =>
    match value with
    | c0 :: c1 :: rest =>
      if c0 = 'p' ∧ c1 = 'm' then some (rest, { r with pmSet := true })
      else if c0 = 'a' ∧ c1 = 'm' then some (rest, { r with amSet := true })
      else none
    | _ => none
  | .colon =>
    match value with
    | c0 :: rest => if c0 = ':' then some (rest, r) else none
    | [] => none

/-- The loop of `time.Parse` over the layout; text left over at the end is an error. -/
def parseElems : List layoutElem → List Char → parsed → Option parsed
  | [], value, r => if value.length ≠ 0 then none else some r
  | e :: es, value, r =>
    match parseElem e value r with
    | none => none
    | some (rest, r1) => parseElems es rest r1

/-- The layout `"3pm"`. -/
def layout3pm : List layoutElem := [.hour12, .pm]

/-- The layout `"3:04pm"`. -/
def layout304pm : List layoutElem := [.hour12, .colon, .zeroMinute, .pm]

/-- The layout `"15:04"`. -/
def layout1504 : List layoutElem := [.hour, .colon, .zeroMinute]

/-- The layout `"15:04:05"`. -/
def layout150405 : List layoutElem := [.hour, .colon, .zeroMinute, .colon, .zeroSecond]

/-- Go's `time.ParseInLocation` for a layout of clock fields only: the clock time on
January 1 of year 0 in `loc`.  (A value handed over by `parser.go` is made of digit tokens,
colons and a lower-cased twelve-hour marker, so that the fractional seconds `time.Parse`
also accepts after `05` cannot occur.) -/
def ParseInLocation (layout : List layoutElem) (name : String) (value : String) (loc : Location) :
    Except Error Time :=
  match parseElems layout value.data ⟨0, 0, 0, false, false⟩ with
  | none => .error (.timeParse name value)
  | some r =>
    let hour := if r.pmSet && decide (r.hour < 12) then r.hour + 12
      else if r.amSet && r.hour == 12 then 0 else r.hour
    .ok (Date 0 1 1 hour r.min r.sec 0 loc)

/-! ## `lexer.go` -/

/-- The state functions of the lexer (Go's `stateFn` values). -/
inductive stateFn
  | readExpr
  | readAtSymbol
  | readColon
  | readDigit
  | readDurationNext
  | readDurationNextShort
  | readDurationSpace
  | readDurationSpaceNext
  | readDurationUnitSecondsOrOrdinal
  | readLetter
  | readOrdinal
  | readTwelveHour
  deriving DecidableEq, Repr

/-- The lexer: the input, the start `i` of the pending token, the cursor `j`, the width of
the last rune read, and the tokens emitted so far. -/
structure lexer where
  input : List Char
  i : Nat
  j : Nat
  width : Nat
  tokens : List token
  deriving DecidableEq, Repr

/-- The pending text `l.input[l.i:l.j]`. -/
def lexer.value (l : lexer) : String := String.mk ((l.input.drop l.i).take (l.j - l.i))

/-- Go's `emitAs`. -/
def lexer.emitAs (l : lexer) (typ : tokenType) (value : String) : lexer :=
  { l with tokens := l.tokens ++ [⟨typ, value⟩], i := l.j }

/-- Go's `emit`. -/
def lexer.emit (l : lexer) (typ : tokenType) : lexer := l.emitAs typ l.value

/-- Go's `errorf`: append an error token and stop (the next state is `nil`). -/
def lexer.errorf (l : lexer) (msg : String) : Option stateFn × lexer :=
  (none, { l with tokens := l.tokens ++ [⟨.tokenError, msg⟩] })

/-- Go's `ignore`. -/
def lexer.ignore (l : lexer) : lexer := { l with i := l.j }

/-- Go's `read`; `none` is `eof`. -/
def lexer.read (l : lexer) : Option Char × lexer :=
  match l.input.drop l.j with
  | [] => (none, { l with width := 0 })
  | c :: _ => (some c, { l with j := l.j + 1, width := 1 })

/-- Go's `unread`. -/
def lexer.unread (l : lexer) : lexer := { l with j := l.j - l.width }

/-- The loop of `readFn`, at most `n` turns. -/
def lexer.readFnLoop (fn : Char → Bool) : Nat → lexer → lexer
  | 0, l => l
  | n + 1, l =>
    match l.read with
    | (none, l1) => l1.unread
    | (some r, l1) => if fn r then lexer.readFnLoop fn n l1 else l1.unread

/-- Go's `readFn`: read while `fn` holds.  The loop reads a rune per turn, so that
`len(input) + 1` turns reach its end. -/
def lexer.readFn (l : lexer) (fn : Char → Bool) : lexer :=
  lexer.readFnLoop fn (l.input.length + 1) l

/-- Go's `readRune`. -/
def lexer.readRune (l : lexer) (ch : Char) : Bool × lexer :=
  let (r, l) := l.read
  (r == some ch, l)

/-- Go's `peek`. -/
def lexer.peek (l : lexer) : Option Char × lexer :=
  let (r, l) := l.read
  (r, l.unread)

/-- The `for` loop of `readString`: `false` when a rune differs, after one `unread`. -/
def lexer.readStringLoop : List Char → lexer → Bool × lexer
  | [], l => (true, l)
  | r :: rs, l =>
    let (ok, l) := l.readRune r
    if !ok then (false, l.unread) else lexer.readStringLoop rs l

/-- Go's `readString`. -/
def lexer.readString (l : lexer) (s : String) : Bool × lexer :=
  let (ok, l) := lexer.readStringLoop s.data l
  if !ok then (false, l)
  else
    let (r, l) := l.peek
    (match r with
      | none => true
      | some c => isSpace c, l)

/-- The first loop of `peekFn`, at most `n` turns: the runes read, and the lexer. -/
def lexer.peekFnLoop (fn : Char → Bool) : Nat → List Char → lexer → List Char × lexer
  | 0, s, l => (s, l)
  | n + 1, s, l =>
    match l.read with
    | (none, l1) => (s, l1.unread)
    | (some r, l1) => if fn r then lexer.peekFnLoop fn n (s ++ [r]) l1 else (s, l1.unread)

/-- Go's `peekFn`: the run of runes satisfying `fn` ahead, the cursor moved back. -/
def lexer.peekFn (l : lexer) (fn : Char → Bool) : String × lexer :=
  let width := l.width
  let (s, l) := lexer.peekFnLoop fn (l.input.length + 1) [] l
  (String.mk s, { l with j := l.j - s.length, width := width })

/-- Go's `isTimeRune`. -/
def isTimeRune (U : RuneTables) (r : Char) : Bool :=
  if r = '\'' then true else isLetter U r

/-- Go's `readExpr`. -/
def readExpr (U : RuneTables) (l : lexer) : Option stateFn × lexer :=
  let l := l.readFn isSpace
  let l := l.ignore
  let (r, l) := l.peek
  match r with
  | none => (none, l)
  | some c =>
    if c = '@' then (some .readAtSymbol, l)
    else if c = '+' then
      let (_, l) := l.read
      (some .readExpr, l.emit .tokenOperatorAdd)
    else if c = '-' then
      let (_, l) := l.read
      (some .readExpr, l.emit .tokenOperatorSub)
    else if isDigit U c then (some .readDigit, l)
    else if isLetter U c then (some .readLetter, l)
    else l.errorf "invalid character"

/-- Go's `readAtSymbol`. -/
def readAtSymbol (l : lexer) : Option stateFn × lexer :=
  let (ok, l) := l.readRune '@'
  if !ok then l.errorf "invalid character"
  else (some .readExpr, l.emit .tokenKeyword)

/-- Go's `readColon`. -/
def readColon (U : RuneTables) (l : lexer) : Option stateFn × lexer :=
  let (_, l) := l.read
  let l := l.emit .tokenColon
  let (r, l) := l.peek
  match r with
  | none => l.errorf "colon must be followed by a digit"
  | some c =>
    if !isDigit U c then l.errorf "colon must be followed by a digit"
    else (some .readDigit, l)

/-- Go's `readDigit`. -/
def readDigit (U : RuneTables) (l : lexer) : Option stateFn × lexer :=
  let l := l.readFn (isDigit U)
  let l := l.emit .tokenDigit
  let (r, l) := l.peek
  match r with
  | none => (none, l)
  | some c =>
    if c = 's' then (some .readDurationUnitSecondsOrOrdinal, l)
    else if c = 'm' ∨ c = 'h' ∨ c = 'd' ∨ c = 'w' ∨ c = 'M' ∨ c = 'y' then
      let (_, l) := l.read
      (some .readDurationNextShort, l.emit .tokenUnit)
    else if c = 'n' ∨ c = 'r' ∨ c = 't' then (some .readOrdinal, l)
    else if c = 'a' ∨ c = 'p' then (some .readTwelveHour, l)
    else if c = ':' then (some .readColon, l)
    else (some .readExpr, l)

/-- Go's `readDurationNext`. -/
def readDurationNext (l : lexer) : Option stateFn × lexer :=
  let (r, l) := l.peek
  match r with
  | none => (none, l)
  | some c =>
    if c = ',' ∨ c = '+' ∨ c = '&' then
      let (_, l) := l.read
      (some .readExpr, l.emit .tokenOperatorAdd)
    else if c = '-' then
      let (_, l) := l.read
      (some .readExpr, l.emit .tokenOperatorSub)
    else if !isSpace c then l.errorf "invalid character"
    else (some .readDurationSpace, l)

/-- Go's `readDurationNextShort`. -/
def readDurationNextShort (l : lexer) : Option stateFn × lexer :=
  let (r, l) := l.peek
  match r with
  | none => (none, l)
  | some c =>
    if c = ',' ∨ c = '+' ∨ c = '&' then
      let (_, l) := l.read
      (some .readExpr, l.emit .tokenOperatorAdd)
    else if c = '-' then
      let (_, l) := l.read
      (some .readExpr, l.emit .tokenOperatorSub)
    else if isSpace c then (some .readDurationSpace, l)
    else (some .readExpr, l.emit .tokenOperatorAdd)

/-- Go's `readDurationSpace`. -/
def readDurationSpace (U : RuneTables) (l : lexer) : Option stateFn × lexer :=
  let l := l.readFn isSpace
  let (r, l) := l.peek
  match r with
  | none => (none, l.ignore)
  | some c =>
    if c = '+' ∨ c = '&' then
      let l := l.ignore
      let (_, l) := l.read
      (some .readExpr, l.emit .tokenOperatorAdd)
    else if c = '-' then
      let l := l.ignore
      let (_, l) := l.read
      (some .readExpr, l.emit .tokenOperatorSub)
    else if isDigit U c then (some .readExpr, l.emit .tokenOperatorAdd)
    else (some .readDurationSpaceNext, l)

/-- The spelled-out numbers of `readDurationSpaceNext` and `readLetter`, with the digits
`readLetter` emits for them. -/
def numberWord (v : String) : Option String :=
  if v = "one" ∨ v = "a" then some "1"
  else if v = "two" then some "2"
  else if v = "three" then some "3"
  else if v = "four" then some "4"
  else if v = "five" then some "5"
  else if v = "six" then some "6"
  else if v = "seven" then some "7"
  else if v = "eight" then some "8"
  else if v = "nine" then some "9"
  else if v = "ten" then some "10"
  else if v = "eleven" then some "11"
  else if v = "twelve" then some "12"
  else none

/-- Go's `readDurationSpaceNext`.  The result of `readString` is not looked at. -/
def readDurationSpaceNext (U : RuneTables) (l : lexer) : Option stateFn × lexer :=
  let space := l.value
  let l := l.ignore
  let (v, l) := l.peekFn (isLetter U)
  let v := stringsToLower U v
  let l :=
    if v = "ago" then (l.readString "ago").2.emit .tokenAgo
    else if v = "before" then (l.readString "before").2.emit .tokenBefore
    else if v = "after" then (l.readString "after").2.emit .tokenFrom
    else if v = "from" then (l.readString "from").2.emit .tokenFrom
    else if v = "and" then (l.readString "and").2.emit .tokenOperatorAdd
    else if (numberWord v).isSome then l.emitAs .tokenOperatorAdd space
    else l
  (some .readExpr, l)

/-- Go's `readDurationUnitSecondsOrOrdinal`. -/
def readDurationUnitSecondsOrOrdinal (l : lexer) : Option stateFn × lexer :=
  let (_, l) := l.read
  let (r, l) := l.peek
  if r = some 't' then
    let (_, l) := l.read
    (some .readExpr, l.emit .tokenOrdinal)
  else (some .readDurationNextShort, l.emit .tokenUnit)

/-- The long unit names of `readLetter`. -/
def longUnits : List String :=
  ["year", "years", "month", "months", "week", "weeks", "day", "days", "hour", "hours",
    "minute", "minutes", "second", "seconds"]

/-- The weekday names of `readLetter`. -/
def weekdayNames : List String :=
  ["sun", "sunday", "mon", "monday", "tue", "tuesday", "wed", "wednesday", "thu", "thursday",
    "fri", "friday", "sat", "saturday"]

/-- The month names of `readLetter`. -/
def monthNames : List String :=
  ["jan", "january", "feb", "february", "mar", "march", "apr", "april", "may", "jun", "june",
    "jul", "july", "aug", "august", "sep", "september", "oct", "october", "nov", "november",
    "dec", "december"]

/-- The keywords of `readLetter`. -/
def keywords : List String :=
  ["in", "of", "on", "the", "next", "last", "at", "quarter", "half", "past", "to", "after",
    "oclock", "o'clock", "morning", "afternoon", "evening"]

/-- Go's `readLetter`. -/
def readLetter (U : RuneTables) (l : lexer) : Option stateFn × lexer :=
  let l := l.readFn (isTimeRune U)
  let v := stringsToLower U l.value
  if v = "now" then (some .readExpr, l.emit .tokenNow)
  else if v = "today" ∨ v = "tomorrow" ∨ v = "yesterday" then (some .readExpr, l.emit .tokenDate)
  else if v = "midnight" ∨ v = "noon" then (some .readExpr, l.emit .tokenTime)
  else
    match numberWord v with
    | some d => (some .readExpr, l.emitAs .tokenDigit d)
    | none =>
      if v = "am" ∨ v = "pm" then (some .readExpr, l.emit .tokenTwelveHour)
      else if v ∈ longUnits then (some .readDurationNext, l.emit .tokenUnit)
      else if v ∈ weekdayNames then (some .readExpr, l.emit .tokenWeekday)
      else if v ∈ monthNames then (some .readExpr, l.emit .tokenMonth)
      else if v ∈ keywords then (some .readExpr, l.emit .tokenKeyword)
      else l.errorf "invalid character"

/-- Go's `readOrdinal`. -/
def readOrdinal (l : lexer) : Option stateFn × lexer :=
  let (r, l) := l.read
  let (ok, l) :=
    if r = some 'n' ∨ r = some 'r' then l.readRune 'd'
    else if r = some 't' then l.readRune 'h'
    else (false, l)
  if !ok then l.errorf "invalid ordinal"
  else (some .readExpr, l.emit .tokenOrdinal)

/-- Go's `readTwelveHour`. -/
def readTwelveHour (l : lexer) : Option stateFn × lexer :=
  let (am, l) := l.readString "am"
  let (ok, l) := if am then (true, l) else l.readString "pm"
  if !ok then l.errorf "expected twelve hour am/pm marker"
  else (some .readExpr, l.emit .tokenTwelveHour)

/-- One call `state(l)` of the loop of `lex`. -/
def lexStep (U : RuneTables) : stateFn → lexer → Option stateFn × lexer
  | .readExpr, l => readExpr U l
  | .readAtSymbol, l => readAtSymbol l
  | .readColon, l => readColon U l
  | .readDigit, l => readDigit U l
  | .readDurationNext, l => readDurationNext l
  | .readDurationNextShort, l => readDurationNextShort l
  | .readDurationSpace, l => readDurationSpace U l
  | .readDurationSpaceNext, l => readDurationSpaceNext U l
  | .readDurationUnitSecondsOrOrdinal, l => readDurationUnitSecondsOrOrdinal l
  | .readLetter, l => readLetter U l
  | .readOrdinal, l => readOrdinal l
  | .readTwelveHour, l => readTwelveHour l

/-- The loop `for state := readExpr; state != nil; { state = state(l) }`, at most `n`
turns; `none` when the turns run out. -/
def lexRun (U : RuneTables) : Nat → stateFn → lexer → Option lexer
  | 0, _, _ => none
  | n + 1, st, l =>
    match lexStep U st l with
    | (none, l1) => some l1
    | (some st1, l1) => lexRun U n st1 l1

/-- The turns granted to the loop of `lex`: six per rune of the input, and six. -/
def lexFuel (s : String) : Nat := 6 * s.data.length + 6

/-- Go's `lex`. -/
def lex (U : RuneTables) (s : String) : Except Error (List token) :=
  match lexRun U (lexFuel s) .readExpr ⟨s.data, 0, 0, 0, []⟩ with
  | none => .error .fuel
  | some l =>
    match l.tokens.getLast? with
    | some last => if last.typ = .tokenError then .error (.lex last.val) else .ok l.tokens
    | none => .ok l.tokens

/-! ## `parser.go` -/

/-- A left-hand duration term: a signed count and the text of its unit. -/
structure lhsFn where
  n : Int
  unit : String
  deriving DecidableEq, Repr

/-- The fields `tokens` and `now` of the Go struct `parser`: `ParseNow` sets them and no
method assigns them. -/
structure penv where
  tokens : List token
  now : Time
  deriving DecidableEq, Repr

/-- The fields of the Go struct `parser` the methods assign: the cursor into the tokens, the
left-hand terms, the anchor `rhs`, and the flags `sub` (negate the terms), `date` and
`time`. -/
structure parser where
  pos : Nat
  lhs : List lhsFn
  rhs : Time
  sub : Bool
  date : Bool
  time : Bool
  deriving DecidableEq, Repr

/-- Go's `lhsFn.apply`. -/
def lhsFn.apply (f : lhsFn) (t : Time) (sub : Bool) : Time :=
  let n := if sub then wrap64 (f.n * -1) else f.n
  if f.unit = "y" ∨ f.unit = "year" ∨ f.unit = "years" then t.AddDate n 0 0
  else if f.unit = "M" ∨ f.unit = "month" ∨ f.unit = "months" then t.AddDate 0 n 0
  else if f.unit = "w" ∨ f.unit = "week" ∨ f.unit = "weeks" then t.AddDate 0 0 (wrap64 (7 * n))
  else if f.unit = "d" ∨ f.unit = "day" ∨ f.unit = "days" then t.AddDate 0 0 n
  else if f.unit = "h" ∨ f.unit = "hour" ∨ f.unit = "hours" then t.Add (wrap64 (n * Hour))
  else if f.unit = "m" ∨ f.unit = "minute" ∨ f.unit = "minutes" then t.Add (wrap64 (n * Minute))
  else if f.unit = "s" ∨ f.unit = "second" ∨ f.unit = "seconds" then t.Add (wrap64 (n * Second))
  else Time.zero

/-- Go's `peek`. -/
def parser.peek (e : penv) (p : parser) : token :=
  match e.tokens.drop p.pos with
  | [] => ⟨.tokenEOF, ""⟩
  | t :: _ => t

/-- Go's `next`. -/
def parser.next (e : penv) (p : parser) : token × parser := (p.peek e, { p with pos := p.pos + 1 })

/-- The first `n` bytes of a string, as `strings.ToLower` sees them: a rune cut by the
slice leaves ill-formed bytes, each the rune U+FFFD. -/
def bytePrefix : List Char → Nat → List Char
  | [], _ => []
  | c :: cs, n =>
    if n = 0 then []
    else if c.utf8Size ≤ n then c :: bytePrefix cs (n - c.utf8Size)
    else List.replicate n (Char.ofNat 0xFFFD)

/-- Go's function `parseMonth`. -/
def parseMonth (U : RuneTables) (t : token) : Except Error Int :=
  if t.typ ≠ .tokenMonth then .error (.parse t "unexpected token")
  else
    let v := stringsToLower U (String.mk (bytePrefix t.val.data 3))
    if v = "jan" then .ok 1
    else if v = "feb" then .ok 2
    else if v = "mar" then .ok 3
    else if v = "apr" then .ok 4
    else if v = "may" then .ok 5
    else if v = "jun" then .ok 6
    else if v = "jul" then .ok 7
    else if v = "aug" then .ok 8
    else if v = "sep" then .ok 9
    else if v = "oct" then .ok 10
    else if v = "nov" then .ok 11
    else if v = "dec" then .ok 12
    else .error (.parse t "invalid month")

/-- Go's function `parseWeekday`. -/
def parseWeekday (U : RuneTables) (t : token) : Except Error Int :=
  if t.typ ≠ .tokenWeekday then .error (.parse t "unexpected token")
  else
    let v := stringsToLower U (String.mk (bytePrefix t.val.data 3))
    if v = "sun" then .ok 0
    else if v = "mon" then .ok 1
    else if v = "tue" then .ok 2
    else if v = "wed" then .ok 3
    else if v = "thu" then .ok 4
    else if v = "fri" then .ok 5
    else if v = "sat" then .ok 6
    else .error (.parse t "invalid weekday")

/-- The methods of the parser, as the states of its run: a constructor for each, with the
arguments of the call. -/
inductive pstate
  | parseExpr
  | parseExprDigit
  | parseDateTime
  | parseDate
  | parseDateConst
  | parseDateKeyword
  | parseDateYear (d : token)
  | parseDateYearMonth
  | parseDateYearMonthDay
  | parseDigit (d : token)
  | parseDigitColon (h : token)
  | parseDigitColonTwelveHour (h m : token)
  | parseDigitColonTwentyFourHour (h m : token)
  | parseDigitColonTwentyFourHourWithSeconds (h m : token)
  | parseDigitKeyword (d : token)
  | parseDigitKeywordIn (d : token)
  | parseDigitKeywordOclock (d : token)
  | parseDigitOrdinal (d : token)
  | parseDigitOrdinalEOF (d : Int)
  | parseDigitOrdinalKeyword (d : Int)
  | parseDigitOrdinalAt (d : Int)
  | parseDigitOrdinalOf (d : Int)
  | parseDigitOrdinalOfKeyword (d : Int)
  | parseDigitOrdinalOfMonth (d : Int)
  | parseDigitOrdinalLast (d : Int)
  | parseDigitOrdinalLastDay (d : Int)
  | parseDigitOrdinalLastDayOf (d : Int)
  | parseDigitOrdinalLastDayOfKeyword (d : Int)
  | parseDigitOrdinalLastDayOfMonth (d : Int)
  | parseDigitOrdinalLastWeekday (d : Int)
  | parseDigitOrdinalLastWeekdayOf (d : Int) (w : Int)
  | parseDigitOrdinalLastWeekdayOfKeyword (d : Int) (w : Int)
  | parseDigitOrdinalLastWeekdayOfMonth (d : Int) (w : Int)
  | parseDigitOrdinalWeekday (d : Int)
  | parseDigitOrdinalWeekdayOf (d : Int) (w : Int)
  | parseDigitOrdinalWeekdayOfKeyword (d : Int) (w : Int)
  | parseDigitOrdinalWeekdayOfMonth (d : Int) (w : Int)
  | parseDigitOrdinalMonth (d : Int)
  | parseDigitTwelveHour (h : token) (i : String)
  | parseDurationLeft (sub : Bool)
  | parseDurationLeftAgo
  | parseDurationLeftBefore
  | parseDurationLeftFrom
  | parseDurationLeftNext
  | parseDurationLeftUnit (d : token) (sub : Bool)
  | parseDurationRight (sub : Bool)
  | parseDurationRightNext
  | parseDurationRightUnit (d : token) (sub : Bool)
  | parseKeyword
  | parseKeywordAt
  | parseKeywordHalf
  | parseKeywordHalfPast
  | parseKeywordOn
  | parseKeywordOnThe
  | parseKeywordOnTheLast
  | parseKeywordOnTheDigit
  | parseKeywordQuarter
  | parseKeywordQuarterTo
  | parseKeywordQuarterAfter
  | parseMonth
  | parseMonthEOF (M : Int)
  | parseMonthThe (M : Int)
  | parseMonthTheDigit (M : Int)
  | parseNow
  | parseTime
  | parseTimeConst
  | parseTimeKeyword
  | parseWeekday
  deriving Repr

/-- What the body of a method does last: it returns (`ret`, with the error or `nil`), it
returns the result of another method (`call`), or it calls `parseDigit`, returns its error
if there is one, and otherwise adds a duration to the anchor and returns `nil`
(`callThen`). -/
inductive PRes
  | ret (err : Option Error) (p : parser)
  | call (st : pstate) (p : parser)
  | callThen (st : pstate) (p : parser) (d : Int)

/-- The return of a `newParseError(t, "unexpected token")`. -/
def unexpected (t : token) (p : parser) : PRes := .ret (some (.parse t "unexpected token")) p

/-- Go's `for i := 0; i < n; i++ { t = f(t) }`. -/
def times : Nat → (Time → Time) → Time → Time
  | 0, _, t => t
  | n + 1, f, t => times n f (f t)

/-- The anchor moved forward by `AddDate(years, months, 0)` when the reference instant is
at or after it: `if p.now.Equal(p.rhs) || p.now.After(p.rhs) { ... }`. -/
def parser.rollover (e : penv) (p : parser) (years months : Int) : parser :=
  if e.now.Equal p.rhs || e.now.After p.rhs then { p with rhs := p.rhs.AddDate years months 0 }
  else p

/-- The date of the anchor, or of the reference instant while the anchor is the zero time:
`y, M, d := p.rhs.Date(); if p.rhs.IsZero() { y, M, d = p.now.Date() }`. -/
def parser.anchorDate (e : penv) (p : parser) : Int × Int × Int :=
  if p.rhs.IsZero then e.now.Date else p.rhs.Date

/-- Go's `parseExpr`. -/
def parser.parseExpr (e : penv) (p : parser) : PRes :=
  let t := p.peek e
  match t.typ with
  | .tokenEOF => .ret none p
  | .tokenDigit => .call .parseExprDigit p
  | _ => .call .parseDateTime p

/-- Go's `parseExprDigit`. -/
def parser.parseExprDigit (U : RuneTables) (e : penv) (p : parser) : PRes :=
  let (d, p) := p.next e
  let t := p.peek e
  match t.typ with
  | .tokenEOF => .call (.parseDateYear d) p
  | .tokenDateSeparator => .call (.parseDateYear d) p
  | .tokenUnit => .call (.parseDurationLeftUnit d false) p
  | .tokenColon => .call (.parseDigitColon d) p
  | .tokenKeyword => .call (.parseDigitKeyword d) p
  | .tokenOrdinal => .call (.parseDigitOrdinal d) p
  | .tokenTwelveHour =>
    let (t, p) := p.next e
    .call (.parseDigitTwelveHour d (stringsToLower U t.val)) p
  | _ => unexpected t p

/-- Go's `parseDateTime`. -/
def parser.parseDateTime (e : penv) (p : parser) : PRes :=
  let t := p.peek e
  match t.typ with
  | .tokenNow => .call .parseNow (p.next e).2
  | .tokenDate => .call .parseDateConst p
  | .tokenMonth => .call .parseMonth p
  | .tokenWeekday => .call .parseWeekday p
  | .tokenKeyword => .call .parseKeyword p
  | .tokenTime => .call .parseTimeConst p
  | .tokenDigit =>
    let (t, p) := p.next e
    .call (.parseDigit t) p
  | _ => unexpected t p

/-- Go's `parseDate`. -/
def parser.parseDate (e : penv) (p : parser) : PRes :=
  let p := { p with time := true }
  if p.date then .call .parseDurationRightNext p
  else
    let t := p.peek e
    match t.typ with
    | .tokenEOF => .ret none p
    | .tokenOperatorAdd => .call .parseDurationRightNext p
    | .tokenOperatorSub => .call .parseDurationRightNext p
    | .tokenDate => .call .parseDateConst p
    | .tokenMonth => .call .parseMonth p
    | .tokenWeekday => .call .parseWeekday p
    | .tokenKeyword => .call .parseDateKeyword p
    | .tokenDigit =>
      let (t, p) := p.next e
      .call (.parseDigit t) p
    | _ => unexpected t p

/-- Go's `parseDateConst`. -/
def parser.parseDateConst (e : penv) (p : parser) : PRes :=
  let (t, p) := p.next e
  let loc := e.now.Location
  let (y, M, d) := e.now.Date
  let (h, m, s) := p.rhs.Clock
  if t.val = "today" then .call .parseTime { p with rhs := Date y M d h m s 0 loc }
  else if t.val = "tomorrow" then .call .parseTime { p with rhs := Date y M (d + 1) h m s 0 loc }
  else if t.val = "yesterday" then .call .parseTime { p with rhs := Date y M (d - 1) h m s 0 loc }
  else .ret (some (.parse t "unexpected date")) p

/-- Go's `parseDateKeyword`. -/
def parser.parseDateKeyword (e : penv) (p : parser) : PRes :=
  let (t, p) := p.next e
  if t.typ ≠ .tokenKeyword ∨ t.val ≠ "on" then unexpected t p
  else .call .parseKeywordOn p

/-- Go's `parseDateYear`. -/
def parser.parseDateYear (e : penv) (p : parser) (d : token) : PRes :=
  match Atoi d.val with
  | .error e => .ret (some e) p
  | .ok y =>
    let loc := e.now.Location
    let (h, m, s) := p.rhs.Clock
    .call .parseDateYearMonth { p with rhs := Date y 1 1 h m s 0 loc }

/-- Go's `parseDateYearMonth`. -/
def parser.parseDateYearMonth (e : penv) (p : parser) : PRes :=
  let t := p.peek e
  match t.typ with
  | .tokenEOF => .ret none p
  | .tokenDateSeparator =>
    let p := (p.next e).2
    let (t, p) := p.next e
    if t.typ ≠ .tokenDigit then unexpected t p
    else
      match Atoi t.val with
      | .error e => .ret (some e) p
      | .ok M =>
        let loc := p.rhs.Location
        let (h, m, s) := p.rhs.Clock
        .call .parseDateYearMonthDay { p with rhs := Date p.rhs.Year M 1 h m s 0 loc }
  | _ => .call .parseTime p

/-- Go's `parseDateYearMonthDay`. -/
def parser.parseDateYearMonthDay (e : penv) (p : parser) : PRes :=
  let t := p.peek e
  match t.typ with
  | .tokenEOF => .ret none p
  | .tokenDateSeparator =>
    let p := (p.next e).2
    let (t, p) := p.next e
    if t.typ ≠ .tokenDigit then unexpected t p
    else
      match Atoi t.val with
      | .error e => .ret (some e) p
      | .ok d =>
        let loc := p.rhs.Location
        let (h, m, s) := p.rhs.Clock
        .call .parseTime { p with rhs := Date p.rhs.Year p.rhs.Month d h m s 0 loc }
  | _ => .call .parseTime p

/-- Go's `parseDigit`. -/
def parser.parseDigit (U : RuneTables) (e : penv) (p : parser) (d : token) : PRes :=
  let t := p.peek e
  match t.typ with
  | .tokenEOF => .call (.parseDateYear d) p
  | .tokenDateSeparator => .call (.parseDateYear d) p
  | .tokenColon => .call (.parseDigitColon d) p
  | .tokenKeyword => .call (.parseDigitKeyword d) p
  | .tokenOrdinal => .call (.parseDigitOrdinal d) p
  | .tokenTwelveHour =>
    let (t, p) := p.next e
    .call (.parseDigitTwelveHour d (stringsToLower U t.val)) p
  | _ => unexpected t p

/-- Go's `parseDigitColon`. -/
def parser.parseDigitColon (e : penv) (p : parser) (h : token) : PRes :=
  let p := (p.next e).2
  let (m, p) := p.next e
  if m.typ ≠ .tokenDigit then unexpected m p
  else
    let t := p.peek e
    if t.typ = .tokenTwelveHour then .call (.parseDigitColonTwelveHour h m) p
    else .call (.parseDigitColonTwentyFourHour h m) p

/-- Go's `parseDigitColonTwelveHour`. -/
def parser.parseDigitColonTwelveHour (U : RuneTables) (e : penv) (p : parser) (h m : token) : PRes :=
  let (t, p) := p.next e
  let i := stringsToLower U t.val
  let loc := e.now.Location
  match ParseInLocation layout304pm "3:04pm" (h.val ++ ":" ++ m.val ++ i) loc with
  | .error e => .ret (some e) p
  | .ok r =>
    let (y, M, d) := p.anchorDate e
    .call .parseDate { p with rhs := Date y M d r.Hour r.Minute 0 0 loc }

/-- Go's `parseDigitColonTwentyFourHour`. -/
def parser.parseDigitColonTwentyFourHour (e : penv) (p : parser) (h m : token) : PRes :=
  let t := p.peek e
  if t.typ = .tokenColon then .call (.parseDigitColonTwentyFourHourWithSeconds h m) (p.next e).2
  else
    let loc := e.now.Location
    match ParseInLocation layout1504 "15:04" (h.val ++ ":" ++ m.val) loc with
    | .error e => .ret (some e) p
    | .ok r =>
      let (y, M, d) := p.anchorDate e
      .call .parseDate { p with rhs := Date y M d r.Hour r.Minute 0 0 loc }

/-- Go's `parseDigitColonTwentyFourHourWithSeconds`. -/
def parser.parseDigitColonTwentyFourHourWithSeconds (e : penv) (p : parser) (h m : token) : PRes :=
  let (s, p) := p.next e
  if s.typ ≠ .tokenDigit then unexpected m p
  else
    let loc := e.now.Location
    match ParseInLocation layout150405 "15:04:05" (h.val ++ ":" ++ m.val ++ ":" ++ s.val) loc with
    | .error e => .ret (some e) p
    | .ok r =>
      let (y, M, d) := p.anchorDate e
      .call .parseDate { p with rhs := Date y M d r.Hour r.Minute r.Second 0 loc }

/-- Go's `parseDigitKeyword`. -/
def parser.parseDigitKeyword (e : penv) (p : parser) (d : token) : PRes :=
  let (t, p) := p.next e
  if t.typ ≠ .tokenKeyword then unexpected t p
  else if t.val = "in" then .call (.parseDigitKeywordIn d) p
  else if t.val = "oclock" ∨ t.val = "o'clock" then .call (.parseDigitKeywordOclock d) p
  else unexpected t p

/-- Go's `parseDigitKeywordIn`. -/
def parser.parseDigitKeywordIn (e : penv) (p : parser) (d : token) : PRes :=
  let (t, p) := p.next e
  if t.typ ≠ .tokenKeyword ∨ t.val ≠ "the" then unexpected t p
  else
    let (t, p) := p.next e
    if t.typ ≠ .tokenKeyword then unexpected t p
    else if t.val = "morning" then .call (.parseDigitTwelveHour d "am") p
    else if t.val = "afternoon" ∨ t.val = "evening" then .call (.parseDigitTwelveHour d "pm") p
    else unexpected t p

/-- Go's `parseDigitKeywordOclock`. -/
def parser.parseDigitKeywordOclock (e : penv) (p : parser) (d : token) : PRes :=
  let (t, p) := p.next e
  if t.typ ≠ .tokenKeyword ∨ t.val ≠ "in" then unexpected t p
  else .call (.parseDigitKeywordIn d) p

/-- Go's `parseDigitOrdinal`. -/
def parser.parseDigitOrdinal (e : penv) (p : parser) (d : token) : PRes :=
  let (t, p) := p.next e
  if t.typ ≠ .tokenOrdinal then unexpected t p
  else
    match Atoi d.val with
    | .error e => .ret (some e) p
    | .ok n =>
      let t := p.peek e
      match t.typ with
      | .tokenEOF => .call (.parseDigitOrdinalEOF n) p
      | .tokenKeyword => .call (.parseDigitOrdinalKeyword n) p
      | .tokenWeekday => .call (.parseDigitOrdinalWeekday n) p
      | .tokenMonth => .call (.parseDigitOrdinalMonth n) p
      | _ => unexpected t p

/-- Go's `parseDigitOrdinalEOF`. -/
def parser.parseDigitOrdinalEOF (e : penv) (p : parser) (d : Int) : PRes :=
  let loc := e.now.Location
  let (y, M, _) := e.now.Date
  let (h, m, s) := p.rhs.Clock
  let p := { p with rhs := Date y M d h m s 0 loc }
  .ret none (p.rollover e 0 1)

/-- Go's `parseDigitOrdinalKeyword`. -/
def parser.parseDigitOrdinalKeyword (e : penv) (p : parser) (d : Int) : PRes :=
  let (t, p) := p.next e
  if t.typ ≠ .tokenKeyword then unexpected t p
  else if t.val = "@" ∨ t.val = "at" then .call (.parseDigitOrdinalAt d) p
  else if t.val = "of" then .call (.parseDigitOrdinalOf d) p
  else if t.val = "last" then .call (.parseDigitOrdinalLast d) p
  else unexpected t p

/-- Go's `parseDigitOrdinalAt`. -/
def parser.parseDigitOrdinalAt (e : penv) (p : parser) (d : Int) : PRes :=
  let loc := e.now.Location
  let (y, M, _) := e.now.Date
  let (h, m, s) := p.rhs.Clock
  let p := { p with rhs := Date y M d h m s 0 loc }
  .call .parseTime (p.rollover e 0 1)

/-- Go's `parseDigitOrdinalOf`. -/
def parser.parseDigitOrdinalOf (e : penv) (p : parser) (d : Int) : PRes :=
  let t := p.peek e
  match t.typ with
  | .tokenKeyword => .call (.parseDigitOrdinalOfKeyword d) p
  | .tokenMonth => .call (.parseDigitOrdinalOfMonth d) p
  | _ => unexpected t p

/-- Go's `parseDigitOrdinalOfKeyword`. -/
def parser.parseDigitOrdinalOfKeyword (e : penv) (p : parser) (d : Int) : PRes :=
  let (t, p) := p.next e
  let (u, p) := p.next e
  if u.typ ≠ .tokenUnit ∨ u.val ≠ "month" then unexpected u p
  else
    let loc := e.now.Location
    let (h, m, s) := p.rhs.Clock
    let p := { p with rhs := Date e.now.Year e.now.Month d h m s 0 loc }
    if t.val = "the" then .call .parseTime p
    else if t.val = "last" then .call .parseTime { p with rhs := p.rhs.AddDate 0 (-1) 0 }
    else if t.val = "next" then .call .parseTime { p with rhs := p.rhs.AddDate 0 1 0 }
    else unexpected t p

/-- Go's `parseDigitOrdinalOfMonth`. -/
def parser.parseDigitOrdinalOfMonth (U : RuneTables) (e : penv) (p : parser) (d : Int) : PRes :=
  let (t, p) := p.next e
  match When.parseMonth U t with
  | .error e => .ret (some e) p
  | .ok M =>
    let loc := e.now.Location
    let (h, m, s) := p.rhs.Clock
    let p := { p with rhs := Date e.now.Year M d h m s 0 loc }
    .call .parseTime (p.rollover e 1 0)

/-- Go's `parseDigitOrdinalLast`. -/
def parser.parseDigitOrdinalLast (e : penv) (p : parser) (d : Int) : PRes :=
  let t := p.peek e
  match t.typ with
  | .tokenUnit => .call (.parseDigitOrdinalLastDay d) p
  | .tokenWeekday => .call (.parseDigitOrdinalLastWeekday d) p
  | _ => unexpected t p

/-- Go's `parseDigitOrdinalLastDay`. -/
def parser.parseDigitOrdinalLastDay (e : penv) (p : parser) (d : Int) : PRes :=
  let (t, p) := p.next e
  if t.typ ≠ .tokenUnit ∨ t.val ≠ "day" then unexpected t p
  else .call (.parseDigitOrdinalLastDayOf d) p

/-- Go's `parseDigitOrdinalLastDayOf`. -/
def parser.parseDigitOrdinalLastDayOf (e : penv) (p : parser) (d : Int) : PRes :=
  let (t, p) := p.next e
  if t.typ ≠ .tokenKeyword ∨ (t.val ≠ "of" ∧ t.val ≠ "in") then unexpected t p
  else
    let t := p.peek e
    match t.typ with
    | .tokenKeyword => .call (.parseDigitOrdinalLastDayOfKeyword d) p
    | .tokenMonth => .call (.parseDigitOrdinalLastDayOfMonth d) p
    | _ => unexpected t p

/-- Go's `parseDigitOrdinalLastDayOfKeyword`. -/
def parser.parseDigitOrdinalLastDayOfKeyword (e : penv) (p : parser) (d : Int) : PRes :=
  let (t, p) := p.next e
  let (u, p) := p.next e
  if u.typ ≠ .tokenUnit ∨ u.val ≠ "month" then unexpected u p
  else
    let loc := e.now.Location
    let (h, m, s) := p.rhs.Clock
    let p := { p with rhs := Date e.now.Year e.now.Month 1 h m s 0 loc }
    if t.val = "the" then .call .parseTime { p with rhs := p.rhs.AddDate 0 1 (-d) }
    else if t.val = "last" then .call .parseTime { p with rhs := p.rhs.AddDate 0 0 (-d) }
    else if t.val = "next" then .call .parseTime { p with rhs := p.rhs.AddDate 0 2 (-d) }
    else unexpected t p

/-- Go's `parseDigitOrdinalLastDayOfMonth`. -/
def parser.parseDigitOrdinalLastDayOfMonth (U : RuneTables) (e : penv) (p : parser) (d : Int) : PRes :=
  let (t, p) := p.next e
  match When.parseMonth U t with
  | .error e => .ret (some e) p
  | .ok M =>
    let loc := e.now.Location
    let (h, m, s) := p.rhs.Clock
    let p := { p with rhs := Date e.now.Year M 1 h m s 0 loc }
    .call .parseTime { p with rhs := p.rhs.AddDate 0 1 (-d) }

/-- Go's `parseDigitOrdinalLastWeekday`.  Without `of` or `in`, the ordinal `d` is
shadowed by the day of the reference instant. -/
def parser.parseDigitOrdinalLastWeekday (U : RuneTables) (e : penv) (p : parser) (d : Int) : PRes :=
  let (t, p) := p.next e
  match When.parseWeekday U t with
  | .error e => .ret (some e) p
  | .ok w =>
    let t := p.peek e
    if t.typ = .tokenKeyword ∧ (t.val = "of" ∨ t.val = "in") then
      .call (.parseDigitOrdinalLastWeekdayOf d w) (p.next e).2
    else
      let loc := e.now.Location
      let (y, M, d) := e.now.Date
      let (h, m, s) := p.rhs.Clock
      let p := { p with rhs := Date y M d h m s 0 loc }
      .call .parseTime { p with rhs := p.rhs.AddDate 0 0 (w - p.rhs.Weekday - 7) }

/-- Go's `parseDigitOrdinalLastWeekdayOf`. -/
def parser.parseDigitOrdinalLastWeekdayOf (e : penv) (p : parser) (d w : Int) : PRes :=
  let t := p.peek e
  match t.typ with
  | .tokenKeyword => .call (.parseDigitOrdinalLastWeekdayOfKeyword d w) p
  | .tokenMonth => .call (.parseDigitOrdinalLastWeekdayOfMonth d w) p
  | _ => unexpected t p

/-- The anchor moved back to the weekday `w`, and then `d - 1` weeks further back. -/
def backToWeekday (rhs : Time) (d w : Int) : Time :=
  let days := rhs.Weekday - w
  let days := if days < 0 then days + 7 else days
  times (d - 1).toNat (fun t => t.AddDate 0 0 (-7)) (rhs.AddDate 0 0 (-days))

/-- The anchor moved forward to the weekday `w`, and then `d - 1` weeks further. -/
def forwardToWeekday (rhs : Time) (d w : Int) : Time :=
  let days := w - rhs.Weekday
  let days := if days < 0 then days + 7 else days
  times (d - 1).toNat (fun t => t.AddDate 0 0 7) (rhs.AddDate 0 0 days)

/-- Go's `parseDigitOrdinalLastWeekdayOfKeyword`. -/
def parser.parseDigitOrdinalLastWeekdayOfKeyword (e : penv) (p : parser) (d w : Int) : PRes :=
  let (t, p) := p.next e
  let (u, p) := p.next e
  if u.typ ≠ .tokenUnit ∨ u.val ≠ "month" then unexpected t p
  else
    let loc := e.now.Location
    let (h, m, s) := p.rhs.Clock
    let p := { p with rhs := Date e.now.Year e.now.Month 1 h m s 0 loc }
    if t.val = "the" then
      .call .parseTime { p with rhs := backToWeekday (p.rhs.AddDate 0 1 (-1)) d w }
    else if t.val = "last" then
      .call .parseTime { p with rhs := backToWeekday (p.rhs.AddDate 0 0 (-1)) d w }
    else if t.val = "next" then
      .call .parseTime { p with rhs := backToWeekday (p.rhs.AddDate 0 2 (-1)) d w }
    else unexpected t p

/-- Go's `parseDigitOrdinalLastWeekdayOfMonth`. -/
def parser.parseDigitOrdinalLastWeekdayOfMonth (U : RuneTables) (e : penv) (p : parser) (d w : Int) : PRes :=
  let (t, p) := p.next e
  match When.parseMonth U t with
  | .error e => .ret (some e) p
  | .ok M =>
    let loc := e.now.Location
    let (h, m, s) := p.rhs.Clock
    let p := { p with rhs := Date e.now.Year M 1 h m s 0 loc }
    let p := { p with rhs := backToWeekday (p.rhs.AddDate 0 1 (-1)) d w }
    .call .parseTime (p.rollover e 1 0)

/-- Go's `parseDigitOrdinalWeekday`. -/
def parser.parseDigitOrdinalWeekday (U : RuneTables) (e : penv) (p : parser) (d : Int) : PRes :=
  let (t, p) := p.next e
  match When.parseWeekday U t with
  | .error e => .ret (some e) p
  | .ok w => .call (.parseDigitOrdinalWeekdayOf d w) p

/-- Go's `parseDigitOrdinalWeekdayOf`. -/
def parser.parseDigitOrdinalWeekdayOf (e : penv) (p : parser) (d w : Int) : PRes :=
  let (t, p) := p.next e
  if t.typ ≠ .tokenKeyword ∨ (t.val ≠ "of" ∧ t.val ≠ "in") then unexpected t p
  else
    let t := p.peek e
    match t.typ with
    | .tokenKeyword => .call (.parseDigitOrdinalWeekdayOfKeyword d w) p
    | .tokenMonth => .call (.parseDigitOrdinalWeekdayOfMonth d w) p
    | _ => unexpected t p

/-- Go's `parseDigitOrdinalWeekdayOfKeyword`. -/
def parser.parseDigitOrdinalWeekdayOfKeyword (e : penv) (p : parser) (d w : Int) : PRes :=
  let (t, p) := p.next e
  let (u, p) := p.next e
  if u.typ ≠ .tokenUnit ∨ u.val ≠ "month" then unexpected u p
  else
    let loc := e.now.Location
    let (h, m, s) := p.rhs.Clock
    let p := { p with rhs := Date e.now.Year e.now.Month 1 h m s 0 loc }
    if t.val = "the" then .call .parseTime { p with rhs := forwardToWeekday p.rhs d w }
    else if t.val = "last" then
      .call .parseTime { p with rhs := forwardToWeekday (p.rhs.AddDate 0 (-1) 0) d w }
    else if t.val = "next" then
      .call .parseTime { p with rhs := forwardToWeekday (p.rhs.AddDate 0 1 0) d w }
    else unexpected t p

/-- Go's `parseDigitOrdinalWeekdayOfMonth`. -/
def parser.parseDigitOrdinalWeekdayOfMonth (U : RuneTables) (e : penv) (p : parser) (d w : Int) : PRes :=
  let (t, p) := p.next e
  match When.parseMonth U t with
  | .error e => .ret (some e) p
  | .ok M =>
    let loc := e.now.Location
    let (h, m, s) := p.rhs.Clock
    let p := { p with rhs := Date e.now.Year M 1 h m s 0 loc }
    let p := { p with rhs := forwardToWeekday p.rhs d w }
    .call .parseTime (p.rollover e 1 0)

/-- Go's `parseDigitOrdinalMonth`. -/
def parser.parseDigitOrdinalMonth (U : RuneTables) (e : penv) (p : parser) (d : Int) : PRes :=
  let (t, p) := p.next e
  match When.parseMonth U t with
  | .error e => .ret (some e) p
  | .ok M =>
    let loc := e.now.Location
    let (h, m, s) := p.rhs.Clock
    let p := { p with rhs := Date e.now.Year M d h m s 0 loc }
    .call .parseTime (p.rollover e 1 0)

/-- Go's `parseDigitTwelveHour`. -/
def parser.parseDigitTwelveHour (e : penv) (p : parser) (h : token) (i : String) : PRes :=
  match ParseInLocation layout3pm "3pm" (h.val ++ i) e.now.Location with
  | .error e => .ret (some e) p
  | .ok r =>
    let (y, M, d) := p.anchorDate e
    .call .parseDate { p with rhs := Date y M d r.Hour 0 0 0 r.Location }

/-- Go's `parseDurationLeft`. -/
def parser.parseDurationLeft (e : penv) (p : parser) (sub : Bool) : PRes :=
  let (t, p) := p.next e
  if t.typ ≠ .tokenDigit then unexpected t p
  else .call (.parseDurationLeftUnit t sub) p

/-- Go's `parseDurationLeftAgo`. -/
def parser.parseDurationLeftAgo (e : penv) (p : parser) : PRes :=
  let (t, p) := p.next e
  if t.typ ≠ .tokenEOF then unexpected t p
  else .ret none { p with sub := true, rhs := e.now }

/-- Go's `parseDurationLeftBefore`. -/
def parser.parseDurationLeftBefore (e : penv) (p : parser) : PRes :=
  let t := p.peek e
  if t.typ = .tokenEOF then unexpected t p
  else .call .parseDateTime { p with sub := true }

/-- Go's `parseDurationLeftFrom`. -/
def parser.parseDurationLeftFrom (e : penv) (p : parser) : PRes :=
  let t := p.peek e
  if t.typ = .tokenEOF then unexpected t p
  else .call .parseDateTime p

/-- Go's `parseDurationLeftNext`. -/
def parser.parseDurationLeftNext (e : penv) (p : parser) : PRes :=
  let (t, p) := p.next e
  match t.typ with
  | .tokenEOF => .ret none { p with rhs := e.now }
  | .tokenOperatorAdd => .call (.parseDurationLeft false) p
  | .tokenOperatorSub => .call (.parseDurationLeft true) p
  | .tokenAgo => .call .parseDurationLeftAgo p
  | .tokenBefore => .call .parseDurationLeftBefore p
  | .tokenFrom => .call .parseDurationLeftFrom p
  | _ => unexpected t p

/-- Go's `parseDurationLeftUnit`. -/
def parser.parseDurationLeftUnit (e : penv) (p : parser) (d : token) (sub : Bool) : PRes :=
  let (u, p) := p.next e
  match Atoi d.val with
  | .error e => .ret (some e) p
  | .ok n =>
    let n := if sub then wrap64 (n * -1) else n
    .call .parseDurationLeftNext { p with lhs := p.lhs ++ [⟨n, u.val⟩] }

/-- Go's `parseDurationRight`. -/
def parser.parseDurationRight (e : penv) (p : parser) (sub : Bool) : PRes :=
  let (t, p) := p.next e
  if t.typ ≠ .tokenDigit then unexpected t p
  else .call (.parseDurationRightUnit t sub) p

/-- Go's `parseDurationRightNext`. -/
def parser.parseDurationRightNext (e : penv) (p : parser) : PRes :=
  let (t, p) := p.next e
  match t.typ with
  | .tokenEOF => .ret none p
  | .tokenOperatorAdd => .call (.parseDurationRight false) p
  | .tokenOperatorSub => .call (.parseDurationRight true) p
  | _ => unexpected t p

/-- Go's `parseDurationRightUnit`. -/
def parser.parseDurationRightUnit (e : penv) (p : parser) (d : token) (sub : Bool) : PRes :=
  let (u, p) := p.next e
  match Atoi d.val with
  | .error e => .ret (some e) p
  | .ok n =>
    let n := if sub then wrap64 (n * -1) else n
    let v := u.val
    if v = "y" ∨ v = "year" ∨ v = "years" then
      .call .parseDurationRightNext { p with rhs := p.rhs.AddDate n 0 0 }
    else if v = "M" ∨ v = "month" ∨ v = "months" then
      .call .parseDurationRightNext { p with rhs := p.rhs.AddDate 0 n 0 }
    else if v = "w" ∨ v = "week" ∨ v = "weeks" then
      .call .parseDurationRightNext { p with rhs := p.rhs.AddDate 0 0 (wrap64 (7 * n)) }
    else if v = "d" ∨ v = "day" ∨ v = "days" then
      .call .parseDurationRightNext { p with rhs := p.rhs.AddDate 0 0 n }
    else if v = "h" ∨ v = "hour" ∨ v = "hours" then
      .call .parseDurationRightNext { p with rhs := p.rhs.Add (wrap64 (n * Hour)) }
    else if v = "m" ∨ v = "minute" ∨ v = "minutes" then
      .call .parseDurationRightNext { p with rhs := p.rhs.Add (wrap64 (n * Minute)) }
    else if v = "s" ∨ v = "second" ∨ v = "seconds" then
      .call .parseDurationRightNext { p with rhs := p.rhs.Add (wrap64 (n * Second)) }
    else unexpected u p

/-- Go's `parseKeyword`. -/
def parser.parseKeyword (e : penv) (p : parser) : PRes :=
  let (t, p) := p.next e
  if t.typ ≠ .tokenKeyword then unexpected t p
  else if t.val = "@" ∨ t.val = "at" then .call .parseKeywordAt p
  else if t.val = "on" then .call .parseKeywordOn p
  else if t.val = "last" then .call (.parseDigitOrdinalLast 1) p
  else if t.val = "half" then .call .parseKeywordHalf p
  else if t.val = "quarter" then .call .parseKeywordQuarter p
  else unexpected t p

/-- Go's `parseKeywordAt`. -/
def parser.parseKeywordAt (e : penv) (p : parser) : PRes :=
  let t := p.peek e
  match t.typ with
  | .tokenTime => .call .parseTimeConst p
  | .tokenDigit =>
    let (t, p) := p.next e
    .call (.parseDigit t) p
  | _ => unexpected t p

/-- Go's `parseKeywordHalf`. -/
def parser.parseKeywordHalf (e : penv) (p : parser) : PRes :=
  let (t, p) := p.next e
  if t.typ ≠ .tokenKeyword ∨ t.val ≠ "past" then unexpected t p
  else .call .parseKeywordHalfPast p

/-- Go's `parseKeywordHalfPast`. -/
def parser.parseKeywordHalfPast (e : penv) (p : parser) : PRes :=
  let (t, p) := p.next e
  if t.typ ≠ .tokenDigit then unexpected t p
  else .callThen (.parseDigit t) p (30 * Minute)

/-- Go's `parseKeywordOn`. -/
def parser.parseKeywordOn (e : penv) (p : parser) : PRes :=
  let t := p.peek e
  match t.typ with
  | .tokenDigit =>
    let (d, p) := p.next e
    .call (.parseDateYear d) p
  | .tokenWeekday => .call .parseWeekday p
  | .tokenMonth => .call .parseMonth p
  | .tokenKeyword => .call .parseKeywordOnThe p
  | _ => unexpected t p

/-- Go's `parseKeywordOnThe`. -/
def parser.parseKeywordOnThe (e : penv) (p : parser) : PRes :=
  let (t, p) := p.next e
  if t.typ ≠ .tokenKeyword ∨ t.val ≠ "the" then unexpected t p
  else
    let t := p.peek e
    match t.typ with
    | .tokenDigit => .call .parseKeywordOnTheDigit p
    | .tokenKeyword => .call .parseKeywordOnTheLast p
    | _ => unexpected t p

/-- Go's `parseKeywordOnTheLast`. -/
def parser.parseKeywordOnTheLast (e : penv) (p : parser) : PRes :=
  let (t, p) := p.next e
  if t.typ ≠ .tokenKeyword ∨ t.val ≠ "last" then unexpected t p
  else .call (.parseDigitOrdinalLast 1) p

/-- Go's `parseKeywordOnTheDigit`. -/
def parser.parseKeywordOnTheDigit (e : penv) (p : parser) : PRes :=
  let (d, p) := p.next e
  if d.typ ≠ .tokenDigit then unexpected d p
  else
    let t := p.peek e
    if t.typ ≠ .tokenOrdinal then unexpected t p
    else .call (.parseDigitOrdinal d) p

/-- Go's `parseKeywordQuarter`. -/
def parser.parseKeywordQuarter (e : penv) (p : parser) : PRes :=
  let (t, p) := p.next e
  if t.val = "to" then .call .parseKeywordQuarterTo p
  else if t.val = "after" ∨ t.val = "past" then .call .parseKeywordQuarterAfter p
  else unexpected t p

/-- Go's `parseKeywordQuarterTo`. -/
def parser.parseKeywordQuarterTo (e : penv) (p : parser) : PRes :=
  let (t, p) := p.next e
  if t.typ ≠ .tokenDigit then unexpected t p
  else .callThen (.parseDigit t) p (-15 * Minute)

/-- Go's `parseKeywordQuarterAfter`. -/
def parser.parseKeywordQuarterAfter (e : penv) (p : parser) : PRes :=
  let (t, p) := p.next e
  if t.typ ≠ .tokenDigit then unexpected t p
  else .callThen (.parseDigit t) p (15 * Minute)

/-- Go's method `parseMonth`. -/
def parser.parseMonth (U : RuneTables) (e : penv) (p : parser) : PRes :=
  let (t, p) := p.next e
  match When.parseMonth U t with
  | .error e => .ret (some e) p
  | .ok m =>
    let t := p.peek e
    match t.typ with
    | .tokenEOF => .call (.parseMonthEOF m) p
    | .tokenKeyword => .call (.parseMonthThe m) p
    | .tokenDigit => .call (.parseMonthTheDigit m) p
    | _ => unexpected t p

/-- Go's `parseMonthEOF`. -/
def parser.parseMonthEOF (e : penv) (p : parser) (M : Int) : PRes :=
  let loc := e.now.Location
  let (h, m, s) := p.rhs.Clock
  let p := { p with rhs := Date e.now.Year M 1 h m s 0 loc }
  .ret none (p.rollover e 1 0)

/-- Go's `parseMonthThe`. -/
def parser.parseMonthThe (e : penv) (p : parser) (M : Int) : PRes :=
  let (t, p) := p.next e
  if t.typ ≠ .tokenKeyword ∨ t.val ≠ "the" then unexpected t p
  else .call (.parseMonthTheDigit M) p

/-- Go's `parseMonthTheDigit`. -/
def parser.parseMonthTheDigit (e : penv) (p : parser) (M : Int) : PRes :=
  let (d, p) := p.next e
  if d.typ ≠ .tokenDigit then unexpected d p
  else
    let (t, p) := p.next e
    if t.typ ≠ .tokenOrdinal then unexpected t p
    else
      match Atoi d.val with
      | .error e => .ret (some e) p
      | .ok n =>
        let loc := e.now.Location
        let (h, m, s) := p.rhs.Clock
        let p := { p with rhs := Date e.now.Year M n h m s 0 loc }
        .call .parseTime (p.rollover e 1 0)

/-- Go's `parseNow`. -/
def parser.parseNow (e : penv) (p : parser) : PRes :=
  let p := { p with rhs := e.now }
  let (t, p) := p.next e
  match t.typ with
  | .tokenEOF => .ret none p
  | .tokenOperatorAdd => .call (.parseDurationRight false) p
  | .tokenOperatorSub => .call (.parseDurationRight true) p
  | _ => unexpected t p

/-- Go's `parseTime`. -/
def parser.parseTime (e : penv) (p : parser) : PRes :=
  let p := { p with date := true }
  if p.time then .call .parseDurationRightNext p
  else
    let t := p.peek e
    match t.typ with
    | .tokenEOF => .ret none p
    | .tokenOperatorAdd => .call .parseDurationRightNext p
    | .tokenOperatorSub => .call .parseDurationRightNext p
    | .tokenTime => .call .parseTimeConst p
    | .tokenKeyword => .call .parseTimeKeyword p
    | .tokenDigit =>
      let (t, p) := p.next e
      .call (.parseDigit t) p
    | _ => unexpected t p

/-- Go's `parseTimeConst`. -/
def parser.parseTimeConst (e : penv) (p : parser) : PRes :=
  let (t, p) := p.next e
  let loc := e.now.Location
  let (y, M, d) := p.anchorDate e
  if t.val = "midnight" then .call .parseDate { p with rhs := Date y M d 0 0 0 0 loc }
  else if t.val = "noon" then .call .parseDate { p with rhs := Date y M d 12 0 0 0 loc }
  else .ret (some (.parse t "unexpected date")) p

/-- Go's `parseTimeKeyword`. -/
def parser.parseTimeKeyword (e : penv) (p : parser) : PRes :=
  let (t, p) := p.next e
  if t.typ ≠ .tokenKeyword then unexpected t p
  else if t.val = "@" ∨ t.val = "at" then .call .parseKeywordAt p
  else unexpected t p

/-- Go's method `parseWeekday`. -/
def parser.parseWeekday (U : RuneTables) (e : penv) (p : parser) : PRes :=
  let (t, p) := p.next e
  match When.parseWeekday U t with
  | .error e => .ret (some e) p
  | .ok w =>
    let loc := e.now.Location
    let (y, M, d) := e.now.Date
    let (h, m, s) := p.rhs.Clock
    let days := w - e.now.Weekday
    let days := if days ≤ 0 then days + 7 else days
    .call .parseTime { p with rhs := Date y M (d + days) h m s 0 loc }

/-- The body of the method a state names. -/
def parseStep (U : RuneTables) (e : penv) : pstate → parser → PRes
  | .parseExpr, p => p.parseExpr e
  | .parseExprDigit, p => p.parseExprDigit U e
  | .parseDateTime, p => p.parseDateTime e
  | .parseDate, p => p.parseDate e
  | .parseDateConst, p => p.parseDateConst e
  | .parseDateKeyword, p => p.parseDateKeyword e
  | .parseDateYear d, p => p.parseDateYear e d
  | .parseDateYearMonth, p => p.parseDateYearMonth e
  | .parseDateYearMonthDay, p => p.parseDateYearMonthDay e
  | .parseDigit d, p => p.parseDigit U e d
  | .parseDigitColon h, p => p.parseDigitColon e h
  | .parseDigitColonTwelveHour h m, p => p.parseDigitColonTwelveHour U e h m
  | .parseDigitColonTwentyFourHour h m, p => p.parseDigitColonTwentyFourHour e h m
  | .parseDigitColonTwentyFourHourWithSeconds h m, p => p.parseDigitColonTwentyFourHourWithSeconds e h m
  | .parseDigitKeyword d, p => p.parseDigitKeyword e d
  | .parseDigitKeywordIn d, p => p.parseDigitKeywordIn e d
  | .parseDigitKeywordOclock d, p => p.parseDigitKeywordOclock e d
  | .parseDigitOrdinal d, p => p.parseDigitOrdinal e d
  | .parseDigitOrdinalEOF d, p => p.parseDigitOrdinalEOF e d
  | .parseDigitOrdinalKeyword d, p => p.parseDigitOrdinalKeyword e d
  | .parseDigitOrdinalAt d, p => p.parseDigitOrdinalAt e d
  | .parseDigitOrdinalOf d, p => p.parseDigitOrdinalOf e d
  | .parseDigitOrdinalOfKeyword d, p => p.parseDigitOrdinalOfKeyword e d
  | .parseDigitOrdinalOfMonth d, p => p.parseDigitOrdinalOfMonth U e d
  | .parseDigitOrdinalLast d, p => p.parseDigitOrdinalLast e d
  | .parseDigitOrdinalLastDay d, p => p.parseDigitOrdinalLastDay e d
  | .parseDigitOrdinalLastDayOf d, p => p.parseDigitOrdinalLastDayOf e d
  | .parseDigitOrdinalLastDayOfKeyword d, p => p.parseDigitOrdinalLastDayOfKeyword e d
  | .parseDigitOrdinalLastDayOfMonth d, p => p.parseDigitOrdinalLastDayOfMonth U e d
  | .parseDigitOrdinalLastWeekday d, p => p.parseDigitOrdinalLastWeekday U e d
  | .parseDigitOrdinalLastWeekdayOf d w, p => p.parseDigitOrdinalLastWeekdayOf e d w
  | .parseDigitOrdinalLastWeekdayOfKeyword d w, p => p.parseDigitOrdinalLastWeekdayOfKeyword e d w
  | .parseDigitOrdinalLastWeekdayOfMonth d w, p => p.parseDigitOrdinalLastWeekdayOfMonth U e d w
  | .parseDigitOrdinalWeekday d, p => p.parseDigitOrdinalWeekday U e d
  | .parseDigitOrdinalWeekdayOf d w, p => p.parseDigitOrdinalWeekdayOf e d w
  | .parseDigitOrdinalWeekdayOfKeyword d w, p => p.parseDigitOrdinalWeekdayOfKeyword e d w
  | .parseDigitOrdinalWeekdayOfMonth d w, p => p.parseDigitOrdinalWeekdayOfMonth U e d w
  | .parseDigitOrdinalMonth d, p => p.parseDigitOrdinalMonth U e d
  | .parseDigitTwelveHour h i, p => p.parseDigitTwelveHour e h i
  | .parseDurationLeft sub, p => p.parseDurationLeft e sub
  | .parseDurationLeftAgo, p => p.parseDurationLeftAgo e
  | .parseDurationLeftBefore, p => p.parseDurationLeftBefore e
  | .parseDurationLeftFrom, p => p.parseDurationLeftFrom e
  | .parseDurationLeftNext, p => p.parseDurationLeftNext e
  | .parseDurationLeftUnit d sub, p => p.parseDurationLeftUnit e d sub
  | .parseDurationRight sub, p => p.parseDurationRight e sub
  | .parseDurationRightNext, p => p.parseDurationRightNext e
  | .parseDurationRightUnit d sub, p => p.parseDurationRightUnit e d sub
  | .parseKeyword, p => p.parseKeyword e
  | .parseKeywordAt, p => p.parseKeywordAt e
  | .parseKeywordHalf, p => p.parseKeywordHalf e
  | .parseKeywordHalfPast, p => p.parseKeywordHalfPast e
  | .parseKeywordOn, p => p.parseKeywordOn e
  | .parseKeywordOnThe, p => p.parseKeywordOnThe e
  | .parseKeywordOnTheLast, p => p.parseKeywordOnTheLast e
  | .parseKeywordOnTheDigit, p => p.parseKeywordOnTheDigit e
  | .parseKeywordQuarter, p => p.parseKeywordQuarter e
  | .parseKeywordQuarterTo, p => p.parseKeywordQuarterTo e
  | .parseKeywordQuarterAfter, p => p.parseKeywordQuarterAfter e
  | .parseMonth, p => p.parseMonth U e
  | .parseMonthEOF M, p => p.parseMonthEOF e M
  | .parseMonthThe M, p => p.parseMonthThe e M
  | .parseMonthTheDigit M, p => p.parseMonthTheDigit e M
  | .parseNow, p => p.parseNow e
  | .parseTime, p => p.parseTime e
  | .parseTimeConst, p => p.parseTimeConst e
  | .parseTimeKeyword, p => p.parseTimeKeyword e
  | .parseWeekday, p => p.parseWeekday U e

/-- The run of a method to its return, at most `n` calls deep: the error or `nil`, and the
parser; `none` when the calls run out. -/
def parseRun (U : RuneTables) (e : penv) : Nat → pstate → parser → Option (Option Error × parser)
  | 0, _, _ => none
  | n + 1, st, p =>
    match parseStep U e st p with
    | .ret e p1 => some (e, p1)
    | .call st1 p1 => parseRun U e n st1 p1
    | .callThen st1 p1 d =>
      match parseRun U e n st1 p1 with
      | none => none
      | some (some e, p2) => some (some e, p2)
      | some (none, p2) => some (none, { p2 with rhs := p2.rhs.Add d })

/-- The calls granted to a parse: eight per token, and sixteen. -/
def parseFuel (tokens : List token) : Nat := 8 * tokens.length + 16

/-- Go's `ParseNow`. -/
def ParseNow (U : RuneTables) (s : String) (now : Time) : Except Error Time :=
  match lex U s with
  | .error e => .error e
  | .ok tokens =>
    if tokens.length = 0 then .ok now
    else
      match parseRun U ⟨tokens, now⟩ (parseFuel tokens) .parseExpr ⟨0, [], Time.zero, false, false, false⟩ with
      | none => .error .fuel
      | some (some e, _) => .error e
      | some (none, p) => .ok (p.lhs.foldl (fun t fn => fn.apply t p.sub) p.rhs)

/-! ## Definitions used by the proofs -/

/-- The lexer `l` seen after a consumed text `pre` and tokens `ts` were put in front of its
input and tokens, with `w` for the width of the last rune. -/
def lexer.shift (l : lexer) (pre : List Char) (ts : List token) (w : Nat) : lexer :=
  ⟨pre ++ l.input, pre.length + l.i, pre.length + l.j, w, ts ++ l.tokens⟩

/-- The tokens of a run that starts on a fresh lexer over `rem`. -/
def lexToks (U : RuneTables) (n : Nat) (st : stateFn) (rem : List Char) : Option (List token) :=
  (lexRun U n st ⟨rem, 0, 0, 0, []⟩).map (fun r => r.tokens)

/-- Equality of results is decidable. -/
instance {ε α : Type} [DecidableEq ε] [DecidableEq α] : DecidableEq (Except ε α)
  | .ok a, .ok b => if h : a = b then isTrue (by rw [h]) else isFalse (by intro h1; cases h1; exact h rfl)
  | .error a, .error b =>
    if h : a = b then isTrue (by rw [h]) else isFalse (by intro h1; cases h1; exact h rfl)
  | .ok _, .error _ => isFalse (by intro h; cases h)
  | .error _, .ok _ => isFalse (by intro h; cases h)

/-- Every rune of the list is ASCII. -/
def allAscii (cs : List Char) : Prop := ∀ c ∈ cs, c.toNat < 128

/-- Every token is written in ASCII. -/
def tokAscii (ts : List token) : Prop := ∀ t ∈ ts, allAscii t.val.data

/-- The decision procedure of `allAscii`. -/
instance (cs : List Char) : Decidable (allAscii cs) := by
  unfold allAscii
  infer_instance

/-- The decision procedure of `tokAscii`. -/
instance (ts : List token) : Decidable (tokAscii ts) := by
  unfold tokAscii
  infer_instance

/-- The month and day of `monthDay`, the leap year told by a flag. -/
def monthDayOf (leap : Bool) (yday : Int) : Int × Int :=
  if leap && yday = 59 then (2, 29)
  else
    let day := if leap && yday > 59 then yday - 1 else yday
    let month := day / 31
    let stop := daysBefore (month + 1)
    if day ≥ stop then (month + 2, day - stop + 1)
    else (month + 1, day - daysBefore month + 1)

/-- A count as it is written: a run of one or more ASCII digits. -/
def isCount (ds : List Char) : Prop := ds ≠ [] ∧ ∀ c ∈ ds, isAsciiDigit c = true

/-- The decision procedure of `isCount`. -/
instance (ds : List Char) : Decidable (isCount ds) := by
  unfold isCount
  infer_instance

/-- The number a run of ASCII digits writes. -/
def countValue (ds : List Char) : Nat := ds.foldl (fun acc c => 10 * acc + (c.toNat - 48)) 0

/-- The invariant of a Go `time.Time`: the nanoseconds are within the second. -/
def Time.Valid (t : Time) : Prop := 0 ≤ t.nsec ∧ t.nsec < 1000000000

/-- A zone with one offset for all time, as `time.FixedZone` makes it. -/
def Location.Fixed (l : Location) : Prop := l.tx = []

/-- The zone of `TestParse`: `time.FixedZone("MST", -7*60*60)`. -/
def MST : Location := ⟨"MST", -25200, []⟩

/-- The zone America/Vancouver around the reference instant of `TestParseDST`: Pacific
Standard Time, and the four changes of 2006 and 2007 (2 April and 29 October 2006, 11 March
and 4 November 2007). -/
def Vancouver : Location :=
  ⟨"America/Vancouver", -28800,
    [(1143972000, -25200), (1162112400, -28800), (1173607200, -25200), (1194166800, -28800)]⟩

/-- The zone America/Sao_Paulo around November 2006: summer time began at midnight of
5 November 2006, so that the wall clock went from 23:59:59 to 01:00:00, and ended on
25 February 2007. -/
def SaoPaulo : Location :=
  ⟨"America/Sao_Paulo", -10800, [(1162695600, -7200), (1172368800, -10800)]⟩

/-- The reference instant of the tests, 2006-01-02T15:04:05, in a zone. -/
def refNow (loc : Location) : Time := Date 2006 1 2 15 4 5 0 loc

/-- A property that holds whatever the Unicode tables beyond ASCII are. -/
def everyTables (P : RuneTables → Prop) : Prop := ∀ U : RuneTables, P U

/-- The input is written in ASCII. -/
def asciiOK (s : String) : Bool := decide (allAscii s.data)

/-- The weekday names as `readLetter` knows them and as the tests write them, each with
its `time.Weekday`. -/
def weekdayTable : List (String × Int) :=
  [("sun", 0), ("sunday", 0), ("mon", 1), ("monday", 1), ("tue", 2), ("tuesday", 2),
    ("wed", 3), ("wednesday", 3), ("thu", 4), ("thursday", 4), ("fri", 5), ("friday", 5),
    ("sat", 6), ("saturday", 6), ("Sun", 0), ("Sunday", 0), ("Mon", 1), ("Monday", 1),
    ("Tue", 2), ("Tuesday", 2), ("Wed", 3), ("Wednesday", 3), ("Thu", 4), ("Thursday", 4),
    ("Fri", 5), ("Friday", 5), ("Sat", 6), ("Saturday", 6)]

/-- The start of every parse: `&parser{tokens: tokens, now: now}`. -/
def parser.init : parser := ⟨0, [], Time.zero, false, false, false⟩

/-- A duration term as it is written: the count, a space, the unit. -/
def term (ds : List Char) (u : String) : String := String.mk ds ++ " " ++ u

/-- The decision procedure of `Time.Valid`. -/
instance (t : Time) : Decidable t.Valid := by
  unfold Time.Valid
  infer_instance

/-- The decision procedure of `Location.Fixed`. -/
instance (l : Location) : Decidable l.Fixed := by
  unfold Location.Fixed
  infer_instance

/-- The letters of the short units. -/
def shortUnits : List Char := ['y', 'M', 'w', 'd', 'h', 'm', 's']

/-- Terms written with short units and nothing between them: `1y2M3w`. -/
def shortPhrase : List (List Char × Char) → List Char
  | [] => []
  | (ds, c) :: rest => ds ++ c :: shortPhrase rest

/-- The tokens of terms written with short units: a digit and a unit for each term, and an
addition with an empty text between two terms. -/
def shortTokens : List (List Char × Char) → List token
  | [] => []
  | [(ds, c)] => [⟨.tokenDigit, String.mk ds⟩, ⟨.tokenUnit, String.mk [c]⟩]
  | (ds, c) :: rest =>
    ⟨.tokenDigit, String.mk ds⟩ :: ⟨.tokenUnit, String.mk [c]⟩ :: ⟨.tokenOperatorAdd, ""⟩ ::
      shortTokens rest

/-- The spelled-out numbers of `numberWord`. -/
def numberWords : List String :=
  ["one", "a", "two", "three", "four", "five", "six", "seven", "eight", "nine", "ten", "eleven",
    "twelve"]

/-- A word that `readLetter` does not know. -/
def unknownWord (v : String) : Prop :=
  v ≠ "now" ∧ v ≠ "today" ∧ v ≠ "tomorrow" ∧ v ≠ "yesterday" ∧ v ≠ "midnight" ∧ v ≠ "noon" ∧
    numberWord v = none ∧ v ≠ "am" ∧ v ≠ "pm" ∧ v ∉ longUnits ∧ v ∉ weekdayNames ∧
    v ∉ monthNames ∧ v ∉ keywords

/-- The decision procedure of `unknownWord`. -/
instance (v : String) : Decidable (unknownWord v) := by
  unfold unknownWord
  infer_instance

/-- The words `readLetter` knows. -/
def knownWords : List String :=
  ["now", "today", "tomorrow", "yesterday", "midnight", "noon"] ++ numberWords ++ ["am", "pm"] ++
    longUnits ++ weekdayNames ++ monthNames ++ keywords

/-- Where the text of a token comes from: a pending text of a lexer over the input `inp`, or
a text written in ASCII. -/
def tokenFrom (inp : List Char) (t : token) : Prop :=
  (∃ l1 : lexer, l1.input = inp ∧ t.val = l1.value) ∨ allAscii t.val.data

/-- An ASCII letter or the apostrophe. -/
def isWordRune (c : Char) : Bool :=
  (65 ≤ c.toNat && c.toNat ≤ 90) || (97 ≤ c.toNat && c.toNat ≤ 122) || c == '\''

/-- A word of `readLetter`: ASCII letters and apostrophes, the first a letter. -/
def isWord (v : List Char) : Prop :=
  (∃ c ∈ v.head?, isWordRune c = true ∧ c ≠ '\'') ∧ ∀ c ∈ v, isWordRune c = true

instance (v : List Char) : Decidable (isWord v) := by
  unfold isWord
  infer_instance

/-- What `readLetter` makes of the word `v` standing alone: the next state and the tokens. -/
def wordToken (v : String) : Option stateFn × List token :=
  ((readLetter asciiTables ⟨v.data, 0, 0, 0, []⟩).1, (readLetter asciiTables ⟨v.data, 0, 0, 0, []⟩).2.tokens)

/-- The ordinal suffixes. -/
def suffixes : List String := ["st", "nd", "rd", "th"]

/-- A zone as the time zone database has them: an offset of less than a day, and no
transition before the year 1. -/
def Location.Settled (l : Location) : Prop :=
  -86400 < l.base ∧ l.base < 86400 ∧ ∀ p ∈ l.tx, -62135596800 ≤ p.1

instance (l : Location) : Decidable l.Settled := by
  unfold Location.Settled
  infer_instance

/-- The day count of `time.Date` for a year, a month in 1..12 and a day. -/
def dateDays (y m d : Int) : Int :=
  daysSinceEpoch y + daysBefore (m - 1) + (if isLeap y && m ≥ 3 then 1 else 0) + (d - 1)

/-- The zone correction of `time.Date`: the Unix time of the wall clock reading `unix`. -/
def zoneUnix (loc : Location) (unix : Int) : Int :=
  let (offset, start, stop) := loc.lookup unix
  if offset ≠ 0 then
    let utc := unix - offset
    let before : Bool := match start with
      | some s => utc < s
      | none => false
    let after : Bool := match stop with
      | some e => utc ≥ e
      | none => false
    let offset := if before || after then (loc.lookup utc).1 else offset
    unix - offset
  else unix

/-- A layout that does not go on with a number: it is at its end, or a colon or the
marker comes next. -/
def noNumberNext (es : List layoutElem) : Prop :=
  es = [] ∨ es.head? = some .colon ∨ es.head? = some .pm

instance (es : List layoutElem) : Decidable (noNumberNext es) := by
  unfold noNumberNext
  infer_instance

/-- The states the lexer is in right after a unit: the last token is the unit. -/
def stateFn.afterUnit : stateFn → Bool
  | .readDurationNext => true
  | .readDurationNextShort => true
  | .readDurationSpace => true
  | .readDurationSpaceNext => true
  | _ => false

/-- A token of kind `ago`, `before` or `from`. -/
def token.isRel (t : token) : Bool :=
  t.typ == .tokenAgo || t.typ == .tokenBefore || t.typ == .tokenFrom

/-- What one call of a state function appends to the tokens: no end-of-input token; an error
token only at the end and only when the scan stops; a token of kind `ago`, `before` or `from`
only alone and by `readDurationSpaceNext`; a unit last when the next state is one of those
after a unit; and a month, weekday or word marker is a pending text of the lexer whose lower
case is in the vocabulary. -/
def stepOK (U : RuneTables) (l : lexer) (st : stateFn) (o : Option stateFn) (new : List token) : Prop :=
  (∀ t ∈ new, t.typ ≠ .tokenEOF) ∧
  (∀ t ∈ new.dropLast, t.typ ≠ .tokenError) ∧
  (o ≠ none → ∀ t ∈ new, t.typ ≠ .tokenError) ∧
  (∀ t ∈ new, t.isRel = true → st = .readDurationSpaceNext ∧ new = [t]) ∧
  (∀ st1, o = some st1 → st1.afterUnit = true →
    (new = [] ∧ st.afterUnit = true) ∨ ∃ t, new.getLast? = some t ∧ t.typ = .tokenUnit) ∧
  (∀ t ∈ new, t.typ = .tokenMonth →
    stringsToLower U t.val ∈ monthNames ∧ ∃ l1 : lexer, l1.input = l.input ∧ t.val = l1.value) ∧
  (∀ t ∈ new, t.typ = .tokenWeekday →
    stringsToLower U t.val ∈ weekdayNames ∧ ∃ l1 : lexer, l1.input = l.input ∧ t.val = l1.value)

/-- Every token of kind `ago`, `before` or `from` comes right after a unit; `prevUnit` tells
whether a unit comes right before the list. -/
def relOK : Bool → List token → Prop
  | _, [] => True
  | prevUnit, t :: ts => (t.isRel = true → prevUnit = true) ∧ relOK (t.typ == .tokenUnit) ts

/-- Whether a unit comes last: in the list, or right before it when it is empty. -/
def lastUnit (prevUnit : Bool) (ts : List token) : Bool :=
  match ts.getLast? with
  | none => prevUnit
  | some t => t.typ == .tokenUnit

/-- The tokens a run appends. -/
def runOK (U : RuneTables) (l : lexer) (st : stateFn) (added : List token) : Prop :=
  (∀ t ∈ added, t.typ ≠ .tokenEOF) ∧
  (∀ t ∈ added.dropLast, t.typ ≠ .tokenError) ∧
  relOK st.afterUnit added ∧
  (∀ t ∈ added, t.typ = .tokenMonth →
    stringsToLower U t.val ∈ monthNames ∧ ∃ l1 : lexer, l1.input = l.input ∧ t.val = l1.value) ∧
  (∀ t ∈ added, t.typ = .tokenWeekday →
    stringsToLower U t.val ∈ weekdayNames ∧ ∃ l1 : lexer, l1.input = l.input ∧ t.val = l1.value)

/-- The rank of a state in the measure of the scan: a state function that may go on without
reading a rune goes on to a state of a lower rank. -/
def stateFn.rank : stateFn → Nat
  | .readExpr => 1
  | .readDurationSpaceNext => 2
  | .readDurationSpace => 3
  | .readDurationNext => 4
  | .readDurationNextShort => 4
  | .readDurationUnitSecondsOrOrdinal => 5
  | _ => 0

/-- The cursors of the lexer at the call of a state function: `i ≤ j ≤ len(input)`, and a
digit is next at `readDigit`, a letter at `readLetter`. -/
def cursorOK (U : RuneTables) (st : stateFn) (l : lexer) : Prop :=
  l.i ≤ l.j ∧ l.j ≤ l.input.length ∧
  (st = .readDigit → ∃ c, (l.input.drop l.j).head? = some c ∧ isDigit U c = true) ∧
  (st = .readLetter → ∃ c, (l.input.drop l.j).head? = some c ∧ isLetter U c = true)

/-- The measure of the scan: six for each rune left to read, and the rank of the state. -/
def measure (st : stateFn) (l : lexer) : Nat := 6 * (l.input.length - l.j) + st.rank

/-- The cursors after a call of a state function: in bounds, `j` not moved back, and when the
scan goes on, the next state is called as `cursorOK` has it, with a smaller measure. -/
def stepCursor (U : RuneTables) (st : stateFn) (l : lexer) (res : Option stateFn × lexer) : Prop :=
  res.2.input = l.input ∧ res.2.i ≤ res.2.j ∧ res.2.j ≤ l.input.length ∧ l.j ≤ res.2.j ∧
  ∀ st1, res.1 = some st1 → cursorOK U st1 res.2 ∧ measure st1 res.2 < measure st l

/-- The state and the lexer after `k` calls of the loop of `lex` (or at the end of the scan,
when it comes before). -/
def lexIter (U : RuneTables) : Nat → Option stateFn × lexer → Option stateFn × lexer
  | 0, x => x
  | _ + 1, (none, l) => (none, l)
  | k + 1, (some st, l) => lexIter U k (lexStep U st l)

/-- The month a three-letter prefix names, as the `switch` of `parseMonth` reads it. -/
def monthOf (v : String) : Option Int :=
  if v = "jan" then some 1
  else if v = "feb" then some 2
  else if v = "mar" then some 3
  else if v = "apr" then some 4
  else if v = "may" then some 5
  else if v = "jun" then some 6
  else if v = "jul" then some 7
  else if v = "aug" then some 8
  else if v = "sep" then some 9
  else if v = "oct" then some 10
  else if v = "nov" then some 11
  else if v = "dec" then some 12
  else none

/-- The weekday a three-letter prefix names, as the `switch` of `parseWeekday` reads it. -/
def weekdayOf (v : String) : Option Int :=
  if v = "sun" then some 0
  else if v = "mon" then some 1
  else if v = "tue" then some 2
  else if v = "wed" then some 3
  else if v = "thu" then some 4
  else if v = "fri" then some 5
  else if v = "sat" then some 6
  else none

/-- The calendar months by name: the number each English month name stands for. -/
def monthTable : List (String × Int) :=
  [("jan", 1), ("january", 1), ("feb", 2), ("february", 2), ("mar", 3), ("march", 3),
    ("apr", 4), ("april", 4), ("may", 5), ("jun", 6), ("june", 6), ("jul", 7), ("july", 7),
    ("aug", 8), ("august", 8), ("sep", 9), ("september", 9), ("oct", 10), ("october", 10),
    ("nov", 11), ("november", 11), ("dec", 12), ("december", 12)]

/-- The weekdays by lower-case name, counted from Sunday as Go's `time.Weekday` does. -/
def weekdayNumbers : List (String × Int) := weekdayTable.take 14

/-- The part of Go's Unicode tables about U+0130, the capital I with a dot above: it is a
letter, and its lower case is the ASCII letter i. -/
def dottedTables : RuneTables :=
  ⟨fun c => c = Char.ofNat 0x130, fun _ => false, fun c => if c = Char.ofNat 0x130 then 'i' else c⟩

/-- The parser without its anchor: the cursor, the left-hand terms and the flags. -/
def parser.skel (p : parser) : parser := { p with rhs := Time.zero }

/-- The end of a method without the anchor of its parser. -/
def PRes.skel : PRes → PRes
  | .ret e p => .ret e p.skel
  | .call st p => .call st p.skel
  | .callThen st p d => .callThen st p.skel d

/-- Go's `daysIn`: the days of month `m` of `year`. -/
def daysIn (m year : Int) : Int :=
  if m = 2 ∧ isLeap year then 29 else daysBefore m - daysBefore (m - 1)

/-- The days of a month, the leap year told by a flag. -/
def daysInOf (leap : Bool) (m : Int) : Int :=
  if m = 2 ∧ leap then 29 else daysBefore m - daysBefore (m - 1)

/-- The day count of `time.Date` for a year, any month and a day: the month is brought
into 1..12 first, the year moving with it. -/
def civilDays (y m d : Int) : Int :=
  dateDays (norm y (m - 1) 12).1 ((norm y (m - 1) 12).2 + 1) d

/-- The month after month `m` of year `y`. -/
def nextMonth (y m : Int) : Int × Int := if m = 12 then (y + 1, 1) else (y, m + 1)

/-- The month before month `m` of year `y`. -/
def prevMonth (y m : Int) : Int × Int := if m = 1 then (y - 1, 12) else (y, m - 1)

/-- The month names as they are written, in lower case or with a capital, and the number of
the month each stands for. -/
def monthWords : List (String × Int) :=
  monthTable ++
  [("Jan", 1), ("January", 1), ("Feb", 2), ("February", 2), ("Mar", 3), ("March", 3),
    ("Apr", 4), ("April", 4), ("May", 5), ("Jun", 6), ("June", 6), ("Jul", 7), ("July", 7),
    ("Aug", 8), ("August", 8), ("Sep", 9), ("September", 9), ("Oct", 10), ("October", 10),
    ("Nov", 11), ("November", 11), ("Dec", 12), ("December", 12)]

/-- The instant at 00:00:00 of the day `N - 1` days before the last day of month `m` of
year `y`. -/
def lastDay (loc : Location) (y m N : Int) : Time := Date y m (daysIn m y - (N - 1)) 0 0 0 0 loc

/-- The day of month `m` of year `y` the code reaches from day 1 by walking forward to the
weekday `w` and then `N - 1` weeks further. -/
def nthWeekdayDay (y m N w : Int) : Int :=
  1 + ((if w - (dateDays y m 1 + 1) % 7 < 0 then w - (dateDays y m 1 + 1) % 7 + 7
    else w - (dateDays y m 1 + 1) % 7) + 7 * (N - 1))

/-- The day of month `m` of year `y` the code reaches from the last day by walking back to
the weekday `w` and then `N - 1` weeks further. -/
def nthLastWeekdayDay (y m N w : Int) : Int :=
  daysIn m y - ((if (dateDays y m (daysIn m y) + 1) % 7 - w < 0
      then (dateDays y m (daysIn m y) + 1) % 7 - w + 7
    else (dateDays y m (daysIn m y) + 1) % 7 - w) + 7 * (N - 1))

/-! ## Theorems -/

/-! ### The lexer behind a consumed prefix -/

theorem lexRun_mono (U : RuneTables) : ∀ (n m : Nat) (st : stateFn) (l r : lexer), n ≤ m →
    lexRun U n st l = some r → lexRun U m st l = some r
  | 0, _, _, _, _, _, h => by simp [lexRun] at h
  | n + 1, m, st, l, r, hle, h => by
    obtain ⟨k, rfl⟩ : ∃ k, m = k + 1 := ⟨m - 1, by omega⟩
    simp only [lexRun] at h ⊢
    rcases hs : lexStep U st l with ⟨o, l1⟩
    rw [hs] at h
    cases o with
    | none => exact h
    | some st1 => exact lexRun_mono U n k st1 l1 r (by omega) h

theorem read_shift (l : lexer) (pre : List Char) (ts : List token) (w : Nat) :
    (l.shift pre ts w).read = (l.read.1, l.read.2.shift pre ts l.read.2.width) := by
  simp only [lexer.read, lexer.shift, List.drop_append]
  cases l.input.drop l.j <;> simp [Nat.add_assoc]

theorem peek_shift (l : lexer) (pre : List Char) (ts : List token) (w : Nat) :
    (l.shift pre ts w).peek = (l.peek.1, l.peek.2.shift pre ts l.peek.2.width) := by
  simp only [lexer.peek, read_shift]
  simp only [lexer.read, lexer.shift, lexer.unread]
  cases l.input.drop l.j <;> simp

theorem readRune_shift (l : lexer) (pre : List Char) (ts : List token) (w : Nat) (ch : Char) :
    (l.shift pre ts w).readRune ch = ((l.readRune ch).1, (l.readRune ch).2.shift pre ts (l.readRune ch).2.width) := by
  simp only [lexer.readRune, read_shift]

theorem value_shift (l : lexer) (pre : List Char) (ts : List token) (w : Nat) :
    (l.shift pre ts w).value = l.value := by
  simp [lexer.value, lexer.shift, List.drop_append, Nat.add_sub_add_left]

theorem emitAs_shift (l : lexer) (pre : List Char) (ts : List token) (w : Nat) (typ : tokenType) (v : String) :
    (l.shift pre ts w).emitAs typ v = (l.emitAs typ v).shift pre ts w := by
  simp [lexer.emitAs, lexer.shift]

theorem emit_shift (l : lexer) (pre : List Char) (ts : List token) (w : Nat) (typ : tokenType) :
    (l.shift pre ts w).emit typ = (l.emit typ).shift pre ts w := by
  simp only [lexer.emit, emitAs_shift, value_shift]

theorem ignore_shift (l : lexer) (pre : List Char) (ts : List token) (w : Nat) :
    (l.shift pre ts w).ignore = l.ignore.shift pre ts w := by
  simp [lexer.ignore, lexer.shift]

theorem errorf_shift (l : lexer) (pre : List Char) (ts : List token) (w : Nat) (msg : String) :
    (l.shift pre ts w).errorf msg = ((l.errorf msg).1, (l.errorf msg).2.shift pre ts w) := by
  simp [lexer.errorf, lexer.shift]


theorem drop_succ_of_drop {α : Type} (xs : List α) (j : Nat) (c : α) (cs : List α)
    (h : xs.drop j = c :: cs) : xs.drop (j + 1) = cs := by
  have : xs.drop (j + 1) = (xs.drop j).drop 1 := by simp [List.drop_drop, Nat.add_comm]
  rw [this, h]; rfl

theorem readFnLoop_eq (fn : Char → Bool) : ∀ (xs : List Char) (n : Nat) (l : lexer),
    l.input.drop l.j = xs → xs.length < n →
    lexer.readFnLoop fn n l =
      { l with j := l.j + (xs.takeWhile fn).length, width := if xs.dropWhile fn = [] then 0 else 1 }
  | [], n, l, h, hn => by
    obtain ⟨k, rfl⟩ : ∃ k, n = k + 1 := ⟨n - 1, by simp at hn; omega⟩
    simp [lexer.readFnLoop, lexer.read, h, lexer.unread]
  | c :: cs, n, l, h, hn => by
    obtain ⟨k, rfl⟩ : ∃ k, n = k + 1 := ⟨n - 1, by simp at hn; omega⟩
    simp only [lexer.readFnLoop, lexer.read, h]
    by_cases hc : fn c = true
    · simp only [hc, if_true]
      rw [readFnLoop_eq fn cs k _ (drop_succ_of_drop _ _ _ _ h) (by simp at hn; omega)]
      simp [List.takeWhile, List.dropWhile, hc, Nat.add_assoc, Nat.add_comm 1]
    · simp [hc, lexer.unread, List.takeWhile, List.dropWhile]

theorem readFn_eq (l : lexer) (fn : Char → Bool) :
    l.readFn fn = { l with j := l.j + ((l.input.drop l.j).takeWhile fn).length,
                           width := if (l.input.drop l.j).dropWhile fn = [] then 0 else 1 } := by
  unfold lexer.readFn
  apply readFnLoop_eq fn _ _ _ rfl
  simp only [List.length_drop]; omega

theorem peekFnLoop_eq (fn : Char → Bool) : ∀ (xs : List Char) (n : Nat) (s : List Char) (l : lexer),
    l.input.drop l.j = xs → xs.length < n →
    lexer.peekFnLoop fn n s l =
      (s ++ xs.takeWhile fn,
        { l with j := l.j + (xs.takeWhile fn).length, width := if xs.dropWhile fn = [] then 0 else 1 })
  | [], n, s, l, h, hn => by
    obtain ⟨k, rfl⟩ : ∃ k, n = k + 1 := ⟨n - 1, by simp at hn; omega⟩
    simp [lexer.peekFnLoop, lexer.read, h, lexer.unread]
  | c :: cs, n, s, l, h, hn => by
    obtain ⟨k, rfl⟩ : ∃ k, n = k + 1 := ⟨n - 1, by simp at hn; omega⟩
    simp only [lexer.peekFnLoop, lexer.read, h]
    by_cases hc : fn c = true
    · simp only [hc, if_true]
      rw [peekFnLoop_eq fn cs k _ _ (drop_succ_of_drop _ _ _ _ h) (by simp at hn; omega)]
      simp [List.takeWhile, List.dropWhile, hc, Nat.add_assoc, Nat.add_comm 1]
    · simp [hc, lexer.unread, List.takeWhile, List.dropWhile]

theorem peekFn_eq (l : lexer) (fn : Char → Bool) :
    l.peekFn fn = (String.mk ((l.input.drop l.j).takeWhile fn), l) := by
  unfold lexer.peekFn
  rw [peekFnLoop_eq fn _ _ _ _ rfl (by simp only [List.length_drop]; omega)]
  simp

theorem readFn_shift (l : lexer) (pre : List Char) (ts : List token) (w : Nat) (fn : Char → Bool) :
    (l.shift pre ts w).readFn fn = (l.readFn fn).shift pre ts (l.readFn fn).width := by
  simp [readFn_eq, lexer.shift, List.drop_append, Nat.add_assoc]

theorem peekFn_shift (l : lexer) (pre : List Char) (ts : List token) (w : Nat) (fn : Char → Bool) :
    (l.shift pre ts w).peekFn fn = ((l.peekFn fn).1, (l.peekFn fn).2.shift pre ts w) := by
  simp [peekFn_eq, lexer.shift, List.drop_append]

theorem readStringLoop_shift : ∀ (s : List Char) (l : lexer) (pre : List Char) (ts : List token),
    lexer.readStringLoop s (l.shift pre ts l.width) =
      ((lexer.readStringLoop s l).1,
        (lexer.readStringLoop s l).2.shift pre ts (lexer.readStringLoop s l).2.width)
  | [], l, pre, ts => by simp [lexer.readStringLoop]
  | r :: rs, l, pre, ts => by
    simp only [lexer.readStringLoop, readRune_shift]
    by_cases h : (l.readRune r).1 = true
    · simp only [h, Bool.not_true, Bool.false_eq_true, if_false]
      exact readStringLoop_shift rs _ pre ts
    · simp only [h, Bool.not_false, if_true]
      simp only [Bool.not_eq_true] at h
      simp [h, lexer.unread, lexer.shift, lexer.readRune, lexer.read]
      cases l.input.drop l.j <;> simp


theorem readString_shift (l : lexer) (pre : List Char) (ts : List token) (w : Nat) (s : String) :
    (l.shift pre ts w).readString s =
      ((l.readString s).1, (l.readString s).2.shift pre ts (l.readString s).2.width) := by
  have key : lexer.readStringLoop s.data (l.shift pre ts w) =
      ((lexer.readStringLoop s.data l).1,
        (lexer.readStringLoop s.data l).2.shift pre ts
          (if s.data = [] then w else (lexer.readStringLoop s.data l).2.width)) := by
    cases hs : s.data with
    | nil => simp [lexer.readStringLoop]
    | cons r rs =>
      simp only [lexer.readStringLoop, readRune_shift]
      by_cases h : (l.readRune r).1 = true
      · simp only [h, Bool.not_true, Bool.false_eq_true, if_false]
        rw [readStringLoop_shift rs _ pre ts]
        simp
      · simp only [h, Bool.not_false, if_true]
        simp only [Bool.not_eq_true] at h
        simp [h, lexer.unread, lexer.shift, lexer.readRune, lexer.read]
        cases l.input.drop l.j <;> simp
  simp only [lexer.readString, key]
  by_cases h : (lexer.readStringLoop s.data l).1 = true
  · simp only [h, Bool.not_true, Bool.false_eq_true, if_false, peek_shift]
  · simp only [Bool.not_eq_true] at h
    have hne : s.data ≠ [] := by
      intro h0
      rw [h0] at h
      simp [lexer.readStringLoop] at h
    simp [h, hne]

theorem readExpr_shift (U : RuneTables) (l : lexer) (pre : List Char) (ts : List token) (w : Nat) :
    ∃ w', readExpr U (l.shift pre ts w) = ((readExpr U l).1, (readExpr U l).2.shift pre ts w') := by
  simp only [readExpr, readFn_shift, ignore_shift, peek_shift]
  cases (l.readFn isSpace).ignore.peek.1 with
  | none => exact ⟨_, rfl⟩
  | some c =>
    simp only []
    split_ifs <;> simp only [read_shift, emit_shift, errorf_shift] <;> exact ⟨_, rfl⟩


theorem readAtSymbol_shift (l : lexer) (pre : List Char) (ts : List token) (w : Nat) :
    ∃ w', readAtSymbol (l.shift pre ts w) = ((readAtSymbol l).1, (readAtSymbol l).2.shift pre ts w') := by
  simp only [readAtSymbol, readRune_shift]
  split_ifs <;> simp only [emit_shift, errorf_shift] <;> exact ⟨_, rfl⟩

theorem readColon_shift (U : RuneTables) (l : lexer) (pre : List Char) (ts : List token) (w : Nat) :
    ∃ w', readColon U (l.shift pre ts w) = ((readColon U l).1, (readColon U l).2.shift pre ts w') := by
  simp only [readColon, read_shift, emit_shift, peek_shift]
  cases (l.read.2.emit tokenType.tokenColon).peek.1 with
  | none => simp only [errorf_shift]; exact ⟨_, rfl⟩
  | some c =>
    simp only []
    split_ifs <;> simp only [errorf_shift] <;> exact ⟨_, rfl⟩

theorem readDigit_shift (U : RuneTables) (l : lexer) (pre : List Char) (ts : List token) (w : Nat) :
    ∃ w', readDigit U (l.shift pre ts w) = ((readDigit U l).1, (readDigit U l).2.shift pre ts w') := by
  simp only [readDigit, readFn_shift, emit_shift, peek_shift]
  cases ((l.readFn (isDigit U)).emit tokenType.tokenDigit).peek.1 with
  | none => exact ⟨_, rfl⟩
  | some c =>
    simp only []
    split_ifs <;> simp only [read_shift, emit_shift] <;> exact ⟨_, rfl⟩

theorem readDurationNext_shift (l : lexer) (pre : List Char) (ts : List token) (w : Nat) :
    ∃ w', readDurationNext (l.shift pre ts w) =
      ((readDurationNext l).1, (readDurationNext l).2.shift pre ts w') := by
  simp only [readDurationNext, peek_shift]
  cases l.peek.1 with
  | none => exact ⟨_, rfl⟩
  | some c =>
    simp only []
    split_ifs <;> simp only [read_shift, emit_shift, errorf_shift] <;> exact ⟨_, rfl⟩

theorem readDurationNextShort_shift (l : lexer) (pre : List Char) (ts : List token) (w : Nat) :
    ∃ w', readDurationNextShort (l.shift pre ts w) =
      ((readDurationNextShort l).1, (readDurationNextShort l).2.shift pre ts w') := by
  simp only [readDurationNextShort, peek_shift]
  cases l.peek.1 with
  | none => exact ⟨_, rfl⟩
  | some c =>
    simp only []
    split_ifs <;> simp only [read_shift, emit_shift, errorf_shift] <;> exact ⟨_, rfl⟩

theorem readDurationSpace_shift (U : RuneTables) (l : lexer) (pre : List Char) (ts : List token) (w : Nat) :
    ∃ w', readDurationSpace U (l.shift pre ts w) =
      ((readDurationSpace U l).1, (readDurationSpace U l).2.shift pre ts w') := by
  simp only [readDurationSpace, readFn_shift, peek_shift]
  cases (l.readFn isSpace).peek.1 with
  | none => simp only [ignore_shift]; exact ⟨_, rfl⟩
  | some c =>
    simp only []
    split_ifs <;> simp only [ignore_shift, read_shift, emit_shift, errorf_shift] <;> exact ⟨_, rfl⟩

theorem readDurationSpaceNext_shift (U : RuneTables) (l : lexer) (pre : List Char) (ts : List token)
    (w : Nat) :
    ∃ w', readDurationSpaceNext U (l.shift pre ts w) =
      ((readDurationSpaceNext U l).1, (readDurationSpaceNext U l).2.shift pre ts w') := by
  simp only [readDurationSpaceNext, value_shift, ignore_shift, peekFn_shift]
  split_ifs <;> (try simp only [readString_shift, emit_shift, emitAs_shift]) <;> exact ⟨_, rfl⟩

theorem readDurationUnitSecondsOrOrdinal_shift (l : lexer) (pre : List Char) (ts : List token)
    (w : Nat) :
    ∃ w', readDurationUnitSecondsOrOrdinal (l.shift pre ts w) =
      ((readDurationUnitSecondsOrOrdinal l).1,
        (readDurationUnitSecondsOrOrdinal l).2.shift pre ts w') := by
  simp only [readDurationUnitSecondsOrOrdinal, read_shift, peek_shift]
  by_cases h : l.read.2.peek.1 = some 't'
  · simp only [h, if_true, read_shift, emit_shift]; exact ⟨_, rfl⟩
  · simp only [h, if_false, emit_shift]; exact ⟨_, rfl⟩

theorem readLetter_shift (U : RuneTables) (l : lexer) (pre : List Char) (ts : List token) (w : Nat) :
    ∃ w', readLetter U (l.shift pre ts w) = ((readLetter U l).1, (readLetter U l).2.shift pre ts w') := by
  simp only [readLetter, readFn_shift, value_shift]
  generalize stringsToLower U (l.readFn (isTimeRune U)).value = v
  cases numberWord v with
  | some d =>
    simp only []
    split_ifs <;> simp only [emit_shift, emitAs_shift] <;> exact ⟨_, rfl⟩
  | none =>
    simp only []
    split_ifs <;> simp only [emit_shift, errorf_shift] <;> exact ⟨_, rfl⟩

theorem readOrdinal_shift (l : lexer) (pre : List Char) (ts : List token) (w : Nat) :
    ∃ w', readOrdinal (l.shift pre ts w) = ((readOrdinal l).1, (readOrdinal l).2.shift pre ts w') := by
  simp only [readOrdinal, read_shift]
  by_cases h1 : l.read.1 = some 'n' ∨ l.read.1 = some 'r'
  · rw [if_pos h1, if_pos h1]
    simp only [readRune_shift]
    by_cases h : (l.read.2.readRune 'd').1 = true
    · simp only [h, Bool.not_true, Bool.false_eq_true, if_false, emit_shift]; exact ⟨_, rfl⟩
    · simp only [h, Bool.not_false, if_true, errorf_shift]; exact ⟨_, rfl⟩
  · rw [if_neg h1, if_neg h1]
    by_cases h2 : l.read.1 = some 't'
    · rw [if_pos h2, if_pos h2]
      simp only [readRune_shift]
      by_cases h : (l.read.2.readRune 'h').1 = true
      · simp only [h, Bool.not_true, Bool.false_eq_true, if_false, emit_shift]; exact ⟨_, rfl⟩
      · simp only [h, Bool.not_false, if_true, errorf_shift]; exact ⟨_, rfl⟩
    · rw [if_neg h2, if_neg h2]
      simp only [Bool.not_false, if_true, errorf_shift]; exact ⟨_, rfl⟩

theorem readTwelveHour_shift (l : lexer) (pre : List Char) (ts : List token) (w : Nat) :
    ∃ w', readTwelveHour (l.shift pre ts w) =
      ((readTwelveHour l).1, (readTwelveHour l).2.shift pre ts w') := by
  simp only [readTwelveHour, readString_shift]
  rcases hA : l.readString "am" with ⟨a, lA⟩
  cases a
  · simp only [Bool.false_eq_true, if_false, readString_shift]
    rcases hP : lA.readString "pm" with ⟨b, lP⟩
    cases b
    · simp only [Bool.not_false, if_true, errorf_shift]; exact ⟨_, rfl⟩
    · simp only [Bool.not_true, Bool.false_eq_true, if_false, emit_shift]; exact ⟨_, rfl⟩
  · simp only [if_true, Bool.not_true, Bool.false_eq_true, if_false, emit_shift]; exact ⟨_, rfl⟩

theorem lexStep_shift (U : RuneTables) (st : stateFn) (l : lexer) (pre : List Char) (ts : List token)
    (w : Nat) :
    ∃ w', lexStep U st (l.shift pre ts w) = ((lexStep U st l).1, (lexStep U st l).2.shift pre ts w') := by
  cases st <;> simp only [lexStep]
  · exact readExpr_shift U l pre ts w
  · exact readAtSymbol_shift l pre ts w
  · exact readColon_shift U l pre ts w
  · exact readDigit_shift U l pre ts w
  · exact readDurationNext_shift l pre ts w
  · exact readDurationNextShort_shift l pre ts w
  · exact readDurationSpace_shift U l pre ts w
  · exact readDurationSpaceNext_shift U l pre ts w
  · exact readDurationUnitSecondsOrOrdinal_shift l pre ts w
  · exact readLetter_shift U l pre ts w
  · exact readOrdinal_shift l pre ts w
  · exact readTwelveHour_shift l pre ts w

theorem lexRun_shift (U : RuneTables) : ∀ (n : Nat) (st : stateFn) (l : lexer) (pre : List Char)
    (ts : List token) (w : Nat),
    (lexRun U n st (l.shift pre ts w)).map (fun r => r.tokens) =
      (lexRun U n st l).map (fun r => ts ++ r.tokens)
  | 0, _, _, _, _, _ => by simp [lexRun]
  | n + 1, st, l, pre, ts, w => by
    obtain ⟨w', hw⟩ := lexStep_shift U st l pre ts w
    simp only [lexRun, hw]
    rcases hs : lexStep U st l with ⟨o, l1⟩
    cases o with
    | none => simp [lexer.shift]
    | some st1 => simpa using lexRun_shift U n st1 l1 pre ts w'


theorem lexRun_cut (U : RuneTables) (n : Nat) (st : stateFn) (seg rem : List Char) (ts : List token)
    (w : Nat) :
    (lexRun U n st ⟨seg ++ rem, seg.length, seg.length, w, ts⟩).map (fun r => r.tokens) =
      (lexToks U n st rem).map (fun t => ts ++ t) := by
  have h := lexRun_shift U n st ⟨rem, 0, 0, 0, []⟩ seg ts w
  simp only [lexer.shift, Nat.add_zero, List.append_nil] at h
  rw [h, lexToks, Option.map_map]
  rfl

theorem lexToks_step (U : RuneTables) (n : Nat) (st st1 : stateFn) (rem seg rem1 : List Char)
    (ts : List token) (w : Nat) (hrem : rem = seg ++ rem1)
    (h : lexStep U st ⟨rem, 0, 0, 0, []⟩ = (some st1, ⟨rem, seg.length, seg.length, w, ts⟩)) :
    lexToks U (n + 1) st rem = (lexToks U n st1 rem1).map (fun t => ts ++ t) := by
  subst hrem
  rw [lexToks, lexRun, h]
  exact lexRun_cut U n st1 seg rem1 ts w

theorem dropWhile_drop_takeWhile {α : Type} (p : α → Bool) : ∀ (xs : List α),
    xs.drop (xs.takeWhile p).length = xs.dropWhile p
  | [] => rfl
  | x :: xs => by
    by_cases h : p x = true
    · simp [List.takeWhile, List.dropWhile, h, dropWhile_drop_takeWhile p xs]
    · simp [List.takeWhile, List.dropWhile, h]

theorem takeWhile_dropWhile_nil {α : Type} (p : α → Bool) : ∀ (xs : List α),
    (xs.dropWhile p).takeWhile p = []
  | [] => rfl
  | x :: xs => by
    by_cases h : p x = true
    · simp [List.dropWhile, h, takeWhile_dropWhile_nil p xs]
    · simp [List.takeWhile, List.dropWhile, h]

theorem dropWhile_dropWhile {α : Type} (p : α → Bool) : ∀ (xs : List α),
    (xs.dropWhile p).dropWhile p = xs.dropWhile p
  | [] => rfl
  | x :: xs => by
    by_cases h : p x = true
    · simp [List.dropWhile, h, dropWhile_dropWhile p xs]
    · simp [List.dropWhile, h]

theorem readExpr_idem (U : RuneTables) (l : lexer) :
    readExpr U (l.readFn isSpace).ignore = readExpr U l := by
  have h : ((l.readFn isSpace).ignore.readFn isSpace).ignore = (l.readFn isSpace).ignore := by
    simp only [readFn_eq, lexer.ignore]
    rw [← List.drop_drop, dropWhile_drop_takeWhile, takeWhile_dropWhile_nil, dropWhile_dropWhile]
    simp
  conv_lhs => rw [readExpr]
  rw [h]
  rfl

theorem takeWhile_append_of_all {α : Type} (p : α → Bool) : ∀ (xs ys : List α),
    (∀ x ∈ xs, p x = true) → (xs ++ ys).takeWhile p = xs ++ ys.takeWhile p
  | [], _, _ => rfl
  | x :: xs, ys, h => by
    have hx : p x = true := h x (by simp)
    simp [List.takeWhile, hx, takeWhile_append_of_all p xs ys (fun y hy => h y (by simp [hy]))]

theorem dropWhile_append_of_all {α : Type} (p : α → Bool) : ∀ (xs ys : List α),
    (∀ x ∈ xs, p x = true) → (xs ++ ys).dropWhile p = ys.dropWhile p
  | [], _, _ => rfl
  | x :: xs, ys, h => by
    have hx : p x = true := h x (by simp)
    simp [List.dropWhile, hx, dropWhile_append_of_all p xs ys (fun y hy => h y (by simp [hy]))]

theorem lexToks_skip (U : RuneTables) (n : Nat) (sp rem : List Char)
    (hsp : ∀ c ∈ sp, isSpace c = true) :
    lexToks U n .readExpr (sp ++ rem) = lexToks U n .readExpr rem := by
  cases n with
  | zero => rfl
  | succ n =>
    have h1 : ((⟨sp ++ rem, 0, 0, 0, []⟩ : lexer).readFn isSpace).ignore =
        ((⟨rem, 0, 0, 0, []⟩ : lexer).readFn isSpace).ignore.shift sp []
          (((⟨rem, 0, 0, 0, []⟩ : lexer).readFn isSpace).ignore).width := by
      simp [readFn_eq, lexer.ignore, lexer.shift, takeWhile_append_of_all isSpace sp rem hsp,
        dropWhile_append_of_all isSpace sp rem hsp]
    obtain ⟨w', hw⟩ := readExpr_shift U ((⟨rem, 0, 0, 0, []⟩ : lexer).readFn isSpace).ignore sp []
      (((⟨rem, 0, 0, 0, []⟩ : lexer).readFn isSpace).ignore).width
    have h2 : readExpr U ⟨sp ++ rem, 0, 0, 0, []⟩ =
        ((readExpr U ⟨rem, 0, 0, 0, []⟩).1, (readExpr U ⟨rem, 0, 0, 0, []⟩).2.shift sp [] w') := by
      rw [← readExpr_idem U ⟨sp ++ rem, 0, 0, 0, []⟩, h1, hw, readExpr_idem]
    simp only [lexToks, lexRun, lexStep, h2]
    rcases hs : readExpr U ⟨rem, 0, 0, 0, []⟩ with ⟨o, l1⟩
    cases o with
    | none => simp [lexer.shift]
    | some st1 =>
      have := lexRun_shift U n st1 l1 sp [] w'
      simpa using this

/-! ### Digit runs -/


theorem asciiDigit_facts (U : RuneTables) (c : Char) (h : isAsciiDigit c = true) :
    isSpace c = false ∧ isDigit U c = true ∧ c ≠ '@' ∧ c ≠ '+' ∧ c ≠ '-' := by
  have h1 : 48 ≤ c.toNat ∧ c.toNat ≤ 57 := by
    simpa [isAsciiDigit] using h
  refine ⟨?_, ?_, ?_, ?_, ?_⟩
  · simp only [isSpace, Bool.or_eq_false_iff, Bool.and_eq_false_iff, beq_eq_false_iff_ne, ne_eq,
      decide_eq_false_iff_not]
    omega
  · have : c.toNat < 128 := by omega
    simp [isDigit, this, h]
  all_goals
    intro hc
    rw [hc] at h1
    revert h1
    decide

theorem takeWhile_append_stop {α : Type} (p : α → Bool) (xs : List α) (y : α) (ys : List α)
    (h : ∀ x ∈ xs, p x = true) (hy : p y = false) : (xs ++ y :: ys).takeWhile p = xs := by
  rw [takeWhile_append_of_all p xs _ h]
  simp [List.takeWhile, hy]

theorem dropWhile_append_stop {α : Type} (p : α → Bool) (xs : List α) (y : α) (ys : List α)
    (h : ∀ x ∈ xs, p x = true) (hy : p y = false) : (xs ++ y :: ys).dropWhile p = y :: ys := by
  rw [dropWhile_append_of_all p xs _ h]
  simp [List.dropWhile, hy]

/-- first step of a digit run -/
theorem readExpr_digit (U : RuneTables) (ds rest : List Char) (hne : ds ≠ [])
    (hd : ∀ c ∈ ds, isAsciiDigit c = true) :
    readExpr U ⟨ds ++ rest, 0, 0, 0, []⟩ = (some .readDigit, ⟨ds ++ rest, 0, 0, 1, []⟩) := by
  obtain ⟨d, ds1, rfl⟩ := List.exists_cons_of_ne_nil hne
  obtain ⟨h1, h2, h3, h4, h5⟩ := asciiDigit_facts U d (hd d (by simp))
  simp [readExpr, readFn_eq, List.takeWhile, List.dropWhile, h1, h2, h3, h4, h5, lexer.ignore,
    lexer.peek, lexer.read, lexer.unread]

theorem readDigit_space (U : RuneTables) (ds r : List Char)
    (hd : ∀ c ∈ ds, isAsciiDigit c = true) (w : Nat) :
    readDigit U ⟨ds ++ ' ' :: r, 0, 0, w, []⟩ =
      (some .readExpr, ⟨ds ++ ' ' :: r, ds.length, ds.length, 1, [⟨.tokenDigit, String.mk ds⟩]⟩) := by
  have hall : ∀ c ∈ ds, isDigit U c = true := fun c hc => (asciiDigit_facts U c (hd c hc)).2.1
  have hsp : isDigit U ' ' = false := rfl
  simp [readDigit, readFn_eq, takeWhile_append_stop (isDigit U) ds ' ' r hall hsp,
    dropWhile_append_stop (isDigit U) ds ' ' r hall hsp, lexer.emit, lexer.emitAs, lexer.value,
    lexer.peek, lexer.read, lexer.unread]



theorem readDigit_eof (U : RuneTables) (ds : List Char)
    (hd : ∀ c ∈ ds, isAsciiDigit c = true) (w : Nat) :
    readDigit U ⟨ds, 0, 0, w, []⟩ =
      (none, ⟨ds, ds.length, ds.length, 0, [⟨.tokenDigit, String.mk ds⟩]⟩) := by
  have hall : ∀ c ∈ ds, isDigit U c = true := fun c hc => (asciiDigit_facts U c (hd c hc)).2.1
  have h1 : ds.takeWhile (isDigit U) = ds := by
    have := takeWhile_append_of_all (isDigit U) ds [] hall
    simpa using this
  have h2 : ds.dropWhile (isDigit U) = [] := by
    have := dropWhile_append_of_all (isDigit U) ds [] hall
    simpa using this
  simp [readDigit, readFn_eq, h1, h2, lexer.emit, lexer.emitAs, lexer.value,
    lexer.peek, lexer.read, lexer.unread]

theorem lexToks_digits (U : RuneTables) (n : Nat) (ds r : List Char) (hne : ds ≠ [])
    (hd : ∀ c ∈ ds, isAsciiDigit c = true) :
    lexToks U (n + 2) .readExpr (ds ++ ' ' :: r) =
      (lexToks U n .readExpr (' ' :: r)).map (fun t => ⟨.tokenDigit, String.mk ds⟩ :: t) := by
  rw [lexToks, lexRun, lexStep, readExpr_digit U ds _ hne hd]
  simp only [lexRun, lexStep, readDigit_space U ds r hd 1]
  exact lexRun_cut U n .readExpr ds (' ' :: r) _ 1

theorem lexToks_digits_eof (U : RuneTables) (n : Nat) (ds : List Char) (hne : ds ≠ [])
    (hd : ∀ c ∈ ds, isAsciiDigit c = true) :
    lexToks U (n + 2) .readExpr ds = some [⟨.tokenDigit, String.mk ds⟩] := by
  have h := readExpr_digit U ds [] hne hd
  simp only [List.append_nil] at h
  rw [lexToks, lexRun, lexStep, h]
  simp only [lexRun, lexStep, readDigit_eof U ds hd 1]
  rfl

/-! ### ASCII input does not consult the Unicode tables -/



theorem takeWhile_congr {α : Type} (p q : α → Bool) : ∀ (xs : List α),
    (∀ x ∈ xs, p x = q x) → xs.takeWhile p = xs.takeWhile q
  | [], _ => rfl
  | x :: xs, h => by
    have hx : p x = q x := h x (by simp)
    simp [List.takeWhile, hx, takeWhile_congr p q xs (fun y hy => h y (by simp [hy]))]

theorem dropWhile_congr {α : Type} (p q : α → Bool) : ∀ (xs : List α),
    (∀ x ∈ xs, p x = q x) → xs.dropWhile p = xs.dropWhile q
  | [], _ => rfl
  | x :: xs, h => by
    have hx : p x = q x := h x (by simp)
    simp [List.dropWhile, hx, dropWhile_congr p q xs (fun y hy => h y (by simp [hy]))]

theorem readFn_congr (l : lexer) (p q : Char → Bool) (h : ∀ c ∈ l.input, p c = q c) :
    l.readFn p = l.readFn q := by
  have h1 : ∀ c ∈ l.input.drop l.j, p c = q c := fun c hc => h c (List.mem_of_mem_drop hc)
  simp [readFn_eq, takeWhile_congr p q _ h1, dropWhile_congr p q _ h1]

theorem peekFn_congr (l : lexer) (p q : Char → Bool) (h : ∀ c ∈ l.input, p c = q c) :
    l.peekFn p = l.peekFn q := by
  have h1 : ∀ c ∈ l.input.drop l.j, p c = q c := fun c hc => h c (List.mem_of_mem_drop hc)
  simp [peekFn_eq, takeWhile_congr p q _ h1]

theorem isDigit_ascii (U V : RuneTables) (c : Char) (h : c.toNat < 128) : isDigit U c = isDigit V c := by
  simp [isDigit, h]

theorem isLetter_ascii (U V : RuneTables) (c : Char) (h : c.toNat < 128) : isLetter U c = isLetter V c := by
  simp [isLetter, h]

theorem isTimeRune_ascii (U V : RuneTables) (c : Char) (h : c.toNat < 128) :
    isTimeRune U c = isTimeRune V c := by
  simp [isTimeRune, isLetter, h]

theorem toLower_ascii (U V : RuneTables) (c : Char) (h : c.toNat < 128) : toLower U c = toLower V c := by
  simp [toLower, h]

theorem stringsToLower_ascii (U V : RuneTables) (s : String) (h : allAscii s.data) :
    stringsToLower U s = stringsToLower V s := by
  simp only [stringsToLower]
  congr 1
  exact List.map_congr_left (fun c hc => toLower_ascii U V c (h c hc))

theorem peek_mem (l : lexer) (c : Char) (h : l.peek.1 = some c) : c ∈ l.input := by
  simp only [lexer.peek, lexer.read] at h
  cases hd : l.input.drop l.j with
  | nil => simp [hd] at h
  | cons x xs =>
    simp [hd] at h
    subst h
    exact List.mem_of_mem_drop (by rw [hd]; simp)

theorem value_ascii (l : lexer) (h : allAscii l.input) : allAscii l.value.data := by
  intro c hc
  simp only [lexer.value] at hc
  exact h c (List.mem_of_mem_drop (List.mem_of_mem_take hc))

theorem peekFn_ascii (l : lexer) (p : Char → Bool) (h : allAscii l.input) :
    allAscii (l.peekFn p).1.data := by
  intro c hc
  simp only [peekFn_eq] at hc
  exact h c (List.mem_of_mem_drop ((List.takeWhile_sublist _).subset hc))


theorem read_input (l : lexer) : l.read.2.input = l.input := by
  simp only [lexer.read]
  cases l.input.drop l.j <;> rfl

theorem peek_input (l : lexer) : l.peek.2.input = l.input := by
  simp only [lexer.peek, lexer.unread, read_input]

theorem readFn_input (l : lexer) (p : Char → Bool) : (l.readFn p).input = l.input := by
  simp [readFn_eq]

theorem emit_input (l : lexer) (typ : tokenType) : (l.emit typ).input = l.input := rfl

theorem ignore_input (l : lexer) : l.ignore.input = l.input := rfl

theorem readExpr_ascii (U V : RuneTables) (l : lexer) (h : allAscii l.input) :
    readExpr U l = readExpr V l := by
  simp only [readExpr]
  rcases hp : (l.readFn isSpace).ignore.peek with ⟨r, l2⟩
  cases r with
  | none => rfl
  | some c =>
    have hc : c.toNat < 128 :=
      h c (by have := peek_mem _ c (by rw [hp]); simpa [ignore_input, readFn_input] using this)
    simp only [isDigit_ascii U V c hc, isLetter_ascii U V c hc]

theorem readColon_ascii (U V : RuneTables) (l : lexer) (h : allAscii l.input) :
    readColon U l = readColon V l := by
  simp only [readColon]
  rcases hp : (l.read.2.emit tokenType.tokenColon).peek with ⟨r, l2⟩
  cases r with
  | none => rfl
  | some c =>
    have hc : c.toNat < 128 :=
      h c (by have := peek_mem _ c (by rw [hp]); simpa [emit_input, read_input] using this)
    simp only [isDigit_ascii U V c hc]

theorem readDigit_ascii (U V : RuneTables) (l : lexer) (h : allAscii l.input) :
    readDigit U l = readDigit V l := by
  simp only [readDigit]
  rw [readFn_congr l (isDigit U) (isDigit V) (fun c hc => isDigit_ascii U V c (h c hc))]

theorem readDurationSpace_ascii (U V : RuneTables) (l : lexer) (h : allAscii l.input) :
    readDurationSpace U l = readDurationSpace V l := by
  simp only [readDurationSpace]
  rcases hp : (l.readFn isSpace).peek with ⟨r, l2⟩
  cases r with
  | none => rfl
  | some c =>
    have hc : c.toNat < 128 :=
      h c (by have := peek_mem _ c (by rw [hp]); simpa [readFn_input] using this)
    simp only [isDigit_ascii U V c hc]

theorem readDurationSpaceNext_ascii (U V : RuneTables) (l : lexer) (h : allAscii l.input) :
    readDurationSpaceNext U l = readDurationSpaceNext V l := by
  simp only [readDurationSpaceNext]
  rw [peekFn_congr l.ignore (isLetter U) (isLetter V) (fun c hc => isLetter_ascii U V c (h c hc))]
  rw [stringsToLower_ascii U V _ (peekFn_ascii l.ignore (isLetter V) h)]

theorem readLetter_ascii (U V : RuneTables) (l : lexer) (h : allAscii l.input) :
    readLetter U l = readLetter V l := by
  simp only [readLetter]
  rw [readFn_congr l (isTimeRune U) (isTimeRune V) (fun c hc => isTimeRune_ascii U V c (h c hc))]
  rw [stringsToLower_ascii U V _ (value_ascii _ (by rw [readFn_input]; exact h))]

theorem lexStep_ascii (U V : RuneTables) (st : stateFn) (l : lexer) (h : allAscii l.input) :
    lexStep U st l = lexStep V st l := by
  cases st <;> simp only [lexStep]
  · exact readExpr_ascii U V l h
  · exact readColon_ascii U V l h
  · exact readDigit_ascii U V l h
  · exact readDurationSpace_ascii U V l h
  · exact readDurationSpaceNext_ascii U V l h
  · exact readLetter_ascii U V l h


theorem emitAs_input (l : lexer) (typ : tokenType) (v : String) : (l.emitAs typ v).input = l.input := rfl

theorem errorf_input (l : lexer) (msg : String) : (l.errorf msg).2.input = l.input := rfl

theorem readRune_input (l : lexer) (ch : Char) : (l.readRune ch).2.input = l.input := by
  simp only [lexer.readRune, read_input]

theorem unread_input (l : lexer) : l.unread.input = l.input := rfl

theorem readStringLoop_input : ∀ (s : List Char) (l : lexer),
    (lexer.readStringLoop s l).2.input = l.input
  | [], _ => rfl
  | r :: rs, l => by
    simp only [lexer.readStringLoop]
    split
    · simp [unread_input, readRune_input]
    · rw [readStringLoop_input rs, readRune_input]

theorem readString_input (l : lexer) (s : String) : (l.readString s).2.input = l.input := by
  simp only [lexer.readString]
  split
  · simp [readStringLoop_input]
  · simp [peek_input, readStringLoop_input]

theorem peekFn_snd (l : lexer) (p : Char → Bool) : (l.peekFn p).2 = l := by
  simp [peekFn_eq]

theorem lexStep_input (U : RuneTables) (st : stateFn) (l : lexer) :
    (lexStep U st l).2.input = l.input := by
  cases st <;>
    simp only [lexStep, readExpr, readAtSymbol, readColon, readDigit, readDurationNext,
      readDurationNextShort, readDurationSpace, readDurationSpaceNext,
      readDurationUnitSecondsOrOrdinal, readLetter, readOrdinal, readTwelveHour] <;>
    repeat' split
  all_goals
    simp only [read_input, peek_input, readFn_input, emit_input, ignore_input, emitAs_input,
      errorf_input, readRune_input, readString_input, peekFn_snd]


theorem lexRun_ascii (U V : RuneTables) : ∀ (n : Nat) (st : stateFn) (l : lexer),
    allAscii l.input → lexRun U n st l = lexRun V n st l
  | 0, _, _, _ => rfl
  | n + 1, st, l, h => by
    simp only [lexRun, lexStep_ascii U V st l h]
    rcases hs : lexStep V st l with ⟨o, l1⟩
    cases o with
    | none => rfl
    | some st1 =>
      exact lexRun_ascii U V n st1 l1 (by have := lexStep_input V st l; rw [hs] at this; rw [this]; exact h)

theorem lex_ascii (U V : RuneTables) (s : String) (h : allAscii s.data) : lex U s = lex V s := by
  rw [lex, lex, lexRun_ascii U V (lexFuel s) .readExpr ⟨s.data, 0, 0, 0, []⟩ h]

theorem peek_ascii (e : penv) (p : parser) (h : tokAscii e.tokens) : allAscii (p.peek e).val.data := by
  simp only [parser.peek]
  cases hd : e.tokens.drop p.pos with
  | nil => intro c hc; simp at hc
  | cons t ts => exact h t (List.mem_of_mem_drop (by rw [hd]; simp))

theorem utf8Size_ascii (c : Char) (h : c.toNat < 128) : c.utf8Size = 1 := by
  have h1 : c.val ≤ 127 := by
    have h2 : c.val.toNat < 128 := h
    show c.val.toNat ≤ (127 : UInt32).toNat
    exact Nat.le_of_lt_succ h2
  simp [Char.utf8Size, h1]

theorem bytePrefix_ascii : ∀ (cs : List Char) (n : Nat), allAscii cs → allAscii (bytePrefix cs n)
  | [], _, _ => by intro c hc; simp [bytePrefix] at hc
  | c :: cs, n, h => by
    have hc : c.toNat < 128 := h c (by simp)
    simp only [bytePrefix, utf8Size_ascii c hc]
    by_cases hn : n = 0
    · simp [hn, allAscii]
    · have h1 : 1 ≤ n := by omega
      simp only [hn, if_false, h1, if_true]
      intro x hx
      rcases List.mem_cons.mp hx with rfl | hx
      · exact hc
      · exact bytePrefix_ascii cs (n - 1) (fun y hy => h y (by simp [hy])) x hx

theorem parseMonth_ascii (U V : RuneTables) (t : token) (h : allAscii t.val.data) :
    parseMonth U t = parseMonth V t := by
  simp only [parseMonth]
  rw [stringsToLower_ascii U V _ (bytePrefix_ascii _ 3 h)]

theorem parseWeekday_ascii (U V : RuneTables) (t : token) (h : allAscii t.val.data) :
    parseWeekday U t = parseWeekday V t := by
  simp only [parseWeekday]
  rw [stringsToLower_ascii U V _ (bytePrefix_ascii _ 3 h)]

theorem parseStep_ascii (U V : RuneTables) (e : penv) (st : pstate) (p : parser)
    (h : tokAscii e.tokens) : parseStep U e st p = parseStep V e st p := by
  have h1 : allAscii (p.peek e).val.data := peek_ascii e p h
  have h2 : allAscii ((p.next e).2.next e).1.val.data := peek_ascii e (p.next e).2 h
  cases st <;> simp only [parseStep]
  · simp only [parser.parseExprDigit]
    rw [stringsToLower_ascii U V _ h2]
  · simp only [parser.parseDigit, parser.next]
    rw [stringsToLower_ascii U V _ h1]
  · simp only [parser.parseDigitColonTwelveHour, parser.next]
    rw [stringsToLower_ascii U V _ h1]
  · simp only [parser.parseDigitOrdinalOfMonth, parser.next, parseMonth_ascii U V _ h1]
  · simp only [parser.parseDigitOrdinalLastDayOfMonth, parser.next, parseMonth_ascii U V _ h1]
  · simp only [parser.parseDigitOrdinalLastWeekday, parser.next, parseWeekday_ascii U V _ h1]
  · simp only [parser.parseDigitOrdinalLastWeekdayOfMonth, parser.next, parseMonth_ascii U V _ h1]
  · simp only [parser.parseDigitOrdinalWeekday, parser.next, parseWeekday_ascii U V _ h1]
  · simp only [parser.parseDigitOrdinalWeekdayOfMonth, parser.next, parseMonth_ascii U V _ h1]
  · simp only [parser.parseDigitOrdinalMonth, parser.next, parseMonth_ascii U V _ h1]
  · simp only [parser.parseMonth, parser.next, parseMonth_ascii U V _ h1]
  · simp only [parser.parseWeekday, parser.next, parseWeekday_ascii U V _ h1]

theorem parseRun_ascii (U V : RuneTables) (e : penv) (h : tokAscii e.tokens) :
    ∀ (n : Nat) (st : pstate) (p : parser), parseRun U e n st p = parseRun V e n st p
  | 0, _, _ => rfl
  | n + 1, st, p => by
    simp only [parseRun, parseStep_ascii U V e st p h]
    cases parseStep V e st p with
    | ret e1 p1 => rfl
    | call st1 p1 => exact parseRun_ascii U V e h n st1 p1
    | callThen st1 p1 d =>
      simp only []
      rw [parseRun_ascii U V e h n st1 p1]

theorem ParseNow_ascii (U V : RuneTables) (s : String) (now : Time) (h : allAscii s.data)
    (ht : ∀ ts, lex V s = .ok ts → tokAscii ts) : ParseNow U s now = ParseNow V s now := by
  unfold ParseNow
  rw [lex_ascii U V s h]
  cases hl : lex V s with
  | error e => rfl
  | ok ts =>
    simp only []
    rw [parseRun_ascii U V ⟨ts, now⟩ (ht ts hl)]

/-! ### Tokens of the phrases of the claims -/


theorem lexToks_mono (U : RuneTables) (n m : Nat) (st : stateFn) (rem : List Char) (ts : List token)
    (hle : n ≤ m) (h : lexToks U n st rem = some ts) : lexToks U m st rem = some ts := by
  simp only [lexToks, Option.map_eq_some'] at h ⊢
  obtain ⟨r, hr, rfl⟩ := h
  exact ⟨r, lexRun_mono U n m st _ r hle hr, rfl⟩

theorem lex_of_toks (U : RuneTables) (s : String) (ts : List token) (n : Nat) (hn : n ≤ lexFuel s)
    (h : lexToks U n .readExpr s.data = some ts) :
    lex U s = (match ts.getLast? with
      | some last => if last.typ = .tokenError then .error (.lex last.val) else .ok ts
      | none => .ok ts) := by
  have h1 := lexToks_mono U n (lexFuel s) _ _ _ hn h
  simp only [lexToks, Option.map_eq_some'] at h1
  obtain ⟨r, hr, rfl⟩ := h1
  rw [lex, hr]

theorem lexToks_skip1 (U : RuneTables) (n : Nat) (rem : List Char) :
    lexToks U n .readExpr (' ' :: rem) = lexToks U n .readExpr rem :=
  lexToks_skip U n [' '] rem (by decide)

set_option maxHeartbeats 1000000 in
theorem lexToks_before_now_plus (U : RuneTables) (n : Nat) (R : List Char) :
    lexToks U (n + 6) .readDurationNext (" before now +".data ++ R) =
      (lexToks U n .readExpr R).map (fun t =>
        [⟨.tokenBefore, "before"⟩, ⟨.tokenNow, "now"⟩, ⟨.tokenOperatorAdd, "+"⟩] ++ t) := by
  have h : lexRun U (n + 6) .readDurationNext ⟨" before now +".data ++ R, 0, 0, 0, []⟩ =
      lexRun U n .readExpr ⟨" before now +".data ++ R, " before now +".data.length,
        " before now +".data.length, 1,
        [⟨.tokenBefore, "before"⟩, ⟨.tokenNow, "now"⟩, ⟨.tokenOperatorAdd, "+"⟩]⟩ := by
    simp [lexRun, lexStep, readExpr, readDurationNext, readDurationSpace, readDurationSpaceNext,
      readLetter, readFn_eq, peekFn_eq, lexer.peek, lexer.read, lexer.unread, lexer.readRune,
      lexer.readString, lexer.readStringLoop, lexer.ignore, lexer.emit, lexer.emitAs, lexer.value,
      List.takeWhile, List.dropWhile, isTimeRune, isLetter, isDigit, isAsciiDigit, isSpace,
      stringsToLower, toLower, numberWord]
  rw [lexToks, h]
  exact lexRun_cut U n .readExpr _ R _ 1


set_option maxHeartbeats 1000000 in
theorem lexToks_now_plus (U : RuneTables) (n : Nat) (R : List Char) :
    lexToks U (n + 3) .readExpr ("now +".data ++ R) =
      (lexToks U n .readExpr (R)).map (fun t => [⟨.tokenNow, "now"⟩, ⟨.tokenOperatorAdd, "+"⟩] ++ t) := by
  have h : lexRun U (n + 3) .readExpr ⟨"now +".data ++ R, 0, 0, 0, []⟩ =
      lexRun U n .readExpr ⟨"now +".data ++ R, "now +".data.length,
        "now +".data.length, 1, [⟨.tokenNow, "now"⟩, ⟨.tokenOperatorAdd, "+"⟩]⟩ := by
    simp [lexRun, lexStep, readExpr, readDurationNext, readDurationSpace, readDurationSpaceNext,
      readLetter, readFn_eq, peekFn_eq, lexer.peek, lexer.read, lexer.unread, lexer.readRune,
      lexer.readString, lexer.readStringLoop, lexer.ignore, lexer.emit, lexer.emitAs, lexer.value,
      List.takeWhile, List.dropWhile, isTimeRune, isLetter, isDigit, isAsciiDigit, isSpace,
      stringsToLower, toLower, numberWord]
  rw [lexToks, h]
  exact lexRun_cut U n .readExpr _ _ _ 1

set_option maxHeartbeats 1000000 in
theorem lexToks_now_minus (U : RuneTables) (n : Nat) (R : List Char) :
    lexToks U (n + 3) .readExpr ("now -".data ++ R) =
      (lexToks U n .readExpr (R)).map (fun t => [⟨.tokenNow, "now"⟩, ⟨.tokenOperatorSub, "-"⟩] ++ t) := by
  have h : lexRun U (n + 3) .readExpr ⟨"now -".data ++ R, 0, 0, 0, []⟩ =
      lexRun U n .readExpr ⟨"now -".data ++ R, "now -".data.length,
        "now -".data.length, 1, [⟨.tokenNow, "now"⟩, ⟨.tokenOperatorSub, "-"⟩]⟩ := by
    simp [lexRun, lexStep, readExpr, readDurationNext, readDurationSpace, readDurationSpaceNext,
      readLetter, readFn_eq, peekFn_eq, lexer.peek, lexer.read, lexer.unread, lexer.readRune,
      lexer.readString, lexer.readStringLoop, lexer.ignore, lexer.emit, lexer.emitAs, lexer.value,
      List.takeWhile, List.dropWhile, isTimeRune, isLetter, isDigit, isAsciiDigit, isSpace,
      stringsToLower, toLower, numberWord]
  rw [lexToks, h]
  exact lexRun_cut U n .readExpr _ _ _ 1

set_option maxHeartbeats 1000000 in
theorem lexToks_minus (U : RuneTables) (n : Nat) (R : List Char) :
    lexToks U (n + 2) .readDurationNext (" -".data ++ R) =
      (lexToks U n .readExpr (R)).map (fun t => [⟨.tokenOperatorSub, "-"⟩] ++ t) := by
  have h : lexRun U (n + 2) .readDurationNext ⟨" -".data ++ R, 0, 0, 0, []⟩ =
      lexRun U n .readExpr ⟨" -".data ++ R, " -".data.length,
        " -".data.length, 1, [⟨.tokenOperatorSub, "-"⟩]⟩ := by
    simp [lexRun, lexStep, readExpr, readDurationNext, readDurationSpace, readDurationSpaceNext,
      readLetter, readFn_eq, peekFn_eq, lexer.peek, lexer.read, lexer.unread, lexer.readRune,
      lexer.readString, lexer.readStringLoop, lexer.ignore, lexer.emit, lexer.emitAs, lexer.value,
      List.takeWhile, List.dropWhile, isTimeRune, isLetter, isDigit, isAsciiDigit, isSpace,
      stringsToLower, toLower, numberWord]
  rw [lexToks, h]
  exact lexRun_cut U n .readExpr _ _ _ 1

set_option maxHeartbeats 1000000 in
theorem lexToks_from (U : RuneTables) (n : Nat) (R : List Char) :
    lexToks U (n + 3) .readDurationNext (" from".data ++ (' ' :: R)) =
      (lexToks U n .readExpr ((' ' :: R))).map (fun t => [⟨.tokenFrom, "from"⟩] ++ t) := by
  have h : lexRun U (n + 3) .readDurationNext ⟨" from".data ++ (' ' :: R), 0, 0, 0, []⟩ =
      lexRun U n .readExpr ⟨" from".data ++ (' ' :: R), " from".data.length,
        " from".data.length, 1, [⟨.tokenFrom, "from"⟩]⟩ := by
    simp [lexRun, lexStep, readExpr, readDurationNext, readDurationSpace, readDurationSpaceNext,
      readLetter, readFn_eq, peekFn_eq, lexer.peek, lexer.read, lexer.unread, lexer.readRune,
      lexer.readString, lexer.readStringLoop, lexer.ignore, lexer.emit, lexer.emitAs, lexer.value,
      List.takeWhile, List.dropWhile, isTimeRune, isLetter, isDigit, isAsciiDigit, isSpace,
      stringsToLower, toLower, numberWord]
  rw [lexToks, h]
  exact lexRun_cut U n .readExpr _ _ _ 1

theorem lexToks_ago (U : RuneTables) :
    lexToks U 4 .readDurationNext " ago".data = some [⟨.tokenAgo, "ago"⟩] := by
  simp [lexToks, lexRun, lexStep, readExpr, readDurationNext, readDurationSpace, readDurationSpaceNext,
      readLetter, readFn_eq, peekFn_eq, lexer.peek, lexer.read, lexer.unread, lexer.readRune,
      lexer.readString, lexer.readStringLoop, lexer.ignore, lexer.emit, lexer.emitAs, lexer.value,
      List.takeWhile, List.dropWhile, isTimeRune, isLetter, isDigit, isAsciiDigit, isSpace,
      stringsToLower, toLower, numberWord]

theorem lexToks_before_now (U : RuneTables) :
    lexToks U 6 .readDurationNext " before now".data = some [⟨.tokenBefore, "before"⟩, ⟨.tokenNow, "now"⟩] := by
  simp [lexToks, lexRun, lexStep, readExpr, readDurationNext, readDurationSpace, readDurationSpaceNext,
      readLetter, readFn_eq, peekFn_eq, lexer.peek, lexer.read, lexer.unread, lexer.readRune,
      lexer.readString, lexer.readStringLoop, lexer.ignore, lexer.emit, lexer.emitAs, lexer.value,
      List.takeWhile, List.dropWhile, isTimeRune, isLetter, isDigit, isAsciiDigit, isSpace,
      stringsToLower, toLower, numberWord]

theorem lexToks_after_now (U : RuneTables) :
    lexToks U 6 .readDurationNext " after now".data = some [⟨.tokenFrom, "after"⟩, ⟨.tokenNow, "now"⟩] := by
  simp [lexToks, lexRun, lexStep, readExpr, readDurationNext, readDurationSpace, readDurationSpaceNext,
      readLetter, readFn_eq, peekFn_eq, lexer.peek, lexer.read, lexer.unread, lexer.readRune,
      lexer.readString, lexer.readStringLoop, lexer.ignore, lexer.emit, lexer.emitAs, lexer.value,
      List.takeWhile, List.dropWhile, isTimeRune, isLetter, isDigit, isAsciiDigit, isSpace,
      stringsToLower, toLower, numberWord]

theorem lexToks_from_now (U : RuneTables) :
    lexToks U 6 .readDurationNext " from now".data = some [⟨.tokenFrom, "from"⟩, ⟨.tokenNow, "now"⟩] := by
  simp [lexToks, lexRun, lexStep, readExpr, readDurationNext, readDurationSpace, readDurationSpaceNext,
      readLetter, readFn_eq, peekFn_eq, lexer.peek, lexer.read, lexer.unread, lexer.readRune,
      lexer.readString, lexer.readStringLoop, lexer.ignore, lexer.emit, lexer.emitAs, lexer.value,
      List.takeWhile, List.dropWhile, isTimeRune, isLetter, isDigit, isAsciiDigit, isSpace,
      stringsToLower, toLower, numberWord]

theorem lexToks_now (U : RuneTables) :
    lexToks U 3 .readExpr "now".data = some [⟨.tokenNow, "now"⟩] := by
  simp [lexToks, lexRun, lexStep, readExpr, readDurationNext, readDurationSpace, readDurationSpaceNext,
      readLetter, readFn_eq, peekFn_eq, lexer.peek, lexer.read, lexer.unread, lexer.readRune,
      lexer.readString, lexer.readStringLoop, lexer.ignore, lexer.emit, lexer.emitAs, lexer.value,
      List.takeWhile, List.dropWhile, isTimeRune, isLetter, isDigit, isAsciiDigit, isSpace,
      stringsToLower, toLower, numberWord]

theorem lexToks_eof (U : RuneTables) : lexToks U 1 .readDurationNext [] = some [] := by
  simp [lexToks, lexRun, lexStep, readExpr, readDurationNext, readDurationSpace, readDurationSpaceNext,
      readLetter, readFn_eq, peekFn_eq, lexer.peek, lexer.read, lexer.unread, lexer.readRune,
      lexer.readString, lexer.readStringLoop, lexer.ignore, lexer.emit, lexer.emitAs, lexer.value,
      List.takeWhile, List.dropWhile, isTimeRune, isLetter, isDigit, isAsciiDigit, isSpace,
      stringsToLower, toLower, numberWord]

/-! ### A long unit before any rune that ends the word -/

theorem unit_letters : ∀ u ∈ longUnits, (∀ x ∈ u.data, 97 ≤ x.toNat ∧ x.toNat ≤ 122) ∧
    u.data ≠ [] ∧ u ≠ "now" ∧ u ≠ "today" ∧ u ≠ "tomorrow" ∧ u ≠ "yesterday" ∧ u ≠ "midnight" ∧
    u ≠ "noon" ∧ numberWord u = none ∧ u ≠ "am" ∧ u ≠ "pm" := by
  decide

theorem lower_letter (U : RuneTables) (x : Char) (h : 97 ≤ x.toNat ∧ x.toNat ≤ 122) :
    isTimeRune U x = true ∧ isLetter U x = true ∧ isDigit U x = false ∧ isSpace x = false ∧
      toLower U x = x ∧ x ≠ '@' ∧ x ≠ '+' ∧ x ≠ '-' := by
  have h128 : x.toNat < 128 := by omega
  have hl : isLetter U x = true := by
    simp only [isLetter, h128, if_true, Bool.or_eq_true, Bool.and_eq_true, decide_eq_true_eq]
    omega
  refine ⟨?_, hl, ?_, ?_, ?_, ?_, ?_, ?_⟩
  · simp only [isTimeRune, hl]
    split <;> rfl
  · simp only [isDigit, h128, if_true, isAsciiDigit, Bool.and_eq_false_iff, decide_eq_false_iff_not]
    omega
  · simp only [isSpace, Bool.or_eq_false_iff, Bool.and_eq_false_iff, beq_eq_false_iff_ne, ne_eq,
      decide_eq_false_iff_not]
    omega
  · simp only [toLower, h128, if_true]
    rw [if_neg]
    simp only [Bool.and_eq_true, decide_eq_true_eq]
    omega
  all_goals
    rintro rfl
    revert h
    decide

theorem readLetter_unit (U : RuneTables) (u : String) (c : Char) (R : List Char) (w : Nat)
    (hu : u ∈ longUnits) (hc : isTimeRune U c = false) :
    readLetter U ⟨u.data ++ c :: R, 0, 0, w, []⟩ =
      (some .readDurationNext, ⟨u.data ++ c :: R, u.data.length, u.data.length, 1,
        [⟨.tokenUnit, u⟩]⟩) := by
  obtain ⟨hl, hne, n1, n2, n3, n4, n5, n6, n7, n8, n9⟩ := unit_letters u hu
  have hall : ∀ x ∈ u.data, isTimeRune U x = true := fun x hx => (lower_letter U x (hl x hx)).1
  have hlow : stringsToLower U u = u := by
    unfold stringsToLower
    have : u.data.map (toLower U) = u.data := by
      conv_rhs => rw [← List.map_id u.data]
      exact List.map_congr_left (fun x hx => (lower_letter U x (hl x hx)).2.2.2.2.1)
    rw [this]
  have hv : (⟨u.data ++ c :: R, 0, u.data.length, 1, []⟩ : lexer).value = u := by
    simp [lexer.value]
  unfold readLetter
  rw [readFn_eq]
  simp only [List.drop_zero, takeWhile_append_stop (isTimeRune U) u.data c R hall hc,
    dropWhile_append_stop (isTimeRune U) u.data c R hall hc, Nat.zero_add]
  simp only [reduceCtorEq, if_false, hv, hlow, n1, n2, n3, n4, n5, n6, n7, n8, n9, hu, false_or,
    if_true, lexer.emit, lexer.emitAs, List.nil_append]

theorem lexToks_unit_stop (U : RuneTables) (n : Nat) (u : String) (c : Char) (R : List Char)
    (hu : u ∈ longUnits) (hc : isTimeRune U c = false) :
    lexToks U (n + 2) .readExpr (u.data ++ c :: R) =
      (lexToks U n .readDurationNext (c :: R)).map (fun t => ⟨.tokenUnit, u⟩ :: t) := by
  obtain ⟨hl, hne, -⟩ := unit_letters u hu
  obtain ⟨x, xs, hx⟩ := List.exists_cons_of_ne_nil hne
  obtain ⟨-, k2, k3, k4, -, k6, k7, k8⟩ := lower_letter U x (hl x (by rw [hx]; simp))
  have h1 : readExpr U ⟨u.data ++ c :: R, 0, 0, 0, []⟩ =
      (some .readLetter, ⟨u.data ++ c :: R, 0, 0, 1, []⟩) := by
    rw [hx]
    simp [readExpr, readFn_eq, List.takeWhile, List.dropWhile, k2, k3, k4, k6, k7, k8,
      lexer.ignore, lexer.peek, lexer.read, lexer.unread]
  rw [lexToks, lexRun, lexStep, h1]
  simp only [lexRun, lexStep, readLetter_unit U u c R 1 hu hc]
  exact lexRun_cut U n .readDurationNext u.data (c :: R) _ 1

theorem space_not_timeRune (U : RuneTables) : isTimeRune U ' ' = false := by
  simp [isTimeRune, isLetter]

theorem lexToks_unit (U : RuneTables) (n : Nat) (u : String) (r : List Char) (hu : u ∈ longUnits) :
    lexToks U (n + 2) .readExpr (u.data ++ ' ' :: r) =
      (lexToks U n .readDurationNext (' ' :: r)).map (fun t => ⟨.tokenUnit, u⟩ :: t) :=
  lexToks_unit_stop U n u ' ' r hu (space_not_timeRune U)

theorem readLetter_unit_eof (U : RuneTables) (u : String) (w : Nat) (hu : u ∈ longUnits) :
    readLetter U ⟨u.data, 0, 0, w, []⟩ =
      (some .readDurationNext, ⟨u.data, u.data.length, u.data.length, 0, [⟨.tokenUnit, u⟩]⟩) := by
  obtain ⟨hl, hne, n1, n2, n3, n4, n5, n6, n7, n8, n9⟩ := unit_letters u hu
  have hall : ∀ x ∈ u.data, isTimeRune U x = true := fun x hx => (lower_letter U x (hl x hx)).1
  have hlow : stringsToLower U u = u := by
    unfold stringsToLower
    have : u.data.map (toLower U) = u.data := by
      conv_rhs => rw [← List.map_id u.data]
      exact List.map_congr_left (fun x hx => (lower_letter U x (hl x hx)).2.2.2.2.1)
    rw [this]
  have hv : (⟨u.data, 0, u.data.length, 0, []⟩ : lexer).value = u := by
    simp only [lexer.value, List.drop_zero, Nat.sub_zero, List.take_length]
  have ht := takeWhile_append_of_all (isTimeRune U) u.data [] hall
  have hd := dropWhile_append_of_all (isTimeRune U) u.data [] hall
  simp only [List.append_nil, List.takeWhile_nil, List.dropWhile_nil] at ht hd
  unfold readLetter
  rw [readFn_eq]
  simp only [List.drop_zero, ht, hd, Nat.zero_add]
  simp only [reduceCtorEq, if_false, if_true, hv, hlow, n1, n2, n3, n4, n5, n6, n7, n8, n9, hu,
    false_or, lexer.emit, lexer.emitAs, List.nil_append]

theorem lexToks_unit_eof (U : RuneTables) (u : String) (hu : u ∈ longUnits) :
    lexToks U 3 .readExpr u.data = some [⟨.tokenUnit, u⟩] := by
  obtain ⟨hl, hne, -⟩ := unit_letters u hu
  obtain ⟨x, xs, hx⟩ := List.exists_cons_of_ne_nil hne
  obtain ⟨-, k2, k3, k4, -, k6, k7, k8⟩ := lower_letter U x (hl x (by rw [hx]; simp))
  have h1 : readExpr U ⟨u.data, 0, 0, 0, []⟩ = (some .readLetter, ⟨u.data, 0, 0, 1, []⟩) := by
    rw [hx]
    simp [readExpr, readFn_eq, List.takeWhile, List.dropWhile, k2, k3, k4, k6, k7, k8,
      lexer.ignore, lexer.peek, lexer.read, lexer.unread]
  rw [lexToks, lexRun, lexStep, h1]
  simp only [lexRun, lexStep, readLetter_unit_eof U u 1 hu, readDurationNext, lexer.peek,
    lexer.read, List.drop_length]
  rfl

/-! ### The calendar -/

theorem dse_decomp (q a b c : Int) (ha : 0 ≤ a) (ha' : a ≤ 3) (hb : 0 ≤ b) (hb' : b ≤ 24)
    (hc : 0 ≤ c) (hc' : c ≤ 3) :
    daysSinceEpoch (400 * q + 100 * a + 4 * b + c + 1) = 146097 * q + 36524 * a + 1461 * b + 365 * c := by
  simp only [daysSinceEpoch]
  omega

theorem isLeap_decomp (q a b c : Int) (ha : 0 ≤ a) (ha' : a ≤ 3) (hb : 0 ≤ b) (hb' : b ≤ 24)
    (hc : 0 ≤ c) (hc' : c ≤ 3) :
    isLeap (400 * q + 100 * a + 4 * b + c + 1) = true ↔ (c = 3 ∧ (b ≠ 24 ∨ a = 3)) := by
  simp only [isLeap, Bool.and_eq_true, Bool.or_eq_true, beq_iff_eq, bne_iff_ne, ne_eq]
  omega

theorem absYear_decomp (d : Int) : ∃ q a b c r : Int, absYear d = (400 * q + 100 * a + 4 * b + c + 1, r) ∧
    d = 146097 * q + 36524 * a + 1461 * b + 365 * c + r ∧
    0 ≤ a ∧ a ≤ 3 ∧ 0 ≤ b ∧ b ≤ 24 ∧ 0 ≤ c ∧ c ≤ 3 ∧ 0 ≤ r ∧ r ≤ 365 ∧
    (r = 365 → c = 3 ∧ (b ≠ 24 ∨ a = 3)) := by
  refine ⟨d / 146097, _, _, _, _, rfl, ?_⟩
  generalize hq : d / 146097 = q
  generalize hd1 : d - 146097 * q = d1
  have h1 : 0 ≤ d1 ∧ d1 < 146097 := by omega
  generalize ha0 : d1 / 36524 = a0
  generalize ha : a0 - a0 / 4 = a
  have h2 : 0 ≤ a ∧ a ≤ 3 := by omega
  generalize hd2 : d1 - 36524 * a = d2
  have h3 : 0 ≤ d2 ∧ d2 ≤ 36524 ∧ (a < 3 → d2 < 36524) := by omega
  generalize hb : d2 / 1461 = b
  have h4 : 0 ≤ b ∧ b ≤ 24 := by omega
  generalize hd3 : d2 - 1461 * b = d3
  have h5 : 0 ≤ d3 ∧ d3 ≤ 1460 ∧ (b = 24 → a < 3 → d3 < 1460) := by omega
  generalize hc0 : d3 / 365 = c0
  generalize hc : c0 - c0 / 4 = c
  have h6 : 0 ≤ c ∧ c ≤ 3 := by omega
  generalize hd4 : d3 - 365 * c = d4
  have h7 : 0 ≤ d4 ∧ d4 ≤ 365 ∧ (c < 3 → d4 < 365) := by omega
  omega

theorem absYear_spec (d : Int) : daysSinceEpoch (absYear d).1 + (absYear d).2 = d ∧ 0 ≤ (absYear d).2 ∧
    (absYear d).2 < 365 + (if isLeap (absYear d).1 then 1 else 0) := by
  obtain ⟨q, a, b, c, r, he, hd, h1, h2, h3, h4, h5, h6, h7, h8, h9⟩ := absYear_decomp d
  rw [he]
  simp only
  rw [dse_decomp q a b c h1 h2 h3 h4 h5 h6]
  have hl := isLeap_decomp q a b c h1 h2 h3 h4 h5 h6
  refine ⟨by omega, by omega, ?_⟩
  split
  · omega
  · rename_i hn
    rw [hl] at hn
    omega

theorem daysBefore_vals : daysBefore 0 = 0 ∧ daysBefore 1 = 31 ∧ daysBefore 2 = 59 ∧
    daysBefore 3 = 90 ∧ daysBefore 4 = 120 ∧ daysBefore 5 = 151 ∧ daysBefore 6 = 181 ∧
    daysBefore 7 = 212 ∧ daysBefore 8 = 243 ∧ daysBefore 9 = 273 ∧ daysBefore 10 = 304 ∧
    daysBefore 11 = 334 ∧ daysBefore 12 = 365 := by
  decide

theorem monthDayOf_plain (day : Int) :
    monthDayOf false day =
      if day ≥ daysBefore (day / 31 + 1) then (day / 31 + 2, day - daysBefore (day / 31 + 1) + 1)
      else (day / 31 + 1, day - daysBefore (day / 31) + 1) := by
  simp [monthDayOf]

theorem monthDayOf_month (day m : Int) (hm : 1 ≤ m ∧ m ≤ 12) (h0 : daysBefore (m - 1) ≤ day)
    (h1 : day < daysBefore m) : monthDayOf false day = (m, day - daysBefore (m - 1) + 1) := by
  obtain ⟨v0, v1, v2, v3, v4, v5, v6, v7, v8, v9, v10, v11, v12⟩ := daysBefore_vals
  obtain ⟨m1, m2⟩ := hm
  obtain rfl | rfl | rfl | rfl | rfl | rfl | rfl | rfl | rfl | rfl | rfl | rfl :
      m = 1 ∨ m = 2 ∨ m = 3 ∨ m = 4 ∨ m = 5 ∨ m = 6 ∨ m = 7 ∨ m = 8 ∨ m = 9 ∨ m = 10 ∨
        m = 11 ∨ m = 12 := by omega
  · simp only [Int.reduceSub, v0, v1, v2, v3, v4, v5, v6, v7, v8, v9, v10, v11, v12] at h0 h1 ⊢
    rcases (by omega : day / 31 = -1 ∨ day / 31 = 0) with hk | hk <;>
      first
        | omega
        | (rw [monthDayOf_plain, hk]
           simp only [Int.reduceAdd, Int.reduceNeg, v0, v1, v2, v3, v4, v5, v6, v7, v8, v9, v10, v11, v12]
           split <;> first | rfl | omega)
  · simp only [Int.reduceSub, v0, v1, v2, v3, v4, v5, v6, v7, v8, v9, v10, v11, v12] at h0 h1 ⊢
    rcases (by omega : day / 31 = 0 ∨ day / 31 = 1) with hk | hk <;>
      first
        | omega
        | (rw [monthDayOf_plain, hk]
           simp only [Int.reduceAdd, Int.reduceNeg, v0, v1, v2, v3, v4, v5, v6, v7, v8, v9, v10, v11, v12]
           split <;> first | rfl | omega)
  · simp only [Int.reduceSub, v0, v1, v2, v3, v4, v5, v6, v7, v8, v9, v10, v11, v12] at h0 h1 ⊢
    rcases (by omega : day / 31 = 1 ∨ day / 31 = 2) with hk | hk <;>
      first
        | omega
        | (rw [monthDayOf_plain, hk]
           simp only [Int.reduceAdd, Int.reduceNeg, v0, v1, v2, v3, v4, v5, v6, v7, v8, v9, v10, v11, v12]
           split <;> first | rfl | omega)
  · simp only [Int.reduceSub, v0, v1, v2, v3, v4, v5, v6, v7, v8, v9, v10, v11, v12] at h0 h1 ⊢
    rcases (by omega : day / 31 = 2 ∨ day / 31 = 3) with hk | hk <;>
      first
        | omega
        | (rw [monthDayOf_plain, hk]
           simp only [Int.reduceAdd, Int.reduceNeg, v0, v1, v2, v3, v4, v5, v6, v7, v8, v9, v10, v11, v12]
           split <;> first | rfl | omega)
  · simp only [Int.reduceSub, v0, v1, v2, v3, v4, v5, v6, v7, v8, v9, v10, v11, v12] at h0 h1 ⊢
    rcases (by omega : day / 31 = 3 ∨ day / 31 = 4) with hk | hk <;>
      first
        | omega
        | (rw [monthDayOf_plain, hk]
           simp only [Int.reduceAdd, Int.reduceNeg, v0, v1, v2, v3, v4, v5, v6, v7, v8, v9, v10, v11, v12]
           split <;> first | rfl | omega)
  · simp only [Int.reduceSub, v0, v1, v2, v3, v4, v5, v6, v7, v8, v9, v10, v11, v12] at h0 h1 ⊢
    rcases (by omega : day / 31 = 4 ∨ day / 31 = 5) with hk | hk <;>
      first
        | omega
        | (rw [monthDayOf_plain, hk]
           simp only [Int.reduceAdd, Int.reduceNeg, v0, v1, v2, v3, v4, v5, v6, v7, v8, v9, v10, v11, v12]
           split <;> first | rfl | omega)
  · simp only [Int.reduceSub, v0, v1, v2, v3, v4, v5, v6, v7, v8, v9, v10, v11, v12] at h0 h1 ⊢
    rcases (by omega : day / 31 = 5 ∨ day / 31 = 6) with hk | hk <;>
      first
        | omega
        | (rw [monthDayOf_plain, hk]
           simp only [Int.reduceAdd, Int.reduceNeg, v0, v1, v2, v3, v4, v5, v6, v7, v8, v9, v10, v11, v12]
           split <;> first | rfl | omega)
  · simp only [Int.reduceSub, v0, v1, v2, v3, v4, v5, v6, v7, v8, v9, v10, v11, v12] at h0 h1 ⊢
    rcases (by omega : day / 31 = 6 ∨ day / 31 = 7) with hk | hk <;>
      first
        | omega
        | (rw [monthDayOf_plain, hk]
           simp only [Int.reduceAdd, Int.reduceNeg, v0, v1, v2, v3, v4, v5, v6, v7, v8, v9, v10, v11, v12]
           split <;> first | rfl | omega)
  · simp only [Int.reduceSub, v0, v1, v2, v3, v4, v5, v6, v7, v8, v9, v10, v11, v12] at h0 h1 ⊢
    rcases (by omega : day / 31 = 7 ∨ day / 31 = 8) with hk | hk <;>
      first
        | omega
        | (rw [monthDayOf_plain, hk]
           simp only [Int.reduceAdd, Int.reduceNeg, v0, v1, v2, v3, v4, v5, v6, v7, v8, v9, v10, v11, v12]
           split <;> first | rfl | omega)
  · simp only [Int.reduceSub, v0, v1, v2, v3, v4, v5, v6, v7, v8, v9, v10, v11, v12] at h0 h1 ⊢
    rcases (by omega : day / 31 = 8 ∨ day / 31 = 9) with hk | hk <;>
      first
        | omega
        | (rw [monthDayOf_plain, hk]
           simp only [Int.reduceAdd, Int.reduceNeg, v0, v1, v2, v3, v4, v5, v6, v7, v8, v9, v10, v11, v12]
           split <;> first | rfl | omega)
  · simp only [Int.reduceSub, v0, v1, v2, v3, v4, v5, v6, v7, v8, v9, v10, v11, v12] at h0 h1 ⊢
    rcases (by omega : day / 31 = 9 ∨ day / 31 = 10) with hk | hk <;>
      first
        | omega
        | (rw [monthDayOf_plain, hk]
           simp only [Int.reduceAdd, Int.reduceNeg, v0, v1, v2, v3, v4, v5, v6, v7, v8, v9, v10, v11, v12]
           split <;> first | rfl | omega)
  · simp only [Int.reduceSub, v0, v1, v2, v3, v4, v5, v6, v7, v8, v9, v10, v11, v12] at h0 h1 ⊢
    rcases (by omega : day / 31 = 10 ∨ day / 31 = 11) with hk | hk <;>
      first
        | omega
        | (rw [monthDayOf_plain, hk]
           simp only [Int.reduceAdd, Int.reduceNeg, v0, v1, v2, v3, v4, v5, v6, v7, v8, v9, v10, v11, v12]
           split <;> first | rfl | omega)

theorem month_exists (day : Int) (h0 : 0 ≤ day) (h1 : day < 365) :
    ∃ m : Int, 1 ≤ m ∧ m ≤ 12 ∧ daysBefore (m - 1) ≤ day ∧ day < daysBefore m ∧
      daysBefore m - daysBefore (m - 1) ≤ 31 ∧ (m ≤ 2 ∨ 59 ≤ day) ∧ (3 ≤ m ∨ day < 59) ∧
      (m ≠ 2 ∨ daysBefore m - daysBefore (m - 1) = 28) := by
  obtain ⟨v0, v1, v2, v3, v4, v5, v6, v7, v8, v9, v10, v11, v12⟩ := daysBefore_vals
  rcases (by omega : (0 ≤ day ∧ day < 31) ∨
      (31 ≤ day ∧ day < 59) ∨
      (59 ≤ day ∧ day < 90) ∨
      (90 ≤ day ∧ day < 120) ∨
      (120 ≤ day ∧ day < 151) ∨
      (151 ≤ day ∧ day < 181) ∨
      (181 ≤ day ∧ day < 212) ∨
      (212 ≤ day ∧ day < 243) ∨
      (243 ≤ day ∧ day < 273) ∨
      (273 ≤ day ∧ day < 304) ∨
      (304 ≤ day ∧ day < 334) ∨
      (334 ≤ day ∧ day < 365)) with
    h | h | h | h | h | h | h | h | h | h | h | h
  · refine ⟨1, by omega, by omega, ?_, ?_, ?_, ?_, ?_, ?_⟩ <;>
      first | omega | (simp only [Int.reduceSub, v0, v1, v2, v3, v4, v5, v6, v7, v8, v9, v10, v11, v12]; omega)
  · refine ⟨2, by omega, by omega, ?_, ?_, ?_, ?_, ?_, ?_⟩ <;>
      first | omega | (simp only [Int.reduceSub, v0, v1, v2, v3, v4, v5, v6, v7, v8, v9, v10, v11, v12]; first | omega | simp)
  · refine ⟨3, by omega, by omega, ?_, ?_, ?_, ?_, ?_, ?_⟩ <;>
      first | omega | (simp only [Int.reduceSub, v0, v1, v2, v3, v4, v5, v6, v7, v8, v9, v10, v11, v12]; omega)
  · refine ⟨4, by omega, by omega, ?_, ?_, ?_, ?_, ?_, ?_⟩ <;>
      first | omega | (simp only [Int.reduceSub, v0, v1, v2, v3, v4, v5, v6, v7, v8, v9, v10, v11, v12]; omega)
  · refine ⟨5, by omega, by omega, ?_, ?_, ?_, ?_, ?_, ?_⟩ <;>
      first | omega | (simp only [Int.reduceSub, v0, v1, v2, v3, v4, v5, v6, v7, v8, v9, v10, v11, v12]; omega)
  · refine ⟨6, by omega, by omega, ?_, ?_, ?_, ?_, ?_, ?_⟩ <;>
      first | omega | (simp only [Int.reduceSub, v0, v1, v2, v3, v4, v5, v6, v7, v8, v9, v10, v11, v12]; omega)
  · refine ⟨7, by omega, by omega, ?_, ?_, ?_, ?_, ?_, ?_⟩ <;>
      first | omega | (simp only [Int.reduceSub, v0, v1, v2, v3, v4, v5, v6, v7, v8, v9, v10, v11, v12]; omega)
  · refine ⟨8, by omega, by omega, ?_, ?_, ?_, ?_, ?_, ?_⟩ <;>
      first | omega | (simp only [Int.reduceSub, v0, v1, v2, v3, v4, v5, v6, v7, v8, v9, v10, v11, v12]; omega)
  · refine ⟨9, by omega, by omega, ?_, ?_, ?_, ?_, ?_, ?_⟩ <;>
      first | omega | (simp only [Int.reduceSub, v0, v1, v2, v3, v4, v5, v6, v7, v8, v9, v10, v11, v12]; omega)
  · refine ⟨10, by omega, by omega, ?_, ?_, ?_, ?_, ?_, ?_⟩ <;>
      first | omega | (simp only [Int.reduceSub, v0, v1, v2, v3, v4, v5, v6, v7, v8, v9, v10, v11, v12]; omega)
  · refine ⟨11, by omega, by omega, ?_, ?_, ?_, ?_, ?_, ?_⟩ <;>
      first | omega | (simp only [Int.reduceSub, v0, v1, v2, v3, v4, v5, v6, v7, v8, v9, v10, v11, v12]; omega)
  · refine ⟨12, by omega, by omega, ?_, ?_, ?_, ?_, ?_, ?_⟩ <;>
      first | omega | (simp only [Int.reduceSub, v0, v1, v2, v3, v4, v5, v6, v7, v8, v9, v10, v11, v12]; omega)

theorem monthDayOf_leap (n : Int) :
    (n = 59 → monthDayOf true n = (2, 29)) ∧ (n < 59 → monthDayOf true n = monthDayOf false n) ∧
      (59 < n → monthDayOf true n = monthDayOf false (n - 1)) := by
  simp only [monthDayOf, Bool.true_and, Bool.false_and, decide_eq_true_eq, Bool.false_eq_true,
    if_false]
  refine ⟨?_, ?_, ?_⟩ <;> intro h
  · rw [if_pos h]
  · simp only [if_neg (show ¬ n = 59 by omega), if_neg (show ¬ n > 59 by omega)]
  · simp only [if_neg (show ¬ n = 59 by omega), if_pos (show n > 59 from h)]

theorem monthDayOf_spec (leap : Bool) (n : Int) (h0 : 0 ≤ n)
    (h1 : n < 365 + (if leap then 1 else 0)) :
    1 ≤ (monthDayOf leap n).1 ∧ (monthDayOf leap n).1 ≤ 12 ∧ 1 ≤ (monthDayOf leap n).2 ∧
      (monthDayOf leap n).2 ≤ 31 ∧ (monthDayOf leap n).2 ≤ daysInOf leap (monthDayOf leap n).1 ∧
      daysBefore ((monthDayOf leap n).1 - 1) +
        (if leap && decide ((monthDayOf leap n).1 ≥ 3) then 1 else 0) +
          ((monthDayOf leap n).2 - 1) = n := by
  obtain ⟨l1, l2, l3⟩ := monthDayOf_leap n
  cases leap
  · simp only [Bool.false_eq_true, if_false, Int.add_zero] at h1
    obtain ⟨m, m1, m2, a, b, c, -, -, -⟩ := month_exists n h0 h1
    rw [monthDayOf_month n m ⟨m1, m2⟩ a b]
    simp only [daysInOf, Bool.false_eq_true, and_false, if_false, Bool.false_and, Int.add_zero]
    omega
  · simp only [if_true] at h1
    rcases (by omega : n = 59 ∨ n < 59 ∨ 59 < n) with h | h | h
    · rw [l1 h]
      subst h
      decide
    · rw [l2 h]
      obtain ⟨m, m1, m2, a, b, c, d, d', e⟩ := month_exists n h0 (by omega)
      rw [monthDayOf_month n m ⟨m1, m2⟩ a b]
      have hm : ¬ m ≥ 3 := by omega
      simp only [daysInOf, hm, decide_False, Bool.and_false, Bool.false_eq_true, if_false,
        Int.add_zero, and_true]
      refine ⟨m1, m2, by omega, by omega, ?_, by omega⟩
      split
      · omega
      · omega
    · rw [l3 h]
      obtain ⟨m, m1, m2, a, b, c, d, d', e⟩ := month_exists (n - 1) (by omega) (by omega)
      rw [monthDayOf_month (n - 1) m ⟨m1, m2⟩ a b]
      have hm : m ≥ 3 := by omega
      have hm2 : ¬ m = 2 := by omega
      simp only [daysInOf, hm, hm2, decide_True, Bool.and_true, if_true, false_and, if_false]
      omega

theorem monthDayOf_inv (leap : Bool) (m d : Int) (hm : 1 ≤ m ∧ m ≤ 12)
    (hd : 1 ≤ d ∧ d ≤ daysInOf leap m) :
    monthDayOf leap (daysBefore (m - 1) + (if leap && decide (m ≥ 3) then 1 else 0) + (d - 1)) =
      (m, d) := by
  obtain ⟨m1, m2⟩ := hm
  obtain ⟨d1, d2⟩ := hd
  have hmono : daysBefore (m - 1) < daysBefore m ∧ 0 ≤ daysBefore (m - 1) ∧
      daysBefore m ≤ 365 ∧ (m = 2 → daysBefore 1 = 31 ∧ daysBefore 2 = 59) ∧
      (m ≥ 3 → 59 ≤ daysBefore (m - 1)) ∧ (m < 3 → daysBefore m ≤ 59) := by
    obtain ⟨v0, v1, v2, v3, v4, v5, v6, v7, v8, v9, v10, v11, v12⟩ := daysBefore_vals
    obtain rfl | rfl | rfl | rfl | rfl | rfl | rfl | rfl | rfl | rfl | rfl | rfl :
        m = 1 ∨ m = 2 ∨ m = 3 ∨ m = 4 ∨ m = 5 ∨ m = 6 ∨ m = 7 ∨ m = 8 ∨ m = 9 ∨ m = 10 ∨
          m = 11 ∨ m = 12 := by omega
    all_goals
      simp only [Int.reduceSub, v0, v1, v2, v3, v4, v5, v6, v7, v8, v9, v10, v11, v12]
      simp
  obtain ⟨k1, k2, k3, k4, k5, k6⟩ := hmono
  obtain ⟨l1, l2, l3⟩ := monthDayOf_leap
    (daysBefore (m - 1) + (if leap && decide (m ≥ 3) then 1 else 0) + (d - 1))
  cases leap
  · simp only [daysInOf, Bool.false_eq_true, and_false, if_false] at d2
    simp only [Bool.false_and, Bool.false_eq_true, if_false, Int.add_zero]
    rw [monthDayOf_month _ m ⟨m1, m2⟩ (by omega) (by omega)]
    simp only [Prod.mk.injEq, true_and]
    omega
  · by_cases h3 : m ≥ 3
    · have hm2 : ¬ m = 2 := by omega
      simp only [daysInOf, hm2, false_and, if_false] at d2
      simp only [h3, decide_True, Bool.and_true, if_true] at l3 ⊢
      rw [l3 (by have := k5 h3; omega),
        monthDayOf_month _ m ⟨m1, m2⟩ (by omega) (by omega)]
      simp only [Prod.mk.injEq, true_and]
      omega
    · simp only [h3, decide_False, Bool.and_false, Bool.false_eq_true, if_false,
        Int.add_zero] at l1 l2 ⊢
      by_cases h59 : daysBefore (m - 1) + (d - 1) = 59
      · have hm2 : m = 2 := by
          by_contra hne
          have hm1 : m = 1 := by omega
          subst hm1
          have := k6 (by omega)
          simp only [daysInOf] at d2
          omega
        subst hm2
        obtain ⟨e1, e2⟩ := k4 rfl
        rw [l1 h59]
        simp only [Int.reduceSub, e1] at h59
        simp only [Prod.mk.injEq, true_and]
        omega
      · have hlt : daysBefore (m - 1) + (d - 1) < 59 := by
          have := k6 (by omega)
          simp only [daysInOf] at d2
          split at d2
          · rename_i h2
            obtain ⟨e1, e2⟩ := k4 h2.1
            rw [h2.1] at h59 ⊢
            simp only [Int.reduceSub, e1] at h59 ⊢
            omega
          · omega
        rw [l2 hlt]
        by_cases hm2 : m = 2
        · subst hm2
          obtain ⟨e1, e2⟩ := k4 rfl
          simp only [Int.reduceSub, e1] at hlt ⊢
          rw [monthDayOf_month _ 2 ⟨by omega, by omega⟩ (by simp only [Int.reduceSub, e1]; omega)
            (by rw [e2]; omega)]
          simp only [Int.reduceSub, e1, Prod.mk.injEq, true_and]
          omega
        · simp only [daysInOf, hm2, false_and, if_false] at d2
          rw [monthDayOf_month _ m ⟨m1, m2⟩ (by omega) (by omega)]
          simp only [Prod.mk.injEq, true_and]
          omega

theorem monthDay_spec (year yday : Int) (h0 : 0 ≤ yday)
    (h1 : yday < 365 + (if isLeap year then 1 else 0)) :
    1 ≤ (monthDay year yday).1 ∧ (monthDay year yday).1 ≤ 12 ∧ 1 ≤ (monthDay year yday).2 ∧
      (monthDay year yday).2 ≤ 31 ∧
      daysBefore ((monthDay year yday).1 - 1) +
        (if isLeap year && (monthDay year yday).1 ≥ 3 then 1 else 0) + ((monthDay year yday).2 - 1) = yday := by
  obtain ⟨a, b, c, d, -, e⟩ := monthDayOf_spec (isLeap year) yday h0 h1
  exact ⟨a, b, c, d, e⟩

theorem civil_spec (D : Int) : 1 ≤ (civil D).2.1 ∧ (civil D).2.1 ≤ 12 ∧ 1 ≤ (civil D).2.2 ∧
    (civil D).2.2 ≤ 31 ∧
    daysSinceEpoch (civil D).1 + daysBefore ((civil D).2.1 - 1) +
      (if isLeap (civil D).1 && (civil D).2.1 ≥ 3 then 1 else 0) + ((civil D).2.2 - 1) = D := by
  obtain ⟨h1, h2, h3⟩ := absYear_spec D
  obtain ⟨a, b, c, d, e⟩ := monthDay_spec (absYear D).1 (absYear D).2 h2 h3
  have hc : civil D = ((absYear D).1, (monthDay (absYear D).1 (absYear D).2).1,
      (monthDay (absYear D).1 (absYear D).2).2) := rfl
  rw [hc]
  refine ⟨a, b, c, d, ?_⟩
  simp only
  omega

theorem norm_id (hi lo base : Int) (h0 : 0 ≤ lo) (h1 : lo < base) : norm hi lo base = (hi, lo) := by
  unfold norm
  simp only [if_neg (show ¬ lo < 0 by omega), if_neg (show ¬ lo ≥ base by omega)]

theorem lookup_fixed (loc : Location) (h : loc.tx = []) (s : Int) : loc.lookup s = (loc.base, none, none) := by
  simp [Location.lookup, h, lookupAux]

theorem Date_fixed (loc : Location) (h : loc.tx = []) (y m d H M S ns : Int)
    (hm : 1 ≤ m ∧ m ≤ 12) (hH : 0 ≤ H ∧ H < 24) (hM : 0 ≤ M ∧ M < 60) (hS : 0 ≤ S ∧ S < 60)
    (hn : 0 ≤ ns ∧ ns < 1000000000) :
    Date y m d H M S ns loc =
      ⟨(daysSinceEpoch y + daysBefore (m - 1) + (if isLeap y && m ≥ 3 then 1 else 0) + (d - 1)) * 86400 +
        (H * 3600 + M * 60 + S) - 62135596800 - loc.base, ns, loc⟩ := by
  have n1 := norm_id y (m - 1) 12 (by omega) (by omega)
  have n2 := norm_id S ns 1000000000 hn.1 hn.2
  have n3 := norm_id M S 60 hS.1 hS.2
  have n4 := norm_id H M 60 hM.1 hM.2
  have n5 := norm_id d H 24 hH.1 hH.2
  unfold Date
  simp only [n1, n2, n3, n4, n5, lookup_fixed loc h, unixToInternal, Int.sub_add_cancel]
  by_cases hb : loc.base = 0
  · simp [hb]
  · simp [hb]

theorem abs_fixed (t : Time) (h : t.loc.tx = []) : t.abs = t.sec + t.loc.base + 62135596800 := by
  simp [Time.abs, lookup_fixed t.loc h, unixToInternal]

theorem AddDate_days_fixed (t : Time) (h : t.loc.tx = []) (hv : 0 ≤ t.nsec ∧ t.nsec < 1000000000)
    (n : Int) : t.AddDate 0 0 n = ⟨t.sec + 86400 * n, t.nsec, t.loc⟩ := by
  obtain ⟨a, b, c, d, e⟩ := civil_spec (t.abs / 86400)
  have hA : t.AddDate 0 0 n = Date ((civil (t.abs / 86400)).1 + 0) ((civil (t.abs / 86400)).2.1 + 0)
      ((civil (t.abs / 86400)).2.2 + n) (t.abs % 86400 / 3600) (t.abs % 86400 % 3600 / 60)
      (t.abs % 86400 % 60) t.nsec t.loc := rfl
  rw [hA, Int.add_zero, Int.add_zero, Date_fixed t.loc h _ _ _ _ _ _ _ ⟨a, b⟩ (by omega) (by omega) (by omega) hv]
  have ha := abs_fixed t h
  congr 1
  omega

/-! ### Counts -/

theorem digitsValue_count : ∀ (ds : List Char) (acc : Nat), (∀ c ∈ ds, isAsciiDigit c = true) →
    digitsValue ds acc = some (ds.foldl (fun a c => 10 * a + (c.toNat - 48)) acc)
  | [], _, _ => rfl
  | c :: cs, acc, h => by
    have hc : isAsciiDigit c = true := h c (List.mem_cons_self _ _)
    simp only [digitsValue, hc, if_true, List.foldl_cons]
    exact digitsValue_count cs _ (fun x hx => h x (List.mem_cons_of_mem _ hx))

theorem Atoi_count (ds : List Char) (h : isCount ds) :
    Atoi (String.mk ds) = if (countValue ds : Int) ≤ maxInt64 then .ok (countValue ds)
      else .error (.num (String.mk ds) true) := by
  obtain ⟨hne, hd⟩ := h
  obtain ⟨c, cs, rfl⟩ : ∃ c cs, ds = c :: cs := by
    cases ds with
    | nil => exact absurd rfl hne
    | cons c cs => exact ⟨c, cs, rfl⟩
  have hc : isAsciiDigit c = true := hd c (List.mem_cons_self _ _)
  have h1 : c ≠ '-' := by rintro rfl; exact absurd hc (by decide)
  have h2 : c ≠ '+' := by rintro rfl; exact absurd hc (by decide)
  have hv := digitsValue_count (c :: cs) 0 hd
  have hb : splitSign (c :: cs) = (c :: cs, false) := by
    unfold splitSign
    split
    · rename_i x heq; exact absurd (List.cons.inj heq).1 h1
    · rename_i x heq; exact absurd (List.cons.inj heq).1 h2
    · rfl
  unfold Atoi
  simp only [hb, hv, Bool.false_eq_true, if_false, countValue, maxInt64]
  generalize List.foldl (fun acc c => 10 * acc + (c.toNat - 48)) 0 (c :: cs) = v
  by_cases hle : (v : Int) ≤ 9223372036854775807
  · rw [if_pos hle, if_neg (by omega)]
  · rw [if_neg hle, if_pos (by omega)]

/-! ### From the tokens to the result -/

theorem ParseNow_of_lex (U : RuneTables) (s : String) (now : Time) (ts : List token)
    (h : lex U s = .ok ts) (hne : ts ≠ []) :
    ParseNow U s now =
      (match parseRun U ⟨ts, now⟩ (parseFuel ts) .parseExpr ⟨0, [], Time.zero, false, false, false⟩ with
        | none => .error .fuel
        | some (some e, _) => .error e
        | some (none, p) => .ok (p.lhs.foldl (fun t fn => fn.apply t p.sub) p.rhs)) := by
  unfold ParseNow
  rw [h]
  simp only []
  rw [if_neg (by simpa using hne)]

theorem lexToks_nil (U : RuneTables) : lexToks U 1 .readExpr [] = some [] := by
  simp [lexToks, lexRun, lexStep, readExpr, readFn_eq, lexer.peek, lexer.read, lexer.unread,
    lexer.ignore]

/-- C1: for every reference instant and every input that is empty or made of white space
only, `ParseNow` returns the reference instant itself, with no error. -/
theorem ParseNow_blank (U : RuneTables) (s : String) (now : Time)
    (h : ∀ c ∈ s.data, isSpace c = true) : ParseNow U s now = .ok now := by
  have h1 : lexToks U 1 .readExpr s.data = some [] := by
    have := lexToks_skip U 1 s.data [] h
    rw [List.append_nil] at this
    rw [this, lexToks_nil]
  have h2 := lex_of_toks U s [] 1 (by simp [lexFuel]) h1
  unfold ParseNow
  rw [h2]
  rfl

theorem ParseNow_blank_witness :
    (∀ c ∈ (" \t\n " : String).data, isSpace c = true) ∧
      ParseNow asciiTables " \t\n " (refNow MST) = .ok (refNow MST) :=
  ⟨by decide, ParseNow_blank asciiTables " \t\n " (refNow MST) (by decide)⟩

/-! ### Tokens of the duration phrases -/

set_option maxHeartbeats 1000000 in
theorem lexToks_and (U : RuneTables) (n : Nat) (R : List Char) :
    lexToks U (n + 3) .readDurationNext (" and".data ++ (' ' :: R)) =
      (lexToks U n .readExpr ((' ' :: R))).map (fun t => [⟨.tokenOperatorAdd, "and"⟩] ++ t) := by
  have h : lexRun U (n + 3) .readDurationNext ⟨" and".data ++ (' ' :: R), 0, 0, 0, []⟩ =
      lexRun U n .readExpr ⟨" and".data ++ (' ' :: R), " and".data.length,
        " and".data.length, 1, [⟨.tokenOperatorAdd, "and"⟩]⟩ := by
    simp [lexRun, lexStep, readExpr, readDurationNext, readDurationSpace, readDurationSpaceNext,
      readLetter, readFn_eq, peekFn_eq, lexer.peek, lexer.read, lexer.unread, lexer.readRune,
      lexer.readString, lexer.readStringLoop, lexer.ignore, lexer.emit, lexer.emitAs, lexer.value,
      List.takeWhile, List.dropWhile, isTimeRune, isLetter, isDigit, isAsciiDigit, isSpace,
      stringsToLower, toLower, numberWord]
  rw [lexToks, h]
  exact lexRun_cut U n .readExpr _ _ _ 1

set_option maxHeartbeats 1000000 in
theorem lexToks_amp (U : RuneTables) (n : Nat) (R : List Char) :
    lexToks U (n + 2) .readDurationNext (" &".data ++ R) =
      (lexToks U n .readExpr R).map (fun t => [⟨.tokenOperatorAdd, "&"⟩] ++ t) := by
  have h : lexRun U (n + 2) .readDurationNext ⟨" &".data ++ R, 0, 0, 0, []⟩ =
      lexRun U n .readExpr ⟨" &".data ++ R, " &".data.length,
        " &".data.length, 1, [⟨.tokenOperatorAdd, "&"⟩]⟩ := by
    simp [lexRun, lexStep, readExpr, readDurationNext, readDurationSpace, readDurationSpaceNext,
      readLetter, readFn_eq, peekFn_eq, lexer.peek, lexer.read, lexer.unread, lexer.readRune,
      lexer.readString, lexer.readStringLoop, lexer.ignore, lexer.emit, lexer.emitAs, lexer.value,
      List.takeWhile, List.dropWhile, isTimeRune, isLetter, isDigit, isAsciiDigit, isSpace,
      stringsToLower, toLower, numberWord]
  rw [lexToks, h]
  exact lexRun_cut U n .readExpr _ _ _ 1

set_option maxHeartbeats 1000000 in
theorem lexToks_plus (U : RuneTables) (n : Nat) (R : List Char) :
    lexToks U (n + 2) .readDurationNext (" +".data ++ R) =
      (lexToks U n .readExpr R).map (fun t => [⟨.tokenOperatorAdd, "+"⟩] ++ t) := by
  have h : lexRun U (n + 2) .readDurationNext ⟨" +".data ++ R, 0, 0, 0, []⟩ =
      lexRun U n .readExpr ⟨" +".data ++ R, " +".data.length,
        " +".data.length, 1, [⟨.tokenOperatorAdd, "+"⟩]⟩ := by
    simp [lexRun, lexStep, readExpr, readDurationNext, readDurationSpace, readDurationSpaceNext,
      readLetter, readFn_eq, peekFn_eq, lexer.peek, lexer.read, lexer.unread, lexer.readRune,
      lexer.readString, lexer.readStringLoop, lexer.ignore, lexer.emit, lexer.emitAs, lexer.value,
      List.takeWhile, List.dropWhile, isTimeRune, isLetter, isDigit, isAsciiDigit, isSpace,
      stringsToLower, toLower, numberWord]
  rw [lexToks, h]
  exact lexRun_cut U n .readExpr _ _ _ 1

theorem lexToks_space_digit (U : RuneTables) (n : Nat) (d : Char) (R : List Char)
    (hd : isAsciiDigit d = true) :
    lexToks U (n + 2) .readDurationNext (' ' :: d :: R) =
      (lexToks U n .readExpr (d :: R)).map (fun t => [⟨.tokenOperatorAdd, " "⟩] ++ t) := by
  obtain ⟨h1, h2, h3, h4, h5⟩ := asciiDigit_facts U d hd
  have h6 : d ≠ '&' := by rintro rfl; exact absurd hd (by decide)
  have h : lexRun U (n + 2) .readDurationNext ⟨[' '] ++ d :: R, 0, 0, 0, []⟩ =
      lexRun U n .readExpr ⟨[' '] ++ d :: R, [' '].length, [' '].length, 1,
        [⟨.tokenOperatorAdd, " "⟩]⟩ := by
    simp [lexRun, lexStep, readDurationNext, readDurationSpace, readFn_eq, lexer.peek, lexer.read,
      lexer.unread, lexer.ignore, lexer.emit, lexer.emitAs, lexer.value, List.takeWhile,
      List.dropWhile, h1, h2, h4, h5, h6, show isSpace ' ' = true from rfl]
  rw [lexToks]
  have := lexRun_cut U n .readExpr [' '] (d :: R) [⟨.tokenOperatorAdd, " "⟩] 1
  simp only [List.singleton_append] at h this
  rw [h, this]
  rfl

theorem lexToks_before (U : RuneTables) :
    lexToks U 4 .readDurationNext " before".data = some [⟨.tokenBefore, "before"⟩] := by
  simp [lexToks, lexRun, lexStep, readExpr, readDurationNext, readDurationSpace, readDurationSpaceNext,
      readLetter, readFn_eq, peekFn_eq, lexer.peek, lexer.read, lexer.unread, lexer.readRune,
      lexer.readString, lexer.readStringLoop, lexer.ignore, lexer.emit, lexer.emitAs, lexer.value,
      List.takeWhile, List.dropWhile, isTimeRune, isLetter, isDigit, isAsciiDigit, isSpace,
      stringsToLower, toLower, numberWord]

theorem lexToks_after (U : RuneTables) :
    lexToks U 4 .readDurationNext " after".data = some [⟨.tokenFrom, "after"⟩] := by
  simp [lexToks, lexRun, lexStep, readExpr, readDurationNext, readDurationSpace, readDurationSpaceNext,
      readLetter, readFn_eq, peekFn_eq, lexer.peek, lexer.read, lexer.unread, lexer.readRune,
      lexer.readString, lexer.readStringLoop, lexer.ignore, lexer.emit, lexer.emitAs, lexer.value,
      List.takeWhile, List.dropWhile, isTimeRune, isLetter, isDigit, isAsciiDigit, isSpace,
      stringsToLower, toLower, numberWord]

theorem lexToks_from_eof (U : RuneTables) :
    lexToks U 4 .readDurationNext " from".data = some [⟨.tokenFrom, "from"⟩] := by
  simp [lexToks, lexRun, lexStep, readExpr, readDurationNext, readDurationSpace, readDurationSpaceNext,
      readLetter, readFn_eq, peekFn_eq, lexer.peek, lexer.read, lexer.unread, lexer.readRune,
      lexer.readString, lexer.readStringLoop, lexer.ignore, lexer.emit, lexer.emitAs, lexer.value,
      List.takeWhile, List.dropWhile, isTimeRune, isLetter, isDigit, isAsciiDigit, isSpace,
      stringsToLower, toLower, numberWord]

theorem lexToks_term (U : RuneTables) (n : Nat) (ds : List Char) (u : String) (R : List Char)
    (hd : isCount ds) (hu : u ∈ longUnits) :
    lexToks U (n + 4) .readExpr (ds ++ ' ' :: (u.data ++ ' ' :: R)) =
      (lexToks U n .readDurationNext (' ' :: R)).map
        (fun t => ⟨.tokenDigit, String.mk ds⟩ :: ⟨.tokenUnit, u⟩ :: t) := by
  rw [lexToks_digits U (n + 2) ds _ hd.1 hd.2, lexToks_skip1, lexToks_unit U n u _ hu,
    Option.map_map]
  rfl

theorem lexToks_term_eof (U : RuneTables) (ds : List Char) (u : String)
    (hd : isCount ds) (hu : u ∈ longUnits) :
    lexToks U 5 .readExpr (ds ++ ' ' :: u.data) =
      some [⟨.tokenDigit, String.mk ds⟩, ⟨.tokenUnit, u⟩] := by
  rw [lexToks_digits U 3 ds _ hd.1 hd.2, lexToks_skip1, lexToks_unit_eof U u hu]
  rfl

/-! ### Tokens of the phrases -/

theorem lex_term_ago (U : RuneTables) (ds : List Char) (u : String) (hd : isCount ds)
    (hu : u ∈ longUnits) :
    lex U (term ds u ++ " ago") =
      .ok [⟨.tokenDigit, String.mk ds⟩, ⟨.tokenUnit, u⟩, ⟨.tokenAgo, "ago"⟩] := by
  have e : (term ds u ++ " ago").data = ds ++ ' ' :: (u.data ++ ' ' :: "ago".data) := by
    simp [term, String.data_append]
  have h : lexToks U 8 .readExpr (term ds u ++ " ago").data =
      some [⟨.tokenDigit, String.mk ds⟩, ⟨.tokenUnit, u⟩, ⟨.tokenAgo, "ago"⟩] := by
    rw [e, lexToks_term U 4 ds u _ hd hu]
    exact congrArg _ (lexToks_ago U)
  rw [lex_of_toks U _ _ 8 (by simp [lexFuel]; omega) h]
  rfl

theorem lex_term_before_now (U : RuneTables) (ds : List Char) (u : String) (hd : isCount ds)
    (hu : u ∈ longUnits) :
    lex U (term ds u ++ " before now") =
      .ok [⟨.tokenDigit, String.mk ds⟩, ⟨.tokenUnit, u⟩, ⟨.tokenBefore, "before"⟩,
        ⟨.tokenNow, "now"⟩] := by
  have e : (term ds u ++ " before now").data =
      ds ++ ' ' :: (u.data ++ ' ' :: "before now".data) := by
    simp [term, String.data_append]
  have h : lexToks U 10 .readExpr (term ds u ++ " before now").data =
      some [⟨.tokenDigit, String.mk ds⟩, ⟨.tokenUnit, u⟩, ⟨.tokenBefore, "before"⟩,
        ⟨.tokenNow, "now"⟩] := by
    rw [e, lexToks_term U 6 ds u _ hd hu]
    exact congrArg _ (lexToks_before_now U)
  rw [lex_of_toks U _ _ 10 (by simp [lexFuel]; omega) h]
  rfl

theorem lex_term_after_now (U : RuneTables) (ds : List Char) (u : String) (hd : isCount ds)
    (hu : u ∈ longUnits) :
    lex U (term ds u ++ " after now") =
      .ok [⟨.tokenDigit, String.mk ds⟩, ⟨.tokenUnit, u⟩, ⟨.tokenFrom, "after"⟩,
        ⟨.tokenNow, "now"⟩] := by
  have e : (term ds u ++ " after now").data =
      ds ++ ' ' :: (u.data ++ ' ' :: "after now".data) := by
    simp [term, String.data_append]
  have h : lexToks U 10 .readExpr (term ds u ++ " after now").data =
      some [⟨.tokenDigit, String.mk ds⟩, ⟨.tokenUnit, u⟩, ⟨.tokenFrom, "after"⟩,
        ⟨.tokenNow, "now"⟩] := by
    rw [e, lexToks_term U 6 ds u _ hd hu]
    exact congrArg _ (lexToks_after_now U)
  rw [lex_of_toks U _ _ 10 (by simp [lexFuel]; omega) h]
  rfl

theorem lex_term_from_now (U : RuneTables) (ds : List Char) (u : String) (hd : isCount ds)
    (hu : u ∈ longUnits) :
    lex U (term ds u ++ " from now") =
      .ok [⟨.tokenDigit, String.mk ds⟩, ⟨.tokenUnit, u⟩, ⟨.tokenFrom, "from"⟩,
        ⟨.tokenNow, "now"⟩] := by
  have e : (term ds u ++ " from now").data =
      ds ++ ' ' :: (u.data ++ ' ' :: "from now".data) := by
    simp [term, String.data_append]
  have h : lexToks U 10 .readExpr (term ds u ++ " from now").data =
      some [⟨.tokenDigit, String.mk ds⟩, ⟨.tokenUnit, u⟩, ⟨.tokenFrom, "from"⟩,
        ⟨.tokenNow, "now"⟩] := by
    rw [e, lexToks_term U 6 ds u _ hd hu]
    exact congrArg _ (lexToks_from_now U)
  rw [lex_of_toks U _ _ 10 (by simp [lexFuel]; omega) h]
  rfl

theorem lex_term (U : RuneTables) (ds : List Char) (u : String) (hd : isCount ds)
    (hu : u ∈ longUnits) :
    lex U (term ds u) = .ok [⟨.tokenDigit, String.mk ds⟩, ⟨.tokenUnit, u⟩] := by
  have e : (term ds u).data = ds ++ ' ' :: u.data := by
    simp [term, String.data_append]
  have h : lexToks U 5 .readExpr (term ds u).data =
      some [⟨.tokenDigit, String.mk ds⟩, ⟨.tokenUnit, u⟩] := by
    rw [e, lexToks_term_eof U ds u hd hu]
  rw [lex_of_toks U _ _ 5 (by simp [lexFuel]) h]
  rfl

theorem lex_term_before (U : RuneTables) (ds : List Char) (u : String) (hd : isCount ds)
    (hu : u ∈ longUnits) :
    lex U (term ds u ++ " before") =
      .ok [⟨.tokenDigit, String.mk ds⟩, ⟨.tokenUnit, u⟩, ⟨.tokenBefore, "before"⟩] := by
  have e : (term ds u ++ " before").data = ds ++ ' ' :: (u.data ++ ' ' :: "before".data) := by
    simp [term, String.data_append]
  have h : lexToks U 8 .readExpr (term ds u ++ " before").data =
      some [⟨.tokenDigit, String.mk ds⟩, ⟨.tokenUnit, u⟩, ⟨.tokenBefore, "before"⟩] := by
    rw [e, lexToks_term U 4 ds u _ hd hu]
    exact congrArg _ (lexToks_before U)
  rw [lex_of_toks U _ _ 8 (by simp [lexFuel]; omega) h]
  rfl

theorem lex_term_after (U : RuneTables) (ds : List Char) (u : String) (hd : isCount ds)
    (hu : u ∈ longUnits) :
    lex U (term ds u ++ " after") =
      .ok [⟨.tokenDigit, String.mk ds⟩, ⟨.tokenUnit, u⟩, ⟨.tokenFrom, "after"⟩] := by
  have e : (term ds u ++ " after").data = ds ++ ' ' :: (u.data ++ ' ' :: "after".data) := by
    simp [term, String.data_append]
  have h : lexToks U 8 .readExpr (term ds u ++ " after").data =
      some [⟨.tokenDigit, String.mk ds⟩, ⟨.tokenUnit, u⟩, ⟨.tokenFrom, "after"⟩] := by
    rw [e, lexToks_term U 4 ds u _ hd hu]
    exact congrArg _ (lexToks_after U)
  rw [lex_of_toks U _ _ 8 (by simp [lexFuel]; omega) h]
  rfl

theorem lex_term_from (U : RuneTables) (ds : List Char) (u : String) (hd : isCount ds)
    (hu : u ∈ longUnits) :
    lex U (term ds u ++ " from") =
      .ok [⟨.tokenDigit, String.mk ds⟩, ⟨.tokenUnit, u⟩, ⟨.tokenFrom, "from"⟩] := by
  have e : (term ds u ++ " from").data = ds ++ ' ' :: (u.data ++ ' ' :: "from".data) := by
    simp [term, String.data_append]
  have h : lexToks U 8 .readExpr (term ds u ++ " from").data =
      some [⟨.tokenDigit, String.mk ds⟩, ⟨.tokenUnit, u⟩, ⟨.tokenFrom, "from"⟩] := by
    rw [e, lexToks_term U 4 ds u _ hd hu]
    exact congrArg _ (lexToks_from_eof U)
  rw [lex_of_toks U _ _ 8 (by simp [lexFuel]; omega) h]
  rfl

/-! ### The parse of the duration phrases -/

theorem ParseNow_term_ago (U : RuneTables) (ds : List Char) (u : String) (now : Time)
    (hd : isCount ds) (hu : u ∈ longUnits) :
    ParseNow U (term ds u ++ " ago") now =
      (match Atoi (String.mk ds) with
        | .error e => .error e
        | .ok n => .ok (lhsFn.apply ⟨n, u⟩ now true)) := by
  rw [ParseNow_of_lex U _ now _ (lex_term_ago U ds u hd hu) (by simp)]
  simp only [parseFuel, List.length]
  cases hA : Atoi (String.mk ds) <;>
    simp [parseRun, parseStep, parser.parseExpr, parser.parseExprDigit,
      parser.parseDurationLeftUnit, parser.parseDurationLeftNext, parser.parseDurationLeftAgo,
      parser.peek, parser.next, List.drop, hA]

theorem ParseNow_term_before_now (U : RuneTables) (ds : List Char) (u : String) (now : Time)
    (hd : isCount ds) (hu : u ∈ longUnits) :
    ParseNow U (term ds u ++ " before now") now =
      (match Atoi (String.mk ds) with
        | .error e => .error e
        | .ok n => .ok (lhsFn.apply ⟨n, u⟩ now true)) := by
  rw [ParseNow_of_lex U _ now _ (lex_term_before_now U ds u hd hu) (by simp)]
  simp only [parseFuel, List.length]
  cases hA : Atoi (String.mk ds) <;>
    simp [parseRun, parseStep, parser.parseExpr, parser.parseExprDigit,
      parser.parseDurationLeftUnit, parser.parseDurationLeftNext, parser.parseDurationLeftBefore,
      parser.parseDateTime, parser.parseNow, parser.peek, parser.next, List.drop, hA]

theorem ParseNow_term_after_now (U : RuneTables) (ds : List Char) (u : String) (now : Time)
    (hd : isCount ds) (hu : u ∈ longUnits) :
    ParseNow U (term ds u ++ " after now") now =
      (match Atoi (String.mk ds) with
        | .error e => .error e
        | .ok n => .ok (lhsFn.apply ⟨n, u⟩ now false)) := by
  rw [ParseNow_of_lex U _ now _ (lex_term_after_now U ds u hd hu) (by simp)]
  simp only [parseFuel, List.length]
  cases hA : Atoi (String.mk ds) <;>
    simp [parseRun, parseStep, parser.parseExpr, parser.parseExprDigit,
      parser.parseDurationLeftUnit, parser.parseDurationLeftNext, parser.parseDurationLeftFrom,
      parser.parseDateTime, parser.parseNow, parser.peek, parser.next, List.drop, hA]

theorem ParseNow_term_from_now (U : RuneTables) (ds : List Char) (u : String) (now : Time)
    (hd : isCount ds) (hu : u ∈ longUnits) :
    ParseNow U (term ds u ++ " from now") now =
      (match Atoi (String.mk ds) with
        | .error e => .error e
        | .ok n => .ok (lhsFn.apply ⟨n, u⟩ now false)) := by
  rw [ParseNow_of_lex U _ now _ (lex_term_from_now U ds u hd hu) (by simp)]
  simp only [parseFuel, List.length]
  cases hA : Atoi (String.mk ds) <;>
    simp [parseRun, parseStep, parser.parseExpr, parser.parseExprDigit,
      parser.parseDurationLeftUnit, parser.parseDurationLeftNext, parser.parseDurationLeftFrom,
      parser.parseDateTime, parser.parseNow, parser.peek, parser.next, List.drop, hA]

theorem ParseNow_term (U : RuneTables) (ds : List Char) (u : String) (now : Time)
    (hd : isCount ds) (hu : u ∈ longUnits) :
    ParseNow U (term ds u) now =
      (match Atoi (String.mk ds) with
        | .error e => .error e
        | .ok n => .ok (lhsFn.apply ⟨n, u⟩ now false)) := by
  rw [ParseNow_of_lex U _ now _ (lex_term U ds u hd hu) (by simp)]
  simp only [parseFuel, List.length]
  cases hA : Atoi (String.mk ds) <;>
    simp [parseRun, parseStep, parser.parseExpr, parser.parseExprDigit,
      parser.parseDurationLeftUnit, parser.parseDurationLeftNext,
      parser.peek, parser.next, List.drop, hA]

theorem lex_now (U : RuneTables) : lex U "now" = .ok [⟨.tokenNow, "now"⟩] := by
  rw [lex_of_toks U _ _ 3 (by simp [lexFuel]) (lexToks_now U)]
  rfl

theorem lex_now_plus (U : RuneTables) (ds : List Char) (u : String) (hd : isCount ds)
    (hu : u ∈ longUnits) :
    lex U ("now + " ++ term ds u) =
      .ok [⟨.tokenNow, "now"⟩, ⟨.tokenOperatorAdd, "+"⟩, ⟨.tokenDigit, String.mk ds⟩,
        ⟨.tokenUnit, u⟩] := by
  have e : ("now + " ++ term ds u).data = "now +".data ++ ' ' :: (ds ++ ' ' :: u.data) := by
    simp [term, String.data_append]
  have h : lexToks U 8 .readExpr ("now + " ++ term ds u).data =
      some [⟨.tokenNow, "now"⟩, ⟨.tokenOperatorAdd, "+"⟩, ⟨.tokenDigit, String.mk ds⟩,
        ⟨.tokenUnit, u⟩] := by
    rw [e, lexToks_now_plus U 5, lexToks_skip1, lexToks_term_eof U ds u hd hu]
    rfl
  rw [lex_of_toks U _ _ 8 (by simp [lexFuel]; omega) h]
  rfl

theorem lex_now_minus (U : RuneTables) (ds : List Char) (u : String) (hd : isCount ds)
    (hu : u ∈ longUnits) :
    lex U ("now - " ++ term ds u) =
      .ok [⟨.tokenNow, "now"⟩, ⟨.tokenOperatorSub, "-"⟩, ⟨.tokenDigit, String.mk ds⟩,
        ⟨.tokenUnit, u⟩] := by
  have e : ("now - " ++ term ds u).data = "now -".data ++ ' ' :: (ds ++ ' ' :: u.data) := by
    simp [term, String.data_append]
  have h : lexToks U 8 .readExpr ("now - " ++ term ds u).data =
      some [⟨.tokenNow, "now"⟩, ⟨.tokenOperatorSub, "-"⟩, ⟨.tokenDigit, String.mk ds⟩,
        ⟨.tokenUnit, u⟩] := by
    rw [e, lexToks_now_minus U 5, lexToks_skip1, lexToks_term_eof U ds u hd hu]
    rfl
  rw [lex_of_toks U _ _ 8 (by simp [lexFuel]; omega) h]
  rfl

theorem ParseNow_now (U : RuneTables) (now : Time) : ParseNow U "now" now = .ok now := by
  rw [ParseNow_of_lex U _ now _ (lex_now U) (by simp)]
  simp [parseFuel, parseRun, parseStep, parser.parseExpr, parser.parseDateTime, parser.parseNow,
    parser.peek, parser.next]

set_option maxHeartbeats 1000000 in
theorem ParseNow_now_plus (U : RuneTables) (ds : List Char) (u : String) (now : Time)
    (hd : isCount ds) (hu : u ∈ longUnits) :
    ParseNow U ("now + " ++ term ds u) now =
      (match Atoi (String.mk ds) with
        | .error e => .error e
        | .ok n => .ok (lhsFn.apply ⟨n, u⟩ now false)) := by
  rw [ParseNow_of_lex U _ now _ (lex_now_plus U ds u hd hu) (by simp)]
  simp only [parseFuel, List.length]
  simp only [longUnits, List.mem_cons, List.mem_singleton, List.not_mem_nil, or_false] at hu
  cases hA : Atoi (String.mk ds) <;>
    rcases hu with rfl | rfl | rfl | rfl | rfl | rfl | rfl | rfl | rfl | rfl | rfl | rfl | rfl | rfl <;>
    simp [parseRun, parseStep, parser.parseExpr, parser.parseDateTime, parser.parseNow,
      parser.parseDurationRight, parser.parseDurationRightUnit, parser.parseDurationRightNext,
      parser.peek, parser.next, List.drop, hA, lhsFn.apply]

set_option maxHeartbeats 1000000 in
theorem ParseNow_now_minus (U : RuneTables) (ds : List Char) (u : String) (now : Time)
    (hd : isCount ds) (hu : u ∈ longUnits) :
    ParseNow U ("now - " ++ term ds u) now =
      (match Atoi (String.mk ds) with
        | .error e => .error e
        | .ok n => .ok (lhsFn.apply ⟨n, u⟩ now true)) := by
  rw [ParseNow_of_lex U _ now _ (lex_now_minus U ds u hd hu) (by simp)]
  simp only [parseFuel, List.length]
  simp only [longUnits, List.mem_cons, List.mem_singleton, List.not_mem_nil, or_false] at hu
  cases hA : Atoi (String.mk ds) <;>
    rcases hu with rfl | rfl | rfl | rfl | rfl | rfl | rfl | rfl | rfl | rfl | rfl | rfl | rfl | rfl <;>
    simp [-mul_neg, -neg_mul, -mul_one, Int.mul_neg, Int.neg_mul, Int.mul_one, parseRun, parseStep, parser.parseExpr, parser.parseDateTime, parser.parseNow,
      parser.parseDurationRight, parser.parseDurationRightUnit, parser.parseDurationRightNext,
      parser.peek, parser.next, List.drop, hA, lhsFn.apply]

/-! ### The arithmetic of a term -/

/-! ### The tokens of an ASCII input are ASCII -/

theorem read_tokens (l : lexer) : l.read.2.tokens = l.tokens := by
  simp only [lexer.read]
  cases l.input.drop l.j <;> rfl

theorem unread_tokens (l : lexer) : l.unread.tokens = l.tokens := rfl

theorem peek_tokens (l : lexer) : l.peek.2.tokens = l.tokens := by
  simp only [lexer.peek, lexer.unread, read_tokens]

theorem readFn_tokens (l : lexer) (p : Char → Bool) : (l.readFn p).tokens = l.tokens := by
  simp [readFn_eq]

theorem ignore_tokens (l : lexer) : l.ignore.tokens = l.tokens := rfl

theorem emit_tokens (l : lexer) (typ : tokenType) : (l.emit typ).tokens = l.tokens ++ [⟨typ, l.value⟩] := rfl

theorem emitAs_tokens (l : lexer) (typ : tokenType) (v : String) :
    (l.emitAs typ v).tokens = l.tokens ++ [⟨typ, v⟩] := rfl

theorem errorf_tokens (l : lexer) (msg : String) :
    (l.errorf msg).2.tokens = l.tokens ++ [⟨.tokenError, msg⟩] := rfl

theorem readRune_tokens (l : lexer) (ch : Char) : (l.readRune ch).2.tokens = l.tokens := by
  simp only [lexer.readRune, read_tokens]

theorem readStringLoop_tokens : ∀ (s : List Char) (l : lexer),
    (lexer.readStringLoop s l).2.tokens = l.tokens
  | [], _ => rfl
  | r :: rs, l => by
    simp only [lexer.readStringLoop]
    split
    · simp [unread_tokens, readRune_tokens]
    · rw [readStringLoop_tokens rs, readRune_tokens]

theorem readString_tokens (l : lexer) (s : String) : (l.readString s).2.tokens = l.tokens := by
  simp only [lexer.readString]
  split
  · simp [readStringLoop_tokens]
  · simp [peek_tokens, readStringLoop_tokens]

theorem numberWord_mem (w d : String) (h : numberWord w = some d) : w ∈ numberWords := by
  by_contra hn
  simp only [numberWords, List.mem_cons, List.mem_singleton, List.not_mem_nil, or_false,
    not_or] at hn
  obtain ⟨h1, h2, h3, h4, h5, h6, h7, h8, h9, h10, h11, h12, h13⟩ := hn
  simp [numberWord, h1, h2, h3, h4, h5, h6, h7, h8, h9, h10, h11, h12, h13] at h

theorem numberWords_digits : ∀ w ∈ numberWords, ∃ d, numberWord w = some d ∧ isCount d.data := by
  decide

theorem from_value (l l1 : lexer) (typ : tokenType) (h : l1.input = l.input) :
    tokenFrom l.input ⟨typ, l1.value⟩ := Or.inl ⟨l1, h, rfl⟩

theorem from_ascii (inp : List Char) (typ : tokenType) (v : String) (h : allAscii v.data) :
    tokenFrom inp ⟨typ, v⟩ := Or.inr h

theorem numberWord_ascii (v d : String) (h : numberWord v = some d) : allAscii d.data := by
  obtain ⟨d1, h1, h2⟩ := numberWords_digits v (numberWord_mem v d h)
  rw [h] at h1
  cases h1
  intro c hc
  have := h2.2 c hc
  simp only [isAsciiDigit, Bool.and_eq_true, decide_eq_true_eq] at this
  omega

theorem values_none (inp : List Char) (ts : List token) :
    ∃ new, ts = ts ++ new ∧ ∀ t ∈ new, tokenFrom inp t :=
  ⟨[], (List.append_nil _).symm, by simp⟩

theorem values_one (inp : List Char) (ts : List token) (a : token) (h : tokenFrom inp a) :
    ∃ new, ts ++ [a] = ts ++ new ∧ ∀ t ∈ new, tokenFrom inp t :=
  ⟨[a], rfl, by simpa using h⟩

theorem values_two (inp : List Char) (ts : List token) (a b : token) (ha : tokenFrom inp a)
    (hb : tokenFrom inp b) :
    ∃ new, ts ++ [a] ++ [b] = ts ++ new ∧ ∀ t ∈ new, tokenFrom inp t :=
  ⟨[a, b], List.append_assoc _ _ _, by simp [ha, hb]⟩

theorem readExpr_values (U : RuneTables) (l : lexer) :
    ∃ new, (readExpr U l).2.tokens = l.tokens ++ new ∧ ∀ t ∈ new, tokenFrom l.input t := by
  simp only [readExpr]
  repeat' split
  all_goals simp only [read_tokens, peek_tokens, readFn_tokens, ignore_tokens, emit_tokens, emitAs_tokens,
    errorf_tokens, readRune_tokens, readString_tokens, peekFn_snd, lexer.errorf]
  all_goals first
    | apply values_two
    | apply values_one
    | apply values_none
  all_goals first
    | exact from_value _ _ _ (by simp only [read_input, peek_input, readFn_input, emit_input,
        ignore_input, emitAs_input, errorf_input, readRune_input, unread_input,
        readString_input, peekFn_snd])
    | exact from_ascii _ _ _ (by decide)

theorem readAtSymbol_values (l : lexer) :
    ∃ new, (readAtSymbol l).2.tokens = l.tokens ++ new ∧ ∀ t ∈ new, tokenFrom l.input t := by
  simp only [readAtSymbol]
  repeat' split
  all_goals simp only [read_tokens, peek_tokens, readFn_tokens, ignore_tokens, emit_tokens, emitAs_tokens,
    errorf_tokens, readRune_tokens, readString_tokens, peekFn_snd, lexer.errorf]
  all_goals first
    | apply values_two
    | apply values_one
  all_goals first
    | exact from_value _ _ _ (by simp only [read_input, peek_input, readFn_input, emit_input,
        ignore_input, emitAs_input, errorf_input, readRune_input, unread_input,
        readString_input, peekFn_snd])
    | exact from_ascii _ _ _ (by decide)

theorem readColon_values (U : RuneTables) (l : lexer) :
    ∃ new, (readColon U l).2.tokens = l.tokens ++ new ∧ ∀ t ∈ new, tokenFrom l.input t := by
  simp only [readColon]
  repeat' split
  all_goals simp only [read_tokens, peek_tokens, readFn_tokens, ignore_tokens, emit_tokens, emitAs_tokens,
    errorf_tokens, readRune_tokens, readString_tokens, peekFn_snd, lexer.errorf]
  all_goals first
    | apply values_two
    | apply values_one
  all_goals first
    | exact from_value _ _ _ (by simp only [read_input, peek_input, readFn_input, emit_input,
        ignore_input, emitAs_input, errorf_input, readRune_input, unread_input,
        readString_input, peekFn_snd])
    | exact from_ascii _ _ _ (by decide)

theorem readDigit_values (U : RuneTables) (l : lexer) :
    ∃ new, (readDigit U l).2.tokens = l.tokens ++ new ∧ ∀ t ∈ new, tokenFrom l.input t := by
  simp only [readDigit]
  repeat' split
  all_goals simp only [read_tokens, peek_tokens, readFn_tokens, ignore_tokens, emit_tokens, emitAs_tokens,
    errorf_tokens, readRune_tokens, readString_tokens, peekFn_snd, lexer.errorf]
  all_goals first
    | apply values_two
    | apply values_one
  all_goals first
    | exact from_value _ _ _ (by simp only [read_input, peek_input, readFn_input, emit_input,
        ignore_input, emitAs_input, errorf_input, readRune_input, unread_input,
        readString_input, peekFn_snd])

theorem readDurationNext_values (l : lexer) :
    ∃ new, (readDurationNext l).2.tokens = l.tokens ++ new ∧ ∀ t ∈ new, tokenFrom l.input t := by
  simp only [readDurationNext]
  repeat' split
  all_goals simp only [read_tokens, peek_tokens, readFn_tokens, ignore_tokens, emit_tokens, emitAs_tokens,
    errorf_tokens, readRune_tokens, readString_tokens, peekFn_snd, lexer.errorf]
  all_goals first
    | apply values_two
    | apply values_one
    | apply values_none
  all_goals first
    | exact from_value _ _ _ (by simp only [read_input, peek_input, readFn_input, emit_input,
        ignore_input, emitAs_input, errorf_input, readRune_input, unread_input,
        readString_input, peekFn_snd])
    | exact from_ascii _ _ _ (by decide)

theorem readDurationNextShort_values (l : lexer) :
    ∃ new, (readDurationNextShort l).2.tokens = l.tokens ++ new ∧ ∀ t ∈ new, tokenFrom l.input t := by
  simp only [readDurationNextShort]
  repeat' split
  all_goals simp only [read_tokens, peek_tokens, readFn_tokens, ignore_tokens, emit_tokens, emitAs_tokens,
    errorf_tokens, readRune_tokens, readString_tokens, peekFn_snd, lexer.errorf]
  all_goals first
    | apply values_two
    | apply values_one
    | apply values_none
  all_goals first
    | exact from_value _ _ _ (by simp only [read_input, peek_input, readFn_input, emit_input,
        ignore_input, emitAs_input, errorf_input, readRune_input, unread_input,
        readString_input, peekFn_snd])

theorem readDurationSpace_values (U : RuneTables) (l : lexer) :
    ∃ new, (readDurationSpace U l).2.tokens = l.tokens ++ new ∧ ∀ t ∈ new, tokenFrom l.input t := by
  simp only [readDurationSpace]
  repeat' split
  all_goals simp only [read_tokens, peek_tokens, readFn_tokens, ignore_tokens, emit_tokens, emitAs_tokens,
    errorf_tokens, readRune_tokens, readString_tokens, peekFn_snd, lexer.errorf]
  all_goals first
    | apply values_two
    | apply values_one
    | apply values_none
  all_goals first
    | exact from_value _ _ _ (by simp only [read_input, peek_input, readFn_input, emit_input,
        ignore_input, emitAs_input, errorf_input, readRune_input, unread_input,
        readString_input, peekFn_snd])

theorem readDurationSpaceNext_values (U : RuneTables) (l : lexer) :
    ∃ new, (readDurationSpaceNext U l).2.tokens = l.tokens ++ new ∧ ∀ t ∈ new, tokenFrom l.input t := by
  simp only [readDurationSpaceNext]
  repeat' split
  all_goals simp only [read_tokens, peek_tokens, readFn_tokens, ignore_tokens, emit_tokens, emitAs_tokens,
    errorf_tokens, readRune_tokens, readString_tokens, peekFn_snd, lexer.errorf]
  all_goals first
    | apply values_two
    | apply values_one
    | apply values_none
  all_goals first
    | exact from_value _ _ _ (by simp only [read_input, peek_input, readFn_input, emit_input,
        ignore_input, emitAs_input, errorf_input, readRune_input, unread_input,
        readString_input, peekFn_snd])

theorem readDurationUnitSecondsOrOrdinal_values (l : lexer) :
    ∃ new, (readDurationUnitSecondsOrOrdinal l).2.tokens = l.tokens ++ new ∧ ∀ t ∈ new, tokenFrom l.input t := by
  simp only [readDurationUnitSecondsOrOrdinal]
  repeat' split
  all_goals simp only [read_tokens, peek_tokens, readFn_tokens, ignore_tokens, emit_tokens, emitAs_tokens,
    errorf_tokens, readRune_tokens, readString_tokens, peekFn_snd, lexer.errorf]
  all_goals first
    | apply values_two
    | apply values_one
  all_goals first
    | exact from_value _ _ _ (by simp only [read_input, peek_input, readFn_input, emit_input,
        ignore_input, emitAs_input, errorf_input, readRune_input, unread_input,
        readString_input, peekFn_snd])

theorem readLetter_values (U : RuneTables) (l : lexer) :
    ∃ new, (readLetter U l).2.tokens = l.tokens ++ new ∧ ∀ t ∈ new, tokenFrom l.input t := by
  simp only [readLetter]
  repeat' split
  all_goals simp only [read_tokens, peek_tokens, readFn_tokens, ignore_tokens, emit_tokens, emitAs_tokens,
    errorf_tokens, readRune_tokens, readString_tokens, peekFn_snd, lexer.errorf]
  all_goals first
    | apply values_two
    | apply values_one
  all_goals first
    | exact from_value _ _ _ (by simp only [read_input, peek_input, readFn_input, emit_input,
        ignore_input, emitAs_input, errorf_input, readRune_input, unread_input,
        readString_input, peekFn_snd])
    | exact from_ascii _ _ _ (by decide)
    | exact from_ascii _ _ _ (numberWord_ascii _ _ (by assumption))

theorem readOrdinal_values (l : lexer) :
    ∃ new, (readOrdinal l).2.tokens = l.tokens ++ new ∧ ∀ t ∈ new, tokenFrom l.input t := by
  simp only [readOrdinal]
  repeat' split
  all_goals simp only [read_tokens, peek_tokens, readFn_tokens, ignore_tokens, emit_tokens, emitAs_tokens,
    errorf_tokens, readRune_tokens, readString_tokens, peekFn_snd, lexer.errorf]
  all_goals first
    | apply values_two
    | apply values_one
  all_goals first
    | exact from_value _ _ _ (by simp only [read_input, peek_input, readFn_input, emit_input,
        ignore_input, emitAs_input, errorf_input, readRune_input, unread_input,
        readString_input, peekFn_snd])
    | exact from_ascii _ _ _ (by decide)

theorem readTwelveHour_values (l : lexer) :
    ∃ new, (readTwelveHour l).2.tokens = l.tokens ++ new ∧ ∀ t ∈ new, tokenFrom l.input t := by
  simp only [readTwelveHour]
  repeat' split
  all_goals simp only [read_tokens, peek_tokens, readFn_tokens, ignore_tokens, emit_tokens, emitAs_tokens,
    errorf_tokens, readRune_tokens, readString_tokens, peekFn_snd, lexer.errorf]
  all_goals first
    | apply values_two
    | apply values_one
  all_goals first
    | exact from_value _ _ _ (by simp only [read_input, peek_input, readFn_input, emit_input,
        ignore_input, emitAs_input, errorf_input, readRune_input, unread_input,
        readString_input, peekFn_snd])
    | exact from_ascii _ _ _ (by decide)

theorem lexStep_values (U : RuneTables) (st : stateFn) (l : lexer) :
    ∃ new, (lexStep U st l).2.tokens = l.tokens ++ new ∧ ∀ t ∈ new, tokenFrom l.input t := by
  cases st
  · exact readExpr_values U l
  · exact readAtSymbol_values l
  · exact readColon_values U l
  · exact readDigit_values U l
  · exact readDurationNext_values l
  · exact readDurationNextShort_values l
  · exact readDurationSpace_values U l
  · exact readDurationSpaceNext_values U l
  · exact readDurationUnitSecondsOrOrdinal_values l
  · exact readLetter_values U l
  · exact readOrdinal_values l
  · exact readTwelveHour_values l

theorem lexRun_values (U : RuneTables) : ∀ (n : Nat) (st : stateFn) (l r : lexer),
    lexRun U n st l = some r → (∀ t ∈ l.tokens, tokenFrom l.input t) →
      ∀ t ∈ r.tokens, tokenFrom l.input t
  | 0, _, _, _, h, _ => by simp [lexRun] at h
  | n + 1, st, l, r, h, hl => by
    obtain ⟨new, hnew, hok⟩ := lexStep_values U st l
    have hin := lexStep_input U st l
    simp only [lexRun] at h
    rcases hs : lexStep U st l with ⟨o, l1⟩
    rw [hs] at h hnew hin
    simp only at hnew hin
    have h1 : ∀ t ∈ l1.tokens, tokenFrom l1.input t := by
      intro t ht
      rw [hin]
      rw [hnew] at ht
      rcases List.mem_append.mp ht with h2 | h2
      · exact hl t h2
      · exact hok t h2
    cases o with
    | none =>
      simp only [Option.some.injEq] at h
      subst h
      rw [← hin]
      exact h1
    | some st1 =>
      simp only at h
      rw [← hin]
      exact lexRun_values U n st1 l1 r h h1

theorem lex_tokAscii (U : RuneTables) (s : String) (ts : List token) (h : allAscii s.data)
    (hl : lex U s = .ok ts) : tokAscii ts := by
  unfold lex at hl
  rcases hr : lexRun U (lexFuel s) .readExpr ⟨s.data, 0, 0, 0, []⟩ with _ | r
  · rw [hr] at hl
    cases hl
  · rw [hr] at hl
    have hv := lexRun_values U _ _ _ r hr (by simp)
    have hts : ts = r.tokens := by
      simp only at hl
      split at hl
      · split at hl
        · cases hl
        · exact (Except.ok.inj hl).symm
      · exact (Except.ok.inj hl).symm
    subst hts
    intro t ht
    rcases hv t ht with ⟨l1, h1, h2⟩ | h3
    · rw [h2]
      exact value_ascii l1 (by rw [h1]; exact h)
    · exact h3

theorem ParseNow_tables (U : RuneTables) (s : String) (now : Time) (h : asciiOK s = true) :
    ParseNow U s now = ParseNow asciiTables s now := by
  simp only [asciiOK, decide_eq_true_eq] at h
  exact ParseNow_ascii U asciiTables s now h (fun ts hts => lex_tokAscii asciiTables s ts h hts)

theorem unit_classes :
    (∀ u ∈ ["year", "years"], u ∈ longUnits) ∧ (∀ u ∈ ["month", "months"], u ∈ longUnits) ∧
    (∀ u ∈ ["week", "weeks"], u ∈ longUnits) ∧ (∀ u ∈ ["day", "days"], u ∈ longUnits) ∧
    (∀ u ∈ ["hour", "hours"], u ∈ longUnits) ∧ (∀ u ∈ ["minute", "minutes"], u ∈ longUnits) ∧
    (∀ u ∈ ["second", "seconds"], u ∈ longUnits) := by
  decide

theorem wrap64_id (x : Int) (h0 : -9223372036854775808 ≤ x) (h1 : x ≤ 9223372036854775807) :
    wrap64 x = x := by
  unfold wrap64
  omega

theorem apply_add (N : Int) (t : Time) (h0 : 0 ≤ N) :
    (∀ u ∈ ["year", "years"], lhsFn.apply ⟨N, u⟩ t false = t.AddDate N 0 0) ∧
    (∀ u ∈ ["month", "months"], lhsFn.apply ⟨N, u⟩ t false = t.AddDate 0 N 0) ∧
    (7 * N ≤ maxInt64 → ∀ u ∈ ["week", "weeks"], lhsFn.apply ⟨N, u⟩ t false = t.AddDate 0 0 (7 * N)) ∧
    (∀ u ∈ ["day", "days"], lhsFn.apply ⟨N, u⟩ t false = t.AddDate 0 0 N) ∧
    (N * Hour ≤ maxInt64 → ∀ u ∈ ["hour", "hours"], lhsFn.apply ⟨N, u⟩ t false = t.Add (N * Hour)) ∧
    (N * Minute ≤ maxInt64 → ∀ u ∈ ["minute", "minutes"],
      lhsFn.apply ⟨N, u⟩ t false = t.Add (N * Minute)) ∧
    (N * Second ≤ maxInt64 → ∀ u ∈ ["second", "seconds"],
      lhsFn.apply ⟨N, u⟩ t false = t.Add (N * Second)) := by
  simp only [maxInt64, Hour, Minute, Second]
  refine ⟨?_, ?_, ?_, ?_, ?_, ?_, ?_⟩
  · intro u hu
    simp only [List.mem_cons, List.mem_singleton, List.not_mem_nil, or_false] at hu
    rcases hu with rfl | rfl <;> simp [lhsFn.apply, Hour, Minute, Second]
  · intro u hu
    simp only [List.mem_cons, List.mem_singleton, List.not_mem_nil, or_false] at hu
    rcases hu with rfl | rfl <;> simp [lhsFn.apply, Hour, Minute, Second]
  · intro hle u hu
    simp only [List.mem_cons, List.mem_singleton, List.not_mem_nil, or_false] at hu
    rcases hu with rfl | rfl <;> simp [lhsFn.apply, Hour, Minute, Second] <;>
      rw [wrap64_id] <;> omega
  · intro u hu
    simp only [List.mem_cons, List.mem_singleton, List.not_mem_nil, or_false] at hu
    rcases hu with rfl | rfl <;> simp [lhsFn.apply, Hour, Minute, Second]
  · intro hle u hu
    simp only [List.mem_cons, List.mem_singleton, List.not_mem_nil, or_false] at hu
    rcases hu with rfl | rfl <;> simp [lhsFn.apply, Hour, Minute, Second] <;>
      rw [wrap64_id] <;> omega
  · intro hle u hu
    simp only [List.mem_cons, List.mem_singleton, List.not_mem_nil, or_false] at hu
    rcases hu with rfl | rfl <;> simp [lhsFn.apply, Hour, Minute, Second] <;>
      rw [wrap64_id] <;> omega
  · intro hle u hu
    simp only [List.mem_cons, List.mem_singleton, List.not_mem_nil, or_false] at hu
    rcases hu with rfl | rfl <;> simp [lhsFn.apply, Hour, Minute, Second] <;>
      rw [wrap64_id] <;> omega

theorem apply_sub (N : Int) (t : Time) (h0 : 0 ≤ N) (h1 : N ≤ maxInt64) :
    (∀ u ∈ ["year", "years"], lhsFn.apply ⟨N, u⟩ t true = t.AddDate (-N) 0 0) ∧
    (∀ u ∈ ["month", "months"], lhsFn.apply ⟨N, u⟩ t true = t.AddDate 0 (-N) 0) ∧
    (7 * N ≤ maxInt64 → ∀ u ∈ ["week", "weeks"],
      lhsFn.apply ⟨N, u⟩ t true = t.AddDate 0 0 (-(7 * N))) ∧
    (∀ u ∈ ["day", "days"], lhsFn.apply ⟨N, u⟩ t true = t.AddDate 0 0 (-N)) ∧
    (N * Hour ≤ maxInt64 → ∀ u ∈ ["hour", "hours"],
      lhsFn.apply ⟨N, u⟩ t true = t.Add (-(N * Hour))) ∧
    (N * Minute ≤ maxInt64 → ∀ u ∈ ["minute", "minutes"],
      lhsFn.apply ⟨N, u⟩ t true = t.Add (-(N * Minute))) ∧
    (N * Second ≤ maxInt64 → ∀ u ∈ ["second", "seconds"],
      lhsFn.apply ⟨N, u⟩ t true = t.Add (-(N * Second))) := by
  simp only [maxInt64, Hour, Minute, Second] at h1 ⊢
  have hn : wrap64 (-N) = -N := by unfold wrap64; omega
  refine ⟨?_, ?_, ?_, ?_, ?_, ?_, ?_⟩
  · intro u hu
    simp only [List.mem_cons, List.mem_singleton, List.not_mem_nil, or_false] at hu
    rcases hu with rfl | rfl <;> simp [lhsFn.apply, Hour, Minute, Second, hn, -mul_neg, -neg_mul, -mul_one, Int.mul_neg, Int.neg_mul, Int.mul_one]
  · intro u hu
    simp only [List.mem_cons, List.mem_singleton, List.not_mem_nil, or_false] at hu
    rcases hu with rfl | rfl <;> simp [lhsFn.apply, Hour, Minute, Second, hn, -mul_neg, -neg_mul, -mul_one, Int.mul_neg, Int.neg_mul, Int.mul_one]
  · intro hle u hu
    simp only [List.mem_cons, List.mem_singleton, List.not_mem_nil, or_false] at hu
    rcases hu with rfl | rfl <;> simp [lhsFn.apply, Hour, Minute, Second, hn, -mul_neg, -neg_mul, -mul_one, Int.mul_neg, Int.neg_mul, Int.mul_one] <;>
      rw [wrap64_id] <;> omega
  · intro u hu
    simp only [List.mem_cons, List.mem_singleton, List.not_mem_nil, or_false] at hu
    rcases hu with rfl | rfl <;> simp [lhsFn.apply, Hour, Minute, Second, hn, -mul_neg, -neg_mul, -mul_one, Int.mul_neg, Int.neg_mul, Int.mul_one]
  · intro hle u hu
    simp only [List.mem_cons, List.mem_singleton, List.not_mem_nil, or_false] at hu
    rcases hu with rfl | rfl <;> simp [lhsFn.apply, Hour, Minute, Second, hn, -mul_neg, -neg_mul, -mul_one, Int.mul_neg, Int.neg_mul, Int.mul_one] <;>
      rw [wrap64_id] <;> omega
  · intro hle u hu
    simp only [List.mem_cons, List.mem_singleton, List.not_mem_nil, or_false] at hu
    rcases hu with rfl | rfl <;> simp [lhsFn.apply, Hour, Minute, Second, hn, -mul_neg, -neg_mul, -mul_one, Int.mul_neg, Int.neg_mul, Int.mul_one] <;>
      rw [wrap64_id] <;> omega
  · intro hle u hu
    simp only [List.mem_cons, List.mem_singleton, List.not_mem_nil, or_false] at hu
    rcases hu with rfl | rfl <;> simp [lhsFn.apply, Hour, Minute, Second, hn, -mul_neg, -neg_mul, -mul_one, Int.mul_neg, Int.neg_mul, Int.mul_one] <;>
      rw [wrap64_id] <;> omega

theorem lex_round_trip (U : RuneTables) (ds : List Char) (u : String) (hd : isCount ds)
    (hu : u ∈ longUnits) :
    lex U (term ds u ++ " before now + " ++ term ds u) =
      .ok [⟨.tokenDigit, String.mk ds⟩, ⟨.tokenUnit, u⟩, ⟨.tokenBefore, "before"⟩,
        ⟨.tokenNow, "now"⟩, ⟨.tokenOperatorAdd, "+"⟩, ⟨.tokenDigit, String.mk ds⟩,
        ⟨.tokenUnit, u⟩] := by
  have e : (term ds u ++ " before now + " ++ term ds u).data =
      ds ++ ' ' :: (u.data ++ ' ' :: ("before now +".data ++ ' ' :: (ds ++ ' ' :: u.data))) := by
    simp [term, String.data_append]
  have h : lexToks U 15 .readExpr (term ds u ++ " before now + " ++ term ds u).data =
      some [⟨.tokenDigit, String.mk ds⟩, ⟨.tokenUnit, u⟩, ⟨.tokenBefore, "before"⟩,
        ⟨.tokenNow, "now"⟩, ⟨.tokenOperatorAdd, "+"⟩, ⟨.tokenDigit, String.mk ds⟩,
        ⟨.tokenUnit, u⟩] := by
    rw [e, lexToks_term U 11 ds u _ hd hu]
    have h2 := lexToks_before_now_plus U 5 (' ' :: (ds ++ ' ' :: u.data))
    rw [lexToks_skip1, lexToks_term_eof U ds u hd hu] at h2
    exact congrArg _ h2
  rw [lex_of_toks U _ _ 15 (by simp [lexFuel, term, String.data_append]; omega) h]
  rfl

set_option maxHeartbeats 1000000 in
theorem ParseNow_round_trip (U : RuneTables) (ds : List Char) (u : String) (now : Time)
    (hd : isCount ds) (hu : u ∈ longUnits) :
    ParseNow U (term ds u ++ " before now + " ++ term ds u) now =
      (match Atoi (String.mk ds) with
        | .error e => .error e
        | .ok n => .ok (lhsFn.apply ⟨n, u⟩ (lhsFn.apply ⟨n, u⟩ now false) true)) := by
  rw [ParseNow_of_lex U _ now _ (lex_round_trip U ds u hd hu) (by simp)]
  simp only [parseFuel, List.length]
  simp only [longUnits, List.mem_cons, List.mem_singleton, List.not_mem_nil, or_false] at hu
  cases hA : Atoi (String.mk ds) <;>
    rcases hu with rfl | rfl | rfl | rfl | rfl | rfl | rfl | rfl | rfl | rfl | rfl | rfl | rfl | rfl <;>
    simp [-mul_neg, -neg_mul, -mul_one, Int.mul_neg, Int.neg_mul, Int.mul_one, parseRun, parseStep, parser.parseExpr, parser.parseExprDigit, parser.parseDurationLeftUnit,
      parser.parseDurationLeftNext, parser.parseDurationLeftBefore, parser.parseDateTime,
      parser.parseNow, parser.parseDurationRight, parser.parseDurationRightUnit,
      parser.parseDurationRightNext, parser.peek, parser.next, List.drop, hA, lhsFn.apply]

theorem Add_seconds (t : Time) (hv : t.Valid) (k : Int) :
    t.Add (k * 1000000000) = ⟨t.sec + k, t.nsec, t.loc⟩ := by
  obtain ⟨h0, h1⟩ := hv
  unfold Time.Add
  simp only [Int.mul_tdiv_cancel k (show (1000000000 : Int) ≠ 0 by decide), Int.mul_tmod_left,
    Int.add_zero]
  rw [if_neg (by omega), if_neg (by omega)]

theorem Add_cancel (t : Time) (hv : t.Valid) (k : Int) :
    (t.Add (k * 1000000000)).Add (-(k * 1000000000)) = t := by
  rw [Add_seconds t hv k, show -(k * 1000000000) = (-k) * 1000000000 by omega,
    Add_seconds ⟨t.sec + k, t.nsec, t.loc⟩ hv (-k)]
  cases t
  simp

theorem AddDate_days_cancel (t : Time) (hf : t.loc.Fixed) (hv : t.Valid) (n : Int) :
    (t.AddDate 0 0 n).AddDate 0 0 (-n) = t := by
  rw [AddDate_days_fixed t hf hv n, AddDate_days_fixed ⟨t.sec + 86400 * n, t.nsec, t.loc⟩ hf hv (-n)]
  cases t
  simp only [Time.mk.injEq, and_true]
  omega

theorem weekdayTable_facts : ∀ p ∈ weekdayTable,
    lex asciiTables p.1 = .ok [⟨.tokenWeekday, p.1⟩] ∧
      parseWeekday asciiTables ⟨.tokenWeekday, p.1⟩ = .ok p.2 ∧ allAscii p.1.data ∧
      0 ≤ p.2 ∧ p.2 ≤ 6 := by
  decide!

theorem parse_weekday (U : RuneTables) (v : String) (w : Int) (now : Time)
    (hw : parseWeekday U ⟨.tokenWeekday, v⟩ = .ok w) :
    parseRun U ⟨[⟨.tokenWeekday, v⟩], now⟩ 24 .parseExpr ⟨0, [], Time.zero, false, false, false⟩ =
      some (none, ⟨1, [], Date now.Date.1 now.Date.2.1
        (now.Date.2.2 + (if w - now.Weekday ≤ 0 then w - now.Weekday + 7 else w - now.Weekday))
        0 0 0 0 now.loc, false, true, false⟩) := by
  have hz : Time.zero.Clock = (0, 0, 0) := by decide
  simp [parseRun, parseStep, parser.parseExpr, parser.parseDateTime, parser.parseWeekday,
    parser.parseTime, parser.peek, parser.next, hw, hz, Time.Location]

theorem Weekday_range (t : Time) : 0 ≤ t.Weekday ∧ t.Weekday ≤ 6 := by
  unfold Time.Weekday
  omega

theorem Date_midnight_fixed (now : Time) (hf : now.loc.Fixed) (k : Int) :
    (Date now.Date.1 now.Date.2.1 (now.Date.2.2 + k) 0 0 0 0 now.loc).abs =
      (now.abs / 86400 + k) * 86400 := by
  obtain ⟨a, b, c, d, e⟩ := civil_spec (now.abs / 86400)
  have hD : now.Date = civil (now.abs / 86400) := rfl
  rw [hD, Date_fixed now.loc hf _ _ _ _ _ _ _ ⟨a, b⟩ (by omega) (by omega) (by omega) (by omega)]
  generalize now.abs / 86400 = D at *
  rw [abs_fixed ⟨_, 0, now.loc⟩ hf]
  dsimp only
  omega

theorem lex_closed (U : RuneTables) (s : String) (ts : List token) (ha : allAscii s.data)
    (h : lex asciiTables s = .ok ts) : lex U s = .ok ts := by
  rw [lex_ascii U asciiTables s ha, h]

theorem rollover_fields (e : penv) (p : parser) (y m : Int) :
    (p.rollover e y m).pos = p.pos ∧ (p.rollover e y m).lhs = p.lhs ∧
      (p.rollover e y m).sub = p.sub ∧ (p.rollover e y m).date = p.date ∧
      (p.rollover e y m).time = p.time := by
  unfold parser.rollover
  split <;> exact ⟨rfl, rfl, rfl, rfl, rfl⟩

theorem zero_facts : Time.zero.IsZero = true ∧ Time.zero.Clock = (0, 0, 0) := by
  decide

/-- C7: for every reference instant, `at noon tomorrow at 4pm` and
`at noon on March the 14th at 4pm` are errors: the second `at` meets a parser whose time is
already set. -/
theorem time_twice_error (U : RuneTables) (now : Time) :
    ParseNow U "at noon tomorrow at 4pm" now =
        .error (.parse ⟨.tokenKeyword, "at"⟩ "unexpected token") ∧
      ParseNow U "at noon on March the 14th at 4pm" now =
        .error (.parse ⟨.tokenKeyword, "at"⟩ "unexpected token") := by
  have l1 := lex_closed U "at noon tomorrow at 4pm" _ (by decide) (by decide! :
    lex asciiTables "at noon tomorrow at 4pm" = .ok [⟨.tokenKeyword, "at"⟩, ⟨.tokenTime, "noon"⟩,
      ⟨.tokenDate, "tomorrow"⟩, ⟨.tokenKeyword, "at"⟩, ⟨.tokenDigit, "4"⟩,
      ⟨.tokenTwelveHour, "pm"⟩])
  have l2 := lex_closed U "at noon on March the 14th at 4pm" _ (by decide) (by decide! :
    lex asciiTables "at noon on March the 14th at 4pm" = .ok [⟨.tokenKeyword, "at"⟩,
      ⟨.tokenTime, "noon"⟩, ⟨.tokenKeyword, "on"⟩, ⟨.tokenMonth, "March"⟩,
      ⟨.tokenKeyword, "the"⟩, ⟨.tokenDigit, "14"⟩, ⟨.tokenOrdinal, "th"⟩,
      ⟨.tokenKeyword, "at"⟩, ⟨.tokenDigit, "4"⟩, ⟨.tokenTwelveHour, "pm"⟩])
  have hm : parseMonth U ⟨.tokenMonth, "March"⟩ = .ok 3 := by
    rw [parseMonth_ascii U asciiTables _ (by decide)]
    decide
  have hA : Atoi "14" = .ok 14 := by decide
  obtain ⟨z1, z2⟩ := zero_facts
  constructor
  · rw [ParseNow_of_lex U _ now _ l1 (by simp)]
    simp [parseFuel, parseRun, parseStep, parser.parseExpr, parser.parseDateTime,
      parser.parseKeyword, parser.parseKeywordAt, parser.parseTimeConst, parser.parseDate,
      parser.parseDateConst, parser.parseTime, parser.parseDurationRightNext, unexpected,
      parser.anchorDate, parser.peek, parser.next, z1, z2]
  · rw [ParseNow_of_lex U _ now _ l2 (by simp)]
    simp [parseFuel, parseRun, parseStep, parser.parseExpr, parser.parseDateTime,
      parser.parseKeyword, parser.parseKeywordAt, parser.parseTimeConst, parser.parseDate,
      parser.parseDateKeyword, parser.parseKeywordOn, parser.parseMonth, parser.parseMonthThe,
      parser.parseMonthTheDigit, parser.parseTime, parser.parseDurationRightNext, unexpected,
      parser.anchorDate, parser.peek, parser.next, z1, z2, hm, hA, rollover_fields]

/-- C8: what the code does with a second clock time or a second date.  With the reference
instant 2006-01-02T15:04:05 MST, `noon 3pm` is 15:00:00 of that day, `3pm 4pm` is 16:00:00,
`tomorrow 4th` is 4 January and `tomorrow 2006` is 1 January 2006: none is an error, the
later component replaces the earlier one. -/
theorem second_component_accepted (U : RuneTables) :
    ParseNow U "noon 3pm" (refNow MST) = .ok (Date 2006 1 2 15 0 0 0 MST) ∧
      ParseNow U "3pm 4pm" (refNow MST) = .ok (Date 2006 1 2 16 0 0 0 MST) ∧
      ParseNow U "tomorrow 4th" (refNow MST) = .ok (Date 2006 1 4 0 0 0 0 MST) ∧
      ParseNow U "tomorrow 2006" (refNow MST) = .ok (Date 2006 1 1 0 0 0 0 MST) := by
  rw [ParseNow_tables U "noon 3pm" _ (by decide!), ParseNow_tables U "3pm 4pm" _ (by decide!),
    ParseNow_tables U "tomorrow 4th" _ (by decide!),
    ParseNow_tables U "tomorrow 2006" _ (by decide!)]
  decide!

/-- C9: with the reference instant 2006-01-02T15:04:05, in America/Vancouver and in MST, the
phrases `1y2M3w4d5h6m7s`, `1y 2M 3w 4d 5h 6m 7s` and
`1 year 2 months 3 weeks 4 days 5 hours 6 minutes 7 seconds` are 2007-03-27T20:10:12 in that
zone. -/
theorem calendar_and_clock_terms (U : RuneTables) :
    ParseNow U "1y2M3w4d5h6m7s" (refNow Vancouver) = .ok (Date 2007 3 27 20 10 12 0 Vancouver) ∧
    ParseNow U "1y 2M 3w 4d 5h 6m 7s" (refNow Vancouver) =
      .ok (Date 2007 3 27 20 10 12 0 Vancouver) ∧
    ParseNow U "1 year 2 months 3 weeks 4 days 5 hours 6 minutes 7 seconds" (refNow Vancouver) =
      .ok (Date 2007 3 27 20 10 12 0 Vancouver) ∧
    ParseNow U "1y2M3w4d5h6m7s" (refNow MST) = .ok (Date 2007 3 27 20 10 12 0 MST) ∧
    ParseNow U "1y 2M 3w 4d 5h 6m 7s" (refNow MST) = .ok (Date 2007 3 27 20 10 12 0 MST) ∧
    ParseNow U "1 year 2 months 3 weeks 4 days 5 hours 6 minutes 7 seconds" (refNow MST) =
      .ok (Date 2007 3 27 20 10 12 0 MST) := by
  rw [ParseNow_tables U "1y2M3w4d5h6m7s" _ (by decide!),
    ParseNow_tables U "1y 2M 3w 4d 5h 6m 7s" _ (by decide!),
    ParseNow_tables U "1 year 2 months 3 weeks 4 days 5 hours 6 minutes 7 seconds" _ (by decide!),
    ParseNow_tables U "1y2M3w4d5h6m7s" _ (by decide!),
    ParseNow_tables U "1y 2M 3w 4d 5h 6m 7s" _ (by decide!),
    ParseNow_tables U "1 year 2 months 3 weeks 4 days 5 hours 6 minutes 7 seconds" _ (by decide!)]
  decide!

/-! ### What the code does with the inputs of some claims -/

theorem lex_tables (U : RuneTables) (s : String) (h : allAscii s.data) :
    lex U s = lex asciiTables s :=
  lex_ascii U asciiTables s h

theorem ParseNow_lex_error (U : RuneTables) (s : String) (now : Time) (e : Error)
    (h : lex U s = .error e) : ParseNow U s now = .error e := by
  unfold ParseNow
  rw [h]

/-- C11: what the code does with a year and with the dashed and slashed dates.  The year
alone is 1 January of that year at 00:00:00 in the zone of the reference instant; the lexer
has no date separator, so that the dash is a minus sign, which the parser does not expect
after a year, and the slash is an invalid character. -/
theorem year_and_separators (U : RuneTables) (now : Time) :
    ParseNow U "2006" now = .ok (Date 2006 1 1 0 0 0 0 now.loc) ∧
    ParseNow U "2006-02" now = .error (.parse ⟨.tokenOperatorSub, "-"⟩ "unexpected token") ∧
    ParseNow U "2006-01-02" now = .error (.parse ⟨.tokenOperatorSub, "-"⟩ "unexpected token") ∧
    ParseNow U "2006/02" now = .error (.lex "invalid character") ∧
    ParseNow U "2006/01/02" now = .error (.lex "invalid character") := by
  have l1 := lex_closed U "2006" _ (by decide) (by decide! :
    lex asciiTables "2006" = .ok [⟨.tokenDigit, "2006"⟩])
  have l2 := lex_closed U "2006-02" _ (by decide) (by decide! :
    lex asciiTables "2006-02" = .ok [⟨.tokenDigit, "2006"⟩, ⟨.tokenOperatorSub, "-"⟩,
      ⟨.tokenDigit, "02"⟩])
  have l3 := lex_closed U "2006-01-02" _ (by decide) (by decide! :
    lex asciiTables "2006-01-02" = .ok [⟨.tokenDigit, "2006"⟩, ⟨.tokenOperatorSub, "-"⟩,
      ⟨.tokenDigit, "01"⟩, ⟨.tokenOperatorSub, "-"⟩, ⟨.tokenDigit, "02"⟩])
  have l4 : lex U "2006/02" = .error (.lex "invalid character") := by
    rw [lex_tables U _ (by decide)]; decide!
  have l5 : lex U "2006/01/02" = .error (.lex "invalid character") := by
    rw [lex_tables U _ (by decide)]; decide!
  have hA : Atoi "2006" = .ok 2006 := by decide
  obtain ⟨z1, z2⟩ := zero_facts
  refine ⟨?_, ?_, ?_, ParseNow_lex_error U _ now _ l4, ParseNow_lex_error U _ now _ l5⟩
  · rw [ParseNow_of_lex U _ now _ l1 (by simp)]
    simp [parseFuel, parseRun, parseStep, parser.parseExpr, parser.parseExprDigit,
      parser.parseDateYear, parser.parseDateYearMonth, parser.peek, parser.next, hA, z2,
      Time.Location]
  · rw [ParseNow_of_lex U _ now _ l2 (by simp)]
    simp [parseFuel, parseRun, parseStep, parser.parseExpr, parser.parseExprDigit, unexpected,
      parser.peek, parser.next]
  · rw [ParseNow_of_lex U _ now _ l3 (by simp)]
    simp [parseFuel, parseRun, parseStep, parser.parseExpr, parser.parseExprDigit, unexpected,
      parser.peek, parser.next]

/-- C12: what the code does with a capital letter.  The lexer finds the kind of a word in
lower case and keeps the word as it was written; the parser compares it as written, so that
`Tomorrow` and `At Noon` are parse errors where `tomorrow` and `at noon` are dates, and the
unit of `1 Year` is not known to `lhsFn.apply`, which returns the zero time where `1 year`
is a year after the reference instant. -/
theorem capital_letters (U : RuneTables) (now : Time) :
    ParseNow U "Tomorrow" now = .error (.parse ⟨.tokenDate, "Tomorrow"⟩ "unexpected date") ∧
    ParseNow U "tomorrow" now =
      .ok (Date now.Date.1 now.Date.2.1 (now.Date.2.2 + 1) 0 0 0 0 now.loc) ∧
    ParseNow U "At Noon" now = .error (.parse ⟨.tokenKeyword, "At"⟩ "unexpected token") ∧
    ParseNow U "at noon" now =
      .ok (Date now.Date.1 now.Date.2.1 now.Date.2.2 12 0 0 0 now.loc) ∧
    ParseNow U "1 Year" now = .ok Time.zero ∧
    ParseNow U "1 year" now = .ok (now.AddDate 1 0 0) := by
  have l1 := lex_closed U "Tomorrow" _ (by decide) (by decide! :
    lex asciiTables "Tomorrow" = .ok [⟨.tokenDate, "Tomorrow"⟩])
  have l2 := lex_closed U "tomorrow" _ (by decide) (by decide! :
    lex asciiTables "tomorrow" = .ok [⟨.tokenDate, "tomorrow"⟩])
  have l3 := lex_closed U "At Noon" _ (by decide) (by decide! :
    lex asciiTables "At Noon" = .ok [⟨.tokenKeyword, "At"⟩, ⟨.tokenTime, "Noon"⟩])
  have l4 := lex_closed U "at noon" _ (by decide) (by decide! :
    lex asciiTables "at noon" = .ok [⟨.tokenKeyword, "at"⟩, ⟨.tokenTime, "noon"⟩])
  have l5 := lex_closed U "1 Year" _ (by decide) (by decide! :
    lex asciiTables "1 Year" = .ok [⟨.tokenDigit, "1"⟩, ⟨.tokenUnit, "Year"⟩])
  have l6 := lex_closed U "1 year" _ (by decide) (by decide! :
    lex asciiTables "1 year" = .ok [⟨.tokenDigit, "1"⟩, ⟨.tokenUnit, "year"⟩])
  have hA : Atoi "1" = .ok 1 := by decide
  obtain ⟨z1, z2⟩ := zero_facts
  refine ⟨?_, ?_, ?_, ?_, ?_, ?_⟩
  · rw [ParseNow_of_lex U _ now _ l1 (by simp)]
    simp [parseFuel, parseRun, parseStep, parser.parseExpr, parser.parseDateTime,
      parser.parseDateConst, parser.peek, parser.next]
  · rw [ParseNow_of_lex U _ now _ l2 (by simp)]
    simp [parseFuel, parseRun, parseStep, parser.parseExpr, parser.parseDateTime,
      parser.parseDateConst, parser.parseTime, parser.peek, parser.next, z2, Time.Location]
  · rw [ParseNow_of_lex U _ now _ l3 (by simp)]
    simp [parseFuel, parseRun, parseStep, parser.parseExpr, parser.parseDateTime,
      parser.parseKeyword, unexpected, parser.peek, parser.next]
  · rw [ParseNow_of_lex U _ now _ l4 (by simp)]
    simp [parseFuel, parseRun, parseStep, parser.parseExpr, parser.parseDateTime,
      parser.parseKeyword, parser.parseKeywordAt, parser.parseTimeConst, parser.parseDate,
      parser.anchorDate, parser.peek, parser.next, z1, Time.Location]
  · rw [ParseNow_of_lex U _ now _ l5 (by simp)]
    simp [parseFuel, parseRun, parseStep, parser.parseExpr, parser.parseExprDigit,
      parser.parseDurationLeftUnit, parser.parseDurationLeftNext, parser.peek, parser.next, hA,
      lhsFn.apply]
  · rw [ParseNow_of_lex U _ now _ l6 (by simp)]
    simp [parseFuel, parseRun, parseStep, parser.parseExpr, parser.parseExprDigit,
      parser.parseDurationLeftUnit, parser.parseDurationLeftNext, parser.peek, parser.next, hA,
      lhsFn.apply]

/-- C13: what the code does with `AGO` in capitals: `readDurationSpaceNext` finds the word
in lower case, `readString` then reads nothing, an `ago` token with an empty text is emitted
and the word is read again as an unknown word; the lexer fails, where `1 year ago` has three
tokens. -/
theorem capital_ago (U : RuneTables) :
    lex U "1 year AGO" = .error (.lex "invalid character") ∧
    lex U "1 year ago" =
      .ok [⟨.tokenDigit, "1"⟩, ⟨.tokenUnit, "year"⟩, ⟨.tokenAgo, "ago"⟩] := by
  rw [lex_tables U "1 year AGO" (by decide), lex_tables U "1 year ago" (by decide)]
  decide!

/-- C21: what the code does with a count that has no unit after a join: the next token,
or the end of the input, is taken for the unit, no error is returned, and `lhsFn.apply`
makes the zero time of the unknown unit. -/
theorem count_without_unit (U : RuneTables) (now : Time) :
    ParseNow U "1 year + 2" now = .ok Time.zero ∧
    ParseNow U "1 year + 2 pm" now = .ok Time.zero := by
  have l1 := lex_closed U "1 year + 2" _ (by decide) (by decide! :
    lex asciiTables "1 year + 2" = .ok [⟨.tokenDigit, "1"⟩, ⟨.tokenUnit, "year"⟩,
      ⟨.tokenOperatorAdd, "+"⟩, ⟨.tokenDigit, "2"⟩])
  have l2 := lex_closed U "1 year + 2 pm" _ (by decide) (by decide! :
    lex asciiTables "1 year + 2 pm" = .ok [⟨.tokenDigit, "1"⟩, ⟨.tokenUnit, "year"⟩,
      ⟨.tokenOperatorAdd, "+"⟩, ⟨.tokenDigit, "2"⟩, ⟨.tokenTwelveHour, "pm"⟩])
  have hA : Atoi "1" = .ok 1 := by decide
  have hB : Atoi "2" = .ok 2 := by decide
  constructor
  · rw [ParseNow_of_lex U _ now _ l1 (by simp)]
    simp [parseFuel, parseRun, parseStep, parser.parseExpr, parser.parseExprDigit,
      parser.parseDurationLeftUnit, parser.parseDurationLeftNext, parser.parseDurationLeft,
      parser.peek, parser.next, hA, hB, lhsFn.apply]
  · rw [ParseNow_of_lex U _ now _ l2 (by simp)]
    simp [parseFuel, parseRun, parseStep, parser.parseExpr, parser.parseExprDigit,
      parser.parseDurationLeftUnit, parser.parseDurationLeftNext, parser.parseDurationLeft,
      parser.peek, parser.next, hA, hB, lhsFn.apply]

/-! ### After a digit run -/

theorem readDigit_stop (U : RuneTables) (ds r : List Char) (c : Char)
    (hd : ∀ c ∈ ds, isAsciiDigit c = true) (hc : isDigit U c = false) (w : Nat) :
    readDigit U ⟨ds ++ c :: r, 0, 0, w, []⟩ =
      (if c = 's' then (some .readDurationUnitSecondsOrOrdinal,
          ⟨ds ++ c :: r, ds.length, ds.length, 1, [⟨.tokenDigit, String.mk ds⟩]⟩)
        else if c = 'm' ∨ c = 'h' ∨ c = 'd' ∨ c = 'w' ∨ c = 'M' ∨ c = 'y' then
          (some .readDurationNextShort, ⟨ds ++ c :: r, ds.length + 1, ds.length + 1, 1,
            [⟨.tokenDigit, String.mk ds⟩, ⟨.tokenUnit, String.mk [c]⟩]⟩)
        else if c = 'n' ∨ c = 'r' ∨ c = 't' then (some .readOrdinal,
          ⟨ds ++ c :: r, ds.length, ds.length, 1, [⟨.tokenDigit, String.mk ds⟩]⟩)
        else if c = 'a' ∨ c = 'p' then (some .readTwelveHour,
          ⟨ds ++ c :: r, ds.length, ds.length, 1, [⟨.tokenDigit, String.mk ds⟩]⟩)
        else if c = ':' then (some .readColon,
          ⟨ds ++ c :: r, ds.length, ds.length, 1, [⟨.tokenDigit, String.mk ds⟩]⟩)
        else (some .readExpr,
          ⟨ds ++ c :: r, ds.length, ds.length, 1, [⟨.tokenDigit, String.mk ds⟩]⟩)) := by
  have hall : ∀ c ∈ ds, isDigit U c = true := fun c hc => (asciiDigit_facts U c (hd c hc)).2.1
  simp only [readDigit, readFn_eq, List.drop, takeWhile_append_stop (isDigit U) ds c r hall hc,
    dropWhile_append_stop (isDigit U) ds c r hall hc, lexer.emit, lexer.emitAs, lexer.value,
    lexer.peek, lexer.read, lexer.unread]
  simp

theorem lexToks_digits_stop (U : RuneTables) (n : Nat) (ds r : List Char) (c : Char)
    (hd : isCount ds) (hc : isDigit U c = false) :
    lexToks U (n + 2) .readExpr (ds ++ c :: r) =
      (if c = 's' then (lexToks U n .readDurationUnitSecondsOrOrdinal (c :: r)).map
          (fun t => ⟨.tokenDigit, String.mk ds⟩ :: t)
        else if c = 'm' ∨ c = 'h' ∨ c = 'd' ∨ c = 'w' ∨ c = 'M' ∨ c = 'y' then
          (lexToks U n .readDurationNextShort r).map
            (fun t => ⟨.tokenDigit, String.mk ds⟩ :: ⟨.tokenUnit, String.mk [c]⟩ :: t)
        else if c = 'n' ∨ c = 'r' ∨ c = 't' then (lexToks U n .readOrdinal (c :: r)).map
          (fun t => ⟨.tokenDigit, String.mk ds⟩ :: t)
        else if c = 'a' ∨ c = 'p' then (lexToks U n .readTwelveHour (c :: r)).map
          (fun t => ⟨.tokenDigit, String.mk ds⟩ :: t)
        else if c = ':' then (lexToks U n .readColon (c :: r)).map
          (fun t => ⟨.tokenDigit, String.mk ds⟩ :: t)
        else (lexToks U n .readExpr (c :: r)).map
          (fun t => ⟨.tokenDigit, String.mk ds⟩ :: t)) := by
  rw [lexToks, lexRun, lexStep, readExpr_digit U ds _ hd.1 hd.2]
  simp only [lexRun, lexStep, readDigit_stop U ds r c hd.2 hc 1]
  have e : ds ++ c :: r = (ds ++ [c]) ++ r := by simp
  have hl : ds.length + 1 = (ds ++ [c]).length := by simp
  split_ifs
  · exact lexRun_cut U n _ ds (c :: r) _ 1
  · simp only [hl]
    rw [e]
    exact lexRun_cut U n _ (ds ++ [c]) r _ 1
  · exact lexRun_cut U n _ ds (c :: r) _ 1
  · exact lexRun_cut U n _ ds (c :: r) _ 1
  · exact lexRun_cut U n _ ds (c :: r) _ 1
  · exact lexRun_cut U n _ ds (c :: r) _ 1

/-! ### Ordinals and short units -/

theorem lexToks_ordinal (U : RuneTables) (n : Nat) (a b : Char) (R : List Char)
    (h : (a = 'n' ∧ b = 'd') ∨ (a = 'r' ∧ b = 'd') ∨ (a = 't' ∧ b = 'h')) :
    lexToks U (n + 1) .readOrdinal (a :: b :: R) =
      (lexToks U n .readExpr R).map (fun t => ⟨.tokenOrdinal, String.mk [a, b]⟩ :: t) := by
  have hs : lexStep U .readOrdinal ⟨[a, b] ++ R, 0, 0, 0, []⟩ =
      (some .readExpr, ⟨[a, b] ++ R, [a, b].length, [a, b].length, 1,
        [⟨.tokenOrdinal, String.mk [a, b]⟩]⟩) := by
    rcases h with ⟨rfl, rfl⟩ | ⟨rfl, rfl⟩ | ⟨rfl, rfl⟩ <;>
      simp [lexStep, readOrdinal, lexer.read, lexer.readRune, lexer.emit, lexer.emitAs,
        lexer.value]
  have := lexToks_step U n .readOrdinal .readExpr ([a, b] ++ R) [a, b] R _ 1 rfl hs
  simpa using this

theorem lexToks_ordinal_bad (U : RuneTables) (a : Char) (R : List Char)
    (h : ((a = 'n' ∨ a = 'r') ∧ R.head? ≠ some 'd') ∨ (a = 't' ∧ R.head? ≠ some 'h')) :
    lexToks U 1 .readOrdinal (a :: R) = some [⟨.tokenError, "invalid ordinal"⟩] := by
  cases R with
  | nil =>
    rcases h with ⟨rfl | rfl, -⟩ | ⟨rfl, -⟩ <;>
      simp [lexToks, lexRun, lexStep, readOrdinal, lexer.read, lexer.readRune, lexer.errorf]
  | cons c R =>
    simp only [List.head?_cons, ne_eq, Option.some.injEq] at h
    rcases h with ⟨rfl | rfl, hc⟩ | ⟨rfl, hc⟩ <;>
      simp [lexToks, lexRun, lexStep, readOrdinal, lexer.read, lexer.readRune, lexer.errorf, hc]

theorem lexToks_st (U : RuneTables) (n : Nat) (R : List Char) :
    lexToks U (n + 1) .readDurationUnitSecondsOrOrdinal ('s' :: 't' :: R) =
      (lexToks U n .readExpr R).map (fun t => ⟨.tokenOrdinal, "st"⟩ :: t) := by
  have hs : lexStep U .readDurationUnitSecondsOrOrdinal ⟨['s', 't'] ++ R, 0, 0, 0, []⟩ =
      (some .readExpr, ⟨['s', 't'] ++ R, ['s', 't'].length, ['s', 't'].length, 1,
        [⟨.tokenOrdinal, "st"⟩]⟩) := by
    simp [lexStep, readDurationUnitSecondsOrOrdinal, lexer.read, lexer.peek, lexer.unread,
      lexer.emit, lexer.emitAs, lexer.value]
  have := lexToks_step U n .readDurationUnitSecondsOrOrdinal .readExpr (['s', 't'] ++ R)
    ['s', 't'] R _ 1 rfl hs
  simpa using this

theorem lexToks_s (U : RuneTables) (n : Nat) (R : List Char) (h : R.head? ≠ some 't') :
    lexToks U (n + 1) .readDurationUnitSecondsOrOrdinal ('s' :: R) =
      (lexToks U n .readDurationNextShort R).map (fun t => ⟨.tokenUnit, "s"⟩ :: t) := by
  have hs : lexStep U .readDurationUnitSecondsOrOrdinal ⟨['s'] ++ R, 0, 0, 0, []⟩ =
      (some .readDurationNextShort, ⟨['s'] ++ R, ['s'].length, ['s'].length,
        (if R = [] then 0 else 1), [⟨.tokenUnit, "s"⟩]⟩) := by
    cases R with
    | nil =>
      simp [lexStep, readDurationUnitSecondsOrOrdinal, lexer.read, lexer.peek, lexer.unread,
        lexer.emit, lexer.emitAs, lexer.value]
    | cons c R =>
      simp only [List.head?_cons, ne_eq, Option.some.injEq] at h
      simp [lexStep, readDurationUnitSecondsOrOrdinal, lexer.read, lexer.peek, lexer.unread,
        lexer.emit, lexer.emitAs, lexer.value, h]
  have := lexToks_step U n .readDurationUnitSecondsOrOrdinal .readDurationNextShort (['s'] ++ R)
    ['s'] R _ _ rfl hs
  simpa using this

theorem lexToks_short_digit (U : RuneTables) (n : Nat) (d : Char) (R : List Char)
    (hd : isAsciiDigit d = true) :
    lexToks U (n + 1) .readDurationNextShort (d :: R) =
      (lexToks U n .readExpr (d :: R)).map (fun t => ⟨.tokenOperatorAdd, ""⟩ :: t) := by
  obtain ⟨h1, h2, h3, h4, h5⟩ := asciiDigit_facts U d hd
  have h6 : d ≠ '&' := by rintro rfl; exact absurd hd (by decide)
  have h7 : d ≠ ',' := by rintro rfl; exact absurd hd (by decide)
  have hs : lexStep U .readDurationNextShort ⟨[] ++ d :: R, 0, 0, 0, []⟩ =
      (some .readExpr, ⟨[] ++ d :: R, ([] : List Char).length, ([] : List Char).length, 1,
        [⟨.tokenOperatorAdd, ""⟩]⟩) := by
    simp [lexStep, readDurationNextShort, lexer.read, lexer.peek, lexer.unread,
      lexer.emit, lexer.emitAs, lexer.value, h1, h4, h5, h6, h7]
  have := lexToks_step U n .readDurationNextShort .readExpr ([] ++ d :: R) [] (d :: R) _ _ rfl hs
  simpa using this

theorem lexToks_short_eof (U : RuneTables) : lexToks U 1 .readDurationNextShort [] = some [] := by
  simp [lexToks, lexRun, lexStep, readDurationNextShort, lexer.peek, lexer.read, lexer.unread]

theorem shortPhrase_head (terms : List (List Char × Char))
    (h : ∀ t ∈ terms, isCount t.1 ∧ t.2 ∈ shortUnits) :
    shortPhrase terms = [] ∨ ∃ d R, shortPhrase terms = d :: R ∧ isAsciiDigit d = true := by
  cases terms with
  | nil => exact Or.inl rfl
  | cons t rest =>
    obtain ⟨⟨hne, hd⟩, -⟩ := h t (List.mem_cons_self _ _)
    obtain ⟨d, ds, hds⟩ := List.exists_cons_of_ne_nil hne
    refine Or.inr ⟨d, ds ++ t.2 :: shortPhrase rest, ?_, hd d (by rw [hds]; simp)⟩
    obtain ⟨t1, t2⟩ := t
    simp only [shortPhrase] at hds ⊢
    rw [hds]
    rfl

theorem lexToks_short (U : RuneTables) : ∀ (terms : List (List Char × Char)),
    (∀ t ∈ terms, isCount t.1 ∧ t.2 ∈ shortUnits) →
    lexToks U (4 * terms.length + 1) .readExpr (shortPhrase terms) = some (shortTokens terms)
  | [], _ => lexToks_nil U
  | (ds, c) :: rest, h => by
    have hr : ∀ t ∈ rest, isCount t.1 ∧ t.2 ∈ shortUnits :=
      fun t ht => h t (List.mem_cons_of_mem _ ht)
    obtain ⟨hd, hc⟩ := h (ds, c) (List.mem_cons_self _ _)
    have ih := lexToks_short U rest hr
    -- the tokens after the unit
    have tail : lexToks U (4 * rest.length + 2) .readDurationNextShort (shortPhrase rest) =
        some ((shortTokens ((ds, c) :: rest)).drop 2) := by
      cases rest with
      | nil => exact lexToks_mono U 1 _ _ _ _ (by omega) (lexToks_short_eof U)
      | cons t1 rest1 =>
        rcases shortPhrase_head (t1 :: rest1) hr with h0 | ⟨d, R, h1, h2⟩
        · obtain ⟨a, b⟩ := t1
          simp [shortPhrase] at h0
        · rw [h1, lexToks_short_digit U _ d R h2, ← h1, ih]
          rfl
    have shape : shortTokens ((ds, c) :: rest) =
        ⟨.tokenDigit, String.mk ds⟩ :: ⟨.tokenUnit, String.mk [c]⟩ ::
          (shortTokens ((ds, c) :: rest)).drop 2 := by
      cases rest <;> rfl
    have hdig : isDigit U c = false := by
      simp only [shortUnits, List.mem_cons, List.mem_singleton, List.not_mem_nil, or_false] at hc
      rcases hc with rfl | rfl | rfl | rfl | rfl | rfl | rfl <;> rfl
    have hfuel : 4 * ((ds, c) :: rest).length + 1 = (4 * rest.length + 3) + 2 := by
      simp only [List.length_cons]; omega
    rw [shape, hfuel]
    simp only [shortPhrase]
    rw [lexToks_digits_stop U _ ds _ c hd hdig]
    simp only [shortUnits, List.mem_cons, List.mem_singleton, List.not_mem_nil, or_false] at hc
    by_cases hs : c = 's'
    · subst hs
      have hne : (shortPhrase rest).head? ≠ some 't' := by
        rcases shortPhrase_head rest hr with h0 | ⟨d, R, h1, h2⟩
        · rw [h0]; simp
        · rw [h1]
          simp only [List.head?_cons, ne_eq, Option.some.injEq]
          rintro rfl
          exact absurd h2 (by decide)
      rw [if_pos rfl, lexToks_s U _ _ hne, tail]
      rfl
    · rw [if_neg hs, if_pos (by
        rcases hc with rfl | rfl | rfl | rfl | rfl | rfl | rfl <;> simp at hs ⊢)]
      rw [lexToks_mono U _ (4 * rest.length + 3) _ _ _ (by omega) tail]
      rfl

theorem shortTokens_last : ∀ (terms : List (List Char × Char)) (last : token),
    (shortTokens terms).getLast? = some last → last.typ = .tokenUnit
  | [], last, h => by simp [shortTokens] at h
  | [(ds, c)], last, h => by
    simp [shortTokens] at h
    rw [← h]
  | (ds, c) :: t1 :: rest, last, h => by
    have : (shortTokens ((ds, c) :: t1 :: rest)).getLast? = (shortTokens (t1 :: rest)).getLast? := by
      have hne : shortTokens (t1 :: rest) ≠ [] := by
        obtain ⟨a, b⟩ := t1
        cases rest <;> simp [shortTokens]
      obtain ⟨x, xs, hx⟩ := List.exists_cons_of_ne_nil hne
      simp only [shortTokens, hx, List.getLast?_cons_cons]
    rw [this] at h
    exact shortTokens_last (t1 :: rest) last h

/-- C16: terms written with short units and nothing between them are lexed to a digit and
a unit for each term, with an addition of empty text between two terms and none at the
end. -/
theorem short_units_lex (U : RuneTables) (terms : List (List Char × Char))
    (h : ∀ t ∈ terms, isCount t.1 ∧ t.2 ∈ shortUnits) :
    lex U (String.mk (shortPhrase terms)) = .ok (shortTokens terms) := by
  have hlen : terms.length ≤ (shortPhrase terms).length := by
    clear h
    induction terms with
    | nil => simp
    | cons t rest ih =>
      obtain ⟨a, b⟩ := t
      simp only [shortPhrase, List.length_cons, List.length_append]
      omega
  rw [lex_of_toks U _ _ (4 * terms.length + 1) (by simp only [lexFuel]; omega)
    (lexToks_short U terms h)]
  cases hl : (shortTokens terms).getLast? with
  | none => rfl
  | some last =>
    have := shortTokens_last terms last hl
    simp [this]

theorem short_units_lex_witness :
    (∀ t ∈ [("1".data, 'y'), ("2".data, 'M'), ("3".data, 'w'), ("4".data, 'd'), ("5".data, 'h'),
        ("6".data, 'm'), ("7".data, 's')], isCount t.1 ∧ t.2 ∈ shortUnits) ∧
      lex asciiTables (String.mk (shortPhrase [("1".data, 'y'), ("2".data, 'M'), ("3".data, 'w'),
        ("4".data, 'd'), ("5".data, 'h'), ("6".data, 'm'), ("7".data, 's')])) =
        .ok (shortTokens [("1".data, 'y'), ("2".data, 'M'), ("3".data, 'w'), ("4".data, 'd'),
          ("5".data, 'h'), ("6".data, 'm'), ("7".data, 's')]) :=
  ⟨by decide, short_units_lex asciiTables _ (by decide)⟩

theorem lex_error_of_toks (U : RuneTables) (s : String) (ts : List token) (msg : String) (n : Nat)
    (hn : n ≤ lexFuel s) (h : lexToks U n .readExpr s.data = some (ts ++ [⟨.tokenError, msg⟩])) :
    lex U s = .error (.lex msg) := by
  rw [lex_of_toks U s _ n hn h]
  simp

/-- C17: a digit run with one of the suffixes `st`, `nd`, `rd`, `th` is a digit and an
ordinal; a digit run followed by `n` or `r` and then anything but `d`, or by `t` and then
anything but `h`, the end of the input included, is the lexer error `invalid ordinal`. -/
theorem ordinal_suffix (U : RuneTables) (ds : List Char) (hd : isCount ds) :
    (∀ x ∈ ["st", "nd", "rd", "th"], lex U (String.mk ds ++ x) =
      .ok [⟨.tokenDigit, String.mk ds⟩, ⟨.tokenOrdinal, x⟩]) ∧
    (∀ (a : Char) (R : List Char),
      ((a = 'n' ∨ a = 'r') ∧ R.head? ≠ some 'd') ∨ (a = 't' ∧ R.head? ≠ some 'h') →
      lex U (String.mk (ds ++ a :: R)) = .error (.lex "invalid ordinal")) := by
  constructor
  · intro x hx
    have h : lexToks U 4 .readExpr (String.mk ds ++ x).data =
        some [⟨.tokenDigit, String.mk ds⟩, ⟨.tokenOrdinal, x⟩] := by
      simp only [List.mem_cons, List.mem_singleton, List.not_mem_nil, or_false] at hx
      rcases hx with rfl | rfl | rfl | rfl
      · rw [show (String.mk ds ++ "st").data = ds ++ 's' :: ['t'] from rfl,
          lexToks_digits_stop U 2 ds _ 's' hd rfl, if_pos rfl, lexToks_st U 1, lexToks_nil]
        rfl
      · rw [show (String.mk ds ++ "nd").data = ds ++ 'n' :: ['d'] from rfl,
          lexToks_digits_stop U 2 ds _ 'n' hd rfl]
        simp only [show ('n' : Char) ≠ 's' by decide, if_false, if_true,
          show ¬ (('n' : Char) = 'm' ∨ ('n' : Char) = 'h' ∨ ('n' : Char) = 'd' ∨ ('n' : Char) = 'w' ∨
            ('n' : Char) = 'M' ∨ ('n' : Char) = 'y') by decide, true_or]
        rw [lexToks_ordinal U 1 'n' 'd' [] (by simp), lexToks_nil]
        rfl
      · rw [show (String.mk ds ++ "rd").data = ds ++ 'r' :: ['d'] from rfl,
          lexToks_digits_stop U 2 ds _ 'r' hd rfl]
        simp only [show ('r' : Char) ≠ 's' by decide, if_false, if_true,
          show ¬ (('r' : Char) = 'm' ∨ ('r' : Char) = 'h' ∨ ('r' : Char) = 'd' ∨ ('r' : Char) = 'w' ∨
            ('r' : Char) = 'M' ∨ ('r' : Char) = 'y') by decide, true_or, or_true]
        rw [lexToks_ordinal U 1 'r' 'd' [] (by simp), lexToks_nil]
        rfl
      · rw [show (String.mk ds ++ "th").data = ds ++ 't' :: ['h'] from rfl,
          lexToks_digits_stop U 2 ds _ 't' hd rfl]
        simp only [show ('t' : Char) ≠ 's' by decide, if_false, if_true,
          show ¬ (('t' : Char) = 'm' ∨ ('t' : Char) = 'h' ∨ ('t' : Char) = 'd' ∨ ('t' : Char) = 'w' ∨
            ('t' : Char) = 'M' ∨ ('t' : Char) = 'y') by decide, true_or, or_true]
        rw [lexToks_ordinal U 1 't' 'h' [] (by simp), lexToks_nil]
        rfl
    rw [lex_of_toks U _ _ 4 (by simp [lexFuel]) h]
    rfl
  · intro a R h
    have ha : a = 'n' ∨ a = 'r' ∨ a = 't' := by
      rcases h with ⟨h1 | h1, -⟩ | ⟨h1, -⟩ <;> simp [h1]
    have hdig : isDigit U a = false := by
      rcases ha with rfl | rfl | rfl <;> rfl
    have hh : lexToks U 3 .readExpr (String.mk (ds ++ a :: R)).data =
        some ([⟨.tokenDigit, String.mk ds⟩] ++ [⟨.tokenError, "invalid ordinal"⟩]) := by
      rw [show (String.mk (ds ++ a :: R)).data = ds ++ a :: R from rfl,
        lexToks_digits_stop U 1 ds _ a hd hdig]
      have e1 : a ≠ 's' := by rcases ha with rfl | rfl | rfl <;> decide
      have e2 : ¬ (a = 'm' ∨ a = 'h' ∨ a = 'd' ∨ a = 'w' ∨ a = 'M' ∨ a = 'y') := by
        rcases ha with rfl | rfl | rfl <;> decide
      rw [if_neg e1, if_neg e2, if_pos ha, lexToks_ordinal_bad U a R h]
      rfl
    exact lex_error_of_toks U _ _ _ 3 (by simp [lexFuel]) hh

theorem ordinal_suffix_witness :
    isCount "14".data ∧
      lex asciiTables (String.mk "14".data ++ "th") =
        .ok [⟨.tokenDigit, String.mk "14".data⟩, ⟨.tokenOrdinal, "th"⟩] :=
  ⟨by decide, (ordinal_suffix asciiTables "14".data (by decide)).1 "th" (by decide)⟩

/-! ### Long units need a boundary -/

theorem readLetter_unknown (U : RuneTables) (l : lexer)
    (h : unknownWord (stringsToLower U (l.readFn (isTimeRune U)).value)) :
    readLetter U l = (l.readFn (isTimeRune U)).errorf "invalid character" := by
  obtain ⟨h1, h2, h3, h4, h5, h6, h7, h8, h9, h10, h11, h12, h13⟩ := h
  unfold readLetter
  simp only [h1, h2, h3, h4, h5, h6, h7, h8, h9, h10, h11, h12, h13, if_false, or_self]

theorem lexToks_unknown (U : RuneTables) (v : String) (R : List Char)
    (hl : ∀ x ∈ v.data, 97 ≤ x.toNat ∧ x.toNat ≤ 122) (hne : v.data ≠ [])
    (hR : R.takeWhile (isTimeRune U) = []) (hv : unknownWord v) :
    lexToks U 2 .readExpr (v.data ++ R) = some [⟨.tokenError, "invalid character"⟩] := by
  obtain ⟨x, xs, hx⟩ := List.exists_cons_of_ne_nil hne
  obtain ⟨-, k2, k3, k4, -, k6, k7, k8⟩ := lower_letter U x (hl x (by rw [hx]; simp))
  have hall : ∀ x ∈ v.data, isTimeRune U x = true := fun x hx => (lower_letter U x (hl x hx)).1
  have hlow : stringsToLower U v = v := by
    unfold stringsToLower
    have : v.data.map (toLower U) = v.data := by
      conv_rhs => rw [← List.map_id v.data]
      exact List.map_congr_left (fun x hx => (lower_letter U x (hl x hx)).2.2.2.2.1)
    rw [this]
  have h1 : readExpr U ⟨v.data ++ R, 0, 0, 0, []⟩ =
      (some .readLetter, ⟨v.data ++ R, 0, 0, 1, []⟩) := by
    rw [hx]
    simp [readExpr, readFn_eq, List.takeWhile, List.dropWhile, k2, k3, k4, k6, k7, k8,
      lexer.ignore, lexer.peek, lexer.read, lexer.unread]
  have h2 : ((⟨v.data ++ R, 0, 0, 1, []⟩ : lexer).readFn (isTimeRune U)).value = v := by
    rw [readFn_eq]
    simp [lexer.value, takeWhile_append_of_all (isTimeRune U) v.data R hall, hR]
  rw [lexToks, lexRun, lexStep, h1]
  simp only [lexRun, lexStep]
  rw [readLetter_unknown U _ (by rw [h2, hlow]; exact hv)]
  simp [lexer.errorf, readFn_eq]

theorem lower_letter_more (x : Char) (h : 97 ≤ x.toNat ∧ x.toNat ≤ 122) :
    x ≠ ',' ∧ x ≠ '&' := by
  refine ⟨?_, ?_⟩ <;>
  · rintro rfl
    revert h
    decide

theorem lexToks_short_letter (U : RuneTables) (n : Nat) (x : Char) (R : List Char)
    (hx : 97 ≤ x.toNat ∧ x.toNat ≤ 122) :
    lexToks U (n + 1) .readDurationNextShort (x :: R) =
      (lexToks U n .readExpr (x :: R)).map (fun t => ⟨.tokenOperatorAdd, ""⟩ :: t) := by
  obtain ⟨-, -, -, h4, -, -, h7, h8⟩ := lower_letter U x hx
  obtain ⟨h5, h6⟩ := lower_letter_more x hx
  have hs : lexStep U .readDurationNextShort ⟨[] ++ x :: R, 0, 0, 0, []⟩ =
      (some .readExpr, ⟨[] ++ x :: R, ([] : List Char).length, ([] : List Char).length, 1,
        [⟨.tokenOperatorAdd, ""⟩]⟩) := by
    simp [lexStep, readDurationNextShort, lexer.read, lexer.peek, lexer.unread,
      lexer.emit, lexer.emitAs, lexer.value, h4, h5, h6, h7, h8]
  have := lexToks_step U n .readDurationNextShort .readExpr ([] ++ x :: R) [] (x :: R) _ _ rfl hs
  simpa using this

theorem unit_tails : ∀ u ∈ longUnits,
    (u.data.head? = some 's' ∨ u.data.head? = some 'm' ∨ u.data.head? = some 'h' ∨
      u.data.head? = some 'd' ∨ u.data.head? = some 'w' ∨ u.data.head? = some 'y') ∧
    unknownWord (String.mk u.data.tail) ∧ (∀ x ∈ u.data.tail, 97 ≤ x.toNat ∧ x.toNat ≤ 122) ∧
    u.data.tail ≠ [] ∧ u.data.tail.head? ≠ some 't' := by
  decide!

theorem lexToks_glued (U : RuneTables) (ds : List Char) (u : String) (hd : isCount ds)
    (hu : u ∈ longUnits) :
    ∃ ts, lexToks U 6 .readExpr (ds ++ u.data) =
      some (ts ++ [⟨.tokenError, "invalid character"⟩]) := by
  obtain ⟨hc, hv, hl, hne, ht⟩ := unit_tails u hu
  obtain ⟨ul, -⟩ := unit_letters u hu
  rcases hdata : u.data with _ | ⟨c, r⟩
  · rw [hdata] at hne
    exact absurd rfl hne
  · rw [hdata] at hc hv hl hne ht ul
    simp only [List.tail_cons, List.head?_cons, Option.some.injEq] at hc hv hl hne ht
    obtain ⟨x, xs, hx⟩ := List.exists_cons_of_ne_nil hne
    have hxl := hl x (by rw [hx]; simp)
    have hdig : isDigit U c = false := (lower_letter U c (ul c (by simp))).2.2.1
    have hun : lexToks U 2 .readExpr r = some [⟨.tokenError, "invalid character"⟩] := by
      have := lexToks_unknown U (String.mk r) [] hl hne rfl hv
      rwa [List.append_nil] at this
    refine ⟨[⟨.tokenDigit, String.mk ds⟩, ⟨.tokenUnit, String.mk [c]⟩, ⟨.tokenOperatorAdd, ""⟩], ?_⟩
    rw [lexToks_digits_stop U 4 ds r c hd hdig]
    by_cases hs : c = 's'
    · rw [if_pos hs]
      subst hs
      rw [lexToks_s U 3 r ht, hx, lexToks_short_letter U 2 x xs hxl, ← hx, hun]
      rfl
    · rw [if_neg hs, if_pos (by
        rcases hc with h | h | h | h | h | h
        · exact absurd h hs
        · exact Or.inl h
        · exact Or.inr (Or.inl h)
        · exact Or.inr (Or.inr (Or.inl h))
        · exact Or.inr (Or.inr (Or.inr (Or.inl h)))
        · exact Or.inr (Or.inr (Or.inr (Or.inr (Or.inr h)))))]
      have h3 := lexToks_mono U 2 3 .readExpr r _ (by omega) hun
      rw [hx, lexToks_short_letter U 3 x xs hxl, ← hx, h3]
      rfl

theorem digit_not_timeRune (U : RuneTables) (d : Char) (h : isAsciiDigit d = true) :
    isTimeRune U d = false := by
  have h1 : 48 ≤ d.toNat ∧ d.toNat ≤ 57 := by simpa [isAsciiDigit] using h
  have h2 : d ≠ '\'' := by rintro rfl; revert h1; decide
  have h3 : d.toNat < 128 := by omega
  simp only [isTimeRune, h2, if_false, isLetter, h3, if_true, Bool.or_eq_false_iff,
    Bool.and_eq_false_iff, decide_eq_false_iff_not]
  omega

theorem lexToks_next_digit (U : RuneTables) (d : Char) (R : List Char)
    (hd : isAsciiDigit d = true) :
    lexToks U 1 .readDurationNext (d :: R) = some [⟨.tokenError, "invalid character"⟩] := by
  obtain ⟨h1, h2, h3, h4, h5⟩ := asciiDigit_facts U d hd
  have h6 : d ≠ '&' := by rintro rfl; exact absurd hd (by decide)
  have h7 : d ≠ ',' := by rintro rfl; exact absurd hd (by decide)
  simp [lexToks, lexRun, lexStep, readDurationNext, lexer.read, lexer.peek, lexer.unread,
    lexer.errorf, h1, h4, h5, h6, h7]

theorem unknown_of_not_known (v : String) (h : v ∉ knownWords) : unknownWord v := by
  simp only [knownWords, List.mem_append, not_or] at h
  obtain ⟨⟨⟨⟨⟨⟨h1, h2⟩, h3⟩, h4⟩, h5⟩, h6⟩, h7⟩ := h
  simp only [List.mem_cons, List.mem_singleton, List.not_mem_nil, or_false, not_or] at h1 h3
  obtain ⟨a1, a2, a3, a4, a5, a6⟩ := h1
  have hn : numberWord v = none := by
    rcases hd : numberWord v with _ | d
    · rfl
    · exact absurd (numberWord_mem v d hd) h2
  exact ⟨a1, a2, a3, a4, a5, a6, hn, h3.1, h3.2, h4, h5, h6, h7⟩

theorem known_splits : ∀ k ∈ knownWords, ∀ w ∈ numberWords,
    w.data.isPrefixOf k.data = true → String.mk (k.data.drop w.data.length) ∉ longUnits := by
  decide!

theorem number_letters : ∀ w ∈ numberWords, (∀ x ∈ w.data, 97 ≤ x.toNat ∧ x.toNat ≤ 122) := by
  decide

theorem glued_words (w : String) (hw : w ∈ numberWords) (u : String) (hu : u ∈ longUnits) :
    unknownWord (w ++ u) ∧ (∀ x ∈ (w ++ u).data, 97 ≤ x.toNat ∧ x.toNat ≤ 122) ∧
      (w ++ u).data ≠ [] := by
  obtain ⟨u1, u2, -⟩ := unit_letters u hu
  refine ⟨unknown_of_not_known _ ?_, ?_, ?_⟩
  · intro hk
    have hp := known_splits _ hk w hw (by
      rw [String.data_append, List.isPrefixOf_iff_prefix]
      exact List.prefix_append _ _)
    rw [String.data_append, List.drop_left] at hp
    exact hp hu
  · intro x hx
    rw [String.data_append, List.mem_append] at hx
    rcases hx with hx | hx
    · exact number_letters w hw x hx
    · exact u1 x hx
  · rw [String.data_append]
    intro h
    exact u2 (List.append_eq_nil.mp h).2

/-- C18: a long unit needs a boundary on both sides.  A count, in digits or spelled out,
with a long unit right after it, and a long unit with a digit right after it, are the lexer
error `invalid character`, which `ParseNow` returns. -/
theorem long_unit_boundary (U : RuneTables) (ds : List Char) (u : String) (now : Time)
    (hd : isCount ds) (hu : u ∈ longUnits) :
    ParseNow U (String.mk ds ++ u) now = .error (.lex "invalid character") ∧
    (∀ w d, numberWord w = some d →
      ParseNow U (w ++ u) now = .error (.lex "invalid character")) ∧
    (∀ (d : Char) (R : List Char), isAsciiDigit d = true →
      ParseNow U (term ds u ++ String.mk (d :: R)) now = .error (.lex "invalid character")) := by
  refine ⟨?_, ?_, ?_⟩
  · obtain ⟨ts, h⟩ := lexToks_glued U ds u hd hu
    exact ParseNow_lex_error U _ now _
      (lex_error_of_toks U (String.mk ds ++ u) ts _ 6 (by simp [lexFuel]) h)
  · intro w d hw
    obtain ⟨h1, h2, h3⟩ := glued_words w (numberWord_mem w d hw) u hu
    apply ParseNow_lex_error
    have h := lexToks_unknown U (w ++ u) [] h2 h3 rfl h1
    rw [List.append_nil] at h
    exact lex_error_of_toks U _ [] _ 2 (by simp [lexFuel]) h
  · intro d R hdig
    apply ParseNow_lex_error
    have e : (term ds u ++ String.mk (d :: R)).data = ds ++ ' ' :: (u.data ++ d :: R) := by
      simp [term, String.data_append]
    have h : lexToks U 5 .readExpr (term ds u ++ String.mk (d :: R)).data =
        some ([⟨.tokenDigit, String.mk ds⟩, ⟨.tokenUnit, u⟩] ++
          [⟨.tokenError, "invalid character"⟩]) := by
      rw [e, lexToks_digits U 3 ds _ hd.1 hd.2, lexToks_skip1,
        lexToks_unit_stop U 1 u d R hu (digit_not_timeRune U d hdig),
        lexToks_next_digit U d R hdig]
      rfl
    exact lex_error_of_toks U _ _ _ 5 (by simp [lexFuel]) h

theorem long_unit_boundary_witness :
    isCount "1".data ∧ "year" ∈ longUnits ∧
      ParseNow asciiTables (String.mk "1".data ++ "year") (refNow MST) =
        .error (.lex "invalid character") :=
  ⟨by decide, by decide,
    (long_unit_boundary asciiTables "1".data "year" (refNow MST) (by decide) (by decide)).1⟩

/-! ### Spelled-out numbers -/

theorem numberWord_count (w d : String) (h : numberWord w = some d) : isCount d.data := by
  obtain ⟨d1, h1, h2⟩ := numberWords_digits w (numberWord_mem w d h)
  rw [h] at h1
  cases h1
  exact h2

set_option maxHeartbeats 4000000 in
theorem lexToks_word (U : RuneTables) (n : Nat) (w d : String) (R : List Char)
    (h : numberWord w = some d) :
    lexToks U (n + 2) .readExpr (w.data ++ ' ' :: R) =
      (lexToks U n .readExpr (' ' :: R)).map (fun t => ⟨.tokenDigit, d⟩ :: t) := by
  have hm := numberWord_mem w d h
  have hs : lexRun U (n + 2) .readExpr ⟨w.data ++ ' ' :: R, 0, 0, 0, []⟩ =
      lexRun U n .readExpr ⟨w.data ++ ' ' :: R, w.data.length, w.data.length, 1,
        [⟨.tokenDigit, d⟩]⟩ := by
    simp only [numberWords, List.mem_cons, List.mem_singleton, List.not_mem_nil, or_false] at hm
    rcases hm with rfl | rfl | rfl | rfl | rfl | rfl | rfl | rfl | rfl | rfl | rfl | rfl | rfl <;>
      (simp only [numberWord] at h
       simp at h
       subst h
       simp [lexRun, lexStep, readExpr, readLetter, readFn_eq, lexer.peek, lexer.read,
        lexer.unread, lexer.ignore, lexer.emit, lexer.emitAs, lexer.value,
        List.takeWhile, List.dropWhile, isTimeRune, isLetter, isDigit, isAsciiDigit, isSpace,
        stringsToLower, toLower, numberWord])
  rw [lexToks, hs]
  exact lexRun_cut U n .readExpr _ _ _ 1

set_option maxHeartbeats 4000000 in
theorem lexToks_space_word (U : RuneTables) (n : Nat) (w d : String) (R : List Char)
    (h : numberWord w = some d) :
    lexToks U (n + 3) .readDurationNext (' ' :: (w.data ++ ' ' :: R)) =
      (lexToks U n .readExpr (w.data ++ ' ' :: R)).map (fun t => ⟨.tokenOperatorAdd, " "⟩ :: t) := by
  have hm := numberWord_mem w d h
  have hs : lexRun U (n + 3) .readDurationNext ⟨[' '] ++ (w.data ++ ' ' :: R), 0, 0, 0, []⟩ =
      lexRun U n .readExpr ⟨[' '] ++ (w.data ++ ' ' :: R), [' '].length, [' '].length, 1,
        [⟨.tokenOperatorAdd, " "⟩]⟩ := by
    simp only [numberWords, List.mem_cons, List.mem_singleton, List.not_mem_nil, or_false] at hm
    rcases hm with rfl | rfl | rfl | rfl | rfl | rfl | rfl | rfl | rfl | rfl | rfl | rfl | rfl <;>
      simp [lexRun, lexStep, readDurationNext, readDurationSpace, readDurationSpaceNext,
        readFn_eq, peekFn_eq, lexer.peek, lexer.read, lexer.unread, lexer.ignore, lexer.emit,
        lexer.emitAs, lexer.value, List.takeWhile, List.dropWhile, isLetter, isDigit,
        isAsciiDigit, isSpace, stringsToLower, toLower, numberWord]
  have := lexRun_cut U n .readExpr [' '] (w.data ++ ' ' :: R) [⟨.tokenOperatorAdd, " "⟩] 1
  rw [lexToks]
  simp only [List.singleton_append] at hs this
  rw [hs, this]

theorem ParseNow_congr (U : RuneTables) (s1 s2 : String) (now : Time) (h : lex U s1 = lex U s2) :
    ParseNow U s1 now = ParseNow U s2 now := by
  unfold ParseNow
  rw [h]

theorem lex_word_unit (U : RuneTables) (w d u : String) (h : numberWord w = some d)
    (hu : u ∈ longUnits) :
    lex U (w ++ " " ++ u) = .ok [⟨.tokenDigit, d⟩, ⟨.tokenUnit, u⟩] := by
  have e : (w ++ " " ++ u).data = w.data ++ ' ' :: u.data := by
    simp [String.data_append]
  have hh : lexToks U 5 .readExpr (w ++ " " ++ u).data =
      some [⟨.tokenDigit, d⟩, ⟨.tokenUnit, u⟩] := by
    rw [e, lexToks_word U 3 w d _ h, lexToks_skip1, lexToks_unit_eof U u hu]
    rfl
  rw [lex_of_toks U _ _ 5 (by simp [lexFuel]) hh]
  rfl

theorem lex_two_words (U : RuneTables) (w d u w2 d2 u2 : String) (h : numberWord w = some d)
    (hu : u ∈ longUnits) (h2 : numberWord w2 = some d2) (hu2 : u2 ∈ longUnits) :
    lex U (w ++ " " ++ u ++ " " ++ w2 ++ " " ++ u2) =
      .ok [⟨.tokenDigit, d⟩, ⟨.tokenUnit, u⟩, ⟨.tokenOperatorAdd, " "⟩, ⟨.tokenDigit, d2⟩,
        ⟨.tokenUnit, u2⟩] := by
  have e : (w ++ " " ++ u ++ " " ++ w2 ++ " " ++ u2).data =
      w.data ++ ' ' :: (u.data ++ ' ' :: (w2.data ++ ' ' :: u2.data)) := by
    simp [String.data_append]
  have hh : lexToks U 12 .readExpr (w ++ " " ++ u ++ " " ++ w2 ++ " " ++ u2).data =
      some [⟨.tokenDigit, d⟩, ⟨.tokenUnit, u⟩, ⟨.tokenOperatorAdd, " "⟩, ⟨.tokenDigit, d2⟩,
        ⟨.tokenUnit, u2⟩] := by
    rw [e, lexToks_word U 10 w d _ h, lexToks_skip1, lexToks_unit U 8 u _ hu,
      lexToks_space_word U 5 w2 d2 _ h2, lexToks_word U 3 w2 d2 _ h2, lexToks_skip1,
      lexToks_unit_eof U u2 hu2]
    rfl
  rw [lex_of_toks U _ _ 12 (by simp [lexFuel, String.data_append]; omega) hh]
  rfl

theorem lex_two_terms (U : RuneTables) (ds : List Char) (u : String) (ds2 : List Char)
    (u2 : String) (hd : isCount ds) (hu : u ∈ longUnits) (hd2 : isCount ds2)
    (hu2 : u2 ∈ longUnits) :
    lex U (term ds u ++ " " ++ term ds2 u2) =
      .ok [⟨.tokenDigit, String.mk ds⟩, ⟨.tokenUnit, u⟩, ⟨.tokenOperatorAdd, " "⟩,
        ⟨.tokenDigit, String.mk ds2⟩, ⟨.tokenUnit, u2⟩] := by
  obtain ⟨c, cs, hc⟩ := List.exists_cons_of_ne_nil hd2.1
  have e : (term ds u ++ " " ++ term ds2 u2).data =
      ds ++ ' ' :: (u.data ++ ' ' :: (ds2 ++ ' ' :: u2.data)) := by
    simp [term, String.data_append]
  have hh : lexToks U 11 .readExpr (term ds u ++ " " ++ term ds2 u2).data =
      some [⟨.tokenDigit, String.mk ds⟩, ⟨.tokenUnit, u⟩, ⟨.tokenOperatorAdd, " "⟩,
        ⟨.tokenDigit, String.mk ds2⟩, ⟨.tokenUnit, u2⟩] := by
    rw [e, lexToks_term U 7 ds u _ hd hu]
    have h3 : lexToks U 7 .readDurationNext (' ' :: (ds2 ++ ' ' :: u2.data)) =
        some [⟨.tokenOperatorAdd, " "⟩, ⟨.tokenDigit, String.mk ds2⟩, ⟨.tokenUnit, u2⟩] := by
      have h4 := lexToks_space_digit U 5 c (cs ++ ' ' :: u2.data) (hd2.2 c (by rw [hc]; simp))
      rw [show c :: (cs ++ ' ' :: u2.data) = ds2 ++ ' ' :: u2.data by rw [hc]; rfl,
        lexToks_term_eof U ds2 u2 hd2 hu2] at h4
      exact h4
    rw [h3]
    rfl
  rw [lex_of_toks U _ _ 11 (by simp [lexFuel, term, String.data_append]; omega) hh]
  rfl

/-- C14: a number spelled out, from `one` (or `a`) to `twelve`, before a long unit is the
digit token of that number, as the number written in digits is; and a phrase of two terms has
the same result with its numbers spelled out as with its numbers in digits. -/
theorem number_words (U : RuneTables) (w d u : String) (h : numberWord w = some d)
    (hu : u ∈ longUnits) :
    lex U (w ++ " " ++ u) = .ok [⟨.tokenDigit, d⟩, ⟨.tokenUnit, u⟩] ∧
    lex U (d ++ " " ++ u) = .ok [⟨.tokenDigit, d⟩, ⟨.tokenUnit, u⟩] ∧
    (∀ (w2 d2 u2 : String) (now : Time), numberWord w2 = some d2 → u2 ∈ longUnits →
      ParseNow U (w ++ " " ++ u ++ " " ++ w2 ++ " " ++ u2) now =
        ParseNow U (d ++ " " ++ u ++ " " ++ d2 ++ " " ++ u2) now) := by
  refine ⟨lex_word_unit U w d u h hu, lex_term U d.data u (numberWord_count w d h) hu, ?_⟩
  intro w2 d2 u2 now h2 hu2
  apply ParseNow_congr
  rw [lex_two_words U w d u w2 d2 u2 h hu h2 hu2]
  have := lex_two_terms U d.data u d2.data u2 (numberWord_count w d h) hu
    (numberWord_count w2 d2 h2) hu2
  simp only [term] at this
  rw [show d ++ " " ++ u ++ " " ++ d2 ++ " " ++ u2 = d ++ " " ++ u ++ " " ++ (d2 ++ " " ++ u2) by
    simp [String.append_assoc]]
  exact this.symm

theorem number_words_witness :
    numberWord "one" = some "1" ∧ "year" ∈ longUnits ∧
      lex asciiTables ("one" ++ " " ++ "year") = .ok [⟨.tokenDigit, "1"⟩, ⟨.tokenUnit, "year"⟩] :=
  ⟨by decide, by decide, (number_words asciiTables "one" "1" "year" (by decide) (by decide)).1⟩

/-- C19: the words `ago`, `from` and `before` after a count without a unit, the count in
digits or spelled out, are the lexer error `invalid character`; and wherever `readLetter`
reads one of these words, it stops with that error. -/
theorem dangling_words (U : RuneTables) (ds : List Char) (hd : isCount ds) :
    (∀ x ∈ ["ago", "from", "before"],
      lex U (String.mk ds ++ " " ++ x) = .error (.lex "invalid character")) ∧
    (∀ w d, numberWord w = some d → ∀ x ∈ ["ago", "from", "before"],
      lex U (w ++ " " ++ x) = .error (.lex "invalid character")) ∧
    (∀ l : lexer, stringsToLower U (l.readFn (isTimeRune U)).value ∈ ["ago", "from", "before"] →
      readLetter U l = (l.readFn (isTimeRune U)).errorf "invalid character") := by
  have hx : ∀ x ∈ ["ago", "from", "before"], unknownWord x ∧
      (∀ c ∈ x.data, 97 ≤ c.toNat ∧ c.toNat ≤ 122) ∧ x.data ≠ [] := by
    decide
  refine ⟨?_, ?_, ?_⟩
  · intro x hm
    obtain ⟨h1, h2, h3⟩ := hx x hm
    have e : (String.mk ds ++ " " ++ x).data = ds ++ ' ' :: x.data := by
      simp [String.data_append]
    have hh : lexToks U 4 .readExpr (String.mk ds ++ " " ++ x).data =
        some ([⟨.tokenDigit, String.mk ds⟩] ++ [⟨.tokenError, "invalid character"⟩]) := by
      have h4 := lexToks_unknown U x [] h2 h3 rfl h1
      rw [List.append_nil] at h4
      rw [e, lexToks_digits U 2 ds _ hd.1 hd.2, lexToks_skip1, h4]
      rfl
    exact lex_error_of_toks U _ _ _ 4 (by simp [lexFuel]) hh
  · intro w d hw x hm
    obtain ⟨h1, h2, h3⟩ := hx x hm
    have e : (w ++ " " ++ x).data = w.data ++ ' ' :: x.data := by
      simp [String.data_append]
    have hh : lexToks U 4 .readExpr (w ++ " " ++ x).data =
        some ([⟨.tokenDigit, d⟩] ++ [⟨.tokenError, "invalid character"⟩]) := by
      have h4 := lexToks_unknown U x [] h2 h3 rfl h1
      rw [List.append_nil] at h4
      rw [e, lexToks_word U 2 w d _ hw, lexToks_skip1, h4]
      rfl
    exact lex_error_of_toks U _ _ _ 4 (by simp [lexFuel]) hh
  · intro l hl
    exact readLetter_unknown U l ((hx _ hl).1)

theorem dangling_words_witness :
    isCount "1".data ∧
      lex asciiTables (String.mk "1".data ++ " " ++ "ago") = .error (.lex "invalid character") :=
  ⟨by decide, (dangling_words asciiTables "1".data (by decide)).1 "ago" (by decide)⟩

/-! ### Joins -/

theorem lexToks_comma (U : RuneTables) (n : Nat) (R : List Char) :
    lexToks U (n + 1) .readDurationNext (',' :: R) =
      (lexToks U n .readExpr R).map (fun t => ⟨.tokenOperatorAdd, ","⟩ :: t) := by
  have hs : lexStep U .readDurationNext ⟨[','] ++ R, 0, 0, 0, []⟩ =
      (some .readExpr, ⟨[','] ++ R, [','].length, [','].length, 1,
        [⟨.tokenOperatorAdd, ","⟩]⟩) := by
    simp [lexStep, readDurationNext, lexer.read, lexer.peek, lexer.unread, lexer.emit,
      lexer.emitAs, lexer.value]
  have := lexToks_step U n .readDurationNext .readExpr ([','] ++ R) [','] R _ 1 rfl hs
  simpa using this

theorem lex_joined (U : RuneTables) (ds : List Char) (u : String) (ds2 : List Char)
    (u2 : String) (hd : isCount ds) (hu : u ∈ longUnits) (hd2 : isCount ds2)
    (hu2 : u2 ∈ longUnits) :
    lex U (term ds u ++ " and " ++ term ds2 u2) =
      .ok [⟨.tokenDigit, String.mk ds⟩, ⟨.tokenUnit, u⟩, ⟨.tokenOperatorAdd, "and"⟩,
        ⟨.tokenDigit, String.mk ds2⟩, ⟨.tokenUnit, u2⟩] ∧
    lex U (term ds u ++ " & " ++ term ds2 u2) =
      .ok [⟨.tokenDigit, String.mk ds⟩, ⟨.tokenUnit, u⟩, ⟨.tokenOperatorAdd, "&"⟩,
        ⟨.tokenDigit, String.mk ds2⟩, ⟨.tokenUnit, u2⟩] ∧
    lex U (term ds u ++ ", " ++ term ds2 u2) =
      .ok [⟨.tokenDigit, String.mk ds⟩, ⟨.tokenUnit, u⟩, ⟨.tokenOperatorAdd, ","⟩,
        ⟨.tokenDigit, String.mk ds2⟩, ⟨.tokenUnit, u2⟩] ∧
    lex U (term ds u ++ " + " ++ term ds2 u2) =
      .ok [⟨.tokenDigit, String.mk ds⟩, ⟨.tokenUnit, u⟩, ⟨.tokenOperatorAdd, "+"⟩,
        ⟨.tokenDigit, String.mk ds2⟩, ⟨.tokenUnit, u2⟩] ∧
    lex U (term ds u ++ " - " ++ term ds2 u2) =
      .ok [⟨.tokenDigit, String.mk ds⟩, ⟨.tokenUnit, u⟩, ⟨.tokenOperatorSub, "-"⟩,
        ⟨.tokenDigit, String.mk ds2⟩, ⟨.tokenUnit, u2⟩] := by
  have t2 := lexToks_term_eof U ds2 u2 hd2 hu2
  refine ⟨?_, ?_, ?_, ?_, ?_⟩
  · have e : (term ds u ++ " and " ++ term ds2 u2).data =
        ds ++ ' ' :: (u.data ++ ' ' :: ("and".data ++ ' ' :: (ds2 ++ ' ' :: u2.data))) := by
      simp [term, String.data_append]
    have hh : lexToks U 12 .readExpr (term ds u ++ " and " ++ term ds2 u2).data =
        some [⟨.tokenDigit, String.mk ds⟩, ⟨.tokenUnit, u⟩, ⟨.tokenOperatorAdd, "and"⟩,
          ⟨.tokenDigit, String.mk ds2⟩, ⟨.tokenUnit, u2⟩] := by
      rw [e, lexToks_term U 8 ds u _ hd hu]
      have h3 := lexToks_and U 5 (ds2 ++ ' ' :: u2.data)
      rw [lexToks_skip1, t2] at h3
      exact congrArg _ h3
    rw [lex_of_toks U _ _ 12 (by simp [lexFuel, term, String.data_append]; omega) hh]
    rfl
  · have e : (term ds u ++ " & " ++ term ds2 u2).data =
        ds ++ ' ' :: (u.data ++ ' ' :: ("&".data ++ ' ' :: (ds2 ++ ' ' :: u2.data))) := by
      simp [term, String.data_append]
    have hh : lexToks U 11 .readExpr (term ds u ++ " & " ++ term ds2 u2).data =
        some [⟨.tokenDigit, String.mk ds⟩, ⟨.tokenUnit, u⟩, ⟨.tokenOperatorAdd, "&"⟩,
          ⟨.tokenDigit, String.mk ds2⟩, ⟨.tokenUnit, u2⟩] := by
      rw [e, lexToks_term U 7 ds u _ hd hu]
      have h3 := lexToks_amp U 5 (' ' :: (ds2 ++ ' ' :: u2.data))
      rw [lexToks_skip1, t2] at h3
      exact congrArg _ h3
    rw [lex_of_toks U _ _ 11 (by simp [lexFuel, term, String.data_append]; omega) hh]
    rfl
  · have e : (term ds u ++ ", " ++ term ds2 u2).data =
        ds ++ ' ' :: (u.data ++ ',' :: ' ' :: (ds2 ++ ' ' :: u2.data)) := by
      simp [term, String.data_append]
    have hh : lexToks U 10 .readExpr (term ds u ++ ", " ++ term ds2 u2).data =
        some [⟨.tokenDigit, String.mk ds⟩, ⟨.tokenUnit, u⟩, ⟨.tokenOperatorAdd, ","⟩,
          ⟨.tokenDigit, String.mk ds2⟩, ⟨.tokenUnit, u2⟩] := by
      rw [e, lexToks_digits_stop U 8 ds _ ' ' hd rfl]
      simp only [show (' ' : Char) ≠ 's' by decide, if_false,
        show ¬ ((' ' : Char) = 'm' ∨ (' ' : Char) = 'h' ∨ (' ' : Char) = 'd' ∨ (' ' : Char) = 'w' ∨
          (' ' : Char) = 'M' ∨ (' ' : Char) = 'y') by decide,
        show ¬ ((' ' : Char) = 'n' ∨ (' ' : Char) = 'r' ∨ (' ' : Char) = 't') by decide,
        show ¬ ((' ' : Char) = 'a' ∨ (' ' : Char) = 'p') by decide,
        show (' ' : Char) ≠ ':' by decide]
      rw [lexToks_skip1, lexToks_unit_stop U 6 u ',' _ hu rfl, lexToks_comma U 5, lexToks_skip1, t2]
      rfl
    rw [lex_of_toks U _ _ 10 (by simp [lexFuel, term, String.data_append]; omega) hh]
    rfl
  · have e : (term ds u ++ " + " ++ term ds2 u2).data =
        ds ++ ' ' :: (u.data ++ ' ' :: ("+".data ++ ' ' :: (ds2 ++ ' ' :: u2.data))) := by
      simp [term, String.data_append]
    have hh : lexToks U 11 .readExpr (term ds u ++ " + " ++ term ds2 u2).data =
        some [⟨.tokenDigit, String.mk ds⟩, ⟨.tokenUnit, u⟩, ⟨.tokenOperatorAdd, "+"⟩,
          ⟨.tokenDigit, String.mk ds2⟩, ⟨.tokenUnit, u2⟩] := by
      rw [e, lexToks_term U 7 ds u _ hd hu]
      have h3 := lexToks_plus U 5 (' ' :: (ds2 ++ ' ' :: u2.data))
      rw [lexToks_skip1, t2] at h3
      exact congrArg _ h3
    rw [lex_of_toks U _ _ 11 (by simp [lexFuel, term, String.data_append]; omega) hh]
    rfl
  · have e : (term ds u ++ " - " ++ term ds2 u2).data =
        ds ++ ' ' :: (u.data ++ ' ' :: ("-".data ++ ' ' :: (ds2 ++ ' ' :: u2.data))) := by
      simp [term, String.data_append]
    have hh : lexToks U 11 .readExpr (term ds u ++ " - " ++ term ds2 u2).data =
        some [⟨.tokenDigit, String.mk ds⟩, ⟨.tokenUnit, u⟩, ⟨.tokenOperatorSub, "-"⟩,
          ⟨.tokenDigit, String.mk ds2⟩, ⟨.tokenUnit, u2⟩] := by
      rw [e, lexToks_term U 7 ds u _ hd hu]
      have h3 := lexToks_minus U 5 (' ' :: (ds2 ++ ' ' :: u2.data))
      rw [lexToks_skip1, t2] at h3
      exact congrArg _ h3
    rw [lex_of_toks U _ _ 11 (by simp [lexFuel, term, String.data_append]; omega) hh]
    rfl

theorem parse_two_terms (U : RuneTables) (ds : List Char) (u : String) (ds2 : List Char)
    (u2 v : String) (now : Time) (s : String)
    (h : lex U s = .ok [⟨.tokenDigit, String.mk ds⟩, ⟨.tokenUnit, u⟩, ⟨.tokenOperatorAdd, v⟩,
        ⟨.tokenDigit, String.mk ds2⟩, ⟨.tokenUnit, u2⟩]) :
    ParseNow U s now =
      (match Atoi (String.mk ds), Atoi (String.mk ds2) with
        | .error e, _ => .error e
        | .ok _, .error e => .error e
        | .ok n, .ok n2 => .ok (lhsFn.apply ⟨n2, u2⟩ (lhsFn.apply ⟨n, u⟩ now false) false)) := by
  rw [ParseNow_of_lex U _ now _ h (by simp)]
  simp only [parseFuel, List.length]
  cases hA : Atoi (String.mk ds) <;> cases hB : Atoi (String.mk ds2) <;>
    simp [parseRun, parseStep, parser.parseExpr, parser.parseExprDigit,
      parser.parseDurationLeftUnit, parser.parseDurationLeftNext, parser.parseDurationLeft,
      parser.peek, parser.next, List.drop, hA, hB]

theorem parse_two_terms_sub (U : RuneTables) (ds : List Char) (u : String) (ds2 : List Char)
    (u2 v : String) (now : Time) (s : String)
    (h : lex U s = .ok [⟨.tokenDigit, String.mk ds⟩, ⟨.tokenUnit, u⟩, ⟨.tokenOperatorSub, v⟩,
        ⟨.tokenDigit, String.mk ds2⟩, ⟨.tokenUnit, u2⟩]) :
    ParseNow U s now =
      (match Atoi (String.mk ds), Atoi (String.mk ds2) with
        | .error e, _ => .error e
        | .ok _, .error e => .error e
        | .ok n, .ok n2 =>
          .ok (lhsFn.apply ⟨wrap64 (n2 * -1), u2⟩ (lhsFn.apply ⟨n, u⟩ now false) false)) := by
  rw [ParseNow_of_lex U _ now _ h (by simp)]
  simp only [parseFuel, List.length]
  cases hA : Atoi (String.mk ds) <;> cases hB : Atoi (String.mk ds2) <;>
    simp [-mul_neg, -neg_mul, -mul_one, Int.mul_neg, Int.neg_mul, Int.mul_one, parseRun, parseStep, parser.parseExpr, parser.parseExprDigit,
      parser.parseDurationLeftUnit, parser.parseDurationLeftNext, parser.parseDurationLeft,
      parser.peek, parser.next, List.drop, hA, hB]

theorem apply_sub_eq (n : Int) (u : String) (t : Time) :
    lhsFn.apply ⟨n, u⟩ t true = lhsFn.apply ⟨wrap64 (n * -1), u⟩ t false := by
  simp [lhsFn.apply, -mul_neg, -neg_mul, -mul_one, Int.mul_neg, Int.neg_mul, Int.mul_one]

theorem lex_minus_ago (U : RuneTables) (ds : List Char) (u : String) (ds2 : List Char)
    (u2 : String) (hd : isCount ds) (hu : u ∈ longUnits) (hd2 : isCount ds2)
    (hu2 : u2 ∈ longUnits) :
    lex U (term ds u ++ " - " ++ term ds2 u2 ++ " ago") =
      .ok [⟨.tokenDigit, String.mk ds⟩, ⟨.tokenUnit, u⟩, ⟨.tokenOperatorSub, "-"⟩,
        ⟨.tokenDigit, String.mk ds2⟩, ⟨.tokenUnit, u2⟩, ⟨.tokenAgo, "ago"⟩] := by
  have e : (term ds u ++ " - " ++ term ds2 u2 ++ " ago").data =
      ds ++ ' ' :: (u.data ++ ' ' :: ("-".data ++ ' ' :: (ds2 ++ ' ' :: (u2.data ++ ' ' ::
        "ago".data)))) := by
    simp [term, String.data_append]
  have hh : lexToks U 14 .readExpr (term ds u ++ " - " ++ term ds2 u2 ++ " ago").data =
      some [⟨.tokenDigit, String.mk ds⟩, ⟨.tokenUnit, u⟩, ⟨.tokenOperatorSub, "-"⟩,
        ⟨.tokenDigit, String.mk ds2⟩, ⟨.tokenUnit, u2⟩, ⟨.tokenAgo, "ago"⟩] := by
    rw [e, lexToks_term U 10 ds u _ hd hu]
    have h3 := lexToks_minus U 8 (' ' :: (ds2 ++ ' ' :: (u2.data ++ ' ' :: "ago".data)))
    have h4 := lexToks_ago U
    rw [lexToks_skip1, lexToks_term U 4 ds2 u2 _ hd2 hu2,
      show ' ' :: "ago".data = " ago".data from rfl, h4] at h3
    exact congrArg _ h3
  rw [lex_of_toks U _ _ 14 (by simp [lexFuel, term, String.data_append]; omega) hh]
  rfl

theorem lex_from_now_plus (U : RuneTables) (ds : List Char) (u : String) (ds2 : List Char)
    (u2 : String) (hd : isCount ds) (hu : u ∈ longUnits) (hd2 : isCount ds2)
    (hu2 : u2 ∈ longUnits) :
    lex U (term ds u ++ " from now + " ++ term ds2 u2) =
      .ok [⟨.tokenDigit, String.mk ds⟩, ⟨.tokenUnit, u⟩, ⟨.tokenFrom, "from"⟩,
        ⟨.tokenNow, "now"⟩, ⟨.tokenOperatorAdd, "+"⟩, ⟨.tokenDigit, String.mk ds2⟩,
        ⟨.tokenUnit, u2⟩] := by
  have e : (term ds u ++ " from now + " ++ term ds2 u2).data =
      ds ++ ' ' :: (u.data ++ ' ' :: ("from".data ++ ' ' :: ("now +".data ++ ' ' ::
        (ds2 ++ ' ' :: u2.data)))) := by
    simp [term, String.data_append]
  have hh : lexToks U 15 .readExpr (term ds u ++ " from now + " ++ term ds2 u2).data =
      some [⟨.tokenDigit, String.mk ds⟩, ⟨.tokenUnit, u⟩, ⟨.tokenFrom, "from"⟩,
        ⟨.tokenNow, "now"⟩, ⟨.tokenOperatorAdd, "+"⟩, ⟨.tokenDigit, String.mk ds2⟩,
        ⟨.tokenUnit, u2⟩] := by
    rw [e, lexToks_term U 11 ds u _ hd hu]
    have h3 := lexToks_from U 8 ("now +".data ++ ' ' :: (ds2 ++ ' ' :: u2.data))
    rw [lexToks_skip1, lexToks_now_plus U 5, lexToks_skip1, lexToks_term_eof U ds2 u2 hd2 hu2] at h3
    exact congrArg _ h3
  rw [lex_of_toks U _ _ 15 (by simp [lexFuel, term, String.data_append]; omega) hh]
  rfl

set_option maxHeartbeats 1000000 in
theorem ParseNow_from_now_plus (U : RuneTables) (ds : List Char) (u : String) (ds2 : List Char)
    (u2 : String) (now : Time) (hd : isCount ds) (hu : u ∈ longUnits) (hd2 : isCount ds2)
    (hu2 : u2 ∈ longUnits) :
    ParseNow U (term ds u ++ " from now + " ++ term ds2 u2) now =
      (match Atoi (String.mk ds), Atoi (String.mk ds2) with
        | .error e, _ => .error e
        | .ok _, .error e => .error e
        | .ok n, .ok n2 => .ok (lhsFn.apply ⟨n, u⟩ (lhsFn.apply ⟨n2, u2⟩ now false) false)) := by
  rw [ParseNow_of_lex U _ now _ (lex_from_now_plus U ds u ds2 u2 hd hu hd2 hu2) (by simp)]
  simp only [parseFuel, List.length]
  simp only [longUnits, List.mem_cons, List.mem_singleton, List.not_mem_nil, or_false] at hu2
  cases hA : Atoi (String.mk ds) <;> cases hB : Atoi (String.mk ds2) <;>
    rcases hu2 with rfl | rfl | rfl | rfl | rfl | rfl | rfl | rfl | rfl | rfl | rfl | rfl | rfl | rfl <;>
    simp [parseRun, parseStep, parser.parseExpr, parser.parseExprDigit,
      parser.parseDurationLeftUnit, parser.parseDurationLeftNext, parser.parseDurationLeftFrom,
      parser.parseDateTime, parser.parseNow, parser.parseDurationRight,
      parser.parseDurationRightUnit, parser.parseDurationRightNext, parser.peek, parser.next,
      List.drop, hA, hB, lhsFn.apply]

theorem ParseNow_minus_ago (U : RuneTables) (ds : List Char) (u : String) (ds2 : List Char)
    (u2 : String) (now : Time) (hd : isCount ds) (hu : u ∈ longUnits) (hd2 : isCount ds2)
    (hu2 : u2 ∈ longUnits) :
    ParseNow U (term ds u ++ " - " ++ term ds2 u2 ++ " ago") now =
      (match Atoi (String.mk ds), Atoi (String.mk ds2) with
        | .error e, _ => .error e
        | .ok _, .error e => .error e
        | .ok n, .ok n2 =>
          .ok (lhsFn.apply ⟨wrap64 (n2 * -1), u2⟩ (lhsFn.apply ⟨n, u⟩ now true) true)) := by
  rw [ParseNow_of_lex U _ now _ (lex_minus_ago U ds u ds2 u2 hd hu hd2 hu2) (by simp)]
  simp only [parseFuel, List.length]
  cases hA : Atoi (String.mk ds) <;> cases hB : Atoi (String.mk ds2) <;>
    simp [-mul_neg, -neg_mul, -mul_one, Int.mul_neg, Int.neg_mul, Int.mul_one, parseRun, parseStep, parser.parseExpr, parser.parseExprDigit,
      parser.parseDurationLeftUnit, parser.parseDurationLeftNext, parser.parseDurationLeft,
      parser.parseDurationLeftAgo, parser.peek, parser.next, List.drop, hA, hB]

theorem dse_succ (y : Int) : daysSinceEpoch (y + 1) = daysSinceEpoch y + 365 + (if isLeap y then 1 else 0) := by
  simp only [daysSinceEpoch, isLeap, Bool.and_eq_true, Bool.or_eq_true, beq_iff_eq, bne_iff_ne, ne_eq]
  split <;> omega

theorem dse_mono (a b : Int) (h : a ≤ b) : daysSinceEpoch a ≤ daysSinceEpoch b := by
  simp only [daysSinceEpoch]
  omega

theorem year_unique (y y2 D : Int) (r r2 : Int) (h1 : daysSinceEpoch y + r = D) (h2 : 0 ≤ r)
    (h3 : r < 365 + (if isLeap y then 1 else 0)) (k1 : daysSinceEpoch y2 + r2 = D) (k2 : 0 ≤ r2)
    (k3 : r2 < 365 + (if isLeap y2 then 1 else 0)) : y = y2 ∧ r = r2 := by
  have a1 := dse_succ y
  have a2 := dse_succ y2
  have hy : y = y2 := by
    rcases Int.lt_trichotomy y y2 with h | h | h
    · have := dse_mono (y + 1) y2 (by omega)
      omega
    · exact h
    · have := dse_mono (y2 + 1) y (by omega)
      omega
  subst hy
  exact ⟨rfl, by omega⟩

theorem lexToks_tables (U : RuneTables) (n : Nat) (st : stateFn) (R : List Char) (h : allAscii R) :
    lexToks U n st R = lexToks asciiTables n st R := by
  unfold lexToks
  rw [lexRun_ascii U asciiTables n st _ h]

theorem wordRune_facts (U : RuneTables) (x : Char) (h : isWordRune x = true) :
    isTimeRune U x = true ∧ x.toNat < 128 ∧ isDigit U x = false ∧ isSpace x = false ∧
      x ≠ '@' ∧ x ≠ '+' ∧ x ≠ '-' ∧ (x ≠ '\'' → isLetter U x = true) := by
  simp only [isWordRune, Bool.or_eq_true, Bool.and_eq_true, decide_eq_true_eq, beq_iff_eq] at h
  have h128 : x.toNat < 128 := by
    rcases h with (h | h) | h
    · omega
    · omega
    · rw [h]; decide
  have hl : x ≠ '\'' → isLetter U x = true := by
    intro hx
    simp only [isLetter, h128, if_true, Bool.or_eq_true, Bool.and_eq_true, decide_eq_true_eq]
    rcases h with (h | h) | h
    · left; exact h
    · right; exact h
    · exact absurd h hx
  refine ⟨?_, h128, ?_, ?_, ?_, ?_, ?_, hl⟩
  · unfold isTimeRune
    by_cases hx : x = '\''
    · simp [hx]
    · simp [hx, hl hx]
  · simp only [isDigit, h128, if_true, isAsciiDigit, Bool.and_eq_false_iff, decide_eq_false_iff_not]
    rcases h with (h | h) | h
    · omega
    · omega
    · rw [h]; decide
  · simp only [isSpace, Bool.or_eq_false_iff, Bool.and_eq_false_iff, beq_eq_false_iff_ne, ne_eq,
      decide_eq_false_iff_not]
    rcases h with (h | h) | h
    · omega
    · omega
    · rw [h]; decide
  all_goals
    rintro rfl
    revert h
    decide

theorem takeWhile_stop_head {α : Type} (p : α → Bool) (xs R : List α)
    (h : ∀ x ∈ xs, p x = true) (hR : ∀ c ∈ R.head?, p c = false) :
    (xs ++ R).takeWhile p = xs ∧ (xs ++ R).dropWhile p = R := by
  cases R with
  | nil =>
    simp only [List.append_nil]
    exact ⟨List.takeWhile_eq_self_iff.mpr h, List.dropWhile_eq_nil_iff.mpr h⟩
  | cons c R =>
    have hc : p c = false := hR c (by simp)
    exact ⟨takeWhile_append_stop p xs c R h hc, dropWhile_append_stop p xs c R h hc⟩

theorem lower_word (U : RuneTables) (v : List Char) (hv : ∀ x ∈ v, isWordRune x = true) :
    stringsToLower U (String.mk v) = stringsToLower asciiTables (String.mk v) :=
  stringsToLower_ascii U asciiTables _ (fun x hx => (wordRune_facts U x (hv x hx)).2.1)

theorem readLetter_canon (U : RuneTables) (v R : List Char) (w : Nat)
    (hv : ∀ x ∈ v, isWordRune x = true) (hR : ∀ c ∈ R.head?, isTimeRune U c = false) :
    readLetter U ⟨v ++ R, 0, 0, w, []⟩ =
      ((readLetter asciiTables ⟨v, 0, 0, 0, []⟩).1,
        ⟨v ++ R, if (readLetter asciiTables ⟨v, 0, 0, 0, []⟩).1 = none then 0 else v.length, v.length,
          if R = [] then 0 else 1, (readLetter asciiTables ⟨v, 0, 0, 0, []⟩).2.tokens⟩) := by
  have hall : ∀ x ∈ v, isTimeRune U x = true := fun x hx => (wordRune_facts U x (hv x hx)).1
  have hall2 : ∀ x ∈ v, isTimeRune asciiTables x = true :=
    fun x hx => (wordRune_facts asciiTables x (hv x hx)).1
  obtain ⟨t1, t2⟩ := takeWhile_stop_head (isTimeRune U) v R hall hR
  obtain ⟨t3, t4⟩ := takeWhile_stop_head (isTimeRune asciiTables) v [] hall2 (by simp)
  simp only [List.append_nil] at t3 t4
  have hv1 : (⟨v ++ R, 0, v.length, if R = [] then 0 else 1, []⟩ : lexer).value = String.mk v := by
    simp [lexer.value]
  have hv2 : (⟨v, 0, v.length, 0, []⟩ : lexer).value = String.mk v := by
    simp [lexer.value]
  unfold readLetter
  rw [readFn_eq, readFn_eq]
  simp only [List.drop_zero, t1, t2, t3, t4, Nat.zero_add, if_true, hv1, hv2, lower_word U v hv]
  generalize stringsToLower asciiTables (String.mk v) = v'
  by_cases h1 : v' = "now"
  · simp only [if_pos h1]
    simp [lexer.emit, lexer.emitAs, lexer.errorf, hv1, hv2]
  simp only [if_neg h1]
  by_cases h2 : v' = "today" ∨ v' = "tomorrow" ∨ v' = "yesterday"
  · simp only [if_pos h2]
    simp [lexer.emit, lexer.emitAs, lexer.errorf, hv1, hv2]
  simp only [if_neg h2]
  by_cases h3 : v' = "midnight" ∨ v' = "noon"
  · simp only [if_pos h3]
    simp [lexer.emit, lexer.emitAs, lexer.errorf, hv1, hv2]
  simp only [if_neg h3]
  rcases hn : numberWord v' with _ | d
  swap
  · simp [lexer.emit, lexer.emitAs, lexer.errorf, hv1, hv2]
  simp only []
  by_cases h4 : v' = "am" ∨ v' = "pm"
  · simp only [if_pos h4]
    simp [lexer.emit, lexer.emitAs, lexer.errorf, hv1, hv2]
  simp only [if_neg h4]
  by_cases h5 : v' ∈ longUnits
  · simp only [if_pos h5]
    simp [lexer.emit, lexer.emitAs, lexer.errorf, hv1, hv2]
  simp only [if_neg h5]
  by_cases h6 : v' ∈ weekdayNames
  · simp only [if_pos h6]
    simp [lexer.emit, lexer.emitAs, lexer.errorf, hv1, hv2]
  simp only [if_neg h6]
  by_cases h7 : v' ∈ monthNames
  · simp only [if_pos h7]
    simp [lexer.emit, lexer.emitAs, lexer.errorf, hv1, hv2]
  simp only [if_neg h7]
  by_cases h8 : v' ∈ keywords
  · simp only [if_pos h8]
    simp [lexer.emit, lexer.emitAs, lexer.errorf, hv1, hv2]
  simp only [if_neg h8]
  simp [lexer.emit, lexer.emitAs, lexer.errorf, hv1, hv2]

theorem lexToks_letters (U : RuneTables) (n : Nat) (v R : List Char) (hw : isWord v)
    (hR : ∀ c ∈ R.head?, isTimeRune U c = false) :
    lexToks U (n + 2) .readExpr (v ++ R) =
      (match readLetter asciiTables ⟨v, 0, 0, 0, []⟩ with
        | (none, l1) => some l1.tokens
        | (some st, l1) => (lexToks U n st R).map (fun t => l1.tokens ++ t)) := by
  obtain ⟨⟨x, hx, hx1, hx2⟩, hv⟩ := hw
  obtain ⟨xs, rfl⟩ : ∃ xs, v = x :: xs := by
    cases v with
    | nil => simp at hx
    | cons y ys => simp at hx; exact ⟨ys, by rw [hx]⟩
  obtain ⟨-, k2, k3, k4, k5, k6, k7, k8⟩ := wordRune_facts U x hx1
  have k9 := k8 hx2
  have h1 : readExpr U ⟨x :: xs ++ R, 0, 0, 0, []⟩ =
      (some .readLetter, ⟨x :: xs ++ R, 0, 0, 1, []⟩) := by
    simp [readExpr, readFn_eq, List.takeWhile, List.dropWhile, k3, k4, k5, k6, k7, k9,
      lexer.ignore, lexer.peek, lexer.read, lexer.unread]
  rw [lexToks, lexRun, lexStep, h1]
  simp only [lexRun, lexStep, readLetter_canon U (x :: xs) R 1 hv hR]
  rcases hr : readLetter asciiTables ⟨x :: xs, 0, 0, 0, []⟩ with ⟨o, l1⟩
  cases o with
  | none => simp
  | some st =>
    simp only [reduceCtorEq, if_false]
    exact lexRun_cut U n st (x :: xs) R _ _

theorem lexToks_at (U : RuneTables) (n : Nat) (R : List Char) :
    lexToks U (n + 2) .readExpr ('@' :: R) =
      (lexToks U n .readExpr R).map (fun t => ⟨.tokenKeyword, "@"⟩ :: t) := by
  have h1 : readExpr U ⟨'@' :: R, 0, 0, 0, []⟩ = (some .readAtSymbol, ⟨'@' :: R, 0, 0, 1, []⟩) := by
    simp [readExpr, readFn_eq, List.takeWhile, List.dropWhile, lexer.ignore, lexer.peek, lexer.read,
      lexer.unread, show isSpace '@' = false from rfl]
  have h2 : readAtSymbol ⟨'@' :: R, 0, 0, 1, []⟩ =
      (some .readExpr, ⟨'@' :: R, 1, 1, 1, [⟨.tokenKeyword, "@"⟩]⟩) := by
    simp [readAtSymbol, lexer.readRune, lexer.read, lexer.emit, lexer.emitAs, lexer.value]
  rw [lexToks, lexRun, lexStep, h1]
  simp only [lexRun, lexStep, h2]
  exact lexRun_cut U n .readExpr ['@'] R _ 1

theorem lexToks_closed_word (U : RuneTables) (n : Nat) (v : String) (R : List Char) (st : stateFn)
    (ts : List token) (hw : isWord v.data) (h : wordToken v = (some st, ts))
    (hR : ∀ c ∈ R.head?, isTimeRune U c = false) :
    lexToks U (n + 2) .readExpr (v.data ++ R) = (lexToks U n st R).map (fun t => ts ++ t) := by
  rw [lexToks_letters U n v.data R hw hR]
  simp only [wordToken, Prod.mk.injEq] at h
  rcases hr : readLetter asciiTables ⟨v.data, 0, 0, 0, []⟩ with ⟨o, l1⟩
  rw [hr] at h
  obtain ⟨rfl, rfl⟩ := h
  rfl

theorem lexToks_nth (U : RuneTables) (n : Nat) (ds : List Char) (x : String) (R : List Char)
    (hd : isCount ds) (hx : x ∈ suffixes) :
    lexToks U (n + 3) .readExpr (ds ++ (x.data ++ R)) =
      (lexToks U n .readExpr R).map (fun t => ⟨.tokenDigit, String.mk ds⟩ :: ⟨.tokenOrdinal, x⟩ :: t) := by
  simp only [suffixes, List.mem_cons, List.mem_singleton, List.not_mem_nil, or_false] at hx
  rcases hx with rfl | rfl | rfl | rfl
  · rw [show ds ++ ("st".data ++ R) = ds ++ 's' :: ('t' :: R) from rfl,
      lexToks_digits_stop U (n + 1) ds _ 's' hd rfl, if_pos rfl, lexToks_st U n]
    cases lexToks U n .readExpr R <;> rfl
  · rw [show ds ++ ("nd".data ++ R) = ds ++ 'n' :: ('d' :: R) from rfl,
      lexToks_digits_stop U (n + 1) ds _ 'n' hd rfl]
    simp only [show ('n' : Char) ≠ 's' by decide, if_false, if_true,
      show ¬ (('n' : Char) = 'm' ∨ ('n' : Char) = 'h' ∨ ('n' : Char) = 'd' ∨ ('n' : Char) = 'w' ∨
        ('n' : Char) = 'M' ∨ ('n' : Char) = 'y') by decide, true_or]
    rw [lexToks_ordinal U n 'n' 'd' R (by simp)]
    cases lexToks U n .readExpr R <;> rfl
  · rw [show ds ++ ("rd".data ++ R) = ds ++ 'r' :: ('d' :: R) from rfl,
      lexToks_digits_stop U (n + 1) ds _ 'r' hd rfl]
    simp only [show ('r' : Char) ≠ 's' by decide, if_false, if_true,
      show ¬ (('r' : Char) = 'm' ∨ ('r' : Char) = 'h' ∨ ('r' : Char) = 'd' ∨ ('r' : Char) = 'w' ∨
        ('r' : Char) = 'M' ∨ ('r' : Char) = 'y') by decide, true_or, or_true]
    rw [lexToks_ordinal U n 'r' 'd' R (by simp)]
    cases lexToks U n .readExpr R <;> rfl
  · rw [show ds ++ ("th".data ++ R) = ds ++ 't' :: ('h' :: R) from rfl,
      lexToks_digits_stop U (n + 1) ds _ 't' hd rfl]
    simp only [show ('t' : Char) ≠ 's' by decide, if_false, if_true,
      show ¬ (('t' : Char) = 'm' ∨ ('t' : Char) = 'h' ∨ ('t' : Char) = 'd' ∨ ('t' : Char) = 'w' ∨
        ('t' : Char) = 'M' ∨ ('t' : Char) = 'y') by decide, true_or, or_true]
    rw [lexToks_ordinal U n 't' 'h' R (by simp)]
    cases lexToks U n .readExpr R <;> rfl

theorem lexToks_tail (U : RuneTables) (n : Nat) (st : stateFn) (R : List Char) (ts : List token)
    (ha : allAscii R) (h : lexToks asciiTables n st R = some ts) : lexToks U n st R = some ts := by
  rw [lexToks_tables U n st R ha, h]

theorem lexToks_digits_tail (U : RuneTables) (n : Nat) (ds B : List Char) (tB : List token)
    (hd : isCount ds) (ha : allAscii B) (hc : ∀ c ∈ B.head?, isAsciiDigit c = false)
    (h : lexToks asciiTables (n + 2) .readExpr ('0' :: B) = some (⟨.tokenDigit, "0"⟩ :: tB)) :
    lexToks U (n + 2) .readExpr (ds ++ B) = some (⟨.tokenDigit, String.mk ds⟩ :: tB) := by
  rcases B with _ | ⟨c, r⟩
  · rw [lexToks_digits_eof asciiTables n ['0'] (by simp) (by decide)] at h
    simp only [Option.some.injEq, List.cons.injEq, true_and] at h
    rw [List.append_nil, lexToks_digits_eof U n ds hd.1 hd.2, ← h]
  · have hc1 : isAsciiDigit c = false := hc c (by simp)
    have hc128 : c.toNat < 128 := ha c (by simp)
    have hr : allAscii r := fun x hx => ha x (by simp [hx])
    have hcr : allAscii (c :: r) := ha
    have hcU : ∀ V : RuneTables, isDigit V c = false := by
      intro V
      simp only [isDigit, hc128, if_true, hc1]
    have h0 : isCount ['0'] := by decide
    rw [show ('0' :: c :: r) = ['0'] ++ c :: r from rfl,
      lexToks_digits_stop asciiTables n ['0'] r c h0 (hcU _)] at h
    rw [lexToks_digits_stop U n ds r c hd (hcU _)]
    split_ifs at h ⊢
    all_goals first
      | (rw [lexToks_tables U n _ (c :: r) hcr]
         rcases hx : lexToks asciiTables n _ (c :: r) with _ | t
         · rw [hx] at h; simp at h
         · rw [hx] at h
           simp only [Option.map_some', Option.some.injEq, List.cons.injEq, true_and] at h
           rw [← h]
           rfl)
      | (rw [lexToks_tables U n _ r hr]
         rcases hx : lexToks asciiTables n _ r with _ | t
         · rw [hx] at h; simp at h
         · rw [hx] at h
           simp only [Option.map_some', Option.some.injEq, List.cons.injEq, true_and] at h
           rw [← h]
           rfl)

theorem lex_of_toks_ok (U : RuneTables) (s : String) (ts : List token) (n : Nat)
    (hn : n ≤ lexFuel s) (h : lexToks U n .readExpr s.data = some ts)
    (hl : ∀ t ∈ ts.getLast?, t.typ ≠ .tokenError) : lex U s = .ok ts := by
  rw [lex_of_toks U s ts n hn h]
  rcases hg : ts.getLast? with _ | last
  · rfl
  · have := hl last (by rw [hg]; simp)
    simp [this]

theorem fuel_tail (a b : String) (n : Nat) (h : n ≤ 6 * b.data.length + 6) : n ≤ lexFuel (a ++ b) := by
  simp only [lexFuel, String.data_append, List.length_append]
  omega

theorem fuel_head (a b : String) (n : Nat) (h : n ≤ 6 * a.data.length + 6) : n ≤ lexFuel (a ++ b) := by
  simp only [lexFuel, String.data_append, List.length_append]
  omega

theorem Date_loc (y m d H M S ns : Int) (loc : Location) : (Date y m d H M S ns loc).loc = loc := by
  unfold Date
  rfl

theorem lookup_early (l : Location) (hs : l.Settled) (sec : Int) (h : sec < -62135596800) :
    (l.lookup sec).1 = l.base ∧ (l.lookup sec).2.1 = none ∧
      ∀ w ∈ (l.lookup sec).2.2, -62135596800 ≤ w := by
  obtain ⟨-, -, h3⟩ := hs
  unfold Location.lookup
  rcases htx : l.tx with _ | ⟨⟨w, o⟩, rest⟩
  · simp [lookupAux]
  · have hw : -62135596800 ≤ w := h3 (w, o) (by rw [htx]; simp)
    have : sec < w := by omega
    simp [lookupAux, this, hw]

theorem Date_norm (loc : Location) (y m d H M S ns : Int)
    (hm : 1 ≤ m ∧ m ≤ 12) (hH : 0 ≤ H ∧ H < 24) (hM : 0 ≤ M ∧ M < 60) (hS : 0 ≤ S ∧ S < 60)
    (hn : 0 ≤ ns ∧ ns < 1000000000) :
    Date y m d H M S ns loc =
      ⟨zoneUnix loc (dateDays y m d * 86400 + (H * 3600 + M * 60 + S) - unixToInternal), ns, loc⟩ := by
  have n1 := norm_id y (m - 1) 12 (by omega) (by omega)
  have n2 := norm_id S ns 1000000000 hn.1 hn.2
  have n3 := norm_id M S 60 hS.1 hS.2
  have n4 := norm_id H M 60 hM.1 hM.2
  have n5 := norm_id d H 24 hH.1 hH.2
  have e : m - 1 + 1 = m := by omega
  unfold Date zoneUnix dateDays
  simp only [n1, n2, n3, n4, n5, e]

theorem zoneUnix_early (l : Location) (hs : l.Settled) (unix : Int) (h : unix < -62135596800 - 86400) :
    zoneUnix l unix = unix - l.base := by
  obtain ⟨e1, e2, e3⟩ := lookup_early l hs unix (by omega)
  obtain ⟨hb1, hb2, -⟩ := hs
  unfold zoneUnix
  rcases hl : l.lookup unix with ⟨off, st, en⟩
  rw [hl] at e1 e2 e3
  simp only at e1 e2 e3
  subst e1 e2
  by_cases hb : l.base = 0
  · simp [hb]
  · simp only [ne_eq, hb, not_false_eq_true, if_true, Bool.false_or]
    cases en with
    | none => simp
    | some e =>
      have := e3 e (by simp)
      have hlt : ¬ (unix - l.base ≥ e) := by omega
      simp [hlt]

theorem zoneUnix_fixed (l : Location) (h : l.Fixed) (unix : Int) : zoneUnix l unix = unix - l.base := by
  unfold zoneUnix
  rw [lookup_fixed l h]
  by_cases hb : l.base = 0
  · simp [hb]
  · simp [hb]

theorem Date_year0 (l : Location) (hs : l.Settled) (H M S : Int)
    (hH : 0 ≤ H ∧ H < 24) (hM : 0 ≤ M ∧ M < 60) (hS : 0 ≤ S ∧ S < 60) :
    Date 0 1 1 H M S 0 l = ⟨-62167219200 + (H * 3600 + M * 60 + S) - l.base, 0, l⟩ := by
  rw [Date_norm l 0 1 1 H M S 0 (by omega) hH hM hS (by omega),
    zoneUnix_early l hs _ (by rw [show dateDays 0 1 1 = -366 by decide]; simp only [unixToInternal]; omega)]
  rw [show dateDays 0 1 1 = -366 by decide]
  simp only [unixToInternal, Time.mk.injEq, and_true]
  omega

theorem Clock_year0 (l : Location) (hs : l.Settled) (H M S : Int)
    (hH : 0 ≤ H ∧ H < 24) (hM : 0 ≤ M ∧ M < 60) (hS : 0 ≤ S ∧ S < 60) :
    (Date 0 1 1 H M S 0 l).Clock = (H, M, S) ∧ (Date 0 1 1 H M S 0 l).Location = l := by
  rw [Date_year0 l hs H M S hH hM hS]
  obtain ⟨e1, -, -⟩ := lookup_early l hs (-62167219200 + (H * 3600 + M * 60 + S) - l.base)
    (by have := hs.1; omega)
  refine ⟨?_, rfl⟩
  simp only [Time.Clock, Time.abs, e1, unixToInternal, Prod.mk.injEq]
  omega

theorem getnum_digits (ds rest : List Char) (fixed : Bool) (hd : isCount ds)
    (hr : ∀ c ∈ rest.head?, isAsciiDigit c = false) :
    getnum (ds ++ rest) fixed =
      if ds.length = 1 then (if fixed = true then none else some ((countValue ds : Int), rest))
      else some ((countValue (ds.take 2) : Int), ds.drop 2 ++ rest) := by
  obtain ⟨hne, hall⟩ := hd
  rcases ds with _ | ⟨a, _ | ⟨b, more⟩⟩
  · exact absurd rfl hne
  · have ha : isAsciiDigit a = true := hall a (by simp)
    rcases rest with _ | ⟨c, r⟩
    · cases fixed <;> simp [getnum, ha, countValue]
    · have hc : isAsciiDigit c = false := hr c (by simp)
      cases fixed <;> simp [getnum, ha, hc, countValue]
  · have ha : isAsciiDigit a = true := hall a (by simp)
    have hb : isAsciiDigit b = true := hall b (by simp)
    simp [getnum, ha, hb, countValue]
    omega

theorem countValue_two (a b : Char) (more : List Char) (h : isCount (a :: b :: more)) :
    (countValue [a, b] : Int) ≤ 99 ∧ isAsciiDigit a = true ∧ isAsciiDigit b = true := by
  have ha : isAsciiDigit a = true := h.2 a (by simp)
  have hb : isAsciiDigit b = true := h.2 b (by simp)
  refine ⟨?_, ha, hb⟩
  simp only [isAsciiDigit, Bool.and_eq_true, decide_eq_true_eq] at ha hb
  simp [countValue]
  omega

theorem PIL_3pm (ds : List Char) (loc : Location) (hd : isCount ds) :
    ParseInLocation layout3pm "3pm" (String.mk ds ++ "pm") loc =
      (if ds.length ≤ 2 ∧ (countValue ds : Int) ≤ 12 then
        .ok (Date 0 1 1 (if (countValue ds : Int) < 12 then countValue ds + 12 else countValue ds) 0 0 0 loc)
      else .error (.timeParse "3pm" (String.mk ds ++ "pm"))) ∧
    ParseInLocation layout3pm "3pm" (String.mk ds ++ "am") loc =
      (if ds.length ≤ 2 ∧ (countValue ds : Int) ≤ 12 then
        .ok (Date 0 1 1 (if (countValue ds : Int) = 12 then 0 else countValue ds) 0 0 0 loc)
      else .error (.timeParse "3pm" (String.mk ds ++ "am"))) := by
  have e1 : (String.mk ds ++ "pm").data = ds ++ ['p', 'm'] := rfl
  have e2 : (String.mk ds ++ "am").data = ds ++ ['a', 'm'] := rfl
  have g1 := getnum_digits ds ['p', 'm'] false hd (by simp; rfl)
  have g2 := getnum_digits ds ['a', 'm'] false hd (by simp; rfl)
  unfold ParseInLocation layout3pm
  rw [e1, e2]
  simp only [parseElems, parseElem, g1, g2]
  have hnn : ¬ ((countValue ds : Int) < 0) := by omega
  rcases ds with _ | ⟨a, _ | ⟨b, _ | ⟨c, more⟩⟩⟩
  · exact absurd rfl hd.1
  · by_cases h12 : (countValue [a] : Int) ≤ 12
    · have : ¬ (12 < (countValue [a] : Int)) := by omega
      constructor
      · by_cases hlt : (countValue [a] : Int) < 12 <;> simp [h12, this, hnn, hlt]
      · by_cases hlt : (countValue [a] : Int) = 12 <;> simp [h12, this, hnn, hlt]
    · have : 12 < (countValue [a] : Int) := by omega
      simp [h12, this]
  · by_cases h12 : (countValue [a, b] : Int) ≤ 12
    · have : ¬ (12 < (countValue [a, b] : Int)) := by omega
      constructor
      · by_cases hlt : (countValue [a, b] : Int) < 12 <;> simp [h12, this, hnn, hlt]
      · by_cases hlt : (countValue [a, b] : Int) = 12 <;> simp [h12, this, hnn, hlt]
    · have : 12 < (countValue [a, b] : Int) := by omega
      simp [h12, this]
  · obtain ⟨-, -, -⟩ := countValue_two a b (c :: more) hd
    have hc : isAsciiDigit c = true := hd.2 c (by simp)
    have hcp : c ≠ 'p' := by rintro rfl; exact absurd hc (by decide)
    have hca : c ≠ 'a' := by rintro rfl; exact absurd hc (by decide)
    have hn2 : ¬ ((countValue [a, b] : Int) < 0) := by omega
    by_cases h12 : 12 < (countValue [a, b] : Int)
    · simp [h12]
    · rcases more with _ | ⟨d, more⟩ <;> simp [h12, hcp, hca, hn2]

theorem parseElems_digit_fail (es : List layoutElem) (c : Char) (rest : List Char) (r : parsed)
    (hc : isAsciiDigit c = true) (hes : noNumberNext es) : parseElems es (c :: rest) r = none := by
  have hcc : c ≠ ':' := by rintro rfl; exact absurd hc (by decide)
  have hcp : c ≠ 'p' := by rintro rfl; exact absurd hc (by decide)
  have hca : c ≠ 'a' := by rintro rfl; exact absurd hc (by decide)
  rcases es with _ | ⟨e, es⟩
  · simp [parseElems]
  · rcases hes with h | h | h
    · simp at h
    · simp only [List.head?_cons, Option.some.injEq] at h
      subst h
      simp [parseElems, parseElem, hcc]
    · simp only [List.head?_cons, Option.some.injEq] at h
      subst h
      rcases rest with _ | ⟨d, rest⟩ <;> simp [parseElems, parseElem, hcp, hca]

theorem parseElems_hour12 (es : List layoutElem) (ds rest : List Char) (r : parsed) (hd : isCount ds)
    (hr : ∀ c ∈ rest.head?, isAsciiDigit c = false) (hes : noNumberNext es) :
    parseElems (.hour12 :: es) (ds ++ rest) r =
      if ds.length ≤ 2 ∧ (countValue ds : Int) ≤ 12 then
        parseElems es rest { r with hour := countValue ds }
      else none := by
  have g := getnum_digits ds rest false hd hr
  have hnn : ¬ ((countValue ds : Int) < 0) := by omega
  simp only [parseElems, parseElem, g]
  rcases ds with _ | ⟨a, _ | ⟨b, _ | ⟨c, more⟩⟩⟩
  · exact absurd rfl hd.1
  · by_cases h12 : (countValue [a] : Int) ≤ 12
    · have : ¬ (12 < (countValue [a] : Int)) := by omega
      simp [h12, this, hnn]
    · have : 12 < (countValue [a] : Int) := by omega
      simp [h12, this]
  · by_cases h12 : (countValue [a, b] : Int) ≤ 12
    · have : ¬ (12 < (countValue [a, b] : Int)) := by omega
      simp [h12, this, hnn]
    · have : 12 < (countValue [a, b] : Int) := by omega
      simp [h12, this]
  · have hc : isAsciiDigit c = true := hd.2 c (by simp)
    have hn2 : ¬ ((countValue [a, b] : Int) < 0) := by omega
    by_cases h12 : 12 < (countValue [a, b] : Int)
    · simp [h12]
    · simp [h12, hn2, parseElems_digit_fail es c _ _ hc hes]

theorem parseElems_hour (es : List layoutElem) (ds rest : List Char) (r : parsed) (hd : isCount ds)
    (hr : ∀ c ∈ rest.head?, isAsciiDigit c = false) (hes : noNumberNext es) :
    parseElems (.hour :: es) (ds ++ rest) r =
      if ds.length ≤ 2 ∧ (countValue ds : Int) ≤ 23 then
        parseElems es rest { r with hour := countValue ds }
      else none := by
  have g := getnum_digits ds rest false hd hr
  have hnn : ¬ ((countValue ds : Int) < 0) := by omega
  simp only [parseElems, parseElem, g]
  rcases ds with _ | ⟨a, _ | ⟨b, _ | ⟨c, more⟩⟩⟩
  · exact absurd rfl hd.1
  · by_cases h12 : (countValue [a] : Int) ≤ 23
    · have : ¬ (24 ≤ (countValue [a] : Int)) := by omega
      simp [h12, this, hnn]
    · have : 24 ≤ (countValue [a] : Int) := by omega
      simp [h12, this]
  · by_cases h12 : (countValue [a, b] : Int) ≤ 23
    · have : ¬ (24 ≤ (countValue [a, b] : Int)) := by omega
      simp [h12, this, hnn]
    · have : 24 ≤ (countValue [a, b] : Int) := by omega
      simp [h12, this]
  · have hc : isAsciiDigit c = true := hd.2 c (by simp)
    have hn2 : ¬ ((countValue [a, b] : Int) < 0) := by omega
    by_cases h12 : 24 ≤ (countValue [a, b] : Int)
    · simp [h12]
    · simp [h12, hn2, parseElems_digit_fail es c _ _ hc hes]

theorem parseElems_minute (es : List layoutElem) (ds rest : List Char) (r : parsed) (hd : isCount ds)
    (hr : ∀ c ∈ rest.head?, isAsciiDigit c = false) (hes : noNumberNext es) :
    parseElems (.zeroMinute :: es) (ds ++ rest) r =
      if ds.length = 2 ∧ (countValue ds : Int) ≤ 59 then
        parseElems es rest { r with min := countValue ds }
      else none := by
  have g := getnum_digits ds rest true hd hr
  have hnn : ¬ ((countValue ds : Int) < 0) := by omega
  simp only [parseElems, parseElem, g]
  rcases ds with _ | ⟨a, _ | ⟨b, _ | ⟨c, more⟩⟩⟩
  · exact absurd rfl hd.1
  · simp
  · by_cases h12 : (countValue [a, b] : Int) ≤ 59
    · have : ¬ (60 ≤ (countValue [a, b] : Int)) := by omega
      simp [h12, this, hnn]
    · have : 60 ≤ (countValue [a, b] : Int) := by omega
      simp [h12, this]
  · have hc : isAsciiDigit c = true := hd.2 c (by simp)
    have hn2 : ¬ ((countValue [a, b] : Int) < 0) := by omega
    by_cases h12 : 60 ≤ (countValue [a, b] : Int)
    · simp [h12]
    · simp [h12, hn2, parseElems_digit_fail es c _ _ hc hes]

theorem parseElems_second (es : List layoutElem) (ds rest : List Char) (r : parsed) (hd : isCount ds)
    (hr : ∀ c ∈ rest.head?, isAsciiDigit c = false) (hes : noNumberNext es) :
    parseElems (.zeroSecond :: es) (ds ++ rest) r =
      if ds.length = 2 ∧ (countValue ds : Int) ≤ 59 then
        parseElems es rest { r with sec := countValue ds }
      else none := by
  have g := getnum_digits ds rest true hd hr
  have hnn : ¬ ((countValue ds : Int) < 0) := by omega
  simp only [parseElems, parseElem, g]
  rcases ds with _ | ⟨a, _ | ⟨b, _ | ⟨c, more⟩⟩⟩
  · exact absurd rfl hd.1
  · simp
  · by_cases h12 : (countValue [a, b] : Int) ≤ 59
    · have : ¬ (60 ≤ (countValue [a, b] : Int)) := by omega
      simp [h12, this, hnn]
    · have : 60 ≤ (countValue [a, b] : Int) := by omega
      simp [h12, this]
  · have hc : isAsciiDigit c = true := hd.2 c (by simp)
    have hn2 : ¬ ((countValue [a, b] : Int) < 0) := by omega
    by_cases h12 : 60 ≤ (countValue [a, b] : Int)
    · simp [h12]
    · simp [h12, hn2, parseElems_digit_fail es c _ _ hc hes]

theorem PIL_304pm (hs ms : List Char) (loc : Location) (hh : isCount hs) (hm : isCount ms) :
    ParseInLocation layout304pm "3:04pm" (String.mk hs ++ ":" ++ String.mk ms ++ "pm") loc =
      (if (hs.length ≤ 2 ∧ (countValue hs : Int) ≤ 12) ∧ ms.length = 2 ∧ (countValue ms : Int) ≤ 59 then
        .ok (Date 0 1 1 (if (countValue hs : Int) < 12 then countValue hs + 12 else countValue hs)
          (countValue ms) 0 0 loc)
      else .error (.timeParse "3:04pm" (String.mk hs ++ ":" ++ String.mk ms ++ "pm"))) ∧
    ParseInLocation layout304pm "3:04pm" (String.mk hs ++ ":" ++ String.mk ms ++ "am") loc =
      (if (hs.length ≤ 2 ∧ (countValue hs : Int) ≤ 12) ∧ ms.length = 2 ∧ (countValue ms : Int) ≤ 59 then
        .ok (Date 0 1 1 (if (countValue hs : Int) = 12 then 0 else countValue hs) (countValue ms) 0 0 loc)
      else .error (.timeParse "3:04pm" (String.mk hs ++ ":" ++ String.mk ms ++ "am"))) := by
  have e1 : (String.mk hs ++ ":" ++ String.mk ms ++ "pm").data = hs ++ (':' :: (ms ++ ['p', 'm'])) := by
    simp [String.data_append]
  have e2 : (String.mk hs ++ ":" ++ String.mk ms ++ "am").data = hs ++ (':' :: (ms ++ ['a', 'm'])) := by
    simp [String.data_append]
  unfold ParseInLocation layout304pm
  rw [e1, e2, parseElems_hour12 _ hs _ _ hh (by simp; rfl) (by decide),
    parseElems_hour12 _ hs _ _ hh (by simp; rfl) (by decide)]
  by_cases h1 : hs.length ≤ 2 ∧ (countValue hs : Int) ≤ 12
  swap
  · simp only [h1, false_and, if_false, and_self]
  simp only [h1, if_true, true_and]
  rw [show ∀ (X : List Char) (r : parsed), parseElems [.colon, .zeroMinute, .pm] (':' :: X) r =
    parseElems [.zeroMinute, .pm] X r from fun X r => by simp [parseElems, parseElem],
    parseElems_minute _ ms _ _ hm (by simp; rfl) (by decide),
    show ∀ (X : List Char) (r : parsed), parseElems [.colon, .zeroMinute, .pm] (':' :: X) r =
    parseElems [.zeroMinute, .pm] X r from fun X r => by simp [parseElems, parseElem],
    parseElems_minute _ ms _ _ hm (by simp; rfl) (by decide)]
  by_cases h2 : ms.length = 2 ∧ (countValue ms : Int) ≤ 59
  swap
  · simp only [h2, false_and, and_false, if_false, and_self]
  simp only [h2, if_true, and_self]
  constructor
  · by_cases hlt : (countValue hs : Int) < 12 <;> simp [parseElems, parseElem, hlt]
  · by_cases hlt : (countValue hs : Int) = 12 <;> simp [parseElems, parseElem, hlt]

theorem PIL_1504 (hs ms : List Char) (loc : Location) (hh : isCount hs) (hm : isCount ms) :
    ParseInLocation layout1504 "15:04" (String.mk hs ++ ":" ++ String.mk ms) loc =
      (if (hs.length ≤ 2 ∧ (countValue hs : Int) ≤ 23) ∧ ms.length = 2 ∧ (countValue ms : Int) ≤ 59 then
        .ok (Date 0 1 1 (countValue hs) (countValue ms) 0 0 loc)
      else .error (.timeParse "15:04" (String.mk hs ++ ":" ++ String.mk ms))) := by
  have e1 : (String.mk hs ++ ":" ++ String.mk ms).data = hs ++ (':' :: (ms ++ [])) := by
    simp [String.data_append]
  unfold ParseInLocation layout1504
  rw [e1, parseElems_hour _ hs _ _ hh (by simp; rfl) (by decide)]
  by_cases h1 : hs.length ≤ 2 ∧ (countValue hs : Int) ≤ 23
  swap
  · simp only [h1, false_and, if_false, and_self]
  simp only [h1, if_true, true_and]
  rw [show ∀ (X : List Char) (r : parsed), parseElems [.colon, .zeroMinute] (':' :: X) r =
    parseElems [.zeroMinute] X r from fun X r => by simp [parseElems, parseElem],
    parseElems_minute _ ms _ _ hm (by simp) (by decide)]
  by_cases h2 : ms.length = 2 ∧ (countValue ms : Int) ≤ 59
  swap
  · simp only [h2, false_and, and_false, if_false, and_self]
  simp [h2, parseElems]

theorem PIL_150405 (hs ms ss : List Char) (loc : Location) (hh : isCount hs) (hm : isCount ms)
    (hs2 : isCount ss) :
    ParseInLocation layout150405 "15:04:05" (String.mk hs ++ ":" ++ String.mk ms ++ ":" ++ String.mk ss) loc =
      (if (hs.length ≤ 2 ∧ (countValue hs : Int) ≤ 23) ∧ (ms.length = 2 ∧ (countValue ms : Int) ≤ 59) ∧
          ss.length = 2 ∧ (countValue ss : Int) ≤ 59 then
        .ok (Date 0 1 1 (countValue hs) (countValue ms) (countValue ss) 0 loc)
      else .error (.timeParse "15:04:05" (String.mk hs ++ ":" ++ String.mk ms ++ ":" ++ String.mk ss))) := by
  have e1 : (String.mk hs ++ ":" ++ String.mk ms ++ ":" ++ String.mk ss).data =
      hs ++ (':' :: (ms ++ (':' :: (ss ++ [])))) := by
    simp [String.data_append]
  unfold ParseInLocation layout150405
  rw [e1, parseElems_hour _ hs _ _ hh (by simp; rfl) (by decide)]
  by_cases h1 : hs.length ≤ 2 ∧ (countValue hs : Int) ≤ 23
  swap
  · simp only [h1, false_and, if_false, and_self]
  simp only [h1, if_true, true_and]
  rw [show ∀ (X : List Char) (r : parsed), parseElems [.colon, .zeroMinute, .colon, .zeroSecond] (':' :: X) r =
    parseElems [.zeroMinute, .colon, .zeroSecond] X r from fun X r => by simp [parseElems, parseElem],
    parseElems_minute _ ms _ _ hm (by simp; rfl) (by decide)]
  by_cases h2 : ms.length = 2 ∧ (countValue ms : Int) ≤ 59
  swap
  · simp only [h2, false_and, and_false, if_false, and_self]
  simp only [h2, if_true, true_and, and_self]
  rw [show ∀ (X : List Char) (r : parsed), parseElems [.colon, .zeroSecond] (':' :: X) r =
    parseElems [.zeroSecond] X r from fun X r => by simp [parseElems, parseElem],
    parseElems_second _ ss _ _ hs2 (by simp) (by decide)]
  by_cases h3 : ss.length = 2 ∧ (countValue ss : Int) ≤ 59
  swap
  · simp only [h3, false_and, and_false, if_false, and_self]
  simp [h3, parseElems]

theorem space_stop (U : RuneTables) (R : List Char) :
    ∀ c ∈ (' ' :: R).head?, isTimeRune U c = false := by
  intro c hc
  simp only [List.head?_cons, Option.mem_def, Option.some.injEq] at hc
  subst hc
  rfl

theorem lexToks_at_word (U : RuneTables) (n : Nat) (R : List Char) :
    lexToks U (n + 2) .readExpr ("at ".data ++ R) =
      (lexToks U n .readExpr R).map (fun t => ⟨.tokenKeyword, "at"⟩ :: t) := by
  rw [show "at ".data ++ R = "at".data ++ (' ' :: R) from rfl,
    lexToks_closed_word U n "at" (' ' :: R) .readExpr [⟨.tokenKeyword, "at"⟩] (by decide) (by decide)
      (space_stop U R), lexToks_skip1]
  rfl

theorem lower_marker (U : RuneTables) :
    stringsToLower U "pm" = "pm" ∧ stringsToLower U "PM" = "pm" ∧ stringsToLower U "am" = "am" := by
  refine ⟨?_, ?_, ?_⟩ <;> rw [stringsToLower_ascii U asciiTables _ (by decide)] <;> decide

theorem lex_pm_forms (U : RuneTables) (ds : List Char) (hd : isCount ds) :
    lex U (String.mk ds ++ "pm") = .ok [⟨.tokenDigit, String.mk ds⟩, ⟨.tokenTwelveHour, "pm"⟩] ∧
    lex U (String.mk ds ++ " PM") = .ok [⟨.tokenDigit, String.mk ds⟩, ⟨.tokenTwelveHour, "PM"⟩] ∧
    lex U (String.mk ds ++ ":00pm") = .ok [⟨.tokenDigit, String.mk ds⟩, ⟨.tokenColon, ":"⟩,
      ⟨.tokenDigit, "00"⟩, ⟨.tokenTwelveHour, "pm"⟩] ∧
    lex U ("@" ++ String.mk ds ++ "pm") = .ok [⟨.tokenKeyword, "@"⟩, ⟨.tokenDigit, String.mk ds⟩,
      ⟨.tokenTwelveHour, "pm"⟩] ∧
    lex U ("at " ++ String.mk ds ++ "pm") = .ok [⟨.tokenKeyword, "at"⟩, ⟨.tokenDigit, String.mk ds⟩,
      ⟨.tokenTwelveHour, "pm"⟩] := by
  have t1 := lexToks_digits_tail U 2 ds "pm".data [⟨.tokenTwelveHour, "pm"⟩] hd (by decide) (by decide)
    (by decide!)
  refine ⟨?_, ?_, ?_, ?_, ?_⟩
  · exact lex_of_toks_ok U _ _ 4 (fuel_tail _ _ _ (by decide)) t1 (by simp)
  · exact lex_of_toks_ok U _ _ 5 (fuel_tail _ _ _ (by decide))
      (lexToks_digits_tail U 3 ds " PM".data [⟨.tokenTwelveHour, "PM"⟩] hd (by decide) (by decide)
        (by decide!)) (by simp)
  · exact lex_of_toks_ok U _ _ 6 (fuel_tail _ _ _ (by decide))
      (lexToks_digits_tail U 4 ds ":00pm".data [⟨.tokenColon, ":"⟩, ⟨.tokenDigit, "00"⟩,
        ⟨.tokenTwelveHour, "pm"⟩] hd (by decide) (by decide) (by decide!)) (by simp)
  · refine lex_of_toks_ok U _ _ 6 (fuel_tail _ _ _ (by decide)) ?_ (by simp)
    rw [show ("@" ++ String.mk ds ++ "pm").data = '@' :: (ds ++ "pm".data) from rfl,
      lexToks_at U 4, t1]
    rfl
  · refine lex_of_toks_ok U _ _ 6 (fuel_tail _ _ _ (by decide)) ?_ (by simp)
    rw [show ("at " ++ String.mk ds ++ "pm").data = "at ".data ++ (ds ++ "pm".data) from rfl,
      lexToks_at_word U 4, t1]
    rfl

theorem lex_afternoon_forms (U : RuneTables) (ds : List Char) (hd : isCount ds) :
    lex U (String.mk ds ++ " in the afternoon") = .ok [⟨.tokenDigit, String.mk ds⟩,
      ⟨.tokenKeyword, "in"⟩, ⟨.tokenKeyword, "the"⟩, ⟨.tokenKeyword, "afternoon"⟩] ∧
    lex U (String.mk ds ++ " in the evening") = .ok [⟨.tokenDigit, String.mk ds⟩,
      ⟨.tokenKeyword, "in"⟩, ⟨.tokenKeyword, "the"⟩, ⟨.tokenKeyword, "evening"⟩] ∧
    lex U (String.mk ds ++ " oclock in the afternoon") = .ok [⟨.tokenDigit, String.mk ds⟩,
      ⟨.tokenKeyword, "oclock"⟩, ⟨.tokenKeyword, "in"⟩, ⟨.tokenKeyword, "the"⟩,
      ⟨.tokenKeyword, "afternoon"⟩] ∧
    lex U (String.mk ds ++ " o'clock in the afternoon") = .ok [⟨.tokenDigit, String.mk ds⟩,
      ⟨.tokenKeyword, "o'clock"⟩, ⟨.tokenKeyword, "in"⟩, ⟨.tokenKeyword, "the"⟩,
      ⟨.tokenKeyword, "afternoon"⟩] ∧
    lex U (String.mk ds ++ "am") = .ok [⟨.tokenDigit, String.mk ds⟩, ⟨.tokenTwelveHour, "am"⟩] ∧
    lex U (String.mk ds ++ " in the morning") = .ok [⟨.tokenDigit, String.mk ds⟩,
      ⟨.tokenKeyword, "in"⟩, ⟨.tokenKeyword, "the"⟩, ⟨.tokenKeyword, "morning"⟩] := by
  refine ⟨?_, ?_, ?_, ?_, ?_, ?_⟩
  · exact lex_of_toks_ok U _ _ 9 (fuel_tail _ _ _ (by decide))
      (lexToks_digits_tail U 7 ds " in the afternoon".data _ hd (by decide) (by decide)
        (by decide!)) (by simp)
  · exact lex_of_toks_ok U _ _ 9 (fuel_tail _ _ _ (by decide))
      (lexToks_digits_tail U 7 ds " in the evening".data _ hd (by decide) (by decide)
        (by decide!)) (by simp)
  · exact lex_of_toks_ok U _ _ 11 (fuel_tail _ _ _ (by decide))
      (lexToks_digits_tail U 9 ds " oclock in the afternoon".data _ hd (by decide) (by decide)
        (by decide!)) (by simp)
  · exact lex_of_toks_ok U _ _ 11 (fuel_tail _ _ _ (by decide))
      (lexToks_digits_tail U 9 ds " o'clock in the afternoon".data _ hd (by decide) (by decide)
        (by decide!)) (by simp)
  · exact lex_of_toks_ok U _ _ 4 (fuel_tail _ _ _ (by decide))
      (lexToks_digits_tail U 2 ds "am".data _ hd (by decide) (by decide) (by decide!)) (by simp)
  · exact lex_of_toks_ok U _ _ 9 (fuel_tail _ _ _ (by decide))
      (lexToks_digits_tail U 7 ds " in the morning".data _ hd (by decide) (by decide)
        (by decide!)) (by simp)

theorem lexToks_colon (U : RuneTables) (n : Nat) (ms R : List Char) (hm : isCount ms) :
    lexToks U (n + 2) .readColon (':' :: (ms ++ R)) =
      (lexToks U (n + 2) .readExpr (ms ++ R)).map (fun t => ⟨.tokenColon, ":"⟩ :: t) := by
  obtain ⟨x, xs, rfl⟩ := List.exists_cons_of_ne_nil hm.1
  have hx : isAsciiDigit x = true := hm.2 x (by simp)
  obtain ⟨-, hxd, -⟩ := asciiDigit_facts U x hx
  have h1 : readColon U ⟨':' :: (x :: xs ++ R), 0, 0, 0, []⟩ =
      (some .readDigit, ⟨':' :: (x :: xs ++ R), 1, 1, 1, [⟨.tokenColon, ":"⟩]⟩) := by
    simp [readColon, lexer.read, lexer.emit, lexer.emitAs, lexer.value, lexer.peek, lexer.unread, hxd]
  have h2 := readExpr_digit U (x :: xs) R hm.1 hm.2
  rw [lexToks, lexRun, lexStep, h1, lexToks, lexRun, lexStep, h2]
  simp only []
  have a := lexRun_cut U (n + 1) .readDigit [':'] (x :: xs ++ R) [⟨.tokenColon, ":"⟩] 1
  have b := lexRun_cut U (n + 1) .readDigit [] (x :: xs ++ R) [] 1
  simp only [List.nil_append, List.length_nil, List.singleton_append, List.length_singleton] at a b
  rw [a, b]
  cases lexToks U (n + 1) .readDigit (x :: xs ++ R) <;> rfl

theorem lexToks_digits_colon (U : RuneTables) (n : Nat) (hs ms R : List Char) (hh : isCount hs)
    (hm : isCount ms) :
    lexToks U (n + 4) .readExpr (hs ++ ':' :: (ms ++ R)) =
      (lexToks U (n + 2) .readExpr (ms ++ R)).map
        (fun t => ⟨.tokenDigit, String.mk hs⟩ :: ⟨.tokenColon, ":"⟩ :: t) := by
  rw [lexToks_digits_stop U (n + 2) hs _ ':' hh rfl]
  simp only [show (':' : Char) ≠ 's' by decide, if_false, if_true,
    show ¬ ((':' : Char) = 'm' ∨ (':' : Char) = 'h' ∨ (':' : Char) = 'd' ∨ (':' : Char) = 'w' ∨
      (':' : Char) = 'M' ∨ (':' : Char) = 'y') by decide,
    show ¬ ((':' : Char) = 'n' ∨ (':' : Char) = 'r' ∨ (':' : Char) = 't') by decide,
    show ¬ ((':' : Char) = 'a' ∨ (':' : Char) = 'p') by decide]
  rw [lexToks_colon U n ms R hm]
  cases lexToks U (n + 2) .readExpr (ms ++ R) <;> rfl

theorem lex_colon_forms (U : RuneTables) (hs ms ss : List Char) (hh : isCount hs) (hm : isCount ms)
    (hs2 : isCount ss) :
    lex U (String.mk hs ++ ":" ++ String.mk ms) =
      .ok [⟨.tokenDigit, String.mk hs⟩, ⟨.tokenColon, ":"⟩, ⟨.tokenDigit, String.mk ms⟩] ∧
    lex U (String.mk hs ++ ":" ++ String.mk ms ++ ":" ++ String.mk ss) =
      .ok [⟨.tokenDigit, String.mk hs⟩, ⟨.tokenColon, ":"⟩, ⟨.tokenDigit, String.mk ms⟩,
        ⟨.tokenColon, ":"⟩, ⟨.tokenDigit, String.mk ss⟩] ∧
    lex U (String.mk hs ++ ":" ++ String.mk ms ++ "pm") =
      .ok [⟨.tokenDigit, String.mk hs⟩, ⟨.tokenColon, ":"⟩, ⟨.tokenDigit, String.mk ms⟩,
        ⟨.tokenTwelveHour, "pm"⟩] ∧
    lex U (String.mk hs ++ ":" ++ String.mk ms ++ ":" ++ String.mk ss ++ "pm") =
      .ok [⟨.tokenDigit, String.mk hs⟩, ⟨.tokenColon, ":"⟩, ⟨.tokenDigit, String.mk ms⟩,
        ⟨.tokenColon, ":"⟩, ⟨.tokenDigit, String.mk ss⟩, ⟨.tokenTwelveHour, "pm"⟩] := by
  refine ⟨?_, ?_, ?_, ?_⟩
  · refine lex_of_toks_ok U _ _ 4 (fuel_head _ _ _ (by simp)) ?_ (by simp)
    rw [show (String.mk hs ++ ":" ++ String.mk ms).data = hs ++ ':' :: (ms ++ []) by
      simp [String.data_append]]
    rw [lexToks_digits_colon U 0 hs ms [] hh hm, List.append_nil,
      lexToks_digits_eof U 0 ms hm.1 hm.2]
    rfl
  · refine lex_of_toks_ok U _ _ 6 (fuel_head _ _ _ (by simp)) ?_ (by simp)
    rw [show (String.mk hs ++ ":" ++ String.mk ms ++ ":" ++ String.mk ss).data =
      hs ++ ':' :: (ms ++ (':' :: (ss ++ []))) by simp [String.data_append]]
    rw [lexToks_digits_colon U 2 hs ms _ hh hm, lexToks_digits_colon U 0 ms ss [] hm hs2,
      List.append_nil, lexToks_digits_eof U 0 ss hs2.1 hs2.2]
    rfl
  · refine lex_of_toks_ok U _ _ 6 (fuel_tail _ _ _ (by decide)) ?_ (by simp)
    rw [show (String.mk hs ++ ":" ++ String.mk ms ++ "pm").data = hs ++ ':' :: (ms ++ "pm".data) by
      simp [String.data_append]]
    rw [lexToks_digits_colon U 2 hs ms _ hh hm,
      lexToks_digits_tail U 2 ms "pm".data [⟨.tokenTwelveHour, "pm"⟩] hm (by decide) (by decide)
        (by decide!)]
    rfl
  · refine lex_of_toks_ok U _ _ 8 (fuel_tail _ _ _ (by decide)) ?_ (by simp)
    rw [show (String.mk hs ++ ":" ++ String.mk ms ++ ":" ++ String.mk ss ++ "pm").data =
      hs ++ ':' :: (ms ++ (':' :: (ss ++ "pm".data))) by simp [String.data_append]]
    rw [lexToks_digits_colon U 4 hs ms _ hh hm, lexToks_digits_colon U 2 ms ss _ hm hs2,
      lexToks_digits_tail U 2 ss "pm".data [⟨.tokenTwelveHour, "pm"⟩] hs2 (by decide) (by decide)
        (by decide!)]
    rfl

/-- C33, as the code has it: a clock time with seconds takes no twelve-hour marker.  For every
reference instant, `H:MM:SSpm` is an error: the marker is an unexpected token when `H:MM:SS` is
a time of the 24-hour clock, and otherwise the error of `time.Parse` on `H:MM:SS`. -/
theorem seconds_take_no_marker (U : RuneTables) (now : Time) (hs ms ss : List Char)
    (hh : isCount hs) (hm : isCount ms) (hs2 : isCount ss) :
    ParseNow U (String.mk hs ++ ":" ++ String.mk ms ++ ":" ++ String.mk ss ++ "pm") now =
      (if (hs.length ≤ 2 ∧ (countValue hs : Int) ≤ 23) ∧ (ms.length = 2 ∧ (countValue ms : Int) ≤ 59) ∧
          ss.length = 2 ∧ (countValue ss : Int) ≤ 59 then
        .error (.parse ⟨.tokenTwelveHour, "pm"⟩ "unexpected token")
      else .error (.timeParse "15:04:05"
        (String.mk hs ++ ":" ++ String.mk ms ++ ":" ++ String.mk ss))) := by
  obtain ⟨-, -, -, l4⟩ := lex_colon_forms U hs ms ss hh hm hs2
  obtain ⟨z1, -⟩ := zero_facts
  rw [ParseNow_of_lex U _ now _ l4 (by simp)]
  have hp := PIL_150405 hs ms ss now.loc hh hm hs2
  by_cases hv : (hs.length ≤ 2 ∧ (countValue hs : Int) ≤ 23) ∧
      (ms.length = 2 ∧ (countValue ms : Int) ≤ 59) ∧ ss.length = 2 ∧ (countValue ss : Int) ≤ 59
  · rw [if_pos hv] at hp ⊢
    simp [parseFuel, parseRun, parseStep, parser.parseExpr, parser.parseExprDigit,
      parser.parseDigitColon, parser.parseDigitColonTwelveHour, parser.parseDigitColonTwentyFourHour,
      parser.parseDigitColonTwentyFourHourWithSeconds, parser.parseDigitTwelveHour, parser.parseDate,
      parser.anchorDate, parser.peek, parser.next, Time.Location, Time.Hour, Time.Minute, Time.Second,
      Date_loc, z1, unexpected, hp]
  · rw [if_neg hv] at hp ⊢
    simp [parseFuel, parseRun, parseStep, parser.parseExpr, parser.parseExprDigit,
      parser.parseDigitColon, parser.parseDigitColonTwelveHour, parser.parseDigitColonTwentyFourHour,
      parser.parseDigitColonTwentyFourHourWithSeconds, parser.parseDigitTwelveHour, parser.parseDate,
      parser.anchorDate, parser.peek, parser.next, Time.Location, Time.Hour, Time.Minute, Time.Second,
      Date_loc, z1, unexpected, hp]

theorem seconds_take_no_marker_witness :
    isCount "3".data ∧ isCount "04".data ∧ isCount "05".data ∧
      ParseNow asciiTables (String.mk "3".data ++ ":" ++ String.mk "04".data ++ ":" ++
          String.mk "05".data ++ "pm") (refNow MST) =
        (if ("3".data.length ≤ 2 ∧ (countValue "3".data : Int) ≤ 23) ∧
            ("04".data.length = 2 ∧ (countValue "04".data : Int) ≤ 59) ∧
            "05".data.length = 2 ∧ (countValue "05".data : Int) ≤ 59 then
          .error (.parse ⟨.tokenTwelveHour, "pm"⟩ "unexpected token")
        else .error (.timeParse "15:04:05"
          (String.mk "3".data ++ ":" ++ String.mk "04".data ++ ":" ++ String.mk "05".data))) :=
  ⟨by decide, by decide, by decide,
    seconds_take_no_marker asciiTables (refNow MST) "3".data "04".data "05".data (by decide) (by decide)
      (by decide)⟩

/-- C33, as it is stated, fails: `3:04:05pm` is an error, with every reference instant. -/
theorem seconds_with_marker_fails :
    everyTables (fun U => ParseNow U "3:04:05pm" (refNow MST) =
      .error (.parse ⟨.tokenTwelveHour, "pm"⟩ "unexpected token")) := by
  intro U
  rw [ParseNow_tables U _ _ (by decide!)]
  decide!

theorem lex_toks (U : RuneTables) (s : String) (ts : List token) (h : lex U s = .ok ts) :
    lexToks U (lexFuel s) .readExpr s.data = some ts ∧ ∀ t ∈ ts.getLast?, t.typ ≠ .tokenError := by
  unfold lex at h
  unfold lexToks
  rcases hr : lexRun U (lexFuel s) .readExpr ⟨s.data, 0, 0, 0, []⟩ with _ | l
  · rw [hr] at h
    simp at h
  · rw [hr] at h
    simp only at h
    rcases hg : l.tokens.getLast? with _ | last
    · rw [hg] at h
      simp only [Except.ok.injEq] at h
      subst h
      simp [hg]
    · rw [hg] at h
      simp only at h
      by_cases he : last.typ = .tokenError
      · simp [he] at h
      · simp only [he, if_false, Except.ok.injEq] at h
        subst h
        simp [hg, he]

theorem lex_prefixed (U : RuneTables) (pre : String) (tp : List token) (k : Nat)
    (hk : k ≤ 6 * pre.data.length)
    (hp : ∀ n R, lexToks U (n + k) .readExpr (pre.data ++ R) =
      (lexToks U n .readExpr R).map (fun t => tp ++ t))
    (s : String) (ts : List token) (h : lex U s = .ok ts) (hne : ts ≠ []) :
    lex U (pre ++ s) = .ok (tp ++ ts) := by
  obtain ⟨h1, h2⟩ := lex_toks U s ts h
  refine lex_of_toks_ok U _ _ (lexFuel s + k) ?_ ?_ ?_
  · simp only [lexFuel, String.data_append, List.length_append]
    omega
  · rw [String.data_append, hp, h1]
    rfl
  · rw [List.getLast?_append_of_ne_nil _ hne]
    exact h2

theorem lexToks_quarter (U : RuneTables) :
    (∀ n R, lexToks U (n + 4) .readExpr ("quarter to ".data ++ R) =
      (lexToks U n .readExpr R).map (fun t => [⟨.tokenKeyword, "quarter"⟩, ⟨.tokenKeyword, "to"⟩] ++ t)) ∧
    (∀ n R, lexToks U (n + 4) .readExpr ("quarter past ".data ++ R) =
      (lexToks U n .readExpr R).map (fun t => [⟨.tokenKeyword, "quarter"⟩, ⟨.tokenKeyword, "past"⟩] ++ t)) ∧
    (∀ n R, lexToks U (n + 4) .readExpr ("quarter after ".data ++ R) =
      (lexToks U n .readExpr R).map (fun t => [⟨.tokenKeyword, "quarter"⟩, ⟨.tokenKeyword, "after"⟩] ++ t)) ∧
    (∀ n R, lexToks U (n + 4) .readExpr ("half past ".data ++ R) =
      (lexToks U n .readExpr R).map (fun t => [⟨.tokenKeyword, "half"⟩, ⟨.tokenKeyword, "past"⟩] ++ t)) := by
  refine ⟨?_, ?_, ?_, ?_⟩ <;> intro n R
  · rw [show "quarter to ".data ++ R = "quarter".data ++ (' ' :: ("to".data ++ (' ' :: R))) from rfl,
      lexToks_closed_word U (n + 2) "quarter" _ .readExpr [⟨.tokenKeyword, "quarter"⟩] (by decide)
        (by decide) (space_stop U _), lexToks_skip1,
      lexToks_closed_word U n "to" _ .readExpr [⟨.tokenKeyword, "to"⟩] (by decide)
        (by decide) (space_stop U _), lexToks_skip1]
    cases lexToks U n .readExpr R <;> rfl
  · rw [show "quarter past ".data ++ R = "quarter".data ++ (' ' :: ("past".data ++ (' ' :: R))) from rfl,
      lexToks_closed_word U (n + 2) "quarter" _ .readExpr [⟨.tokenKeyword, "quarter"⟩] (by decide)
        (by decide) (space_stop U _), lexToks_skip1,
      lexToks_closed_word U n "past" _ .readExpr [⟨.tokenKeyword, "past"⟩] (by decide)
        (by decide) (space_stop U _), lexToks_skip1]
    cases lexToks U n .readExpr R <;> rfl
  · rw [show "quarter after ".data ++ R = "quarter".data ++ (' ' :: ("after".data ++ (' ' :: R))) from rfl,
      lexToks_closed_word U (n + 2) "quarter" _ .readExpr [⟨.tokenKeyword, "quarter"⟩] (by decide)
        (by decide) (space_stop U _), lexToks_skip1,
      lexToks_closed_word U n "after" _ .readExpr [⟨.tokenKeyword, "after"⟩] (by decide)
        (by decide) (space_stop U _), lexToks_skip1]
    cases lexToks U n .readExpr R <;> rfl
  · rw [show "half past ".data ++ R = "half".data ++ (' ' :: ("past".data ++ (' ' :: R))) from rfl,
      lexToks_closed_word U (n + 2) "half" _ .readExpr [⟨.tokenKeyword, "half"⟩] (by decide)
        (by decide) (space_stop U _), lexToks_skip1,
      lexToks_closed_word U n "past" _ .readExpr [⟨.tokenKeyword, "past"⟩] (by decide)
        (by decide) (space_stop U _), lexToks_skip1]
    cases lexToks U n .readExpr R <;> rfl

/-- C30: for every reference instant and every hour phrase `H` of the forms `Ham`, `Hpm` and
`HH:MM`, `quarter to H` is `H` less 15 minutes, `quarter past H` and `quarter after H` are `H`
and 15 minutes, and `half past H` is `H` and 30 minutes (an error of `H` is the error of the
longer phrase); with the reference instant 2006-01-02T15:04:05 MST, `quarter to 4pm` is
2006-01-02T15:45:00. -/
theorem quarter_and_half (U : RuneTables) (now : Time) (hs ms : List Char) (hh : isCount hs)
    (hm : isCount ms) :
    (∀ H ∈ [String.mk hs ++ "pm", String.mk hs ++ "am", String.mk hs ++ ":" ++ String.mk ms],
      ParseNow U ("quarter to " ++ H) now = (ParseNow U H now).map (fun t => t.Add (-15 * Minute)) ∧
      ParseNow U ("quarter past " ++ H) now = (ParseNow U H now).map (fun t => t.Add (15 * Minute)) ∧
      ParseNow U ("quarter after " ++ H) now = (ParseNow U H now).map (fun t => t.Add (15 * Minute)) ∧
      ParseNow U ("half past " ++ H) now = (ParseNow U H now).map (fun t => t.Add (30 * Minute))) ∧
    ParseNow U "quarter to 4pm" (refNow MST) = .ok (Date 2006 1 2 15 45 0 0 MST) := by
  obtain ⟨l1, -⟩ := lex_pm_forms U hs hh
  obtain ⟨-, -, -, -, l2, -⟩ := lex_afternoon_forms U hs hh
  obtain ⟨l3, -⟩ := lex_colon_forms U hs ms ms hh hm hm
  obtain ⟨z1, -⟩ := zero_facts
  obtain ⟨m1, -, m3⟩ := lower_marker U
  have hq := lexToks_quarter U
  constructor
  · intro H hH
    simp only [List.mem_cons, List.mem_singleton, List.not_mem_nil, or_false] at hH
    rcases hH with rfl | rfl | rfl
    · refine ⟨?_, ?_, ?_, ?_⟩
      · rw [ParseNow_of_lex U _ now _ (lex_prefixed U "quarter to " _ 4 (by decide) hq.1 _ _ l1 (by simp)) (by simp),
          ParseNow_of_lex U _ now _ l1 (by simp)]
        rcases hP : ParseInLocation layout3pm "3pm" (String.mk hs ++ "pm") now.loc with e | r <;>
        simp [-mul_neg, -neg_mul, -mul_one, Int.mul_neg, Int.neg_mul, Int.mul_one, parseFuel, parseRun, parseStep, parser.parseExpr, parser.parseExprDigit, parser.parseDateTime,
        parser.parseKeyword, parser.parseKeywordQuarter, parser.parseKeywordQuarterTo,
        parser.parseKeywordQuarterAfter, parser.parseKeywordHalf, parser.parseKeywordHalfPast,
        parser.parseDigit, parser.parseDigitColon, parser.parseDigitColonTwentyFourHour,
        parser.parseDigitTwelveHour, parser.parseDate, parser.anchorDate, parser.peek, parser.next,
        Time.Location, Date_loc, z1, m1, m3, hP, Except.map]
      · rw [ParseNow_of_lex U _ now _ (lex_prefixed U "quarter past " _ 4 (by decide) hq.2.1 _ _ l1 (by simp)) (by simp),
          ParseNow_of_lex U _ now _ l1 (by simp)]
        rcases hP : ParseInLocation layout3pm "3pm" (String.mk hs ++ "pm") now.loc with e | r <;>
        simp [-mul_neg, -neg_mul, -mul_one, Int.mul_neg, Int.neg_mul, Int.mul_one, parseFuel, parseRun, parseStep, parser.parseExpr, parser.parseExprDigit, parser.parseDateTime,
        parser.parseKeyword, parser.parseKeywordQuarter, parser.parseKeywordQuarterTo,
        parser.parseKeywordQuarterAfter, parser.parseKeywordHalf, parser.parseKeywordHalfPast,
        parser.parseDigit, parser.parseDigitColon, parser.parseDigitColonTwentyFourHour,
        parser.parseDigitTwelveHour, parser.parseDate, parser.anchorDate, parser.peek, parser.next,
        Time.Location, Date_loc, z1, m1, m3, hP, Except.map]
      · rw [ParseNow_of_lex U _ now _ (lex_prefixed U "quarter after " _ 4 (by decide) hq.2.2.1 _ _ l1 (by simp)) (by simp),
          ParseNow_of_lex U _ now _ l1 (by simp)]
        rcases hP : ParseInLocation layout3pm "3pm" (String.mk hs ++ "pm") now.loc with e | r <;>
        simp [-mul_neg, -neg_mul, -mul_one, Int.mul_neg, Int.neg_mul, Int.mul_one, parseFuel, parseRun, parseStep, parser.parseExpr, parser.parseExprDigit, parser.parseDateTime,
        parser.parseKeyword, parser.parseKeywordQuarter, parser.parseKeywordQuarterTo,
        parser.parseKeywordQuarterAfter, parser.parseKeywordHalf, parser.parseKeywordHalfPast,
        parser.parseDigit, parser.parseDigitColon, parser.parseDigitColonTwentyFourHour,
        parser.parseDigitTwelveHour, parser.parseDate, parser.anchorDate, parser.peek, parser.next,
        Time.Location, Date_loc, z1, m1, m3, hP, Except.map]
      · rw [ParseNow_of_lex U _ now _ (lex_prefixed U "half past " _ 4 (by decide) hq.2.2.2 _ _ l1 (by simp)) (by simp),
          ParseNow_of_lex U _ now _ l1 (by simp)]
        rcases hP : ParseInLocation layout3pm "3pm" (String.mk hs ++ "pm") now.loc with e | r <;>
        simp [-mul_neg, -neg_mul, -mul_one, Int.mul_neg, Int.neg_mul, Int.mul_one, parseFuel, parseRun, parseStep, parser.parseExpr, parser.parseExprDigit, parser.parseDateTime,
        parser.parseKeyword, parser.parseKeywordQuarter, parser.parseKeywordQuarterTo,
        parser.parseKeywordQuarterAfter, parser.parseKeywordHalf, parser.parseKeywordHalfPast,
        parser.parseDigit, parser.parseDigitColon, parser.parseDigitColonTwentyFourHour,
        parser.parseDigitTwelveHour, parser.parseDate, parser.anchorDate, parser.peek, parser.next,
        Time.Location, Date_loc, z1, m1, m3, hP, Except.map]
    · refine ⟨?_, ?_, ?_, ?_⟩
      · rw [ParseNow_of_lex U _ now _ (lex_prefixed U "quarter to " _ 4 (by decide) hq.1 _ _ l2 (by simp)) (by simp),
          ParseNow_of_lex U _ now _ l2 (by simp)]
        rcases hP : ParseInLocation layout3pm "3pm" (String.mk hs ++ "am") now.loc with e | r <;>
        simp [-mul_neg, -neg_mul, -mul_one, Int.mul_neg, Int.neg_mul, Int.mul_one, parseFuel, parseRun, parseStep, parser.parseExpr, parser.parseExprDigit, parser.parseDateTime,
        parser.parseKeyword, parser.parseKeywordQuarter, parser.parseKeywordQuarterTo,
        parser.parseKeywordQuarterAfter, parser.parseKeywordHalf, parser.parseKeywordHalfPast,
        parser.parseDigit, parser.parseDigitColon, parser.parseDigitColonTwentyFourHour,
        parser.parseDigitTwelveHour, parser.parseDate, parser.anchorDate, parser.peek, parser.next,
        Time.Location, Date_loc, z1, m1, m3, hP, Except.map]
      · rw [ParseNow_of_lex U _ now _ (lex_prefixed U "quarter past " _ 4 (by decide) hq.2.1 _ _ l2 (by simp)) (by simp),
          ParseNow_of_lex U _ now _ l2 (by simp)]
        rcases hP : ParseInLocation layout3pm "3pm" (String.mk hs ++ "am") now.loc with e | r <;>
        simp [-mul_neg, -neg_mul, -mul_one, Int.mul_neg, Int.neg_mul, Int.mul_one, parseFuel, parseRun, parseStep, parser.parseExpr, parser.parseExprDigit, parser.parseDateTime,
        parser.parseKeyword, parser.parseKeywordQuarter, parser.parseKeywordQuarterTo,
        parser.parseKeywordQuarterAfter, parser.parseKeywordHalf, parser.parseKeywordHalfPast,
        parser.parseDigit, parser.parseDigitColon, parser.parseDigitColonTwentyFourHour,
        parser.parseDigitTwelveHour, parser.parseDate, parser.anchorDate, parser.peek, parser.next,
        Time.Location, Date_loc, z1, m1, m3, hP, Except.map]
      · rw [ParseNow_of_lex U _ now _ (lex_prefixed U "quarter after " _ 4 (by decide) hq.2.2.1 _ _ l2 (by simp)) (by simp),
          ParseNow_of_lex U _ now _ l2 (by simp)]
        rcases hP : ParseInLocation layout3pm "3pm" (String.mk hs ++ "am") now.loc with e | r <;>
        simp [-mul_neg, -neg_mul, -mul_one, Int.mul_neg, Int.neg_mul, Int.mul_one, parseFuel, parseRun, parseStep, parser.parseExpr, parser.parseExprDigit, parser.parseDateTime,
        parser.parseKeyword, parser.parseKeywordQuarter, parser.parseKeywordQuarterTo,
        parser.parseKeywordQuarterAfter, parser.parseKeywordHalf, parser.parseKeywordHalfPast,
        parser.parseDigit, parser.parseDigitColon, parser.parseDigitColonTwentyFourHour,
        parser.parseDigitTwelveHour, parser.parseDate, parser.anchorDate, parser.peek, parser.next,
        Time.Location, Date_loc, z1, m1, m3, hP, Except.map]
      · rw [ParseNow_of_lex U _ now _ (lex_prefixed U "half past " _ 4 (by decide) hq.2.2.2 _ _ l2 (by simp)) (by simp),
          ParseNow_of_lex U _ now _ l2 (by simp)]
        rcases hP : ParseInLocation layout3pm "3pm" (String.mk hs ++ "am") now.loc with e | r <;>
        simp [-mul_neg, -neg_mul, -mul_one, Int.mul_neg, Int.neg_mul, Int.mul_one, parseFuel, parseRun, parseStep, parser.parseExpr, parser.parseExprDigit, parser.parseDateTime,
        parser.parseKeyword, parser.parseKeywordQuarter, parser.parseKeywordQuarterTo,
        parser.parseKeywordQuarterAfter, parser.parseKeywordHalf, parser.parseKeywordHalfPast,
        parser.parseDigit, parser.parseDigitColon, parser.parseDigitColonTwentyFourHour,
        parser.parseDigitTwelveHour, parser.parseDate, parser.anchorDate, parser.peek, parser.next,
        Time.Location, Date_loc, z1, m1, m3, hP, Except.map]
    · refine ⟨?_, ?_, ?_, ?_⟩
      · rw [ParseNow_of_lex U _ now _ (lex_prefixed U "quarter to " _ 4 (by decide) hq.1 _ _ l3 (by simp)) (by simp),
          ParseNow_of_lex U _ now _ l3 (by simp)]
        rcases hP : ParseInLocation layout1504 "15:04" (String.mk hs ++ ":" ++ String.mk ms) now.loc with e | r <;>
        simp [-mul_neg, -neg_mul, -mul_one, Int.mul_neg, Int.neg_mul, Int.mul_one, parseFuel, parseRun, parseStep, parser.parseExpr, parser.parseExprDigit, parser.parseDateTime,
        parser.parseKeyword, parser.parseKeywordQuarter, parser.parseKeywordQuarterTo,
        parser.parseKeywordQuarterAfter, parser.parseKeywordHalf, parser.parseKeywordHalfPast,
        parser.parseDigit, parser.parseDigitColon, parser.parseDigitColonTwentyFourHour,
        parser.parseDigitTwelveHour, parser.parseDate, parser.anchorDate, parser.peek, parser.next,
        Time.Location, Date_loc, z1, m1, m3, hP, Except.map]
      · rw [ParseNow_of_lex U _ now _ (lex_prefixed U "quarter past " _ 4 (by decide) hq.2.1 _ _ l3 (by simp)) (by simp),
          ParseNow_of_lex U _ now _ l3 (by simp)]
        rcases hP : ParseInLocation layout1504 "15:04" (String.mk hs ++ ":" ++ String.mk ms) now.loc with e | r <;>
        simp [-mul_neg, -neg_mul, -mul_one, Int.mul_neg, Int.neg_mul, Int.mul_one, parseFuel, parseRun, parseStep, parser.parseExpr, parser.parseExprDigit, parser.parseDateTime,
        parser.parseKeyword, parser.parseKeywordQuarter, parser.parseKeywordQuarterTo,
        parser.parseKeywordQuarterAfter, parser.parseKeywordHalf, parser.parseKeywordHalfPast,
        parser.parseDigit, parser.parseDigitColon, parser.parseDigitColonTwentyFourHour,
        parser.parseDigitTwelveHour, parser.parseDate, parser.anchorDate, parser.peek, parser.next,
        Time.Location, Date_loc, z1, m1, m3, hP, Except.map]
      · rw [ParseNow_of_lex U _ now _ (lex_prefixed U "quarter after " _ 4 (by decide) hq.2.2.1 _ _ l3 (by simp)) (by simp),
          ParseNow_of_lex U _ now _ l3 (by simp)]
        rcases hP : ParseInLocation layout1504 "15:04" (String.mk hs ++ ":" ++ String.mk ms) now.loc with e | r <;>
        simp [-mul_neg, -neg_mul, -mul_one, Int.mul_neg, Int.neg_mul, Int.mul_one, parseFuel, parseRun, parseStep, parser.parseExpr, parser.parseExprDigit, parser.parseDateTime,
        parser.parseKeyword, parser.parseKeywordQuarter, parser.parseKeywordQuarterTo,
        parser.parseKeywordQuarterAfter, parser.parseKeywordHalf, parser.parseKeywordHalfPast,
        parser.parseDigit, parser.parseDigitColon, parser.parseDigitColonTwentyFourHour,
        parser.parseDigitTwelveHour, parser.parseDate, parser.anchorDate, parser.peek, parser.next,
        Time.Location, Date_loc, z1, m1, m3, hP, Except.map]
      · rw [ParseNow_of_lex U _ now _ (lex_prefixed U "half past " _ 4 (by decide) hq.2.2.2 _ _ l3 (by simp)) (by simp),
          ParseNow_of_lex U _ now _ l3 (by simp)]
        rcases hP : ParseInLocation layout1504 "15:04" (String.mk hs ++ ":" ++ String.mk ms) now.loc with e | r <;>
        simp [-mul_neg, -neg_mul, -mul_one, Int.mul_neg, Int.neg_mul, Int.mul_one, parseFuel, parseRun, parseStep, parser.parseExpr, parser.parseExprDigit, parser.parseDateTime,
        parser.parseKeyword, parser.parseKeywordQuarter, parser.parseKeywordQuarterTo,
        parser.parseKeywordQuarterAfter, parser.parseKeywordHalf, parser.parseKeywordHalfPast,
        parser.parseDigit, parser.parseDigitColon, parser.parseDigitColonTwentyFourHour,
        parser.parseDigitTwelveHour, parser.parseDate, parser.anchorDate, parser.peek, parser.next,
        Time.Location, Date_loc, z1, m1, m3, hP, Except.map]
  · rw [ParseNow_tables U _ _ (by decide!)]
    decide!

theorem quarter_and_half_witness :
    isCount "4".data ∧ isCount "30".data ∧
      ParseNow asciiTables ("half past " ++ (String.mk "4".data ++ "pm")) (refNow Vancouver) =
        (ParseNow asciiTables (String.mk "4".data ++ "pm") (refNow Vancouver)).map
          (fun t => t.Add (30 * Minute)) :=
  ⟨by decide, by decide,
    ((quarter_and_half asciiTables (refNow Vancouver) "4".data "30".data (by decide) (by decide)).1 _
      (by simp)).2.2.2⟩

theorem value_source (l : lexer) (p : Char → Bool) :
    ∃ l1 : lexer, l1.input = l.input ∧ (l.readFn p).value = l1.value :=
  ⟨l.readFn p, readFn_input l p, rfl⟩

theorem new_none (U : RuneTables) (l : lexer) (st : stateFn) (o : Option stateFn) (ts : List token)
    (h : stepOK U l st o []) : ∃ new, ts = ts ++ new ∧ stepOK U l st o new :=
  ⟨[], (List.append_nil _).symm, h⟩

theorem new_one (U : RuneTables) (l : lexer) (st : stateFn) (o : Option stateFn) (ts : List token)
    (a : token) (h : stepOK U l st o [a]) : ∃ new, ts ++ [a] = ts ++ new ∧ stepOK U l st o new :=
  ⟨[a], rfl, h⟩

theorem new_two (U : RuneTables) (l : lexer) (st : stateFn) (o : Option stateFn) (ts : List token)
    (a b : token) (h : stepOK U l st o [a, b]) :
    ∃ new, ts ++ [a] ++ [b] = ts ++ new ∧ stepOK U l st o new :=
  ⟨[a, b], List.append_assoc _ _ _, h⟩

theorem readExpr_new (U : RuneTables) (l : lexer) :
    ∃ new, (readExpr U l).2.tokens = l.tokens ++ new ∧ stepOK U l .readExpr (readExpr U l).1 new := by
  simp only [readExpr]
  repeat' split
  all_goals simp only [read_tokens, peek_tokens, readFn_tokens, ignore_tokens, emit_tokens, emitAs_tokens,
    errorf_tokens, readRune_tokens, readString_tokens, peekFn_snd, lexer.errorf]
  all_goals first
    | apply new_two
    | apply new_one
    | apply new_none
  all_goals simp [stepOK, stateFn.afterUnit, token.isRel, value_source, *]

theorem readAtSymbol_new (U : RuneTables) (l : lexer) :
    ∃ new, (readAtSymbol l).2.tokens = l.tokens ++ new ∧ stepOK U l .readAtSymbol (readAtSymbol l).1 new := by
  simp only [readAtSymbol]
  repeat' split
  all_goals simp only [read_tokens, peek_tokens, readFn_tokens, ignore_tokens, emit_tokens, emitAs_tokens,
    errorf_tokens, readRune_tokens, readString_tokens, peekFn_snd, lexer.errorf]
  all_goals first
    | apply new_two
    | apply new_one
  all_goals simp [stepOK, stateFn.afterUnit, token.isRel, value_source, *]

theorem readColon_new (U : RuneTables) (l : lexer) :
    ∃ new, (readColon U l).2.tokens = l.tokens ++ new ∧ stepOK U l .readColon (readColon U l).1 new := by
  simp only [readColon]
  repeat' split
  all_goals simp only [read_tokens, peek_tokens, readFn_tokens, ignore_tokens, emit_tokens, emitAs_tokens,
    errorf_tokens, readRune_tokens, readString_tokens, peekFn_snd, lexer.errorf]
  all_goals first
    | apply new_two
    | apply new_one
  all_goals simp [stepOK, stateFn.afterUnit, token.isRel, value_source, *]

theorem readDigit_new (U : RuneTables) (l : lexer) :
    ∃ new, (readDigit U l).2.tokens = l.tokens ++ new ∧ stepOK U l .readDigit (readDigit U l).1 new := by
  simp only [readDigit]
  repeat' split
  all_goals simp only [read_tokens, peek_tokens, readFn_tokens, ignore_tokens, emit_tokens, emitAs_tokens,
    errorf_tokens, readRune_tokens, readString_tokens, peekFn_snd, lexer.errorf]
  all_goals first
    | apply new_two
    | apply new_one
  all_goals simp [stepOK, stateFn.afterUnit, token.isRel, value_source, *]

theorem readDurationNext_new (U : RuneTables) (l : lexer) :
    ∃ new, (readDurationNext l).2.tokens = l.tokens ++ new ∧ stepOK U l .readDurationNext (readDurationNext l).1 new := by
  simp only [readDurationNext]
  repeat' split
  all_goals simp only [read_tokens, peek_tokens, readFn_tokens, ignore_tokens, emit_tokens, emitAs_tokens,
    errorf_tokens, readRune_tokens, readString_tokens, peekFn_snd, lexer.errorf]
  all_goals first
    | apply new_two
    | apply new_one
    | apply new_none
  all_goals simp [stepOK, stateFn.afterUnit, token.isRel, value_source, *]

theorem readDurationNextShort_new (U : RuneTables) (l : lexer) :
    ∃ new, (readDurationNextShort l).2.tokens = l.tokens ++ new ∧ stepOK U l .readDurationNextShort (readDurationNextShort l).1 new := by
  simp only [readDurationNextShort]
  repeat' split
  all_goals simp only [read_tokens, peek_tokens, readFn_tokens, ignore_tokens, emit_tokens, emitAs_tokens,
    errorf_tokens, readRune_tokens, readString_tokens, peekFn_snd, lexer.errorf]
  all_goals first
    | apply new_two
    | apply new_one
    | apply new_none
  all_goals simp [stepOK, stateFn.afterUnit, token.isRel, value_source, *]

theorem readDurationSpace_new (U : RuneTables) (l : lexer) :
    ∃ new, (readDurationSpace U l).2.tokens = l.tokens ++ new ∧ stepOK U l .readDurationSpace (readDurationSpace U l).1 new := by
  simp only [readDurationSpace]
  repeat' split
  all_goals simp only [read_tokens, peek_tokens, readFn_tokens, ignore_tokens, emit_tokens, emitAs_tokens,
    errorf_tokens, readRune_tokens, readString_tokens, peekFn_snd, lexer.errorf]
  all_goals first
    | apply new_two
    | apply new_one
    | apply new_none
  all_goals simp [stepOK, stateFn.afterUnit, token.isRel, value_source, *]

theorem readDurationSpaceNext_new (U : RuneTables) (l : lexer) :
    ∃ new, (readDurationSpaceNext U l).2.tokens = l.tokens ++ new ∧ stepOK U l .readDurationSpaceNext (readDurationSpaceNext U l).1 new := by
  simp only [readDurationSpaceNext]
  repeat' split
  all_goals simp only [read_tokens, peek_tokens, readFn_tokens, ignore_tokens, emit_tokens, emitAs_tokens,
    errorf_tokens, readRune_tokens, readString_tokens, peekFn_snd, lexer.errorf]
  all_goals first
    | apply new_two
    | apply new_one
    | apply new_none
  all_goals simp [stepOK, stateFn.afterUnit, token.isRel, value_source, *]

theorem readDurationUnitSecondsOrOrdinal_new (U : RuneTables) (l : lexer) :
    ∃ new, (readDurationUnitSecondsOrOrdinal l).2.tokens = l.tokens ++ new ∧ stepOK U l .readDurationUnitSecondsOrOrdinal (readDurationUnitSecondsOrOrdinal l).1 new := by
  simp only [readDurationUnitSecondsOrOrdinal]
  repeat' split
  all_goals simp only [read_tokens, peek_tokens, readFn_tokens, ignore_tokens, emit_tokens, emitAs_tokens,
    errorf_tokens, readRune_tokens, readString_tokens, peekFn_snd, lexer.errorf]
  all_goals first
    | apply new_two
    | apply new_one
  all_goals simp [stepOK, stateFn.afterUnit, token.isRel, value_source, *]

theorem readLetter_new (U : RuneTables) (l : lexer) :
    ∃ new, (readLetter U l).2.tokens = l.tokens ++ new ∧ stepOK U l .readLetter (readLetter U l).1 new := by
  simp only [readLetter]
  repeat' split
  all_goals simp only [read_tokens, peek_tokens, readFn_tokens, ignore_tokens, emit_tokens, emitAs_tokens,
    errorf_tokens, readRune_tokens, readString_tokens, peekFn_snd, lexer.errorf]
  all_goals first
    | apply new_two
    | apply new_one
  all_goals simp [stepOK, stateFn.afterUnit, token.isRel, value_source, *]

theorem readOrdinal_new (U : RuneTables) (l : lexer) :
    ∃ new, (readOrdinal l).2.tokens = l.tokens ++ new ∧ stepOK U l .readOrdinal (readOrdinal l).1 new := by
  simp only [readOrdinal]
  repeat' split
  all_goals simp only [read_tokens, peek_tokens, readFn_tokens, ignore_tokens, emit_tokens, emitAs_tokens,
    errorf_tokens, readRune_tokens, readString_tokens, peekFn_snd, lexer.errorf]
  all_goals first
    | apply new_two
    | apply new_one
  all_goals simp [stepOK, stateFn.afterUnit, token.isRel, value_source, *]

theorem readTwelveHour_new (U : RuneTables) (l : lexer) :
    ∃ new, (readTwelveHour l).2.tokens = l.tokens ++ new ∧ stepOK U l .readTwelveHour (readTwelveHour l).1 new := by
  simp only [readTwelveHour]
  repeat' split
  all_goals simp only [read_tokens, peek_tokens, readFn_tokens, ignore_tokens, emit_tokens, emitAs_tokens,
    errorf_tokens, readRune_tokens, readString_tokens, peekFn_snd, lexer.errorf]
  all_goals first
    | apply new_two
    | apply new_one
  all_goals simp [stepOK, stateFn.afterUnit, token.isRel, value_source, *]

theorem lexStep_new (U : RuneTables) (st : stateFn) (l : lexer) :
    ∃ new, (lexStep U st l).2.tokens = l.tokens ++ new ∧ stepOK U l st (lexStep U st l).1 new := by
  cases st
  · exact readExpr_new U l
  · exact readAtSymbol_new U l
  · exact readColon_new U l
  · exact readDigit_new U l
  · exact readDurationNext_new U l
  · exact readDurationNextShort_new U l
  · exact readDurationSpace_new U l
  · exact readDurationSpaceNext_new U l
  · exact readDurationUnitSecondsOrOrdinal_new U l
  · exact readLetter_new U l
  · exact readOrdinal_new U l
  · exact readTwelveHour_new U l

theorem relOK_mono : ∀ (ts : List token) (p q : Bool), (p = true → q = true) → relOK p ts → relOK q ts
  | [], _, _, _, _ => trivial
  | _ :: _, _, _, hpq, h => ⟨fun hr => hpq (h.1 hr), h.2⟩

theorem relOK_append : ∀ (a b : List token) (p : Bool),
    relOK p a → relOK (lastUnit p a) b → relOK p (a ++ b)
  | [], b, p, _, hb => by simpa [lastUnit] using hb
  | [t], b, p, ha, hb => by
    simp only [List.singleton_append, relOK]
    exact ⟨ha.1, by simpa [lastUnit] using hb⟩
  | t :: u :: a, b, p, ha, hb => by
    have := relOK_append (u :: a) b (t.typ == .tokenUnit) ha.2
      (by simpa [lastUnit, List.getLast?_cons_cons] using hb)
    exact ⟨ha.1, this⟩

theorem relOK_none : ∀ (ts : List token) (p : Bool), (∀ t ∈ ts, t.isRel = false) → relOK p ts
  | [], _, _ => trivial
  | t :: ts, _, h => ⟨fun hr => by rw [h t (by simp)] at hr; exact absurd hr (by simp),
      relOK_none ts _ (fun u hu => h u (by simp [hu]))⟩

theorem relOK_step (U : RuneTables) (l : lexer) (st : stateFn) (o : Option stateFn)
    (new : List token) (h : stepOK U l st o new) : relOK st.afterUnit new := by
  obtain ⟨-, -, -, h4, -⟩ := h
  by_cases hr : ∃ t ∈ new, t.isRel = true
  · obtain ⟨t, ht, htr⟩ := hr
    obtain ⟨hst, hnew⟩ := h4 t ht htr
    rw [hnew, hst]
    exact ⟨fun _ => rfl, trivial⟩
  · refine relOK_none new _ (fun t ht => ?_)
    cases htr : t.isRel
    · rfl
    · exact absurd ⟨t, ht, htr⟩ hr

theorem lexRun_added (U : RuneTables) : ∀ (n : Nat) (st : stateFn) (l r : lexer),
    lexRun U n st l = some r → ∃ added, r.tokens = l.tokens ++ added ∧ runOK U l st added
  | 0, _, _, _, h => by simp [lexRun] at h
  | n + 1, st, l, r, h => by
    obtain ⟨new, hnew, hok⟩ := lexStep_new U st l
    have hrel := relOK_step U l st _ new hok
    have hin := lexStep_input U st l
    simp only [lexRun] at h
    rcases hs : lexStep U st l with ⟨o, l1⟩
    rw [hs] at h hnew hok hin
    simp only at hnew hin
    obtain ⟨s1, s2, s3, s4, s5, s6, s7⟩ := hok
    cases o with
    | none =>
      simp only [Option.some.injEq] at h
      subst h
      exact ⟨new, hnew, s1, s2, hrel, s6, s7⟩
    | some st1 =>
      simp only at h
      obtain ⟨added, ha, a1, a2, a3, a4, a5⟩ := lexRun_added U n st1 l1 r h
      refine ⟨new ++ added, by rw [ha, hnew, List.append_assoc], ?_, ?_, ?_, ?_, ?_⟩
      · intro t ht
        rcases List.mem_append.mp ht with h1 | h1
        · exact s1 t h1
        · exact a1 t h1
      · intro t ht
        have s3' := s3 (by simp)
        rcases added with _ | ⟨a, as⟩
        · rw [List.append_nil] at ht
          exact s3' t (List.mem_of_mem_dropLast ht)
        · rw [List.dropLast_append_of_ne_nil _ (by simp)] at ht
          rcases List.mem_append.mp ht with h1 | h1
          · exact s3' t h1
          · exact a2 t h1
      · refine relOK_append new added _ hrel (relOK_mono added _ _ ?_ a3)
        intro hau
        rcases s5 st1 rfl hau with ⟨hn, hst⟩ | ⟨t, ht, htu⟩
        · simp [lastUnit, hn, hst]
        · simp [lastUnit, ht, htu]
      · intro t ht htm
        rcases List.mem_append.mp ht with h1 | h1
        · exact s6 t h1 htm
        · obtain ⟨q1, l2, q2, q3⟩ := a4 t h1 htm
          exact ⟨q1, l2, by rw [q2, hin], q3⟩
      · intro t ht htm
        rcases List.mem_append.mp ht with h1 | h1
        · exact s7 t h1 htm
        · obtain ⟨q1, l2, q2, q3⟩ := a5 t h1 htm
          exact ⟨q1, l2, by rw [q2, hin], q3⟩

theorem relOK_split : ∀ (pre post : List token) (t : token) (p : Bool),
    relOK p (pre ++ t :: post) → t.isRel = true →
    (pre = [] ∧ p = true) ∨ ∃ pre1 u, pre = pre1 ++ [u] ∧ u.typ = .tokenUnit
  | [], _, _, _, h, ht => Or.inl ⟨rfl, h.1 ht⟩
  | [u], post, t, p, h, ht => by
    right
    have := h.2.1 ht
    exact ⟨[], u, rfl, by simpa using this⟩
  | u :: v :: pre, post, t, p, h, ht => by
    right
    rcases relOK_split (v :: pre) post t _ h.2 ht with ⟨h1, -⟩ | ⟨pre1, w, h1, h2⟩
    · simp at h1
    · exact ⟨u :: pre1, w, by rw [h1]; rfl, h2⟩

theorem lex_run (U : RuneTables) (s : String) (ts : List token) (h : lex U s = .ok ts) :
    ∃ r, lexRun U (lexFuel s) .readExpr ⟨s.data, 0, 0, 0, []⟩ = some r ∧ r.tokens = ts := by
  unfold lex at h
  rcases hr : lexRun U (lexFuel s) .readExpr ⟨s.data, 0, 0, 0, []⟩ with _ | l
  · rw [hr] at h
    simp at h
  · rw [hr] at h
    simp only at h
    refine ⟨l, rfl, ?_⟩
    rcases hg : l.tokens.getLast? with _ | last
    · rw [hg] at h
      simpa using h
    · rw [hg] at h
      simp only at h
      by_cases he : last.typ = .tokenError
      · simp [he] at h
      · simpa [he] using h

/-- C39: in every token list that `lex` returns without error, a token of kind `ago`, `before`
or `from` comes right after a unit token. -/
theorem rel_after_unit (U : RuneTables) (s : String) (ts : List token) (h : lex U s = .ok ts)
    (pre post : List token) (t : token) (hts : ts = pre ++ t :: post)
    (ht : t.typ = .tokenAgo ∨ t.typ = .tokenBefore ∨ t.typ = .tokenFrom) :
    ∃ pre1 u, pre = pre1 ++ [u] ∧ u.typ = .tokenUnit := by
  obtain ⟨r, hr, hrt⟩ := lex_run U s ts h
  obtain ⟨added, ha, -, -, a3, -⟩ := lexRun_added U _ _ _ r hr
  simp only [List.nil_append] at ha
  rw [← ha, hrt, hts] at a3
  have hrel : t.isRel = true := by
    unfold token.isRel
    rcases ht with h1 | h1 | h1 <;> simp [h1]
  rcases relOK_split pre post t _ a3 hrel with ⟨-, h2⟩ | h2
  · exact absurd h2 (by decide)
  · exact h2

theorem rel_after_unit_witness :
    lex asciiTables "1 year ago" =
        .ok [⟨.tokenDigit, "1"⟩, ⟨.tokenUnit, "year"⟩, ⟨.tokenAgo, "ago"⟩] ∧
      ([⟨.tokenDigit, "1"⟩, ⟨.tokenUnit, "year"⟩, ⟨.tokenAgo, "ago"⟩] : List token) =
        [⟨.tokenDigit, "1"⟩, ⟨.tokenUnit, "year"⟩] ++ ⟨.tokenAgo, "ago"⟩ :: [] ∧
      ((⟨.tokenAgo, "ago"⟩ : token).typ = .tokenAgo ∨ (⟨.tokenAgo, "ago"⟩ : token).typ = .tokenBefore ∨
        (⟨.tokenAgo, "ago"⟩ : token).typ = .tokenFrom) ∧
      ∃ pre1 u, ([⟨.tokenDigit, "1"⟩, ⟨.tokenUnit, "year"⟩] : List token) = pre1 ++ [u] ∧
        u.typ = .tokenUnit :=
  ⟨by decide!, rfl, Or.inl rfl,
    rel_after_unit asciiTables "1 year ago" _ (by decide!) [⟨.tokenDigit, "1"⟩, ⟨.tokenUnit, "year"⟩] []
      ⟨.tokenAgo, "ago"⟩ rfl (Or.inl rfl)⟩

theorem read_eq (l : lexer) :
    l.read = ((l.input.drop l.j).head?,
      { l with j := l.j + (if l.input.drop l.j = [] then 0 else 1),
               width := if l.input.drop l.j = [] then 0 else 1 }) := by
  simp only [lexer.read]
  cases l.input.drop l.j <;> simp

theorem peek_eq (l : lexer) :
    l.peek = ((l.input.drop l.j).head?, { l with width := if l.input.drop l.j = [] then 0 else 1 }) := by
  simp only [lexer.peek, lexer.unread, read_eq]
  cases l.input.drop l.j <;> simp

theorem head_lt (l : lexer) (c : Char) (h : (l.input.drop l.j).head? = some c) :
    l.j < l.input.length ∧ l.input.drop l.j ≠ [] := by
  rcases hd : l.input.drop l.j with _ | ⟨x, xs⟩
  · rw [hd] at h
    simp at h
  · refine ⟨?_, by simp⟩
    by_contra hc
    rw [List.drop_eq_nil_of_le (by omega)] at hd
    simp at hd

theorem takeWhile_bound (l : lexer) (p : Char → Bool) (h : l.j ≤ l.input.length) :
    l.j + ((l.input.drop l.j).takeWhile p).length ≤ l.input.length := by
  have h1 := (List.takeWhile_prefix p (l := l.input.drop l.j)).length_le
  rw [List.length_drop] at h1
  omega

theorem takeWhile_pos (l : lexer) (p : Char → Bool) (c : Char)
    (h : (l.input.drop l.j).head? = some c) (hp : p c = true) :
    1 ≤ ((l.input.drop l.j).takeWhile p).length := by
  rcases hd : l.input.drop l.j with _ | ⟨x, xs⟩
  · rw [hd] at h
    simp at h
  · rw [hd] at h
    simp only [List.head?_cons, Option.some.injEq] at h
    subst h
    simp [List.takeWhile, hp]

theorem readStringLoop_cursor : ∀ (s : List Char) (l : lexer),
    (lexer.readStringLoop s l).2.i = l.i ∧ l.j ≤ (lexer.readStringLoop s l).2.j ∧
      (l.j ≤ l.input.length → (lexer.readStringLoop s l).2.j ≤ l.input.length) ∧
      ((lexer.readStringLoop s l).1 = true → (lexer.readStringLoop s l).2.j = l.j + s.length)
  | [], l => by simp [lexer.readStringLoop]
  | r :: rs, l => by
    simp only [lexer.readStringLoop, lexer.readRune, read_eq]
    rcases hd : l.input.drop l.j with _ | ⟨x, xs⟩
    · simp [lexer.unread]
    · have hlt : l.j < l.input.length := by
        by_contra hc
        rw [List.drop_eq_nil_of_le (by omega)] at hd
        simp at hd
      by_cases hx : x = r
      · subst hx
        simp only [List.head?_cons, beq_self_eq_true, Bool.not_true, Bool.false_eq_true, if_false,
          reduceCtorEq]
        obtain ⟨h1, h2, h3, h4⟩ := readStringLoop_cursor rs
          { l with j := l.j + 1, width := 1 }
        simp only at h1 h2 h3 h4
        refine ⟨h1, by omega, fun _ => h3 (by omega), fun ht => ?_⟩
        rw [h4 ht, List.length_cons]
        omega
      · have : (some x == some r) = false := by simp [hx]
        simp [this, lexer.unread]

theorem readString_cursor (l : lexer) (s : String) :
    (l.readString s).2.i = l.i ∧ l.j ≤ (l.readString s).2.j ∧
      (l.j ≤ l.input.length → (l.readString s).2.j ≤ l.input.length) ∧
      ((l.readString s).1 = true → (l.readString s).2.j = l.j + s.data.length) := by
  obtain ⟨h1, h2, h3, h4⟩ := readStringLoop_cursor s.data l
  simp only [lexer.readString]
  rcases hr : lexer.readStringLoop s.data l with ⟨ok, l1⟩
  rw [hr] at h1 h2 h3 h4
  simp only at h1 h2 h3 h4
  cases ok with
  | false =>
    simp only [Bool.not_false, if_true]
    exact ⟨h1, h2, h3, fun h => absurd h (by simp)⟩
  | true =>
    simp only [Bool.not_true, Bool.false_eq_true, if_false, peek_eq]
    exact ⟨h1, h2, h3, fun _ => h4 rfl⟩

theorem readExpr_cursor (U : RuneTables) (l : lexer) (h : cursorOK U .readExpr l) :
    stepCursor U .readExpr l (readExpr U l) := by
  obtain ⟨h1, h2, -, -⟩ := h
  have hb := takeWhile_bound l isSpace h2
  simp only [readExpr, readFn_eq, lexer.ignore, peek_eq, read_eq, lexer.emit, lexer.emitAs, lexer.errorf]
  generalize hk : ((l.input.drop l.j).takeWhile isSpace).length = k at hb ⊢
  rcases hd : (l.input.drop (l.j + k)).head? with _ | c
  · simp [stepCursor, hb]
  · have hlt : l.j + k < l.input.length :=
      (head_lt { l with j := l.j + k } c hd).1
    have hne : l.input.drop (l.j + k) ≠ [] := (head_lt { l with j := l.j + k } c hd).2
    simp only []
    split_ifs <;>
      simp [stepCursor, cursorOK, measure, stateFn.rank, hne, hd, *] <;> omega

theorem head_none (l : lexer) (h : (l.input.drop l.j).head? = none) : l.input.drop l.j = [] := by
  cases hx : l.input.drop l.j with
  | nil => rfl
  | cons a b => rw [hx] at h; simp at h

theorem readAtSymbol_cursor (U : RuneTables) (l : lexer) (h : cursorOK U .readAtSymbol l) :
    stepCursor U .readAtSymbol l (readAtSymbol l) := by
  obtain ⟨h1, h2, -, -⟩ := h
  simp only [readAtSymbol, lexer.readRune, read_eq, lexer.emit, lexer.emitAs, lexer.errorf]
  rcases hd : (l.input.drop l.j).head? with _ | c
  · simp [stepCursor, head_none l hd, h1, h2]
  · obtain ⟨hlt, hne⟩ := head_lt l c hd
    split_ifs <;> simp [stepCursor, cursorOK, measure, stateFn.rank, hne, *] <;> omega

theorem readColon_cursor (U : RuneTables) (l : lexer) (h : cursorOK U .readColon l) :
    stepCursor U .readColon l (readColon U l) := by
  obtain ⟨h1, h2, -, -⟩ := h
  simp only [readColon, read_eq, peek_eq, lexer.emit, lexer.emitAs, lexer.errorf]
  rcases hd : (l.input.drop l.j).head? with _ | c
  · simp [stepCursor, head_none l hd, h2]
  · obtain ⟨hlt, hne⟩ := head_lt l c hd
    simp only [hne, if_false]
    rcases hd2 : (l.input.drop (l.j + 1)).head? with _ | c2
    · simp [stepCursor]
      omega
    · obtain ⟨hlt2, hne2⟩ := head_lt { l with j := l.j + 1 } c2 hd2
      simp only at hlt2 hne2
      simp only []
      by_cases hdg : isDigit U c2 = true <;>
        simp [stepCursor, cursorOK, measure, stateFn.rank, hd2, hdg] <;> omega

theorem readDigit_cursor (U : RuneTables) (l : lexer) (h : cursorOK U .readDigit l) :
    stepCursor U .readDigit l (readDigit U l) := by
  obtain ⟨h1, h2, h3, -⟩ := h
  obtain ⟨c0, hc0, hc0d⟩ := h3 rfl
  have hb := takeWhile_bound l (isDigit U) h2
  have hp := takeWhile_pos l (isDigit U) c0 hc0 hc0d
  simp only [readDigit, readFn_eq, peek_eq, read_eq, lexer.emit, lexer.emitAs, lexer.errorf]
  generalize hk : ((l.input.drop l.j).takeWhile (isDigit U)).length = k at hb hp ⊢
  rcases hd : (l.input.drop (l.j + k)).head? with _ | c
  · simp [stepCursor, hb]
  · obtain ⟨hlt, hne⟩ := head_lt { l with j := l.j + k } c hd
    simp only at hlt hne
    simp only []
    split_ifs <;> simp [stepCursor, cursorOK, measure, stateFn.rank, hne, hd, *] <;> omega

theorem readDurationNext_cursor (U : RuneTables) (l : lexer) (h : cursorOK U .readDurationNext l) :
    stepCursor U .readDurationNext l (readDurationNext l) := by
  obtain ⟨h1, h2, -, -⟩ := h
  simp only [readDurationNext, peek_eq, read_eq, lexer.emit, lexer.emitAs, lexer.errorf]
  rcases hd : (l.input.drop l.j).head? with _ | c
  · simp [stepCursor, h1, h2]
  · obtain ⟨hlt, hne⟩ := head_lt l c hd
    simp only []
    split_ifs <;> simp [stepCursor, cursorOK, measure, stateFn.rank, hne, hd, *] <;> omega

theorem readDurationNextShort_cursor (U : RuneTables) (l : lexer)
    (h : cursorOK U .readDurationNextShort l) :
    stepCursor U .readDurationNextShort l (readDurationNextShort l) := by
  obtain ⟨h1, h2, -, -⟩ := h
  simp only [readDurationNextShort, peek_eq, read_eq, lexer.emit, lexer.emitAs, lexer.errorf]
  rcases hd : (l.input.drop l.j).head? with _ | c
  · simp [stepCursor, h1, h2]
  · obtain ⟨hlt, hne⟩ := head_lt l c hd
    simp only []
    split_ifs <;> simp [stepCursor, cursorOK, measure, stateFn.rank, hne, hd, *] <;> omega

theorem readDurationSpace_cursor (U : RuneTables) (l : lexer) (h : cursorOK U .readDurationSpace l) :
    stepCursor U .readDurationSpace l (readDurationSpace U l) := by
  obtain ⟨h1, h2, -, -⟩ := h
  have hb := takeWhile_bound l isSpace h2
  simp only [readDurationSpace, readFn_eq, lexer.ignore, peek_eq, read_eq, lexer.emit, lexer.emitAs,
    lexer.errorf]
  generalize hk : ((l.input.drop l.j).takeWhile isSpace).length = k at hb ⊢
  rcases hd : (l.input.drop (l.j + k)).head? with _ | c
  · simp [stepCursor, hb]
  · obtain ⟨hlt, hne⟩ := head_lt { l with j := l.j + k } c hd
    simp only at hlt hne
    simp only []
    split_ifs <;> simp [stepCursor, cursorOK, measure, stateFn.rank, hne, hd, *] <;> omega

theorem step_stop (U : RuneTables) (st : stateFn) (l l1 : lexer) (hin : l1.input = l.input)
    (hi : l1.i ≤ l1.j) (hlen : l1.j ≤ l.input.length) (hj : l.j ≤ l1.j) :
    stepCursor U st l (none, l1) :=
  ⟨hin, hi, hlen, hj, fun _ h => by simp at h⟩

theorem step_expr (U : RuneTables) (st : stateFn) (l l1 : lexer) (hin : l1.input = l.input)
    (hi : l1.i ≤ l1.j) (hlen : l1.j ≤ l.input.length)
    (hj : l.j < l1.j ∨ (l.j ≤ l1.j ∧ 1 < st.rank)) :
    stepCursor U st l (some .readExpr, l1) := by
  refine ⟨hin, hi, hlen, by show l.j ≤ l1.j; omega, fun st1 h => ?_⟩
  simp only [Option.some.injEq] at h
  subst h
  refine ⟨⟨hi, by rw [hin]; exact hlen, by simp, by simp⟩, ?_⟩
  simp only [measure, hin, show stateFn.readExpr.rank = 1 from rfl]
  omega

theorem read_cursor (l : lexer) :
    l.read.2.input = l.input ∧ l.read.2.i = l.i ∧ l.j ≤ l.read.2.j ∧
      (l.j ≤ l.input.length → l.read.2.j ≤ l.input.length) ∧
      (l.read.1 ≠ none → l.read.2.j = l.j + 1) := by
  rw [read_eq]
  rcases hd : (l.input.drop l.j).head? with _ | c
  · simp [head_none l hd]
  · obtain ⟨hlt, hne⟩ := head_lt l c hd
    simp [hne]
    omega

theorem readRune_cursor (l : lexer) (ch : Char) :
    (l.readRune ch).2.input = l.input ∧ (l.readRune ch).2.i = l.i ∧ l.j ≤ (l.readRune ch).2.j ∧
      (l.j ≤ l.input.length → (l.readRune ch).2.j ≤ l.input.length) ∧
      ((l.readRune ch).1 = true → (l.readRune ch).2.j = l.j + 1) := by
  obtain ⟨h1, h2, h3, h4, h5⟩ := read_cursor l
  simp only [lexer.readRune]
  refine ⟨h1, h2, h3, h4, fun h => h5 ?_⟩
  intro hn
  rw [hn] at h
  simp at h

theorem readDurationSpaceNext_cursor (U : RuneTables) (l : lexer)
    (h : cursorOK U .readDurationSpaceNext l) :
    stepCursor U .readDurationSpaceNext l (readDurationSpaceNext U l) := by
  obtain ⟨h1, h2, -, -⟩ := h
  have hc : ∀ (s : String) (typ : tokenType),
      stepCursor U .readDurationSpaceNext l (some .readExpr, (l.ignore.readString s).2.emit typ) := by
    intro s typ
    obtain ⟨-, c2, c3, -⟩ := readString_cursor l.ignore s
    exact step_expr U _ l _ (readString_input l.ignore s) (Nat.le_refl _) (c3 h2)
      (Or.inr ⟨c2, by decide⟩)
  simp only [readDurationSpaceNext, peekFn_snd]
  split_ifs
  · exact hc _ _
  · exact hc _ _
  · exact hc _ _
  · exact hc _ _
  · exact hc _ _
  · exact step_expr U _ l _ rfl (Nat.le_refl _) h2 (Or.inr ⟨Nat.le_refl _, by decide⟩)
  · exact step_expr U _ l _ rfl (Nat.le_refl _) h2 (Or.inr ⟨Nat.le_refl _, by decide⟩)

theorem readDurationUnitSecondsOrOrdinal_cursor (U : RuneTables) (l : lexer)
    (h : cursorOK U .readDurationUnitSecondsOrOrdinal l) :
    stepCursor U .readDurationUnitSecondsOrOrdinal l (readDurationUnitSecondsOrOrdinal l) := by
  obtain ⟨h1, h2, -, -⟩ := h
  simp only [readDurationUnitSecondsOrOrdinal, read_eq, peek_eq, lexer.emit, lexer.emitAs]
  rcases hd : (l.input.drop l.j).head? with _ | c
  · simp [stepCursor, cursorOK, measure, stateFn.rank, head_none l hd, h2]
  · obtain ⟨hlt, hne⟩ := head_lt l c hd
    simp only [hne, if_false]
    rcases hd2 : (l.input.drop (l.j + 1)).head? with _ | c2
    · simp [stepCursor, cursorOK, measure, stateFn.rank, head_none { l with j := l.j + 1 } hd2]
      omega
    · obtain ⟨hlt2, hne2⟩ := head_lt { l with j := l.j + 1 } c2 hd2
      simp only at hlt2 hne2
      split_ifs <;> simp [stepCursor, cursorOK, measure, stateFn.rank, hne2] <;> omega

theorem readOrdinal_cursor (U : RuneTables) (l : lexer) (h : cursorOK U .readOrdinal l) :
    stepCursor U .readOrdinal l (readOrdinal l) := by
  obtain ⟨h1, h2, -, -⟩ := h
  obtain ⟨r1, r2, r3, r4, -⟩ := read_cursor l
  have key : ∀ ch : Char, stepCursor U .readOrdinal l
      (if (!(l.read.2.readRune ch).1) = true then (l.read.2.readRune ch).2.errorf "invalid ordinal"
        else (some .readExpr, (l.read.2.readRune ch).2.emit .tokenOrdinal)) := by
    intro ch
    obtain ⟨q1, q2, q3, q4, q5⟩ := readRune_cursor l.read.2 ch
    rw [r1] at q1 q4
    have q4' := q4 (r4 h2)
    rcases hq : (l.read.2.readRune ch).1 with _ | _
    · simp only [Bool.not_false, if_true]
      exact step_stop U _ l _ q1 (by
        show (l.read.2.readRune ch).2.i ≤ (l.read.2.readRune ch).2.j; omega) q4' (by
        show l.j ≤ (l.read.2.readRune ch).2.j; omega)
    · have := q5 hq
      simp only [Bool.not_true, Bool.false_eq_true, if_false]
      exact step_expr U _ l _ q1 (Nat.le_refl _) q4' (Or.inl (by
        show l.j < (l.read.2.readRune ch).2.j; omega))
  simp only [readOrdinal]
  by_cases c1 : l.read.1 = some 'n' ∨ l.read.1 = some 'r'
  · simp only [c1, if_true]
    exact key 'd'
  · simp only [c1, if_false]
    by_cases c2 : l.read.1 = some 't'
    · simp only [c2, if_true]
      exact key 'h'
    · simp only [c2, if_false, Bool.not_false, if_true]
      exact step_stop U _ l _ r1 (by show l.read.2.i ≤ l.read.2.j; omega) (r4 h2) r3

theorem readTwelveHour_cursor (U : RuneTables) (l : lexer) (h : cursorOK U .readTwelveHour l) :
    stepCursor U .readTwelveHour l (readTwelveHour l) := by
  obtain ⟨h1, h2, -, -⟩ := h
  obtain ⟨a1, a2, a3, a4⟩ := readString_cursor l "am"
  have ain := readString_input l "am"
  obtain ⟨b1, b2, b3, b4⟩ := readString_cursor (l.readString "am").2 "pm"
  have bin := readString_input (l.readString "am").2 "pm"
  rw [ain] at b3 bin
  have a3' := a3 h2
  have b3' := b3 a3'
  simp only [readTwelveHour]
  rcases ha : (l.readString "am").1 with _ | _
  · simp only [Bool.false_eq_true, if_false]
    rcases hb : ((l.readString "am").2.readString "pm").1 with _ | _
    · simp only [Bool.not_false, if_true]
      exact step_stop U _ l _ bin (by
        show ((l.readString "am").2.readString "pm").2.i ≤ ((l.readString "am").2.readString "pm").2.j
        omega) b3' (by
        show l.j ≤ ((l.readString "am").2.readString "pm").2.j; omega)
    · have hb4 := b4 hb
      have e2 : ("pm" : String).data.length = 2 := rfl
      simp only [Bool.not_true, Bool.false_eq_true, if_false]
      exact step_expr U _ l _ bin (Nat.le_refl _) b3' (Or.inl (by
        show l.j < ((l.readString "am").2.readString "pm").2.j; omega))
  · have ha4 := a4 ha
    have e2 : ("am" : String).data.length = 2 := rfl
    simp only [if_true, Bool.not_true, Bool.false_eq_true, if_false]
    exact step_expr U _ l _ ain (Nat.le_refl _) a3' (Or.inl (by
      show l.j < (l.readString "am").2.j; omega))

theorem rank_le (st : stateFn) : st.rank ≤ 5 := by
  cases st <;> decide

theorem step_consume (U : RuneTables) (st st1 : stateFn) (l l1 : lexer) (hin : l1.input = l.input)
    (hi : l1.i ≤ l1.j) (hlen : l1.j ≤ l.input.length) (hj : l.j < l1.j)
    (h1 : st1 ≠ .readDigit) (h2 : st1 ≠ .readLetter) :
    stepCursor U st l (some st1, l1) := by
  refine ⟨hin, hi, hlen, by show l.j ≤ l1.j; omega, fun st2 h => ?_⟩
  simp only [Option.some.injEq] at h
  subst h
  refine ⟨⟨hi, by rw [hin]; exact hlen, fun h => absurd h h1, fun h => absurd h h2⟩, ?_⟩
  have := rank_le st1
  simp only [measure, hin]
  omega

theorem readLetter_cursor (U : RuneTables) (l : lexer) (h : cursorOK U .readLetter l) :
    stepCursor U .readLetter l (readLetter U l) := by
  obtain ⟨h1, h2, -, h4⟩ := h
  obtain ⟨c0, hc0, hc0l⟩ := h4 rfl
  have hc0t : isTimeRune U c0 = true := by
    unfold isTimeRune
    split
    · rfl
    · exact hc0l
  have hb := takeWhile_bound l (isTimeRune U) h2
  have hp := takeWhile_pos l (isTimeRune U) c0 hc0 hc0t
  have hin := readFn_input l (isTimeRune U)
  have hj : (l.readFn (isTimeRune U)).j = l.j + ((l.input.drop l.j).takeWhile (isTimeRune U)).length := by
    rw [readFn_eq]
  have hi : (l.readFn (isTimeRune U)).i = l.i := by
    rw [readFn_eq]
  simp only [readLetter]
  generalize l.readFn (isTimeRune U) = l1 at hin hj hi ⊢
  have e1 : ∀ (typ : tokenType) (v : String),
      stepCursor U .readLetter l (some .readExpr, l1.emitAs typ v) := fun typ v =>
    step_consume U _ _ l _ hin (Nat.le_refl _) (by show l1.j ≤ _; omega) (by show l.j < l1.j; omega)
      (by decide) (by decide)
  have e2 : ∀ (typ : tokenType) (v : String),
      stepCursor U .readLetter l (some .readDurationNext, l1.emitAs typ v) := fun typ v =>
    step_consume U _ _ l _ hin (Nat.le_refl _) (by show l1.j ≤ _; omega) (by show l.j < l1.j; omega)
      (by decide) (by decide)
  have e3 : stepCursor U .readLetter l (l1.errorf "invalid character") :=
    step_stop U _ l _ hin (by show l1.i ≤ l1.j; omega) (by show l1.j ≤ _; omega)
      (by show l.j ≤ l1.j; omega)
  repeat' split
  all_goals first
    | exact e1 _ _
    | exact e2 _ _
    | exact e3

theorem lexStep_cursor (U : RuneTables) (st : stateFn) (l : lexer) (h : cursorOK U st l) :
    stepCursor U st l (lexStep U st l) := by
  cases st
  · exact readExpr_cursor U l h
  · exact readAtSymbol_cursor U l ⟨h.1, h.2.1, by simp, by simp⟩
  · exact readColon_cursor U l h
  · exact readDigit_cursor U l h
  · exact readDurationNext_cursor U l h
  · exact readDurationNextShort_cursor U l h
  · exact readDurationSpace_cursor U l h
  · exact readDurationSpaceNext_cursor U l h
  · exact readDurationUnitSecondsOrOrdinal_cursor U l h
  · exact readLetter_cursor U l h
  · exact readOrdinal_cursor U l h
  · exact readTwelveHour_cursor U l h

theorem lexRun_total (U : RuneTables) : ∀ (n : Nat) (st : stateFn) (l : lexer),
    cursorOK U st l → measure st l < n → ∃ r, lexRun U n st l = some r
  | 0, _, _, _, h => by omega
  | n + 1, st, l, hc, hm => by
    obtain ⟨-, -, -, -, h5⟩ := lexStep_cursor U st l hc
    simp only [lexRun]
    rcases hs : lexStep U st l with ⟨o, l1⟩
    rw [hs] at h5
    cases o with
    | none => exact ⟨l1, rfl⟩
    | some st1 =>
      obtain ⟨c1, c2⟩ := h5 st1 rfl
      exact lexRun_total U n st1 l1 c1 (by simp only at c2; omega)

theorem lexIter_ok (U : RuneTables) : ∀ (k : Nat) (x : Option stateFn × lexer) (len : Nat),
    x.2.input.length = len → x.2.i ≤ x.2.j → x.2.j ≤ len → (∀ st, x.1 = some st → cursorOK U st x.2) →
    (lexIter U k x).2.input.length = len ∧ (lexIter U k x).2.i ≤ (lexIter U k x).2.j ∧
      (lexIter U k x).2.j ≤ len ∧ x.2.j ≤ (lexIter U k x).2.j
  | 0, _, _, h1, h2, h3, _ => ⟨h1, h2, h3, Nat.le_refl _⟩
  | _ + 1, (none, _), _, h1, h2, h3, _ => ⟨h1, h2, h3, Nat.le_refl _⟩
  | k + 1, (some st, l), len, h1, h2, h3, h4 => by
    obtain ⟨s1, s2, s3, s4, s5⟩ := lexStep_cursor U st l (h4 st rfl)
    simp only at h1
    rw [h1] at s3
    obtain ⟨q1, q2, q3, q4⟩ := lexIter_ok U k (lexStep U st l) len (by rw [s1]; exact h1) s2 s3
      (fun st1 h => (s5 st1 h).1)
    exact ⟨q1, q2, q3, Nat.le_trans s4 q4⟩

theorem lexIter_measure (U : RuneTables) : ∀ (m : Nat) (st st1 : stateFn) (l l1 : lexer),
    cursorOK U st l → lexIter U (m + 1) (some st, l) = (some st1, l1) →
    measure st1 l1 < measure st l ∧ cursorOK U st1 l1
  | 0, st, st1, l, l1, hc, h => by
    obtain ⟨-, -, -, -, h5⟩ := lexStep_cursor U st l hc
    simp only [lexIter] at h
    rw [h] at h5
    exact ⟨(h5 st1 rfl).2, (h5 st1 rfl).1⟩
  | m + 1, st, st1, l, l1, hc, h => by
    obtain ⟨-, -, -, -, h5⟩ := lexStep_cursor U st l hc
    rw [lexIter] at h
    rcases hs : lexStep U st l with ⟨o, l2⟩
    rw [hs] at h h5
    cases o with
    | none => simp [lexIter] at h
    | some st2 =>
      obtain ⟨c1, c2⟩ := h5 st2 rfl
      obtain ⟨d1, d2⟩ := lexIter_measure U m st2 st1 l2 l1 c1 h
      exact ⟨by simp only at c2; omega, d2⟩

theorem lexIter_add (U : RuneTables) : ∀ (k m : Nat) (x : Option stateFn × lexer),
    lexIter U (k + m) x = lexIter U m (lexIter U k x)
  | 0, m, x => by simp [lexIter]
  | k + 1, m, (none, l) => by
    have : ∀ n, lexIter U n (none, l) = (none, l) := fun n => by cases n <;> rfl
    rw [this, this, this]
  | k + 1, m, (some st, l) => by
    rw [show k + 1 + m = (k + m) + 1 by omega]
    simp only [lexIter]
    exact lexIter_add U k m _

theorem init_cursor (U : RuneTables) (s : String) :
    cursorOK U .readExpr ⟨s.data, 0, 0, 0, []⟩ ∧ measure .readExpr ⟨s.data, 0, 0, 0, []⟩ < lexFuel s := by
  refine ⟨⟨Nat.le_refl _, Nat.zero_le _, by simp, by simp⟩, ?_⟩
  simp only [measure, lexFuel, show stateFn.readExpr.rank = 1 from rfl]
  omega

theorem mem_dropLast_or_last {α : Type} : ∀ (l : List α) (t : α), t ∈ l →
    t ∈ l.dropLast ∨ l.getLast? = some t
  | [], _, h => by simp at h
  | [a], t, h => by
    simp only [List.mem_singleton] at h
    subst h
    right
    rfl
  | a :: b :: l, t, h => by
    rcases List.mem_cons.mp h with h1 | h1
    · left
      rw [h1]
      simp [List.dropLast]
    · rcases mem_dropLast_or_last (b :: l) t h1 with h2 | h2
      · left
        simp only [List.dropLast_cons₂, List.mem_cons]
        exact Or.inr h2
      · right
        rw [List.getLast?_cons_cons]
        exact h2

/-- C40: `lex` terminates on every input, within the turns the embedding grants its loop;
after every call of a state function the cursors are in bounds, `i ≤ j ≤ len(input)`, over
the same input; between two visits of `readExpr` the cursor `j` moves forward; and an
`unread` after a `read` puts `j` back where it was. -/
theorem lex_terminates (U : RuneTables) (s : String) :
    (∃ r, lexRun U (lexFuel s) .readExpr ⟨s.data, 0, 0, 0, []⟩ = some r) ∧
    lex U s ≠ .error .fuel ∧
    (∀ k, (lexIter U k (some .readExpr, ⟨s.data, 0, 0, 0, []⟩)).2.i ≤
        (lexIter U k (some .readExpr, ⟨s.data, 0, 0, 0, []⟩)).2.j ∧
      (lexIter U k (some .readExpr, ⟨s.data, 0, 0, 0, []⟩)).2.j ≤ s.data.length ∧
      (lexIter U k (some .readExpr, ⟨s.data, 0, 0, 0, []⟩)).2.input.length = s.data.length) ∧
    (∀ (k m : Nat) (l l1 : lexer),
      lexIter U k (some .readExpr, ⟨s.data, 0, 0, 0, []⟩) = (some .readExpr, l) →
      lexIter U (k + (m + 1)) (some .readExpr, ⟨s.data, 0, 0, 0, []⟩) = (some .readExpr, l1) →
      l.j < l1.j) ∧
    (∀ l : lexer, l.read.2.unread.j = l.j) := by
  obtain ⟨hc, hm⟩ := init_cursor U s
  obtain ⟨r, hr⟩ := lexRun_total U (lexFuel s) .readExpr _ hc hm
  have hok : ∀ k, (lexIter U k (some .readExpr, ⟨s.data, 0, 0, 0, []⟩)).2.input.length = s.data.length ∧
      (lexIter U k (some .readExpr, ⟨s.data, 0, 0, 0, []⟩)).2.i ≤
        (lexIter U k (some .readExpr, ⟨s.data, 0, 0, 0, []⟩)).2.j ∧
      (lexIter U k (some .readExpr, ⟨s.data, 0, 0, 0, []⟩)).2.j ≤ s.data.length ∧ _ :=
    fun k => lexIter_ok U k (some .readExpr, ⟨s.data, 0, 0, 0, []⟩) s.data.length rfl (Nat.le_refl _)
      (Nat.zero_le _) (fun st h => by
        simp only [Option.some.injEq] at h
        subst h
        exact hc)
  refine ⟨⟨r, hr⟩, ?_, fun k => ⟨(hok k).2.1, (hok k).2.2.1, (hok k).1⟩, ?_, ?_⟩
  · unfold lex
    rw [hr]
    simp only
    split
    · split <;> simp
    · simp
  · intro k m l l1 h1 h2
    rw [lexIter_add, h1] at h2
    have hcl : cursorOK U .readExpr l := by
      have h3 := hok k
      rw [h1] at h3
      exact ⟨h3.2.1, by rw [h3.1]; exact h3.2.2.1, by simp, by simp⟩
    obtain ⟨d1, ⟨-, d3, -, -⟩⟩ := lexIter_measure U m .readExpr .readExpr l l1 hcl h2
    have h4 := hok k
    rw [h1] at h4
    have h5 := hok (k + (m + 1))
    rw [lexIter_add, h1, h2] at h5
    simp only [measure] at d1
    simp only at h4 h5
    omega
  · intro l
    rw [read_eq]
    simp only [lexer.unread]
    split <;> simp

theorem lex_terminates_witness :
    lexIter asciiTables 0 (some .readExpr, ⟨"+1".data, 0, 0, 0, []⟩) =
        (some .readExpr, ⟨"+1".data, 0, 0, 0, []⟩) ∧
      lexIter asciiTables (0 + (0 + 1)) (some .readExpr, ⟨"+1".data, 0, 0, 0, []⟩) =
        (some .readExpr, ⟨"+1".data, 1, 1, 1, [⟨.tokenOperatorAdd, "+"⟩]⟩) ∧
      (⟨"+1".data, 0, 0, 0, []⟩ : lexer).j <
        (⟨"+1".data, 1, 1, 1, [⟨.tokenOperatorAdd, "+"⟩]⟩ : lexer).j :=
  ⟨by decide, by decide,
    (lex_terminates asciiTables "+1").2.2.2.1 0 0 _ _ (by decide) (by decide)⟩

/-- C37: the scan of `lex` ends, and `lex` returns an error exactly when the last token of the
scan is an error token, the error being its text; a token list returned without error is
the list of the scan and has no error token and no end-of-input token in it; the input of
spaces only gives the empty list; and past the last token the parser reads an end-of-input
token of its own making. -/
theorem lex_error_iff (U : RuneTables) (s : String) :
    (∃ r, lexRun U (lexFuel s) .readExpr ⟨s.data, 0, 0, 0, []⟩ = some r ∧
      (∀ e, lex U s = .error e ↔ ∃ msg, e = .lex msg ∧ r.tokens.getLast? = some ⟨.tokenError, msg⟩) ∧
      (∀ ts, lex U s = .ok ts → ts = r.tokens ∧
        ∀ t ∈ ts, t.typ ≠ .tokenError ∧ t.typ ≠ .tokenEOF)) ∧
    ((∀ c ∈ s.data, isSpace c = true) → lex U s = .ok []) ∧
    (∀ (ts : List token) (now : Time) (p : parser), ts.length ≤ p.pos →
      p.peek ⟨ts, now⟩ = ⟨.tokenEOF, ""⟩) := by
  obtain ⟨hc, hm⟩ := init_cursor U s
  obtain ⟨r, hr⟩ := lexRun_total U (lexFuel s) .readExpr _ hc hm
  obtain ⟨added, ha, a1, a2, -⟩ := lexRun_added U _ _ _ r hr
  simp only [List.nil_append] at ha
  have hlex := lex_of_toks U s r.tokens (lexFuel s) (Nat.le_refl _) (by simp [lexToks, hr])
  refine ⟨⟨r, hr, ?_, ?_⟩, ?_, ?_⟩
  · intro e
    rw [hlex]
    rcases hg : r.tokens.getLast? with _ | last
    · simp
    · rcases last with ⟨typ, val⟩
      by_cases he : typ = .tokenError
      · subst he
        simp only [if_true, Except.error.injEq, Option.some.injEq, token.mk.injEq, true_and]
        constructor
        · intro h
          exact ⟨val, h.symm, rfl⟩
        · rintro ⟨msg, h1, h2⟩
          rw [h1, h2]
      · simp [he]
  · intro ts hts
    rw [hlex] at hts
    have hts2 : ts = r.tokens ∧ ∀ last, r.tokens.getLast? = some last → last.typ ≠ .tokenError := by
      rcases hg : r.tokens.getLast? with _ | last
      · rw [hg] at hts
        simp only [Except.ok.injEq] at hts
        exact ⟨hts.symm, fun _ h => by simp at h⟩
      · rw [hg] at hts
        by_cases he : last.typ = .tokenError
        · simp [he] at hts
        · simp only [he, if_false, Except.ok.injEq] at hts
          refine ⟨hts.symm, fun l2 h => ?_⟩
          simp only [Option.some.injEq] at h
          rw [← h]
          exact he
    refine ⟨hts2.1, fun t ht => ?_⟩
    rw [hts2.1, ha] at ht
    refine ⟨?_, a1 t ht⟩
    rcases mem_dropLast_or_last added t ht with h1 | h1
    · exact a2 t h1
    · exact hts2.2 t (by rw [ha]; exact h1)
  · intro hsp
    have h1 : lexToks U 1 .readExpr s.data = some [] := by
      have := lexToks_skip U 1 s.data [] hsp
      rw [List.append_nil] at this
      rw [this, lexToks_nil]
    exact lex_of_toks U s [] 1 (by simp [lexFuel]) h1
  · intro ts now p hp
    simp [parser.peek, List.drop_eq_nil_of_le hp]

theorem lex_error_iff_witness :
    (∀ c ∈ ("  " : String).data, isSpace c = true) ∧ lex asciiTables "  " = .ok [] :=
  ⟨by decide, (lex_error_iff asciiTables "  ").2.1 (by decide)⟩

theorem parseMonth_eq (U : RuneTables) (t : token) (ht : t.typ = .tokenMonth) :
    parseMonth U t = match monthOf (stringsToLower U (String.mk (bytePrefix t.val.data 3))) with
      | some m => .ok m
      | none => .error (.parse t "invalid month") := by
  unfold parseMonth monthOf
  rw [if_neg (by simp [ht])]
  dsimp only
  generalize stringsToLower U (String.mk (bytePrefix t.val.data 3)) = v
  by_cases h : v = "jan"
  · rw [if_pos h, if_pos h]
  rw [if_neg h, if_neg h]
  clear h
  by_cases h : v = "feb"
  · rw [if_pos h, if_pos h]
  rw [if_neg h, if_neg h]
  clear h
  by_cases h : v = "mar"
  · rw [if_pos h, if_pos h]
  rw [if_neg h, if_neg h]
  clear h
  by_cases h : v = "apr"
  · rw [if_pos h, if_pos h]
  rw [if_neg h, if_neg h]
  clear h
  by_cases h : v = "may"
  · rw [if_pos h, if_pos h]
  rw [if_neg h, if_neg h]
  clear h
  by_cases h : v = "jun"
  · rw [if_pos h, if_pos h]
  rw [if_neg h, if_neg h]
  clear h
  by_cases h : v = "jul"
  · rw [if_pos h, if_pos h]
  rw [if_neg h, if_neg h]
  clear h
  by_cases h : v = "aug"
  · rw [if_pos h, if_pos h]
  rw [if_neg h, if_neg h]
  clear h
  by_cases h : v = "sep"
  · rw [if_pos h, if_pos h]
  rw [if_neg h, if_neg h]
  clear h
  by_cases h : v = "oct"
  · rw [if_pos h, if_pos h]
  rw [if_neg h, if_neg h]
  clear h
  by_cases h : v = "nov"
  · rw [if_pos h, if_pos h]
  rw [if_neg h, if_neg h]
  clear h
  by_cases h : v = "dec"
  · rw [if_pos h, if_pos h]
  rw [if_neg h, if_neg h]

theorem parseWeekday_eq (U : RuneTables) (t : token) (ht : t.typ = .tokenWeekday) :
    parseWeekday U t = match weekdayOf (stringsToLower U (String.mk (bytePrefix t.val.data 3))) with
      | some m => .ok m
      | none => .error (.parse t "invalid weekday") := by
  unfold parseWeekday weekdayOf
  rw [if_neg (by simp [ht])]
  dsimp only
  generalize stringsToLower U (String.mk (bytePrefix t.val.data 3)) = v
  by_cases h : v = "sun"
  · rw [if_pos h, if_pos h]
  rw [if_neg h, if_neg h]
  clear h
  by_cases h : v = "mon"
  · rw [if_pos h, if_pos h]
  rw [if_neg h, if_neg h]
  clear h
  by_cases h : v = "tue"
  · rw [if_pos h, if_pos h]
  rw [if_neg h, if_neg h]
  clear h
  by_cases h : v = "wed"
  · rw [if_pos h, if_pos h]
  rw [if_neg h, if_neg h]
  clear h
  by_cases h : v = "thu"
  · rw [if_pos h, if_pos h]
  rw [if_neg h, if_neg h]
  clear h
  by_cases h : v = "fri"
  · rw [if_pos h, if_pos h]
  rw [if_neg h, if_neg h]
  clear h
  by_cases h : v = "sat"
  · rw [if_pos h, if_pos h]
  rw [if_neg h, if_neg h]

theorem bytePrefix_take : ∀ (cs : List Char) (n : Nat), allAscii cs → bytePrefix cs n = cs.take n
  | [], n, _ => by simp [bytePrefix]
  | c :: cs, n, h => by
    have hc : c.toNat < 128 := h c (by simp)
    simp only [bytePrefix, utf8Size_ascii c hc]
    by_cases hn : n = 0
    · simp [hn]
    · have h1 : 1 ≤ n := by omega
      obtain ⟨k, rfl⟩ : ∃ k, n = k + 1 := ⟨n - 1, by omega⟩
      simp only [hn, if_false, h1, if_true, List.take_succ_cons, Nat.add_sub_cancel]
      rw [bytePrefix_take cs k (fun y hy => h y (by simp [hy]))]

theorem lower_prefix (U : RuneTables) (v : String) (h : allAscii v.data) :
    stringsToLower U (String.mk (bytePrefix v.data 3)) =
      String.mk ((stringsToLower U v).data.take 3) := by
  simp only [stringsToLower, bytePrefix_take _ _ h, List.map_take]

theorem month_prefixes : ∀ name ∈ monthNames,
    ∃ p ∈ monthTable, p.1 = name ∧ monthOf (String.mk (name.data.take 3)) = some p.2 := by
  decide

theorem weekday_prefixes : ∀ name ∈ weekdayNames,
    ∃ p ∈ weekdayNumbers, p.1 = name ∧ weekdayOf (String.mk (name.data.take 3)) = some p.2 := by
  decide

theorem bytes_ge_length : ∀ cs : List Char, cs.length ≤ String.utf8ByteSize.go cs
  | [] => by simp [String.utf8ByteSize.go]
  | c :: cs => by
    have h := bytes_ge_length cs
    have hc := Char.utf8Size_pos c
    simp only [String.utf8ByteSize.go, List.length_cons]
    omega

theorem names_long : (∀ name ∈ monthNames, 3 ≤ name.data.length) ∧
    ∀ name ∈ weekdayNames, 3 ≤ name.data.length := by
  decide

theorem lower_length (U : RuneTables) (v : String) :
    (stringsToLower U v).data.length = v.data.length := by
  simp [stringsToLower]

theorem parseMonth_word (U : RuneTables) (t : token) (ht : t.typ = .tokenMonth)
    (hA : allAscii t.val.data) (hn : stringsToLower U t.val ∈ monthNames) :
    ∃ m, (stringsToLower U t.val, m) ∈ monthTable ∧ parseMonth U t = .ok m := by
  obtain ⟨p, hp, h1, h2⟩ := month_prefixes _ hn
  refine ⟨p.2, ?_, ?_⟩
  · rw [← h1]
    exact hp
  · rw [parseMonth_eq U t ht, lower_prefix U t.val hA, h2]

theorem parseWeekday_word (U : RuneTables) (t : token) (ht : t.typ = .tokenWeekday)
    (hA : allAscii t.val.data) (hn : stringsToLower U t.val ∈ weekdayNames) :
    ∃ w, (stringsToLower U t.val, w) ∈ weekdayNumbers ∧ parseWeekday U t = .ok w := by
  obtain ⟨p, hp, h1, h2⟩ := weekday_prefixes _ hn
  refine ⟨p.2, ?_, ?_⟩
  · rw [← h1]
    exact hp
  · rw [parseWeekday_eq U t ht, lower_prefix U t.val hA, h2]

/-- The part of C35 that holds: in the tokens of an input the lexer accepts, a month or weekday
literal is at least three bytes long, so the slice of its first three bytes is in bounds,
and its lower case is one of the names of the lexer; when the literal is written in ASCII,
`parseMonth` (`parseWeekday`) returns without error the month (weekday) that name stands
for, abbreviated and full names alike. -/
theorem names_parse (U : RuneTables) (s : String) (ts : List token) (t : token)
    (h : lex U s = .ok ts) (ht : t ∈ ts) :
    (t.typ = .tokenMonth →
      3 ≤ t.val.utf8ByteSize ∧ stringsToLower U t.val ∈ monthNames ∧
      (allAscii t.val.data →
        ∃ m, (stringsToLower U t.val, m) ∈ monthTable ∧ parseMonth U t = .ok m)) ∧
    (t.typ = .tokenWeekday →
      3 ≤ t.val.utf8ByteSize ∧ stringsToLower U t.val ∈ weekdayNames ∧
      (allAscii t.val.data →
        ∃ w, (stringsToLower U t.val, w) ∈ weekdayNumbers ∧ parseWeekday U t = .ok w)) := by
  obtain ⟨r, hr, hts⟩ := lex_run U s ts h
  obtain ⟨added, ha, _, _, _, hm, hw⟩ := lexRun_added U _ _ _ _ hr
  simp only [List.nil_append] at ha
  rw [← hts, ha] at ht
  have hlen : t.val.data.length ≤ t.val.utf8ByteSize := bytes_ge_length t.val.data
  constructor
  · intro hty
    have hn := (hm t ht hty).1
    have h3 := names_long.1 _ hn
    rw [lower_length] at h3
    exact ⟨Nat.le_trans h3 hlen, hn, fun hA => parseMonth_word U t hty hA hn⟩
  · intro hty
    have hn := (hw t ht hty).1
    have h3 := names_long.2 _ hn
    rw [lower_length] at h3
    exact ⟨Nat.le_trans h3 hlen, hn, fun hA => parseWeekday_word U t hty hA hn⟩

theorem names_parse_witness :
    lex asciiTables "Friday the 2nd of FEB" =
        .ok [⟨.tokenWeekday, "Friday"⟩, ⟨.tokenKeyword, "the"⟩, ⟨.tokenDigit, "2"⟩,
          ⟨.tokenOrdinal, "nd"⟩, ⟨.tokenKeyword, "of"⟩, ⟨.tokenMonth, "FEB"⟩] ∧
      parseMonth asciiTables ⟨.tokenMonth, "FEB"⟩ = .ok 2 ∧
      ((⟨.tokenMonth, "FEB"⟩ : token).typ = .tokenMonth →
        3 ≤ ("FEB" : String).utf8ByteSize ∧ stringsToLower asciiTables "FEB" ∈ monthNames ∧
        (allAscii "FEB".data →
          ∃ m, (stringsToLower asciiTables "FEB", m) ∈ monthTable ∧
            parseMonth asciiTables ⟨.tokenMonth, "FEB"⟩ = .ok m)) :=
  ⟨by decide, by decide,
    (names_parse asciiTables "Friday the 2nd of FEB"
      [⟨.tokenWeekday, "Friday"⟩, ⟨.tokenKeyword, "the"⟩, ⟨.tokenDigit, "2"⟩,
        ⟨.tokenOrdinal, "nd"⟩, ⟨.tokenKeyword, "of"⟩, ⟨.tokenMonth, "FEB"⟩] ⟨.tokenMonth, "FEB"⟩
      (by decide) (by decide)).1⟩

/-- C35: with the part of Go's Unicode tables about the dotted capital I,
the lexer makes a weekday token of the word "frİday", whose lower case is "friday", and
`parseWeekday` rejects that token: the first three bytes of the word are not "fri". -/
theorem dotted_weekday_rejected :
    lex dottedTables "frİday" = .ok [⟨.tokenWeekday, "frİday"⟩] ∧
      parseWeekday dottedTables ⟨.tokenWeekday, "frİday"⟩ =
        .error (.parse ⟨.tokenWeekday, "frİday"⟩ "invalid weekday") ∧
      ParseNow dottedTables "frİday" (refNow MST) =
        .error (.parse ⟨.tokenWeekday, "frİday"⟩ "invalid weekday") := by
  decide

/-- C36: the lexer accepts "3apm": the failed match of "am" has consumed the letter a
when "pm" is tried, and the marker token holds the literal "apm", which is neither "am"
nor "pm"; the parser then fails on the clock text "3apm". The inputs "3a", "3pmx" and
"3pam" are the lexer error about the am/pm marker. -/
theorem marker_after_failed_match (U : RuneTables) :
    lex U "3apm" = .ok [⟨.tokenDigit, "3"⟩, ⟨.tokenTwelveHour, "apm"⟩] ∧
      stringsToLower U "apm" ≠ "am" ∧ stringsToLower U "apm" ≠ "pm" ∧
      ParseNow U "3apm" (refNow MST) = .error (.timeParse "3pm" "3apm") ∧
      lex U "3a" = .error (.lex "expected twelve hour am/pm marker") ∧
      lex U "3pmx" = .error (.lex "expected twelve hour am/pm marker") ∧
      lex U "3pam" = .error (.lex "expected twelve hour am/pm marker") := by
  rw [ParseNow_tables U _ _ (by decide), lex_ascii U asciiTables "3apm" (by decide),
    lex_ascii U asciiTables "3a" (by decide), lex_ascii U asciiTables "3pmx" (by decide),
    lex_ascii U asciiTables "3pam" (by decide),
    stringsToLower_ascii U asciiTables "apm" (by decide)]
  decide

theorem rollover_skel (e : penv) (p : parser) (y m : Int) : (p.rollover e y m).skel = p.skel := by
  unfold parser.rollover
  split <;> rfl

theorem PIL_error (lay : List layoutElem) (nm v : String) (l : Location) (e : Error) :
    ParseInLocation lay nm v l = .error e ↔
      parseElems lay v.data ⟨0, 0, 0, false, false⟩ = none ∧ e = .timeParse nm v := by
  unfold ParseInLocation
  rcases parseElems lay v.data ⟨0, 0, 0, false, false⟩ with _ | r
  · constructor
    · intro h
      injection h with h
      exact ⟨rfl, h.symm⟩
    · rintro ⟨-, rfl⟩
      rfl
  · constructor
    · intro h
      cases h
    · rintro ⟨h, -⟩
      cases h

theorem PIL_ok (lay : List layoutElem) (nm v : String) (l : Location) (t : Time) :
    ParseInLocation lay nm v l = .ok t ↔
      ∃ r, parseElems lay v.data ⟨0, 0, 0, false, false⟩ = some r ∧
        t = Date 0 1 1 (if r.pmSet && decide (r.hour < 12) then r.hour + 12
          else if r.amSet && r.hour == 12 then 0 else r.hour) r.min r.sec 0 l := by
  unfold ParseInLocation
  rcases parseElems lay v.data ⟨0, 0, 0, false, false⟩ with _ | r
  · constructor
    · intro h
      cases h
    · rintro ⟨r, h, -⟩
      cases h
  · constructor
    · intro h
      injection h with h
      exact ⟨r, rfl, h.symm⟩
    · rintro ⟨r1, h, rfl⟩
      injection h with h
      rw [h]

set_option maxHeartbeats 4000000 in
theorem parseStep_skel (U : RuneTables) (ts : List token) (now1 now2 : Time) (st : pstate)
    (p : parser) (r : Time) :
    (parseStep U ⟨ts, now1⟩ st p).skel = (parseStep U ⟨ts, now2⟩ st { p with rhs := r }).skel := by
  cases st <;> simp only [parseStep, parser.parseDate, parser.parseDateConst, parser.parseDateKeyword, parser.parseDateTime, parser.parseDateYear, parser.parseDateYearMonth, parser.parseDateYearMonthDay, parser.parseDigit, parser.parseDigitColon, parser.parseDigitColonTwelveHour, parser.parseDigitColonTwentyFourHour, parser.parseDigitColonTwentyFourHourWithSeconds, parser.parseDigitKeyword, parser.parseDigitKeywordIn, parser.parseDigitKeywordOclock, parser.parseDigitOrdinal, parser.parseDigitOrdinalAt, parser.parseDigitOrdinalEOF, parser.parseDigitOrdinalKeyword, parser.parseDigitOrdinalLast, parser.parseDigitOrdinalLastDay, parser.parseDigitOrdinalLastDayOf, parser.parseDigitOrdinalLastDayOfKeyword, parser.parseDigitOrdinalLastDayOfMonth, parser.parseDigitOrdinalLastWeekday, parser.parseDigitOrdinalLastWeekdayOf, parser.parseDigitOrdinalLastWeekdayOfKeyword, parser.parseDigitOrdinalLastWeekdayOfMonth, parser.parseDigitOrdinalMonth, parser.parseDigitOrdinalOf, parser.parseDigitOrdinalOfKeyword, parser.parseDigitOrdinalOfMonth, parser.parseDigitOrdinalWeekday, parser.parseDigitOrdinalWeekdayOf, parser.parseDigitOrdinalWeekdayOfKeyword, parser.parseDigitOrdinalWeekdayOfMonth, parser.parseDigitTwelveHour, parser.parseDurationLeft, parser.parseDurationLeftAgo, parser.parseDurationLeftBefore, parser.parseDurationLeftFrom, parser.parseDurationLeftNext, parser.parseDurationLeftUnit, parser.parseDurationRight, parser.parseDurationRightNext, parser.parseDurationRightUnit, parser.parseExpr, parser.parseExprDigit, parser.parseKeyword, parser.parseKeywordAt, parser.parseKeywordHalf, parser.parseKeywordHalfPast, parser.parseKeywordOn, parser.parseKeywordOnThe, parser.parseKeywordOnTheDigit, parser.parseKeywordOnTheLast, parser.parseKeywordQuarter, parser.parseKeywordQuarterAfter, parser.parseKeywordQuarterTo, parser.parseMonth, parser.parseMonthEOF, parser.parseMonthThe, parser.parseMonthTheDigit, parser.parseNow, parser.parseTime, parser.parseTimeConst, parser.parseTimeKeyword, parser.parseWeekday,
    parser.next, parser.peek, unexpected]
  all_goals try (repeat' split)
  all_goals try (simp_all [-mul_neg, -neg_mul, -mul_one, Int.mul_neg, Int.neg_mul, Int.mul_one, PRes.skel, parser.skel, rollover_fields]; done)
  all_goals simp_all [-mul_neg, -neg_mul, -mul_one, Int.mul_neg, Int.neg_mul, Int.mul_one, PRes.skel, parser.skel, PIL_error, PIL_ok]

theorem skel_eq (p q : parser) (h : p.skel = q.skel) : q = { p with rhs := q.rhs } := by
  cases p
  cases q
  simp only [parser.skel, parser.mk.injEq] at h ⊢
  obtain ⟨h1, h2, -, h4, h5, h6⟩ := h
  simp [h1, h2, h4, h5, h6]

theorem parseRun_skel (U : RuneTables) (ts : List token) (now1 now2 : Time) :
    ∀ (n : Nat) (st : pstate) (p : parser) (r : Time),
      (parseRun U ⟨ts, now1⟩ n st p).map (fun x => (x.1, x.2.skel)) =
        (parseRun U ⟨ts, now2⟩ n st { p with rhs := r }).map (fun x => (x.1, x.2.skel))
  | 0, _, _, _ => rfl
  | n + 1, st, p, r => by
    have h := parseStep_skel U ts now1 now2 st p r
    simp only [parseRun]
    rcases h1 : parseStep U ⟨ts, now1⟩ st p with ⟨e1, p1⟩ | ⟨s1, p1⟩ | ⟨s1, p1, d1⟩ <;>
    rcases h2 : parseStep U ⟨ts, now2⟩ st { p with rhs := r } with ⟨e2, p2⟩ | ⟨s2, p2⟩ | ⟨s2, p2, d2⟩ <;>
    rw [h1, h2] at h <;> simp only [PRes.skel, PRes.ret.injEq, PRes.call.injEq,
      PRes.callThen.injEq, reduceCtorEq] at h
    · simp only [Option.map_some', h.1, h.2]
    · obtain ⟨rfl, hs⟩ := h
      rw [skel_eq p1 p2 hs]
      exact parseRun_skel U ts now1 now2 n s1 p1 p2.rhs
    · obtain ⟨rfl, hs, rfl⟩ := h
      have ih := parseRun_skel U ts now1 now2 n s1 p1 p2.rhs
      rw [← skel_eq p1 p2 hs] at ih
      rcases ha : parseRun U ⟨ts, now1⟩ n s1 p1 with _ | ⟨_ | ea, pa⟩ <;>
      rcases hb : parseRun U ⟨ts, now2⟩ n s1 p2 with _ | ⟨_ | eb, pb⟩ <;>
      rw [ha, hb] at ih <;> simp only [Option.map_some', Option.map_none', Option.some.injEq,
        Prod.mk.injEq, reduceCtorEq, false_and] at ih
      · simp only [ha, hb]
      · simp only [ha, hb, Option.map_some', Option.some.injEq, Prod.mk.injEq, true_and]
        have h3 := ih.2
        simp only [parser.skel, parser.mk.injEq] at h3 ⊢
        exact h3
      · simp only [ha, hb, Option.map_some', ih.1, ih.2]

/-- C38: whether `ParseNow` returns an error depends on the input text only, and so does
the error it returns: for every input and all reference instants `now1` and `now2`,
`ParseNow` at `now1` is an error exactly when `ParseNow` at `now2` is one, and the two
errors are equal. -/
theorem error_independent_of_now (U : RuneTables) (s : String) (now1 now2 : Time) :
    ((∃ e, ParseNow U s now1 = .error e) ↔ ∃ e, ParseNow U s now2 = .error e) ∧
      ∀ e, ParseNow U s now1 = .error e ↔ ParseNow U s now2 = .error e := by
  have key : ∀ e, ParseNow U s now1 = .error e ↔ ParseNow U s now2 = .error e := by
    intro e
    rcases hl : lex U s with e1 | ts
    · simp only [ParseNow, hl]
    · by_cases h0 : ts.length = 0
      · simp only [ParseNow, hl, h0, if_true, reduceCtorEq]
      · have h := parseRun_skel U ts now1 now2 (parseFuel ts) .parseExpr
          ⟨0, [], Time.zero, false, false, false⟩ Time.zero
        rcases ha : parseRun U ⟨ts, now1⟩ (parseFuel ts) .parseExpr
            ⟨0, [], Time.zero, false, false, false⟩ with _ | ⟨_ | ea, pa⟩ <;>
        rcases hb : parseRun U ⟨ts, now2⟩ (parseFuel ts) .parseExpr
            ⟨0, [], Time.zero, false, false, false⟩ with _ | ⟨_ | eb, pb⟩ <;>
        rw [ha, hb] at h <;> simp only [Option.map_some', Option.map_none', Option.some.injEq,
          Prod.mk.injEq, reduceCtorEq, false_and] at h
        · simp only [ParseNow, hl, h0, if_false, ha, hb]
        · simp only [ParseNow, hl, h0, if_false, ha, hb, reduceCtorEq]
        · obtain ⟨h1, -⟩ := h
          simp only [ParseNow, hl, h0, if_false, ha, hb, h1]
  exact ⟨⟨fun ⟨e, h⟩ => ⟨e, (key e).1 h⟩, fun ⟨e, h⟩ => ⟨e, (key e).2 h⟩⟩, key⟩

theorem daysIn_range (m y : Int) (hm : 1 ≤ m ∧ m ≤ 12) : 28 ≤ daysIn m y ∧ daysIn m y ≤ 31 := by
  obtain ⟨h1, h2⟩ := hm
  unfold daysIn
  interval_cases m <;> simp [daysBefore]
  split <;> omega

theorem daysIn_eq (m y : Int) : daysIn m y = daysInOf (isLeap y) m := by
  unfold daysIn daysInOf
  rfl

theorem civil_valid (D : Int) : (civil D).2.2 ≤ daysIn (civil D).2.1 (civil D).1 := by
  obtain ⟨-, h2, h3⟩ := absYear_spec D
  obtain ⟨-, -, -, -, h, -⟩ := monthDayOf_spec (isLeap (absYear D).1) (absYear D).2 h2 h3
  have hc : civil D = ((absYear D).1, (monthDayOf (isLeap (absYear D).1) (absYear D).2).1,
      (monthDayOf (isLeap (absYear D).1) (absYear D).2).2) := rfl
  rw [hc, daysIn_eq]
  exact h

theorem yday_range (y m d : Int) (hm : 1 ≤ m ∧ m ≤ 12) (hd : 1 ≤ d ∧ d ≤ daysIn m y) :
    0 ≤ daysBefore (m - 1) + (if isLeap y && m ≥ 3 then 1 else 0) + (d - 1) ∧
      daysBefore (m - 1) + (if isLeap y && m ≥ 3 then 1 else 0) + (d - 1) <
        365 + (if isLeap y then 1 else 0) := by
  obtain ⟨h1, h2⟩ := hm
  obtain ⟨h3, h4⟩ := hd
  unfold daysIn at h4
  by_cases hl : isLeap y = true <;> interval_cases m <;>
    simp [daysBefore, hl] at h4 ⊢ <;> omega

theorem civil_dateDays (y m d : Int) (hm : 1 ≤ m ∧ m ≤ 12) (hd : 1 ≤ d ∧ d ≤ daysIn m y) :
    civil (dateDays y m d) = (y, m, d) := by
  obtain ⟨r1, r2⟩ := yday_range y m d hm hd
  obtain ⟨a1, a2, a3⟩ := absYear_spec (dateDays y m d)
  have hD : daysSinceEpoch y + (daysBefore (m - 1) + (if isLeap y && m ≥ 3 then 1 else 0) + (d - 1)) =
      dateDays y m d := by
    unfold dateDays
    omega
  obtain ⟨e1, e2⟩ := year_unique _ _ _ _ _ a1 a2 a3 hD r1 r2
  have hc : civil (dateDays y m d) = ((absYear (dateDays y m d)).1,
      (monthDayOf (isLeap (absYear (dateDays y m d)).1) (absYear (dateDays y m d)).2).1,
      (monthDayOf (isLeap (absYear (dateDays y m d)).1) (absYear (dateDays y m d)).2).2) := rfl
  rw [hc, e1, e2, monthDayOf_inv (isLeap y) m d hm ⟨hd.1, by rw [← daysIn_eq]; exact hd.2⟩]

theorem norm_range (hi lo : Int) : 0 ≤ (norm hi lo 12).2 ∧ (norm hi lo 12).2 < 12 := by
  unfold norm
  by_cases h1 : lo < 0
  · simp only [h1, if_true]
    split <;> simp only <;> omega
  · simp only [h1, if_false]
    split <;> simp only <;> omega

theorem norm_norm (hi lo : Int) :
    norm (norm hi lo 12).1 ((norm hi lo 12).2 + 1 - 1) 12 = norm hi lo 12 := by
  obtain ⟨h1, h2⟩ := norm_range hi lo
  rw [Int.add_sub_cancel, norm_id _ _ 12 h1 h2]

theorem Date_month (loc : Location) (y m d H M S ns : Int) :
    Date y m d H M S ns loc =
      Date (norm y (m - 1) 12).1 ((norm y (m - 1) 12).2 + 1) d H M S ns loc := by
  unfold Date
  simp only [norm_norm]

theorem norm_next (y m : Int) (hm : 1 ≤ m ∧ m ≤ 12) :
    norm y (m + 1 - 1) 12 = ((nextMonth y m).1, (nextMonth y m).2 - 1) := by
  by_cases h : m = 12
  · subst h
    simp [norm, nextMonth]
  · rw [norm_id y (m + 1 - 1) 12 (by omega) (by omega)]
    simp [nextMonth, h]

theorem norm_prev (y m : Int) (hm : 1 ≤ m ∧ m ≤ 12) :
    norm y (m - 1 - 1) 12 = ((prevMonth y m).1, (prevMonth y m).2 - 1) := by
  by_cases h : m = 1
  · subst h
    simp only [norm, prevMonth, Int.reduceSub, Int.reduceNeg, Int.reduceLT, Int.reduceDiv,
      Int.reduceAdd, Int.reduceMul, Int.reduceLE, ge_iff_le, if_true, if_false, ↓reduceIte]
    try omega
  · rw [norm_id y (m - 1 - 1) 12 (by omega) (by omega)]
    simp only [prevMonth, h, if_false]

theorem nextMonth_range (y m : Int) (hm : 1 ≤ m ∧ m ≤ 12) :
    1 ≤ (nextMonth y m).2 ∧ (nextMonth y m).2 ≤ 12 := by
  unfold nextMonth
  split <;> simp only <;> omega

theorem prevMonth_range (y m : Int) (hm : 1 ≤ m ∧ m ≤ 12) :
    1 ≤ (prevMonth y m).2 ∧ (prevMonth y m).2 ≤ 12 := by
  unfold prevMonth
  split <;> simp only <;> omega

theorem civilDays_in (y m d : Int) (hm : 1 ≤ m ∧ m ≤ 12) : civilDays y m d = dateDays y m d := by
  unfold civilDays
  rw [norm_id y (m - 1) 12 (by omega) (by omega), Int.sub_add_cancel]

theorem civilDays_next (y m d : Int) (hm : 1 ≤ m ∧ m ≤ 12) :
    civilDays y (m + 1) d = dateDays (nextMonth y m).1 (nextMonth y m).2 d := by
  unfold civilDays
  rw [norm_next y m hm, Int.sub_add_cancel]

theorem civilDays_prev (y m d : Int) (hm : 1 ≤ m ∧ m ≤ 12) :
    civilDays y (m - 1) d = dateDays (prevMonth y m).1 (prevMonth y m).2 d := by
  unfold civilDays
  rw [norm_prev y m hm, Int.sub_add_cancel]

theorem dateDays_next (y m d : Int) (hm : 1 ≤ m ∧ m ≤ 12) :
    dateDays (nextMonth y m).1 (nextMonth y m).2 d = dateDays y m d + daysIn m y := by
  obtain ⟨h1, h2⟩ := hm
  have hs := dse_succ y
  unfold nextMonth dateDays daysIn
  by_cases hl : isLeap y = true <;> interval_cases m <;>
    simp [daysBefore, hl] at hs ⊢ <;> omega

theorem dateDays_prev (y m d : Int) (hm : 1 ≤ m ∧ m ≤ 12) :
    dateDays y m d = dateDays (prevMonth y m).1 (prevMonth y m).2 d +
      daysIn (prevMonth y m).2 (prevMonth y m).1 := by
  obtain ⟨h1, h2⟩ := hm
  have hs := dse_succ (y - 1)
  rw [Int.sub_add_cancel] at hs
  unfold prevMonth dateDays daysIn
  by_cases hl : isLeap y = true <;> by_cases hl1 : isLeap (y - 1) = true <;> interval_cases m <;>
    simp [daysBefore, hl, hl1] at hs ⊢ <;> omega

theorem dateDays_day (y m d k : Int) : dateDays y m (d + k) = dateDays y m d + k := by
  unfold dateDays
  omega

theorem Date_any_fixed (loc : Location) (h : loc.Fixed) (y m d H M S ns : Int)
    (hH : 0 ≤ H ∧ H < 24) (hM : 0 ≤ M ∧ M < 60) (hS : 0 ≤ S ∧ S < 60)
    (hn : 0 ≤ ns ∧ ns < 1000000000) :
    Date y m d H M S ns loc =
      ⟨civilDays y m d * 86400 + (H * 3600 + M * 60 + S) - 62135596800 - loc.base, ns, loc⟩ := by
  obtain ⟨r1, r2⟩ := norm_range y (m - 1)
  rw [Date_month, Date_fixed loc h _ _ _ _ _ _ _ ⟨by omega, by omega⟩ hH hM hS hn]
  rfl

theorem abs_Date (loc : Location) (h : loc.Fixed) (y m d H M S ns : Int)
    (hH : 0 ≤ H ∧ H < 24) (hM : 0 ≤ M ∧ M < 60) (hS : 0 ≤ S ∧ S < 60)
    (hn : 0 ≤ ns ∧ ns < 1000000000) :
    (Date y m d H M S ns loc).abs = civilDays y m d * 86400 + (H * 3600 + M * 60 + S) := by
  rw [Date_any_fixed loc h y m d H M S ns hH hM hS hn]
  rw [abs_fixed ⟨_, ns, loc⟩ h]
  simp only
  omega

theorem day_Date (loc : Location) (h : loc.Fixed) (y m d H M S ns : Int)
    (hH : 0 ≤ H ∧ H < 24) (hM : 0 ≤ M ∧ M < 60) (hS : 0 ≤ S ∧ S < 60)
    (hn : 0 ≤ ns ∧ ns < 1000000000) :
    (Date y m d H M S ns loc).abs / 86400 = civilDays y m d ∧
      (Date y m d H M S ns loc).abs % 86400 = H * 3600 + M * 60 + S := by
  rw [abs_Date loc h y m d H M S ns hH hM hS hn]
  omega

theorem Clock_Date (loc : Location) (h : loc.Fixed) (y m d H M S ns : Int)
    (hH : 0 ≤ H ∧ H < 24) (hM : 0 ≤ M ∧ M < 60) (hS : 0 ≤ S ∧ S < 60)
    (hn : 0 ≤ ns ∧ ns < 1000000000) :
    (Date y m d H M S ns loc).Clock = (H, M, S) := by
  unfold Time.Clock
  rw [(day_Date loc h y m d H M S ns hH hM hS hn).2]
  simp only [Prod.mk.injEq]
  omega

theorem Date_Date (loc : Location) (h : loc.Fixed) (y m d H M S ns : Int)
    (hm : 1 ≤ m ∧ m ≤ 12) (hd : 1 ≤ d ∧ d ≤ daysIn m y)
    (hH : 0 ≤ H ∧ H < 24) (hM : 0 ≤ M ∧ M < 60) (hS : 0 ≤ S ∧ S < 60)
    (hn : 0 ≤ ns ∧ ns < 1000000000) :
    (Date y m d H M S ns loc).Date = (y, m, d) := by
  unfold Time.Date
  rw [(day_Date loc h y m d H M S ns hH hM hS hn).1, civilDays_in y m d hm, civil_dateDays y m d hm hd]

theorem Weekday_Date (loc : Location) (h : loc.Fixed) (y m d H M S ns : Int)
    (hH : 0 ≤ H ∧ H < 24) (hM : 0 ≤ M ∧ M < 60) (hS : 0 ≤ S ∧ S < 60)
    (hn : 0 ≤ ns ∧ ns < 1000000000) :
    (Date y m d H M S ns loc).Weekday = (civilDays y m d + 1) % 7 := by
  unfold Time.Weekday
  rw [(day_Date loc h y m d H M S ns hH hM hS hn).1]

theorem now_day (now : Time) :
    dateDays now.Date.1 now.Date.2.1 now.Date.2.2 = now.abs / 86400 ∧
      (1 ≤ now.Date.2.1 ∧ now.Date.2.1 ≤ 12) ∧
      (1 ≤ now.Date.2.2 ∧ now.Date.2.2 ≤ daysIn now.Date.2.1 now.Date.1) := by
  obtain ⟨a, b, c, -, e⟩ := civil_spec (now.abs / 86400)
  exact ⟨e, ⟨a, b⟩, ⟨c, civil_valid _⟩⟩

theorem clock_range (t : Time) : (0 ≤ t.Clock.1 ∧ t.Clock.1 < 24) ∧
    (0 ≤ t.Clock.2.1 ∧ t.Clock.2.1 < 60) ∧ (0 ≤ t.Clock.2.2 ∧ t.Clock.2.2 < 60) ∧
    t.Clock.1 * 3600 + t.Clock.2.1 * 60 + t.Clock.2.2 = t.abs % 86400 := by
  unfold Time.Clock
  simp only
  omega

theorem AddDate_fixed (t : Time) (h : t.loc.Fixed) (hv : t.Valid) (a b c : Int) :
    t.AddDate a b c =
      ⟨civilDays (t.Date.1 + a) (t.Date.2.1 + b) (t.Date.2.2 + c) * 86400 + t.abs % 86400 -
        62135596800 - t.loc.base, t.nsec, t.loc⟩ := by
  obtain ⟨c1, c2, c3, c4⟩ := clock_range t
  have hA : t.AddDate a b c = Date (t.Date.1 + a) (t.Date.2.1 + b) (t.Date.2.2 + c)
      t.Clock.1 t.Clock.2.1 t.Clock.2.2 t.nsec t.loc := rfl
  rw [hA, Date_any_fixed t.loc h _ _ _ _ _ _ _ c1 c2 c3 hv, c4]

theorem sec_fixed (t : Time) (h : t.loc.Fixed) : t.sec = t.abs - 62135596800 - t.loc.base := by
  rw [abs_fixed t h]
  omega

theorem Date_at (loc : Location) (h : loc.Fixed) (t : Time) (H M S ns : Int)
    (hH : 0 ≤ H ∧ H < 24) (hM : 0 ≤ M ∧ M < 60) (hS : 0 ≤ S ∧ S < 60)
    (hn : 0 ≤ ns ∧ ns < 1000000000) (k : Int) :
    Date t.Date.1 t.Date.2.1 (t.Date.2.2 + k) H M S ns loc =
      ⟨(t.abs / 86400 + k) * 86400 + (H * 3600 + M * 60 + S) - 62135596800 - loc.base, ns, loc⟩ := by
  obtain ⟨e, hm, -⟩ := now_day t
  rw [Date_any_fixed loc h _ _ _ H M S ns hH hM hS hn, civilDays_in _ _ _ hm, dateDays_day, e]

theorem abs_at (loc : Location) (h : loc.Fixed) (t : Time) (H M S ns : Int)
    (hH : 0 ≤ H ∧ H < 24) (hM : 0 ≤ M ∧ M < 60) (hS : 0 ≤ S ∧ S < 60)
    (hn : 0 ≤ ns ∧ ns < 1000000000) (k : Int) :
    (Date t.Date.1 t.Date.2.1 (t.Date.2.2 + k) H M S ns loc).abs =
      (t.abs / 86400 + k) * 86400 + (H * 3600 + M * 60 + S) := by
  obtain ⟨e, hm, -⟩ := now_day t
  rw [abs_Date loc h _ _ _ H M S ns hH hM hS hn, civilDays_in _ _ _ hm, dateDays_day, e]

theorem Date_same_day (loc : Location) (h : loc.Fixed) (t u : Time) (k : Int)
    (hu : u.abs / 86400 = t.abs / 86400 + k) (H M S ns : Int)
    (hH : 0 ≤ H ∧ H < 24) (hM : 0 ≤ M ∧ M < 60) (hS : 0 ≤ S ∧ S < 60)
    (hn : 0 ≤ ns ∧ ns < 1000000000) :
    Date u.Date.1 u.Date.2.1 u.Date.2.2 H M S ns loc =
      Date t.Date.1 t.Date.2.1 (t.Date.2.2 + k) H M S ns loc := by
  have a := Date_at loc h u H M S ns hH hM hS hn 0
  rw [Int.add_zero, Int.add_zero, hu] at a
  rw [a, Date_at loc h t H M S ns hH hM hS hn k]

theorem shifted_day (now : Time) (hf : now.loc.Fixed) (k H M S : Int)
    (hH : 0 ≤ H ∧ H < 24) (hM : 0 ≤ M ∧ M < 60) (hS : 0 ≤ S ∧ S < 60) :
    (Date now.Date.1 now.Date.2.1 (now.Date.2.2 + k) H M S 0 now.loc).Clock = (H, M, S) ∧
      (Date now.Date.1 now.Date.2.1 (now.Date.2.2 + k) H M S 0 now.loc).abs / 86400 =
        now.abs / 86400 + k ∧
      (Date now.Date.1 now.Date.2.1 (now.Date.2.2 + k) H M S 0 now.loc).Date =
        civil (now.abs / 86400 + k) := by
  have ha := abs_at now.loc hf now H M S 0 hH hM hS (by omega) k
  have hd : (Date now.Date.1 now.Date.2.1 (now.Date.2.2 + k) H M S 0 now.loc).abs / 86400 =
      now.abs / 86400 + k := by
    rw [ha]
    omega
  refine ⟨Clock_Date now.loc hf _ _ _ H M S 0 hH hM hS (by omega), hd, ?_⟩
  show civil (_ / 86400) = _
  rw [hd]

theorem PIL_3pm_fifteen (loc : Location) :
    ParseInLocation layout3pm "3pm" "3pm" loc = .ok (Date 0 1 1 15 0 0 0 loc) := by
  rfl

theorem parse_date_constant (U : RuneTables) (now : Time) :
    ParseNow U "today" now =
      .ok (Date now.Date.1 now.Date.2.1 now.Date.2.2 0 0 0 0 now.loc) ∧
    ParseNow U "tomorrow" now =
      .ok (Date now.Date.1 now.Date.2.1 (now.Date.2.2 + 1) 0 0 0 0 now.loc) ∧
    ParseNow U "yesterday" now =
      .ok (Date now.Date.1 now.Date.2.1 (now.Date.2.2 - 1) 0 0 0 0 now.loc) := by
  obtain ⟨z1, z2⟩ := zero_facts
  have l1 : lex U "today" = .ok [⟨.tokenDate, "today"⟩] := lex_closed U _ _ (by decide) (by decide)
  have l2 : lex U "tomorrow" = .ok [⟨.tokenDate, "tomorrow"⟩] :=
    lex_closed U _ _ (by decide) (by decide)
  have l3 : lex U "yesterday" = .ok [⟨.tokenDate, "yesterday"⟩] :=
    lex_closed U _ _ (by decide) (by decide)
  refine ⟨?_, ?_, ?_⟩
  · rw [ParseNow_of_lex U _ now _ l1 (by simp)]
    simp [parseFuel, parseRun, parseStep, parser.parseExpr, parser.parseDateTime,
      parser.parseDateConst, parser.parseTime, parser.peek, parser.next, Time.Location, z2]
  · rw [ParseNow_of_lex U _ now _ l2 (by simp)]
    simp [parseFuel, parseRun, parseStep, parser.parseExpr, parser.parseDateTime,
      parser.parseDateConst, parser.parseTime, parser.peek, parser.next, Time.Location, z2]
  · rw [ParseNow_of_lex U _ now _ l3 (by simp)]
    simp [parseFuel, parseRun, parseStep, parser.parseExpr, parser.parseDateTime,
      parser.parseDateConst, parser.parseTime, parser.peek, parser.next, Time.Location, z2]

theorem parse_3pm_tomorrow (U : RuneTables) (now : Time) (hf : now.loc.Fixed) :
    ParseNow U "at 3pm tomorrow" now =
      .ok (Date now.Date.1 now.Date.2.1 (now.Date.2.2 + 1) 15 0 0 0 now.loc) := by
  obtain ⟨z1, z2⟩ := zero_facts
  obtain ⟨m1, m2, m3⟩ := lower_marker U
  have l4 : lex U "at 3pm tomorrow" = .ok [⟨.tokenKeyword, "at"⟩, ⟨.tokenDigit, "3"⟩,
      ⟨.tokenTwelveHour, "pm"⟩, ⟨.tokenDate, "tomorrow"⟩] :=
    lex_closed U _ _ (by decide) (by decide)
  rw [ParseNow_of_lex U _ now _ l4 (by simp)]
  simp [parseFuel, parseRun, parseStep, parser.parseExpr, parser.parseDateTime,
    parser.parseKeyword, parser.parseKeywordAt, parser.parseDigit,
    parser.parseDigitTwelveHour, parser.parseDate, parser.anchorDate,
    parser.parseDurationRightNext,
    parser.parseDateConst, parser.parseTime, parser.peek, parser.next, Time.Location,
    Time.Hour, Date_loc, z1, z2, m1, PIL_3pm_fifteen, Clock_Date now.loc hf]

theorem parse_tomorrow_3pm (U : RuneTables) (now : Time) (hf : now.loc.Fixed)
    (hz : (Date now.Date.1 now.Date.2.1 (now.Date.2.2 + 1) 0 0 0 0 now.loc).IsZero = false) :
    ParseNow U "tomorrow at 3pm" now =
      .ok (Date now.Date.1 now.Date.2.1 (now.Date.2.2 + 1) 15 0 0 0 now.loc) := by
  obtain ⟨z1, z2⟩ := zero_facts
  obtain ⟨m1, m2, m3⟩ := lower_marker U
  have l5 : lex U "tomorrow at 3pm" = .ok [⟨.tokenDate, "tomorrow"⟩, ⟨.tokenKeyword, "at"⟩,
      ⟨.tokenDigit, "3"⟩, ⟨.tokenTwelveHour, "pm"⟩] :=
    lex_closed U _ _ (by decide) (by decide)
  have hR2 := Date_same_day now.loc hf now
    (Date now.Date.1 now.Date.2.1 (now.Date.2.2 + 1) 0 0 0 0 now.loc) 1
    (shifted_day now hf 1 0 0 0 (by omega) (by omega) (by omega)).2.1 15 0 0 0
    (by omega) (by omega) (by omega) (by omega)
  rw [ParseNow_of_lex U _ now _ l5 (by simp)]
  simp [parseFuel, parseRun, parseStep, parser.parseExpr, parser.parseDateTime,
    parser.parseKeyword, parser.parseKeywordAt, parser.parseDigit,
    parser.parseDigitTwelveHour, parser.parseDate, parser.anchorDate,
    parser.parseTimeKeyword, parser.parseDurationRightNext,
    parser.parseDateConst, parser.parseTime, parser.peek, parser.next, Time.Location,
    Time.Hour, Date_loc, z1, z2, m1, PIL_3pm_fifteen, Clock_Date now.loc hf, hz]
  exact hR2

theorem lexToks_word_sp (U : RuneTables) (n : Nat) (v : String) (R : List Char) (ts : List token)
    (hw : isWord v.data) (h : wordToken v = (some .readExpr, ts)) :
    lexToks U (n + 2) .readExpr ((v ++ " ").data ++ R) =
      (lexToks U n .readExpr R).map (fun t => ts ++ t) := by
  rw [show (v ++ " ").data ++ R = v.data ++ (' ' :: R) by simp,
    lexToks_closed_word U n v (' ' :: R) .readExpr ts hw h (space_stop U R), lexToks_skip1]

theorem lexToks_sp_word_sp (U : RuneTables) (n : Nat) (v : String) (R : List Char) (ts : List token)
    (hw : isWord v.data) (h : wordToken v = (some .readExpr, ts)) :
    lexToks U (n + 2) .readExpr ((" " ++ v ++ " ").data ++ R) =
      (lexToks U n .readExpr R).map (fun t => ts ++ t) := by
  rw [show (" " ++ v ++ " ").data ++ R = ' ' :: ((v ++ " ").data ++ R) by simp, lexToks_skip1,
    lexToks_word_sp U n v R ts hw h]

theorem lex_word (U : RuneTables) (v : String) (ts : List token)
    (hw : isWord v.data) (h : wordToken v = (some .readExpr, ts))
    (hl : ∀ t ∈ ts.getLast?, t.typ ≠ .tokenError) : lex U v = .ok ts := by
  refine lex_of_toks_ok U v ts 3 (by simp [lexFuel]) ?_ hl
  have h1 := lexToks_closed_word U 1 v [] .readExpr ts hw h (by simp)
  rw [List.append_nil] at h1
  rw [h1]
  have h2 : lexToks U 1 .readExpr [] = some [] := by
    rw [lexToks_tables U 1 .readExpr [] (by intro c hc; simp at hc)]
    decide
  rw [h2]
  simp

theorem weekday_words : ∀ p ∈ weekdayTable,
    isWord p.1.data ∧ wordToken p.1 = (some .readExpr, [⟨.tokenWeekday, p.1⟩]) ∧
      allAscii p.1.data := by
  decide!

theorem lex_last_weekday (U : RuneTables) (name : String) (w : Int)
    (h : (name, w) ∈ weekdayTable) :
    lex U ("last " ++ name) = .ok [⟨.tokenKeyword, "last"⟩, ⟨.tokenWeekday, name⟩] ∧
    lex U ("last " ++ name ++ " at noon") =
      .ok [⟨.tokenKeyword, "last"⟩, ⟨.tokenWeekday, name⟩, ⟨.tokenKeyword, "at"⟩,
        ⟨.tokenTime, "noon"⟩] := by
  obtain ⟨w1, w2, -⟩ := weekday_words _ h
  have hp : ∀ n R, lexToks U (n + 2) .readExpr ("last ".data ++ R) =
      (lexToks U n .readExpr R).map (fun t => [⟨.tokenKeyword, "last"⟩] ++ t) :=
    fun n R => lexToks_word_sp U n "last" R _ (by decide) (by decide)
  have hq : ∀ n R, lexToks U (n + 2) .readExpr ((name ++ " ").data ++ R) =
      (lexToks U n .readExpr R).map (fun t => [⟨.tokenWeekday, name⟩] ++ t) :=
    fun n R => lexToks_word_sp U n name R _ w1 w2
  have hlen : 1 ≤ name.data.length := by
    obtain ⟨⟨x, hx, -⟩, -⟩ := w1
    cases hd : name.data with
    | nil => rw [hd] at hx; simp at hx
    | cons a b => simp
  constructor
  · exact lex_prefixed U "last " _ 2 (by decide) hp name _
      (lex_word U name _ w1 w2 (by simp)) (by simp)
  · rw [String.append_assoc]
    refine lex_prefixed U "last " _ 2 (by decide) hp (name ++ " at noon") _ ?_ (by simp)
    rw [show name ++ " at noon" = (name ++ " ") ++ "at noon" by
      rw [String.append_assoc]; rfl]
    exact lex_prefixed U (name ++ " ") _ 2 (by simp; omega) hq "at noon"
      [⟨.tokenKeyword, "at"⟩, ⟨.tokenTime, "noon"⟩]
      (lex_closed U _ _ (by decide) (by decide)) (by simp)

theorem weekday_value (U : RuneTables) (name : String) (w : Int) (h : (name, w) ∈ weekdayTable) :
    parseWeekday U ⟨.tokenWeekday, name⟩ = .ok w ∧ 0 ≤ w ∧ w ≤ 6 := by
  obtain ⟨-, h2, -, h4, h5⟩ := weekdayTable_facts _ h
  obtain ⟨-, -, w3⟩ := weekday_words _ h
  exact ⟨by rw [parseWeekday_ascii U asciiTables _ w3]; exact h2, h4, h5⟩

theorem parse_last_weekday (U : RuneTables) (now : Time) (name : String) (w : Int)
    (h : (name, w) ∈ weekdayTable) :
    ParseNow U ("last " ++ name) now =
      .ok ((Date now.Date.1 now.Date.2.1 now.Date.2.2 0 0 0 0 now.loc).AddDate 0 0
        (w - (Date now.Date.1 now.Date.2.1 now.Date.2.2 0 0 0 0 now.loc).Weekday - 7)) := by
  obtain ⟨z1, z2⟩ := zero_facts
  obtain ⟨v1, -, -⟩ := weekday_value U name w h
  rw [ParseNow_of_lex U _ now _ (lex_last_weekday U name w h).1 (by simp)]
  simp [parseFuel, parseRun, parseStep, parser.parseExpr, parser.parseDateTime,
    parser.parseKeyword, parser.parseDigitOrdinalLast, parser.parseDigitOrdinalLastWeekday,
    parser.parseTime, parser.peek, parser.next, Time.Location, z2, v1]

theorem parse_last_weekday_noon (U : RuneTables) (now : Time) (name : String) (w : Int)
    (h : (name, w) ∈ weekdayTable)
    (hz : ((Date now.Date.1 now.Date.2.1 now.Date.2.2 0 0 0 0 now.loc).AddDate 0 0
        (w - (Date now.Date.1 now.Date.2.1 now.Date.2.2 0 0 0 0 now.loc).Weekday - 7)).IsZero = false) :
    ParseNow U ("last " ++ name ++ " at noon") now =
      .ok (Date
        ((Date now.Date.1 now.Date.2.1 now.Date.2.2 0 0 0 0 now.loc).AddDate 0 0
          (w - (Date now.Date.1 now.Date.2.1 now.Date.2.2 0 0 0 0 now.loc).Weekday - 7)).Date.1
        ((Date now.Date.1 now.Date.2.1 now.Date.2.2 0 0 0 0 now.loc).AddDate 0 0
          (w - (Date now.Date.1 now.Date.2.1 now.Date.2.2 0 0 0 0 now.loc).Weekday - 7)).Date.2.1
        ((Date now.Date.1 now.Date.2.1 now.Date.2.2 0 0 0 0 now.loc).AddDate 0 0
          (w - (Date now.Date.1 now.Date.2.1 now.Date.2.2 0 0 0 0 now.loc).Weekday - 7)).Date.2.2
        12 0 0 0 now.loc) := by
  obtain ⟨z1, z2⟩ := zero_facts
  obtain ⟨v1, -, -⟩ := weekday_value U name w h
  rw [ParseNow_of_lex U _ now _ (lex_last_weekday U name w h).2 (by simp)]
  simp [parseFuel, parseRun, parseStep, parser.parseExpr, parser.parseDateTime,
    parser.parseKeyword, parser.parseDigitOrdinalLast, parser.parseDigitOrdinalLastWeekday,
    parser.parseTime, parser.parseTimeKeyword, parser.parseKeywordAt, parser.parseTimeConst,
    parser.parseDate, parser.parseDurationRightNext, parser.anchorDate,
    parser.peek, parser.next, Time.Location, z2, v1, hz]

theorem last_weekday_fixed (now : Time) (hf : now.loc.Fixed) (w : Int) :
    (Date now.Date.1 now.Date.2.1 now.Date.2.2 0 0 0 0 now.loc).AddDate 0 0
        (w - (Date now.Date.1 now.Date.2.1 now.Date.2.2 0 0 0 0 now.loc).Weekday - 7) =
      Date now.Date.1 now.Date.2.1 (now.Date.2.2 + (w - now.Weekday - 7)) 0 0 0 0 now.loc := by
  have hX := Date_at now.loc hf now 0 0 0 0 (by omega) (by omega) (by omega) (by omega) 0
  rw [Int.add_zero] at hX
  have hW : (Date now.Date.1 now.Date.2.1 now.Date.2.2 0 0 0 0 now.loc).Weekday = now.Weekday := by
    have := (shifted_day now hf 0 0 0 0 (by omega) (by omega) (by omega)).2.1
    rw [Int.add_zero] at this
    unfold Time.Weekday
    rw [this]
    omega
  rw [hW, hX, AddDate_days_fixed ⟨_, 0, now.loc⟩ hf (by simp),
    Date_at now.loc hf now 0 0 0 0 (by omega) (by omega) (by omega) (by omega)]
  simp only [Time.mk.injEq, and_true]
  omega

theorem rollover_rhs (e : penv) (p : parser) (y m : Int) :
    (p.rollover e y m).rhs =
      if e.now.Equal p.rhs || e.now.After p.rhs then p.rhs.AddDate y m 0 else p.rhs := by
  unfold parser.rollover
  split <;> rfl

theorem Date_day (loc : Location) (h : loc.Fixed) (now : Time) (N H M S : Int)
    (hH : 0 ≤ H ∧ H < 24) (hM : 0 ≤ M ∧ M < 60) (hS : 0 ≤ S ∧ S < 60) :
    Date now.Date.1 now.Date.2.1 N H M S 0 loc =
      ⟨(now.abs / 86400 + (N - now.Date.2.2)) * 86400 + (H * 3600 + M * 60 + S) - 62135596800 -
        loc.base, 0, loc⟩ := by
  have h1 := Date_at loc h now H M S 0 hH hM hS (by omega) (N - now.Date.2.2)
  rw [show now.Date.2.2 + (N - now.Date.2.2) = N by omega] at h1
  exact h1

theorem not_before_iff (now X : Time) (hv : now.Valid) (hX : X.nsec = 0) :
    (now.Equal X || now.After X) = true ↔ X.sec ≤ now.sec := by
  obtain ⟨v1, v2⟩ := hv
  simp only [Time.Equal, Time.After, hX, Bool.or_eq_true, Bool.and_eq_true, beq_iff_eq,
    decide_eq_true_eq]
  omega

theorem after_iff (now X : Time) (hv : now.Valid) (hX : X.nsec = 0) :
    X.After now = true ↔ now.sec < X.sec := by
  obtain ⟨v1, v2⟩ := hv
  simp only [Time.After, hX, Bool.or_eq_true, Bool.and_eq_true, beq_iff_eq, decide_eq_true_eq]
  omega

theorem abs_bounds (t : Time) : t.abs / 86400 * 86400 ≤ t.abs ∧ t.abs < t.abs / 86400 * 86400 + 86400 := by
  omega

theorem AddDate_of (t : Time) (y m d H Mi S a b c : Int) (hD : t.Date = (y, m, d))
    (hC : t.Clock = (H, Mi, S)) :
    t.AddDate a b c = Date (y + a) (m + b) (d + c) H Mi S t.nsec t.loc := by
  unfold Time.AddDate
  rw [hD, hC]
  rfl

theorem Date_nsec (loc : Location) (y m d H M S : Int) : (Date y m d H M S 0 loc).nsec = 0 := by
  unfold Date
  rfl

theorem dateDays_now (now : Time) (N : Int) :
    dateDays now.Date.1 now.Date.2.1 N = now.abs / 86400 + (N - now.Date.2.2) := by
  obtain ⟨e, -, -⟩ := now_day now
  rw [show N = now.Date.2.2 + (N - now.Date.2.2) by omega, dateDays_day, e]
  omega

theorem ordinal_roll (now : Time) (hf : now.loc.Fixed) (hv : now.Valid) (N : Int) (h1 : 1 ≤ N) :
    ∃ t, (if now.Equal (Date now.Date.1 now.Date.2.1 N 0 0 0 0 now.loc) ||
          now.After (Date now.Date.1 now.Date.2.1 N 0 0 0 0 now.loc)
        then (Date now.Date.1 now.Date.2.1 N 0 0 0 0 now.loc).AddDate 0 1 0
        else Date now.Date.1 now.Date.2.1 N 0 0 0 0 now.loc) = t ∧
      t.Clock = (0, 0, 0) ∧ t.After now = true ∧
      ((now.sec < (Date now.Date.1 now.Date.2.1 N 0 0 0 0 now.loc).sec ∧
          t = Date now.Date.1 now.Date.2.1 N 0 0 0 0 now.loc) ∨
        ((Date now.Date.1 now.Date.2.1 N 0 0 0 0 now.loc).sec ≤ now.sec ∧ N ≤ now.Date.2.2 ∧
          t = Date now.Date.1 (now.Date.2.1 + 1) N 0 0 0 0 now.loc)) := by
  obtain ⟨e, hm, hd⟩ := now_day now
  obtain ⟨b1, b2⟩ := abs_bounds now
  have hs := sec_fixed now hf
  have hX := Date_day now.loc hf now N 0 0 0 (by omega) (by omega) (by omega)
  have hXs : (Date now.Date.1 now.Date.2.1 N 0 0 0 0 now.loc).sec =
      (now.abs / 86400 + (N - now.Date.2.2)) * 86400 - 62135596800 - now.loc.base := by
    rw [hX]
    simp only
    omega
  have hn := Date_nsec now.loc now.Date.1 now.Date.2.1 N 0 0 0
  by_cases hc : (now.Equal (Date now.Date.1 now.Date.2.1 N 0 0 0 0 now.loc) ||
      now.After (Date now.Date.1 now.Date.2.1 N 0 0 0 0 now.loc)) = true
  · have hle := (not_before_iff now _ hv hn).1 hc
    have hNd : N ≤ now.Date.2.2 := by
      rw [hXs] at hle
      omega
    have hDD := Date_Date now.loc hf now.Date.1 now.Date.2.1 N 0 0 0 0 hm ⟨h1, by omega⟩
      (by omega) (by omega) (by omega) (by omega)
    have hCl := Clock_Date now.loc hf now.Date.1 now.Date.2.1 N 0 0 0 0
      (by omega) (by omega) (by omega) (by omega)
    have hA := AddDate_of _ _ _ _ _ _ _ 0 1 0 hDD hCl
    rw [hn, Int.add_zero, Int.add_zero, Date_loc] at hA
    refine ⟨_, by rw [if_pos hc, hA], ?_, ?_, Or.inr ⟨hle, hNd, rfl⟩⟩
    · exact Clock_Date now.loc hf _ _ _ 0 0 0 0 (by omega) (by omega) (by omega) (by omega)
    · rw [after_iff now _ hv (Date_nsec _ _ _ _ _ _ _),
        Date_any_fixed now.loc hf _ _ _ 0 0 0 0 (by omega) (by omega) (by omega) (by omega),
        civilDays_next _ _ _ hm, dateDays_next _ _ _ hm, dateDays_now]
      simp only
      omega
  · have hlt : now.sec < (Date now.Date.1 now.Date.2.1 N 0 0 0 0 now.loc).sec := by
      by_contra hge
      exact hc ((not_before_iff now _ hv hn).2 (by omega))
    refine ⟨_, by rw [if_neg hc], ?_, (after_iff now _ hv hn).2 hlt, Or.inl ⟨hlt, rfl⟩⟩
    exact Clock_Date now.loc hf _ _ _ 0 0 0 0 (by omega) (by omega) (by omega) (by omega)

theorem empty_toks (U : RuneTables) (n : Nat) : lexToks U (n + 1) .readExpr [] = some [] := by
  rw [lexToks_tables U (n + 1) .readExpr [] (by intro c hc; simp at hc)]
  rfl

theorem lex_nth (U : RuneTables) (ds : List Char) (x : String) (hd : isCount ds)
    (hx : x ∈ suffixes) :
    lex U (String.mk ds ++ x) = .ok [⟨.tokenDigit, String.mk ds⟩, ⟨.tokenOrdinal, x⟩] := by
  refine lex_of_toks_ok U _ _ (1 + 3) ?_ ?_ (by simp)
  · simp only [lexFuel, String.data_append, List.length_append]
    omega
  · have h := lexToks_nth U 1 ds x [] hd hx
    rw [List.append_nil, empty_toks U 0] at h
    rw [String.data_append]
    exact h

theorem lex_nth_then (U : RuneTables) (ds : List Char) (x : String) (hd : isCount ds)
    (hx : x ∈ suffixes) (s : String) (ts : List token) (h : lex U s = .ok ts) (hne : ts ≠ []) :
    lex U (String.mk ds ++ x ++ s) =
      .ok (⟨.tokenDigit, String.mk ds⟩ :: ⟨.tokenOrdinal, x⟩ :: ts) := by
  have hl : 1 ≤ ds.length := by
    obtain ⟨h1, -⟩ := hd
    cases ds with
    | nil => exact absurd rfl h1
    | cons a b => simp
  refine lex_prefixed U (String.mk ds ++ x) [⟨.tokenDigit, String.mk ds⟩, ⟨.tokenOrdinal, x⟩] 3
    ?_ ?_ s ts h hne
  · simp only [String.data_append, List.length_append]
    omega
  · intro n R
    rw [String.data_append, List.append_assoc]
    exact lexToks_nth U n ds x R hd hx

theorem lexToks_on_the (U : RuneTables) (n : Nat) (R : List Char) :
    lexToks U (n + 4) .readExpr ("on the ".data ++ R) =
      (lexToks U n .readExpr R).map (fun t =>
        [⟨.tokenKeyword, "on"⟩, ⟨.tokenKeyword, "the"⟩] ++ t) := by
  have h1 := lexToks_word_sp U (n + 2) "on" ("the ".data ++ R) [⟨.tokenKeyword, "on"⟩]
    (by decide) (by decide)
  have h2 := lexToks_word_sp U n "the" R [⟨.tokenKeyword, "the"⟩] (by decide) (by decide)
  rw [show "on the ".data ++ R = ("on" ++ " ").data ++ ("the ".data ++ R) from rfl, h1,
    show "the ".data ++ R = ("the" ++ " ").data ++ R from rfl, h2]
  cases lexToks U n .readExpr R <;> rfl

theorem lex_on_the (U : RuneTables) (s : String) (ts : List token) (h : lex U s = .ok ts)
    (hne : ts ≠ []) :
    lex U ("on the " ++ s) = .ok (⟨.tokenKeyword, "on"⟩ :: ⟨.tokenKeyword, "the"⟩ :: ts) :=
  lex_prefixed U "on the " _ 4 (by decide) (lexToks_on_the U) s ts h hne

theorem Atoi_small (ds : List Char) (hd : isCount ds) (h : (countValue ds : Int) ≤ maxInt64) :
    Atoi (String.mk ds) = .ok (countValue ds) := by
  rw [Atoi_count ds hd, if_pos h]

theorem parse_nth (U : RuneTables) (now : Time) (ds : List Char) (x : String) (hd : isCount ds)
    (hx : x ∈ suffixes) (h2 : (countValue ds : Int) ≤ maxInt64) :
    ParseNow U (String.mk ds ++ x) now =
      .ok (if now.Equal (Date now.Date.1 now.Date.2.1 (countValue ds) 0 0 0 0 now.loc) ||
          now.After (Date now.Date.1 now.Date.2.1 (countValue ds) 0 0 0 0 now.loc)
        then (Date now.Date.1 now.Date.2.1 (countValue ds) 0 0 0 0 now.loc).AddDate 0 1 0
        else Date now.Date.1 now.Date.2.1 (countValue ds) 0 0 0 0 now.loc) := by
  obtain ⟨z1, z2⟩ := zero_facts
  have hA := Atoi_small ds hd h2
  rw [ParseNow_of_lex U _ now _ (lex_nth U ds x hd hx) (by simp)]
  simp [parseFuel, parseRun, parseStep, parser.parseExpr, parser.parseExprDigit,
    parser.parseDateTime, parser.parseDigit, parser.parseDigitOrdinal,
    parser.parseDigitOrdinalEOF, parser.peek, parser.next, Time.Location, z2, hA,
    rollover_fields, rollover_rhs]

theorem parse_on_the_nth (U : RuneTables) (now : Time) (ds : List Char) (x : String)
    (hd : isCount ds) (hx : x ∈ suffixes) (h2 : (countValue ds : Int) ≤ maxInt64) :
    ParseNow U ("on the " ++ (String.mk ds ++ x)) now =
      .ok (if now.Equal (Date now.Date.1 now.Date.2.1 (countValue ds) 0 0 0 0 now.loc) ||
          now.After (Date now.Date.1 now.Date.2.1 (countValue ds) 0 0 0 0 now.loc)
        then (Date now.Date.1 now.Date.2.1 (countValue ds) 0 0 0 0 now.loc).AddDate 0 1 0
        else Date now.Date.1 now.Date.2.1 (countValue ds) 0 0 0 0 now.loc) := by
  obtain ⟨z1, z2⟩ := zero_facts
  have hA := Atoi_small ds hd h2
  rw [ParseNow_of_lex U _ now _ (lex_on_the U _ _ (lex_nth U ds x hd hx) (by simp)) (by simp)]
  simp [parseFuel, parseRun, parseStep, parser.parseExpr, parser.parseExprDigit,
    parser.parseDateTime, parser.parseKeyword, parser.parseKeywordOn, parser.parseKeywordOnThe,
    parser.parseKeywordOnTheDigit, parser.parseDigit, parser.parseDigitOrdinal,
    parser.parseDigitOrdinalEOF, parser.peek, parser.next, Time.Location, z2, hA,
    rollover_fields, rollover_rhs]

theorem month_words : ∀ p ∈ monthWords,
    isWord p.1.data ∧ wordToken p.1 = (some .readExpr, [⟨.tokenMonth, p.1⟩]) ∧
      allAscii p.1.data ∧ parseMonth asciiTables ⟨.tokenMonth, p.1⟩ = .ok p.2 ∧
      1 ≤ p.2 ∧ p.2 ≤ 12 := by
  decide!

theorem month_value (U : RuneTables) (name : String) (m : Int) (h : (name, m) ∈ monthWords) :
    parseMonth U ⟨.tokenMonth, name⟩ = .ok m ∧ 1 ≤ m ∧ m ≤ 12 := by
  obtain ⟨-, -, h3, h4, h5, h6⟩ := month_words _ h
  exact ⟨by rw [parseMonth_ascii U asciiTables _ h3]; exact h4, h5, h6⟩

theorem lex_month (U : RuneTables) (name : String) (m : Int) (h : (name, m) ∈ monthWords) :
    lex U name = .ok [⟨.tokenMonth, name⟩] ∧
    lex U ("on " ++ name) = .ok [⟨.tokenKeyword, "on"⟩, ⟨.tokenMonth, name⟩] := by
  obtain ⟨w1, w2, -⟩ := month_words _ h
  have hl := lex_word U name _ w1 w2 (by simp)
  have hp : ∀ n R, lexToks U (n + 2) .readExpr ("on ".data ++ R) =
      (lexToks U n .readExpr R).map (fun t => [⟨.tokenKeyword, "on"⟩] ++ t) :=
    fun n R => lexToks_word_sp U n "on" R _ (by decide) (by decide)
  exact ⟨hl, lex_prefixed U "on " _ 2 (by decide) hp name _ hl (by simp)⟩

theorem parse_month (U : RuneTables) (now : Time) (name : String) (m : Int)
    (h : (name, m) ∈ monthWords) :
    ParseNow U name now =
      .ok (if now.Equal (Date now.Date.1 m 1 0 0 0 0 now.loc) ||
          now.After (Date now.Date.1 m 1 0 0 0 0 now.loc)
        then (Date now.Date.1 m 1 0 0 0 0 now.loc).AddDate 1 0 0
        else Date now.Date.1 m 1 0 0 0 0 now.loc) ∧
    ParseNow U ("on " ++ name) now =
      .ok (if now.Equal (Date now.Date.1 m 1 0 0 0 0 now.loc) ||
          now.After (Date now.Date.1 m 1 0 0 0 0 now.loc)
        then (Date now.Date.1 m 1 0 0 0 0 now.loc).AddDate 1 0 0
        else Date now.Date.1 m 1 0 0 0 0 now.loc) := by
  obtain ⟨z1, z2⟩ := zero_facts
  obtain ⟨v1, -, -⟩ := month_value U name m h
  obtain ⟨l1, l2⟩ := lex_month U name m h
  constructor
  · rw [ParseNow_of_lex U _ now _ l1 (by simp)]
    simp [parseFuel, parseRun, parseStep, parser.parseExpr, parser.parseDateTime,
      parser.parseMonth, parser.parseMonthEOF, parser.peek, parser.next, Time.Location,
      Time.Year, z2, v1, rollover_fields, rollover_rhs]
  · rw [ParseNow_of_lex U _ now _ l2 (by simp)]
    simp [parseFuel, parseRun, parseStep, parser.parseExpr, parser.parseDateTime,
      parser.parseKeyword, parser.parseKeywordOn,
      parser.parseMonth, parser.parseMonthEOF, parser.peek, parser.next, Time.Location,
      Time.Year, z2, v1, rollover_fields, rollover_rhs]

theorem daysBefore_mono (m M : Int) (h1 : 0 ≤ m) (h2 : m ≤ M) (h3 : M ≤ 12) :
    daysBefore m ≤ daysBefore M ∧ (m < M → daysBefore m + 28 ≤ daysBefore M) := by
  have h0 : 0 ≤ M := by omega
  unfold daysBefore
  interval_cases M <;> interval_cases m <;> simp

theorem days_mono (y m M d : Int) (h1 : 1 ≤ m) (h2 : m ≤ M) (h3 : M ≤ 12) (hd : 1 ≤ d) :
    dateDays y m 1 ≤ dateDays y M d := by
  obtain ⟨k1, -⟩ := daysBefore_mono (m - 1) (M - 1) (by omega) (by omega) (by omega)
  unfold dateDays
  by_cases hl : isLeap y = true <;> by_cases ha : m ≥ 3 <;> by_cases hb : M ≥ 3 <;>
    simp [hl, ha, hb] <;> omega

theorem month_le (y M d m : Int) (hM : 1 ≤ M ∧ M ≤ 12) (hd : 1 ≤ d ∧ d ≤ daysIn M y)
    (hm : 1 ≤ m ∧ m ≤ 12) (h : dateDays y m 1 ≤ dateDays y M d) : m ≤ M := by
  by_contra hc
  have h1 := days_mono y (M + 1) m 1 (by omega) (by omega) (by omega) (by omega)
  have h2 := dateDays_next y M 1 hM
  have h3 : nextMonth y M = (y, M + 1) := by
    unfold nextMonth
    rw [if_neg (by omega)]
  rw [h3] at h2
  simp only at h2
  have h4 := dateDays_day y M 1 (d - 1)
  rw [show (1 : Int) + (d - 1) = d by omega] at h4
  omega

theorem year_bounds (y m d : Int) (hm : 1 ≤ m ∧ m ≤ 12) (hd : 1 ≤ d) :
    daysSinceEpoch y ≤ dateDays y m d ∧
      (d ≤ daysIn m y → dateDays y m d < daysSinceEpoch (y + 1)) := by
  have h0 : 0 ≤ daysBefore (m - 1) := by
    have := (daysBefore_mono 0 (m - 1) (by omega) (by omega) (by omega)).1
    simpa [daysBefore] using this
  constructor
  · unfold dateDays
    split <;> omega
  · intro h
    obtain ⟨-, r2⟩ := yday_range y m d hm ⟨hd, h⟩
    rw [dse_succ]
    unfold dateDays
    omega

theorem not_after_iff (t u : Time) (ht : t.nsec = 0) (hu : 0 ≤ u.nsec) :
    t.After u = false ↔ t.sec ≤ u.sec := by
  rcases hb : t.After u with _ | _
  · simp only [Time.After, ht, Bool.or_eq_false_iff, Bool.and_eq_false_iff, decide_eq_false_iff_not] at hb
    constructor
    · intro _
      omega
    · intro _
      rfl
  · simp only [Time.After, ht, Bool.or_eq_true, Bool.and_eq_true, beq_iff_eq,
      decide_eq_true_eq] at hb
    constructor
    · intro h
      cases h
    · intro h
      omega

theorem year_roll (now : Time) (hf : now.loc.Fixed) (hv : now.Valid) (m : Int)
    (hm : 1 ≤ m ∧ m ≤ 12) :
    ∃ t, (if now.Equal (Date now.Date.1 m 1 0 0 0 0 now.loc) ||
          now.After (Date now.Date.1 m 1 0 0 0 0 now.loc)
        then (Date now.Date.1 m 1 0 0 0 0 now.loc).AddDate 1 0 0
        else Date now.Date.1 m 1 0 0 0 0 now.loc) = t ∧
      t.Clock = (0, 0, 0) ∧ t.After now = true ∧ t.After (now.AddDate 1 0 0) = false ∧
      (((Date now.Date.1 m 1 0 0 0 0 now.loc).After now = true ∧
          t = Date now.Date.1 m 1 0 0 0 0 now.loc ∧ t.Date = (now.Date.1, m, 1)) ∨
        ((Date now.Date.1 m 1 0 0 0 0 now.loc).After now = false ∧
          t = Date (now.Date.1 + 1) m 1 0 0 0 0 now.loc ∧ t.Date = (now.Date.1 + 1, m, 1))) := by
  obtain ⟨e, hM, hd⟩ := now_day now
  obtain ⟨b1, b2⟩ := abs_bounds now
  obtain ⟨v1, v2⟩ := hv
  have hs := sec_fixed now hf
  have hn := Date_nsec now.loc now.Date.1 m 1 0 0 0
  have hn1 := Date_nsec now.loc (now.Date.1 + 1) m 1 0 0 0
  have hX := Date_any_fixed now.loc hf now.Date.1 m 1 0 0 0 0 (by omega) (by omega) (by omega)
    (by omega)
  have hY := Date_any_fixed now.loc hf (now.Date.1 + 1) m 1 0 0 0 0 (by omega) (by omega)
    (by omega) (by omega)
  rw [civilDays_in _ _ _ hm] at hX hY
  have hXs : (Date now.Date.1 m 1 0 0 0 0 now.loc).sec =
      dateDays now.Date.1 m 1 * 86400 - 62135596800 - now.loc.base := by
    rw [hX]
    simp only
    omega
  have hYs : (Date (now.Date.1 + 1) m 1 0 0 0 0 now.loc).sec =
      dateDays (now.Date.1 + 1) m 1 * 86400 - 62135596800 - now.loc.base := by
    rw [hY]
    simp only
    omega
  have hP := AddDate_fixed now hf ⟨v1, v2⟩ 1 0 0
  rw [Int.add_zero, Int.add_zero, civilDays_in _ _ _ hM] at hP
  have hPs : (now.AddDate 1 0 0).sec = dateDays (now.Date.1 + 1) now.Date.2.1 now.Date.2.2 * 86400 +
      now.abs % 86400 - 62135596800 - now.loc.base := by
    rw [hP]
  have hPn : (now.AddDate 1 0 0).nsec = now.nsec := by
    rw [hP]
  have d31 := daysIn_range m now.Date.1 hm
  have d32 := daysIn_range m (now.Date.1 + 1) hm
  obtain ⟨y1, y2⟩ := year_bounds now.Date.1 now.Date.2.1 now.Date.2.2 hM hd.1
  have y3 := y2 hd.2
  obtain ⟨y4, -⟩ := year_bounds (now.Date.1 + 1) m 1 hm (by omega)
  obtain ⟨y5, -⟩ := year_bounds (now.Date.1 + 1) now.Date.2.1 now.Date.2.2 hM hd.1
  obtain ⟨-, y6⟩ := year_bounds now.Date.1 m 1 hm (by omega)
  have y7 := y6 (by omega)
  have hmod : 0 ≤ now.abs % 86400 := by omega
  by_cases hc : (now.Equal (Date now.Date.1 m 1 0 0 0 0 now.loc) ||
      now.After (Date now.Date.1 m 1 0 0 0 0 now.loc)) = true
  · have hle := (not_before_iff now _ ⟨v1, v2⟩ hn).1 hc
    have hDD := Date_Date now.loc hf now.Date.1 m 1 0 0 0 0 hm ⟨by omega, by omega⟩
      (by omega) (by omega) (by omega) (by omega)
    have hCl := Clock_Date now.loc hf now.Date.1 m 1 0 0 0 0
      (by omega) (by omega) (by omega) (by omega)
    have hA := AddDate_of _ _ _ _ _ _ _ 1 0 0 hDD hCl
    rw [hn, Int.add_zero, Int.add_zero, Date_loc] at hA
    have hmM : m ≤ now.Date.2.1 := by
      refine month_le now.Date.1 now.Date.2.1 now.Date.2.2 m hM hd hm ?_
      rw [hXs] at hle
      omega
    have hmono := days_mono (now.Date.1 + 1) m now.Date.2.1 now.Date.2.2 hm.1 hmM hM.2 hd.1
    refine ⟨_, by rw [if_pos hc, hA], ?_, ?_, ?_, Or.inr ⟨?_, rfl, ?_⟩⟩
    · exact Clock_Date now.loc hf _ _ _ 0 0 0 0 (by omega) (by omega) (by omega) (by omega)
    · rw [after_iff now _ ⟨v1, v2⟩ hn1, hYs]
      omega
    · rw [not_after_iff _ _ hn1 (by rw [hPn]; exact v1), hYs, hPs]
      omega
    · rw [not_after_iff _ _ hn v1]
      exact hle
    · exact Date_Date now.loc hf (now.Date.1 + 1) m 1 0 0 0 0 hm ⟨by omega, by omega⟩
        (by omega) (by omega) (by omega) (by omega)
  · have hlt : now.sec < (Date now.Date.1 m 1 0 0 0 0 now.loc).sec := by
      by_contra hge
      exact hc ((not_before_iff now _ ⟨v1, v2⟩ hn).2 (by omega))
    have haf := (after_iff now _ ⟨v1, v2⟩ hn).2 hlt
    refine ⟨_, by rw [if_neg hc], ?_, haf, ?_, Or.inl ⟨haf, rfl, ?_⟩⟩
    · exact Clock_Date now.loc hf _ _ _ 0 0 0 0 (by omega) (by omega) (by omega) (by omega)
    · rw [not_after_iff _ _ hn (by rw [hPn]; exact v1), hXs, hPs]
      omega
    · exact Date_Date now.loc hf now.Date.1 m 1 0 0 0 0 hm ⟨by omega, by omega⟩
        (by omega) (by omega) (by omega) (by omega)

/-- C23: in a fixed-offset zone, for every month name (in lower case or with a capital),
the name alone and after `on` have the same result: day 1 of that month at 00:00:00,
strictly after the reference instant and not after the reference instant plus one year; it
is in now's year when that instant is strictly after now, and otherwise in the following
year.  With now = 2006-01-02T15:04:05, `January` is 2007-01-01 and `on November` is
2006-11-01. -/
theorem month_name (U : RuneTables) (now : Time) (name : String) (m : Int)
    (h : (name, m) ∈ monthWords) (hf : now.loc.Fixed) (hv : now.Valid) :
    (∃ t, ParseNow U name now = .ok t ∧ ParseNow U ("on " ++ name) now = .ok t ∧
      t.Clock = (0, 0, 0) ∧ t.After now = true ∧ t.After (now.AddDate 1 0 0) = false ∧
      (((Date now.Date.1 m 1 0 0 0 0 now.loc).After now = true ∧
          t = Date now.Date.1 m 1 0 0 0 0 now.loc ∧ t.Date = (now.Date.1, m, 1)) ∨
        ((Date now.Date.1 m 1 0 0 0 0 now.loc).After now = false ∧
          t = Date (now.Date.1 + 1) m 1 0 0 0 0 now.loc ∧ t.Date = (now.Date.1 + 1, m, 1)))) ∧
    ParseNow U "January" (refNow MST) = .ok (Date 2007 1 1 0 0 0 0 MST) ∧
    ParseNow U "on November" (refNow MST) = .ok (Date 2006 11 1 0 0 0 0 MST) := by
  obtain ⟨-, m1, m2⟩ := month_value U name m h
  obtain ⟨p1, p2⟩ := parse_month U now name m h
  refine ⟨?_, ?_, ?_⟩
  · obtain ⟨t, ht, r⟩ := year_roll now hf hv m ⟨m1, m2⟩
    exact ⟨t, by rw [p1, ht], by rw [p2, ht], r⟩
  · rw [ParseNow_tables U _ _ (by decide!)]
    decide!
  · rw [ParseNow_tables U _ _ (by decide!)]
    decide!

theorem month_name_witness :
    ("November", (11 : Int)) ∈ monthWords ∧ (refNow MST).loc.Fixed ∧ (refNow MST).Valid ∧
      ∃ t, ParseNow asciiTables "November" (refNow MST) = .ok t ∧ t.Clock = (0, 0, 0) ∧
        t.After (refNow MST) = true :=
  ⟨by decide, by decide, by decide,
    (month_name asciiTables (refNow MST) "November" 11 (by decide) (by decide) (by decide)).1.elim
      (fun t h => ⟨t, h.1, h.2.2.1, h.2.2.2.1⟩)⟩

theorem lex_of_month (U : RuneTables) (ds : List Char) (x : String) (hd : isCount ds)
    (hx : x ∈ suffixes) :
    lex U (String.mk ds ++ x ++ " of the month") =
      .ok [⟨.tokenDigit, String.mk ds⟩, ⟨.tokenOrdinal, x⟩, ⟨.tokenKeyword, "of"⟩,
        ⟨.tokenKeyword, "the"⟩, ⟨.tokenUnit, "month"⟩] ∧
    lex U (String.mk ds ++ x ++ " of last month") =
      .ok [⟨.tokenDigit, String.mk ds⟩, ⟨.tokenOrdinal, x⟩, ⟨.tokenKeyword, "of"⟩,
        ⟨.tokenKeyword, "last"⟩, ⟨.tokenUnit, "month"⟩] ∧
    lex U (String.mk ds ++ x ++ " of next month") =
      .ok [⟨.tokenDigit, String.mk ds⟩, ⟨.tokenOrdinal, x⟩, ⟨.tokenKeyword, "of"⟩,
        ⟨.tokenKeyword, "next"⟩, ⟨.tokenUnit, "month"⟩] :=
  ⟨lex_nth_then U ds x hd hx _ _ (lex_closed U " of the month"
      [⟨.tokenKeyword, "of"⟩, ⟨.tokenKeyword, "the"⟩, ⟨.tokenUnit, "month"⟩]
      (by decide) (by decide)) (by simp),
    lex_nth_then U ds x hd hx _ _ (lex_closed U " of last month"
      [⟨.tokenKeyword, "of"⟩, ⟨.tokenKeyword, "last"⟩, ⟨.tokenUnit, "month"⟩]
      (by decide) (by decide)) (by simp),
    lex_nth_then U ds x hd hx _ _ (lex_closed U " of next month"
      [⟨.tokenKeyword, "of"⟩, ⟨.tokenKeyword, "next"⟩, ⟨.tokenUnit, "month"⟩]
      (by decide) (by decide)) (by simp)⟩

theorem parse_of_month (U : RuneTables) (now : Time) (ds : List Char) (x : String)
    (hd : isCount ds) (hx : x ∈ suffixes) (h2 : (countValue ds : Int) ≤ maxInt64) :
    ParseNow U (String.mk ds ++ x ++ " of the month") now =
      .ok (Date now.Date.1 now.Date.2.1 (countValue ds) 0 0 0 0 now.loc) ∧
    ParseNow U (String.mk ds ++ x ++ " of last month") now =
      .ok ((Date now.Date.1 now.Date.2.1 (countValue ds) 0 0 0 0 now.loc).AddDate 0 (-1) 0) ∧
    ParseNow U (String.mk ds ++ x ++ " of next month") now =
      .ok ((Date now.Date.1 now.Date.2.1 (countValue ds) 0 0 0 0 now.loc).AddDate 0 1 0) := by
  obtain ⟨z1, z2⟩ := zero_facts
  have hA := Atoi_small ds hd h2
  obtain ⟨l1, l2, l3⟩ := lex_of_month U ds x hd hx
  refine ⟨?_, ?_, ?_⟩
  · rw [ParseNow_of_lex U _ now _ l1 (by simp)]
    simp [parseFuel, parseRun, parseStep, parser.parseExpr, parser.parseExprDigit,
      parser.parseDigitOrdinal, parser.parseDigitOrdinalKeyword, parser.parseDigitOrdinalOf,
      parser.parseDigitOrdinalOfKeyword, parser.parseTime, parser.peek, parser.next,
      Time.Location, Time.Year, Time.Month, z2, hA]
  · rw [ParseNow_of_lex U _ now _ l2 (by simp)]
    simp [parseFuel, parseRun, parseStep, parser.parseExpr, parser.parseExprDigit,
      parser.parseDigitOrdinal, parser.parseDigitOrdinalKeyword, parser.parseDigitOrdinalOf,
      parser.parseDigitOrdinalOfKeyword, parser.parseTime, parser.peek, parser.next,
      Time.Location, Time.Year, Time.Month, z2, hA]
  · rw [ParseNow_of_lex U _ now _ l3 (by simp)]
    simp [parseFuel, parseRun, parseStep, parser.parseExpr, parser.parseExprDigit,
      parser.parseDigitOrdinal, parser.parseDigitOrdinalKeyword, parser.parseDigitOrdinalOf,
      parser.parseDigitOrdinalOfKeyword, parser.parseTime, parser.peek, parser.next,
      Time.Location, Time.Year, Time.Month, z2, hA]

theorem Date_prev (loc : Location) (y m d H M S ns : Int) (hm : 1 ≤ m ∧ m ≤ 12) :
    Date y (m - 1) d H M S ns loc = Date (prevMonth y m).1 (prevMonth y m).2 d H M S ns loc := by
  rw [Date_month, norm_prev y m hm, Int.sub_add_cancel]

theorem Date_next (loc : Location) (y m d H M S ns : Int) (hm : 1 ≤ m ∧ m ≤ 12) :
    Date y (m + 1) d H M S ns loc = Date (nextMonth y m).1 (nextMonth y m).2 d H M S ns loc := by
  rw [Date_month, norm_next y m hm, Int.sub_add_cancel]

theorem month_shift (loc : Location) (hf : loc.Fixed) (y M N : Int) (hM : 1 ≤ M ∧ M ≤ 12)
    (h1 : 1 ≤ N) (h28 : N ≤ 28) :
    ((Date y M N 0 0 0 0 loc).Date = (y, M, N) ∧ (Date y M N 0 0 0 0 loc).Clock = (0, 0, 0)) ∧
    ((Date y M N 0 0 0 0 loc).AddDate 0 (-1) 0 =
        Date (prevMonth y M).1 (prevMonth y M).2 N 0 0 0 0 loc ∧
      ((Date y M N 0 0 0 0 loc).AddDate 0 (-1) 0).Date = ((prevMonth y M).1, (prevMonth y M).2, N) ∧
      ((Date y M N 0 0 0 0 loc).AddDate 0 (-1) 0).Clock = (0, 0, 0)) ∧
    ((Date y M N 0 0 0 0 loc).AddDate 0 1 0 =
        Date (nextMonth y M).1 (nextMonth y M).2 N 0 0 0 0 loc ∧
      ((Date y M N 0 0 0 0 loc).AddDate 0 1 0).Date = ((nextMonth y M).1, (nextMonth y M).2, N) ∧
      ((Date y M N 0 0 0 0 loc).AddDate 0 1 0).Clock = (0, 0, 0)) := by
  have d0 := daysIn_range M y hM
  have hp := prevMonth_range y M hM
  have hq := nextMonth_range y M hM
  have d1 := daysIn_range (prevMonth y M).2 (prevMonth y M).1 hp
  have d2 := daysIn_range (nextMonth y M).2 (nextMonth y M).1 hq
  have hDD := Date_Date loc hf y M N 0 0 0 0 hM ⟨h1, by omega⟩
    (by omega) (by omega) (by omega) (by omega)
  have hCl := Clock_Date loc hf y M N 0 0 0 0 (by omega) (by omega) (by omega) (by omega)
  have hn := Date_nsec loc y M N 0 0 0
  have hA := AddDate_of _ _ _ _ _ _ _ 0 (-1) 0 hDD hCl
  have hB := AddDate_of _ _ _ _ _ _ _ 0 1 0 hDD hCl
  rw [hn, Int.add_zero, Int.add_zero, Date_loc, show M + -1 = M - 1 by omega,
    Date_prev loc _ _ _ _ _ _ _ hM] at hA
  rw [hn, Int.add_zero, Int.add_zero, Date_loc, Date_next loc _ _ _ _ _ _ _ hM] at hB
  refine ⟨⟨hDD, hCl⟩, ⟨hA, ?_, ?_⟩, ⟨hB, ?_, ?_⟩⟩
  · rw [hA]
    exact Date_Date loc hf _ _ N 0 0 0 0 hp ⟨h1, by omega⟩ (by omega) (by omega) (by omega)
      (by omega)
  · rw [hA]
    exact Clock_Date loc hf _ _ N 0 0 0 0 (by omega) (by omega) (by omega) (by omega)
  · rw [hB]
    exact Date_Date loc hf _ _ N 0 0 0 0 hq ⟨h1, by omega⟩ (by omega) (by omega) (by omega)
      (by omega)
  · rw [hB]
    exact Clock_Date loc hf _ _ N 0 0 0 0 (by omega) (by omega) (by omega) (by omega)

theorem lexToks_sp_of (U : RuneTables) (n : Nat) (R : List Char) :
    lexToks U (n + 3) .readDurationNext (" of ".data ++ R) =
      lexToks U n .readExpr ("of ".data ++ R) := by
  have h : lexRun U (n + 3) .readDurationNext ⟨" of ".data ++ R, 0, 0, 0, []⟩ =
      lexRun U n .readExpr ⟨" of ".data ++ R, 1, 1, 1, []⟩ := by
    simp [lexRun, lexStep, readDurationNext, readDurationSpace, readDurationSpaceNext,
      readFn_eq, peekFn_eq, lexer.peek, lexer.read, lexer.unread, lexer.ignore, lexer.emit,
      lexer.emitAs, lexer.value, List.takeWhile, List.dropWhile, isLetter, isDigit,
      isAsciiDigit, isSpace, stringsToLower, toLower, numberWord]
  rw [lexToks, h]
  refine (lexRun_cut U n .readExpr [' '] ("of ".data ++ R) [] 1).trans ?_
  cases lexToks U n .readExpr ("of ".data ++ R) <;> rfl

theorem lexToks_last_day_of (U : RuneTables) (n : Nat) (R : List Char) :
    lexToks U (n + 9) .readExpr ("last day of ".data ++ R) =
      (lexToks U n .readExpr R).map (fun t =>
        [⟨.tokenKeyword, "last"⟩, ⟨.tokenUnit, "day"⟩, ⟨.tokenKeyword, "of"⟩] ++ t) := by
  rw [show "last day of ".data ++ R = ("last" ++ " ").data ++ ("day".data ++ ' ' :: ("of ".data ++ R)) from rfl,
    lexToks_word_sp U (n + 7) "last" _ [⟨.tokenKeyword, "last"⟩] (by decide) (by decide),
    lexToks_unit U (n + 5) "day" _ (by decide),
    show ' ' :: ("of ".data ++ R) = " of ".data ++ R from rfl,
    lexToks_sp_of U (n + 2) R,
    show "of ".data ++ R = ("of" ++ " ").data ++ R from rfl,
    lexToks_word_sp U n "of" R [⟨.tokenKeyword, "of"⟩] (by decide) (by decide)]
  cases lexToks U n .readExpr R <;> rfl

theorem lexToks_sp_last_day_of (U : RuneTables) (n : Nat) (R : List Char) :
    lexToks U (n + 9) .readExpr (" last day of ".data ++ R) =
      (lexToks U n .readExpr R).map (fun t =>
        [⟨.tokenKeyword, "last"⟩, ⟨.tokenUnit, "day"⟩, ⟨.tokenKeyword, "of"⟩] ++ t) := by
  rw [show " last day of ".data ++ R = ' ' :: ("last day of ".data ++ R) from rfl, lexToks_skip1,
    lexToks_last_day_of]

theorem lex_last_day (U : RuneTables) :
    lex U "last day of the month" =
      .ok [⟨.tokenKeyword, "last"⟩, ⟨.tokenUnit, "day"⟩, ⟨.tokenKeyword, "of"⟩,
        ⟨.tokenKeyword, "the"⟩, ⟨.tokenUnit, "month"⟩] ∧
    lex U "last day of last month" =
      .ok [⟨.tokenKeyword, "last"⟩, ⟨.tokenUnit, "day"⟩, ⟨.tokenKeyword, "of"⟩,
        ⟨.tokenKeyword, "last"⟩, ⟨.tokenUnit, "month"⟩] ∧
    lex U "last day of next month" =
      .ok [⟨.tokenKeyword, "last"⟩, ⟨.tokenUnit, "day"⟩, ⟨.tokenKeyword, "of"⟩,
        ⟨.tokenKeyword, "next"⟩, ⟨.tokenUnit, "month"⟩] :=
  ⟨lex_closed U _ _ (by decide) (by decide), lex_closed U _ _ (by decide) (by decide),
    lex_closed U _ _ (by decide) (by decide)⟩

theorem lex_nth_last_day (U : RuneTables) (ds : List Char) (x : String) (hd : isCount ds)
    (hx : x ∈ suffixes) :
    lex U (String.mk ds ++ x ++ " last day of the month") =
      .ok [⟨.tokenDigit, String.mk ds⟩, ⟨.tokenOrdinal, x⟩, ⟨.tokenKeyword, "last"⟩,
        ⟨.tokenUnit, "day"⟩, ⟨.tokenKeyword, "of"⟩, ⟨.tokenKeyword, "the"⟩,
        ⟨.tokenUnit, "month"⟩] ∧
    lex U (String.mk ds ++ x ++ " last day of last month") =
      .ok [⟨.tokenDigit, String.mk ds⟩, ⟨.tokenOrdinal, x⟩, ⟨.tokenKeyword, "last"⟩,
        ⟨.tokenUnit, "day"⟩, ⟨.tokenKeyword, "of"⟩, ⟨.tokenKeyword, "last"⟩,
        ⟨.tokenUnit, "month"⟩] ∧
    lex U (String.mk ds ++ x ++ " last day of next month") =
      .ok [⟨.tokenDigit, String.mk ds⟩, ⟨.tokenOrdinal, x⟩, ⟨.tokenKeyword, "last"⟩,
        ⟨.tokenUnit, "day"⟩, ⟨.tokenKeyword, "of"⟩, ⟨.tokenKeyword, "next"⟩,
        ⟨.tokenUnit, "month"⟩] :=
  ⟨lex_nth_then U ds x hd hx _ _ (lex_closed U " last day of the month"
      [⟨.tokenKeyword, "last"⟩, ⟨.tokenUnit, "day"⟩, ⟨.tokenKeyword, "of"⟩,
        ⟨.tokenKeyword, "the"⟩, ⟨.tokenUnit, "month"⟩] (by decide) (by decide)) (by simp),
    lex_nth_then U ds x hd hx _ _ (lex_closed U " last day of last month"
      [⟨.tokenKeyword, "last"⟩, ⟨.tokenUnit, "day"⟩, ⟨.tokenKeyword, "of"⟩,
        ⟨.tokenKeyword, "last"⟩, ⟨.tokenUnit, "month"⟩] (by decide) (by decide)) (by simp),
    lex_nth_then U ds x hd hx _ _ (lex_closed U " last day of next month"
      [⟨.tokenKeyword, "last"⟩, ⟨.tokenUnit, "day"⟩, ⟨.tokenKeyword, "of"⟩,
        ⟨.tokenKeyword, "next"⟩, ⟨.tokenUnit, "month"⟩] (by decide) (by decide)) (by simp)⟩

theorem lex_last_day_month (U : RuneTables) (name : String) (m : Int)
    (h : (name, m) ∈ monthWords) (ds : List Char) (x : String) (hd : isCount ds)
    (hx : x ∈ suffixes) :
    lex U ("last day of " ++ name) =
      .ok [⟨.tokenKeyword, "last"⟩, ⟨.tokenUnit, "day"⟩, ⟨.tokenKeyword, "of"⟩,
        ⟨.tokenMonth, name⟩] ∧
    lex U (String.mk ds ++ x ++ (" last day of " ++ name)) =
      .ok [⟨.tokenDigit, String.mk ds⟩, ⟨.tokenOrdinal, x⟩, ⟨.tokenKeyword, "last"⟩,
        ⟨.tokenUnit, "day"⟩, ⟨.tokenKeyword, "of"⟩, ⟨.tokenMonth, name⟩] := by
  have hm := (lex_month U name m h).1
  exact ⟨lex_prefixed U "last day of " _ 9 (by decide) (lexToks_last_day_of U) name _ hm (by simp),
    lex_nth_then U ds x hd hx _ _
      (lex_prefixed U " last day of " _ 9 (by decide) (lexToks_sp_last_day_of U) name _ hm
        (by simp)) (by simp)⟩

theorem parse_last_day (U : RuneTables) (now : Time) :
    ParseNow U "last day of the month" now = .ok ((Date now.Date.1 now.Date.2.1 1 0 0 0 0 now.loc).AddDate 0 1 (-1)) ∧
    ParseNow U "last day of last month" now = .ok ((Date now.Date.1 now.Date.2.1 1 0 0 0 0 now.loc).AddDate 0 0 (-1)) ∧
    ParseNow U "last day of next month" now = .ok ((Date now.Date.1 now.Date.2.1 1 0 0 0 0 now.loc).AddDate 0 2 (-1)) := by
  obtain ⟨z1, z2⟩ := zero_facts
  obtain ⟨l1, l2, l3⟩ := lex_last_day U
  refine ⟨?_, ?_, ?_⟩
  · rw [ParseNow_of_lex U _ now _ l1 (by simp)]
    simp [parseFuel, parseRun, parseStep, parser.parseExpr, parser.parseExprDigit,
      parser.parseDateTime, parser.parseKeyword, parser.parseDigitOrdinal,
      parser.parseDigitOrdinalKeyword, parser.parseDigitOrdinalLast,
      parser.parseDigitOrdinalLastDay, parser.parseDigitOrdinalLastDayOf,
      parser.parseDigitOrdinalLastDayOfKeyword, parser.parseDigitOrdinalLastDayOfMonth,
      parser.parseTime, parser.peek, parser.next, Time.Location, Time.Year, Time.Month, z2]
  · rw [ParseNow_of_lex U _ now _ l2 (by simp)]
    simp [parseFuel, parseRun, parseStep, parser.parseExpr, parser.parseExprDigit,
      parser.parseDateTime, parser.parseKeyword, parser.parseDigitOrdinal,
      parser.parseDigitOrdinalKeyword, parser.parseDigitOrdinalLast,
      parser.parseDigitOrdinalLastDay, parser.parseDigitOrdinalLastDayOf,
      parser.parseDigitOrdinalLastDayOfKeyword, parser.parseDigitOrdinalLastDayOfMonth,
      parser.parseTime, parser.peek, parser.next, Time.Location, Time.Year, Time.Month, z2]
  · rw [ParseNow_of_lex U _ now _ l3 (by simp)]
    simp [parseFuel, parseRun, parseStep, parser.parseExpr, parser.parseExprDigit,
      parser.parseDateTime, parser.parseKeyword, parser.parseDigitOrdinal,
      parser.parseDigitOrdinalKeyword, parser.parseDigitOrdinalLast,
      parser.parseDigitOrdinalLastDay, parser.parseDigitOrdinalLastDayOf,
      parser.parseDigitOrdinalLastDayOfKeyword, parser.parseDigitOrdinalLastDayOfMonth,
      parser.parseTime, parser.peek, parser.next, Time.Location, Time.Year, Time.Month, z2]

theorem parse_nth_last_day (U : RuneTables) (now : Time) (ds : List Char) (x : String)
    (hd : isCount ds) (hx : x ∈ suffixes) (h2 : (countValue ds : Int) ≤ maxInt64) :
    ParseNow U (String.mk ds ++ x ++ " last day of the month") now =
      .ok ((Date now.Date.1 now.Date.2.1 1 0 0 0 0 now.loc).AddDate 0 1 (-(countValue ds : Int))) ∧
    ParseNow U (String.mk ds ++ x ++ " last day of last month") now =
      .ok ((Date now.Date.1 now.Date.2.1 1 0 0 0 0 now.loc).AddDate 0 0 (-(countValue ds : Int))) ∧
    ParseNow U (String.mk ds ++ x ++ " last day of next month") now =
      .ok ((Date now.Date.1 now.Date.2.1 1 0 0 0 0 now.loc).AddDate 0 2 (-(countValue ds : Int))) := by
  obtain ⟨z1, z2⟩ := zero_facts
  obtain ⟨l1, l2, l3⟩ := lex_nth_last_day U ds x hd hx
  have hA := Atoi_small ds hd h2
  refine ⟨?_, ?_, ?_⟩
  · rw [ParseNow_of_lex U _ now _ l1 (by simp)]
    simp [parseFuel, parseRun, parseStep, parser.parseExpr, parser.parseExprDigit,
      parser.parseDateTime, parser.parseKeyword, parser.parseDigitOrdinal,
      parser.parseDigitOrdinalKeyword, parser.parseDigitOrdinalLast,
      parser.parseDigitOrdinalLastDay, parser.parseDigitOrdinalLastDayOf,
      parser.parseDigitOrdinalLastDayOfKeyword, parser.parseDigitOrdinalLastDayOfMonth,
      parser.parseTime, parser.peek, parser.next, Time.Location, Time.Year, Time.Month, z2,
      hA]
  · rw [ParseNow_of_lex U _ now _ l2 (by simp)]
    simp [parseFuel, parseRun, parseStep, parser.parseExpr, parser.parseExprDigit,
      parser.parseDateTime, parser.parseKeyword, parser.parseDigitOrdinal,
      parser.parseDigitOrdinalKeyword, parser.parseDigitOrdinalLast,
      parser.parseDigitOrdinalLastDay, parser.parseDigitOrdinalLastDayOf,
      parser.parseDigitOrdinalLastDayOfKeyword, parser.parseDigitOrdinalLastDayOfMonth,
      parser.parseTime, parser.peek, parser.next, Time.Location, Time.Year, Time.Month, z2,
      hA]
  · rw [ParseNow_of_lex U _ now _ l3 (by simp)]
    simp [parseFuel, parseRun, parseStep, parser.parseExpr, parser.parseExprDigit,
      parser.parseDateTime, parser.parseKeyword, parser.parseDigitOrdinal,
      parser.parseDigitOrdinalKeyword, parser.parseDigitOrdinalLast,
      parser.parseDigitOrdinalLastDay, parser.parseDigitOrdinalLastDayOf,
      parser.parseDigitOrdinalLastDayOfKeyword, parser.parseDigitOrdinalLastDayOfMonth,
      parser.parseTime, parser.peek, parser.next, Time.Location, Time.Year, Time.Month, z2,
      hA]

theorem parse_last_day_month (U : RuneTables) (now : Time) (name : String) (m : Int)
    (h : (name, m) ∈ monthWords) (ds : List Char) (x : String)
    (hd : isCount ds) (hx : x ∈ suffixes) (h2 : (countValue ds : Int) ≤ maxInt64) :
    ParseNow U ("last day of " ++ name) now =
      .ok ((Date now.Date.1 m 1 0 0 0 0 now.loc).AddDate 0 1 (-1)) ∧
    ParseNow U (String.mk ds ++ x ++ (" last day of " ++ name)) now =
      .ok ((Date now.Date.1 m 1 0 0 0 0 now.loc).AddDate 0 1 (-(countValue ds : Int))) := by
  obtain ⟨z1, z2⟩ := zero_facts
  obtain ⟨l1, l2⟩ := lex_last_day_month U name m h ds x hd hx
  have hA := Atoi_small ds hd h2
  obtain ⟨v1, -, -⟩ := month_value U name m h
  refine ⟨?_, ?_⟩
  · rw [ParseNow_of_lex U _ now _ l1 (by simp)]
    simp [parseFuel, parseRun, parseStep, parser.parseExpr, parser.parseExprDigit,
      parser.parseDateTime, parser.parseKeyword, parser.parseDigitOrdinal,
      parser.parseDigitOrdinalKeyword, parser.parseDigitOrdinalLast,
      parser.parseDigitOrdinalLastDay, parser.parseDigitOrdinalLastDayOf,
      parser.parseDigitOrdinalLastDayOfKeyword, parser.parseDigitOrdinalLastDayOfMonth,
      parser.parseTime, parser.peek, parser.next, Time.Location, Time.Year, Time.Month, z2,
      hA, v1]
  · rw [ParseNow_of_lex U _ now _ l2 (by simp)]
    simp [parseFuel, parseRun, parseStep, parser.parseExpr, parser.parseExprDigit,
      parser.parseDateTime, parser.parseKeyword, parser.parseDigitOrdinal,
      parser.parseDigitOrdinalKeyword, parser.parseDigitOrdinalLast,
      parser.parseDigitOrdinalLastDay, parser.parseDigitOrdinalLastDayOf,
      parser.parseDigitOrdinalLastDayOfKeyword, parser.parseDigitOrdinalLastDayOfMonth,
      parser.parseTime, parser.peek, parser.next, Time.Location, Time.Year, Time.Month, z2,
      hA, v1]

theorem norm_next2 (y m : Int) (hm : 1 ≤ m ∧ m ≤ 12) :
    norm y (m + 2 - 1) 12 =
      ((nextMonth (nextMonth y m).1 (nextMonth y m).2).1,
        (nextMonth (nextMonth y m).1 (nextMonth y m).2).2 - 1) := by
  by_cases h12 : m = 12
  · subst h12
    simp [norm, nextMonth]
  · by_cases h11 : m = 11
    · subst h11
      simp [norm, nextMonth]
    · rw [norm_id y (m + 2 - 1) 12 (by omega) (by omega)]
      have e1 : ¬ (m + 1 = 12) := by omega
      simp [nextMonth, h12, e1]
      omega

theorem civilDays_next2 (y m d : Int) (hm : 1 ≤ m ∧ m ≤ 12) :
    civilDays y (m + 2) d =
      dateDays (nextMonth (nextMonth y m).1 (nextMonth y m).2).1
        (nextMonth (nextMonth y m).1 (nextMonth y m).2).2 d := by
  unfold civilDays
  rw [norm_next2 y m hm, Int.sub_add_cancel]

theorem last_day_fixed (loc : Location) (hf : loc.Fixed) (y M N : Int) (hM : 1 ≤ M ∧ M ≤ 12) :
    (Date y M 1 0 0 0 0 loc).AddDate 0 1 (-N) = lastDay loc y M N ∧
    (Date y M 1 0 0 0 0 loc).AddDate 0 0 (-N) =
      lastDay loc (prevMonth y M).1 (prevMonth y M).2 N ∧
    (Date y M 1 0 0 0 0 loc).AddDate 0 2 (-N) =
      lastDay loc (nextMonth y M).1 (nextMonth y M).2 N := by
  have d0 := daysIn_range M y hM
  have hp := prevMonth_range y M hM
  have hq := nextMonth_range y M hM
  have hDD := Date_Date loc hf y M 1 0 0 0 0 hM ⟨by omega, by omega⟩
    (by omega) (by omega) (by omega) (by omega)
  have hCl := Clock_Date loc hf y M 1 0 0 0 0 (by omega) (by omega) (by omega) (by omega)
  have hn := Date_nsec loc y M 1 0 0 0
  have hA := AddDate_of _ _ _ _ _ _ _ 0 1 (-N) hDD hCl
  have hB := AddDate_of _ _ _ _ _ _ _ 0 0 (-N) hDD hCl
  have hC := AddDate_of _ _ _ _ _ _ _ 0 2 (-N) hDD hCl
  rw [hn, Int.add_zero, Date_loc] at hA hB hC
  rw [Int.add_zero] at hB
  rw [hA, hB, hC]
  unfold lastDay
  have e1 : civilDays y (M + 1) (1 + -N) = civilDays y M (daysIn M y - (N - 1)) := by
    rw [civilDays_next _ _ _ hM, dateDays_day, dateDays_next _ _ _ hM, civilDays_in _ _ _ hM,
      show daysIn M y - (N - 1) = 1 + (daysIn M y - N) by omega, dateDays_day]
    omega
  have e2 : civilDays y M (1 + -N) = civilDays (prevMonth y M).1 (prevMonth y M).2
      (daysIn (prevMonth y M).2 (prevMonth y M).1 - (N - 1)) := by
    rw [civilDays_in _ _ _ hM, dateDays_day, dateDays_prev _ _ _ hM, civilDays_in _ _ _ hp,
      show daysIn (prevMonth y M).2 (prevMonth y M).1 - (N - 1) =
        1 + (daysIn (prevMonth y M).2 (prevMonth y M).1 - N) by omega, dateDays_day]
    omega
  have e3 : civilDays y (M + 2) (1 + -N) = civilDays (nextMonth y M).1 (nextMonth y M).2
      (daysIn (nextMonth y M).2 (nextMonth y M).1 - (N - 1)) := by
    rw [civilDays_next2 _ _ _ hM, dateDays_day, dateDays_next _ _ _ hq, civilDays_in _ _ _ hq,
      show daysIn (nextMonth y M).2 (nextMonth y M).1 - (N - 1) =
        1 + (daysIn (nextMonth y M).2 (nextMonth y M).1 - N) by omega, dateDays_day]
    omega
  refine ⟨?_, ?_, ?_⟩
  · rw [Date_any_fixed loc hf y (M + 1) _ 0 0 0 0 (by omega) (by omega) (by omega) (by omega),
      Date_any_fixed loc hf y M _ 0 0 0 0 (by omega) (by omega) (by omega) (by omega), e1]
  · rw [Date_any_fixed loc hf y M _ 0 0 0 0 (by omega) (by omega) (by omega) (by omega),
      Date_any_fixed loc hf (prevMonth y M).1 _ _ 0 0 0 0 (by omega) (by omega) (by omega)
        (by omega), e2]
  · rw [Date_any_fixed loc hf y (M + 2) _ 0 0 0 0 (by omega) (by omega) (by omega) (by omega),
      Date_any_fixed loc hf (nextMonth y M).1 _ _ 0 0 0 0 (by omega) (by omega) (by omega)
        (by omega), e3]

theorem lastDay_facts (loc : Location) (hf : loc.Fixed) (y m N : Int) (hm : 1 ≤ m ∧ m ≤ 12) :
    (lastDay loc y m N).Clock = (0, 0, 0) ∧
      (lastDay loc y m N).abs / 86400 = dateDays y m (daysIn m y) - (N - 1) ∧
      (1 ≤ N → N ≤ 28 → (lastDay loc y m N).Date = (y, m, daysIn m y - (N - 1))) := by
  have d0 := daysIn_range m y hm
  unfold lastDay
  refine ⟨Clock_Date loc hf _ _ _ 0 0 0 0 (by omega) (by omega) (by omega) (by omega), ?_, ?_⟩
  · rw [(day_Date loc hf _ _ _ 0 0 0 0 (by omega) (by omega) (by omega) (by omega)).1,
      civilDays_in _ _ _ hm, show daysIn m y - (N - 1) = daysIn m y + (-(N - 1)) by omega,
      dateDays_day]
    omega
  · intro h1 h28
    exact Date_Date loc hf y m _ 0 0 0 0 hm ⟨by omega, by omega⟩ (by omega) (by omega)
      (by omega) (by omega)

theorem lex_sp_weekday (U : RuneTables) (name : String) (w : Int) (h : (name, w) ∈ weekdayTable)
    (s : String) (ts : List token) (hs : lex U s = .ok ts) (hne : ts ≠ []) :
    lex U (" " ++ name ++ " " ++ s) = .ok (⟨.tokenWeekday, name⟩ :: ts) ∧
    lex U (" last " ++ (name ++ " " ++ s)) =
      .ok (⟨.tokenKeyword, "last"⟩ :: ⟨.tokenWeekday, name⟩ :: ts) ∧
    lex U ("last " ++ (name ++ " " ++ s)) =
      .ok (⟨.tokenKeyword, "last"⟩ :: ⟨.tokenWeekday, name⟩ :: ts) := by
  obtain ⟨w1, w2, -⟩ := weekday_words _ h
  have hlen : 1 ≤ name.data.length := by
    obtain ⟨⟨c, hc, -⟩, -⟩ := w1
    cases hd : name.data with
    | nil => rw [hd] at hc; simp at hc
    | cons a b => simp
  have hq : ∀ n R, lexToks U (n + 2) .readExpr ((name ++ " ").data ++ R) =
      (lexToks U n .readExpr R).map (fun t => [⟨.tokenWeekday, name⟩] ++ t) :=
    fun n R => lexToks_word_sp U n name R _ w1 w2
  have hq2 : ∀ n R, lexToks U (n + 2) .readExpr ((" " ++ name ++ " ").data ++ R) =
      (lexToks U n .readExpr R).map (fun t => [⟨.tokenWeekday, name⟩] ++ t) :=
    fun n R => lexToks_sp_word_sp U n name R _ w1 w2
  have hp : ∀ n R, lexToks U (n + 2) .readExpr ("last ".data ++ R) =
      (lexToks U n .readExpr R).map (fun t => [⟨.tokenKeyword, "last"⟩] ++ t) :=
    fun n R => lexToks_word_sp U n "last" R _ (by decide) (by decide)
  have hp2 : ∀ n R, lexToks U (n + 2) .readExpr (" last ".data ++ R) =
      (lexToks U n .readExpr R).map (fun t => [⟨.tokenKeyword, "last"⟩] ++ t) :=
    fun n R => lexToks_sp_word_sp U n "last" R _ (by decide) (by decide)
  have h1 : lex U (name ++ " " ++ s) = .ok (⟨.tokenWeekday, name⟩ :: ts) :=
    lex_prefixed U (name ++ " ") _ 2 (by simp; omega) hq s ts hs hne
  refine ⟨?_, ?_, ?_⟩
  · exact lex_prefixed U (" " ++ name ++ " ") _ 2 (by simp; omega) hq2 s ts hs hne
  · exact lex_prefixed U " last " _ 2 (by decide) hp2 _ _ h1 (by simp)
  · exact lex_prefixed U "last " _ 2 (by decide) hp _ _ h1 (by simp)

theorem times_week (loc : Location) (hf : loc.Fixed) (j : Int) : ∀ (k : Nat) (s : Int),
    times k (fun t => t.AddDate 0 0 j) ⟨s, 0, loc⟩ = ⟨s + 86400 * j * k, 0, loc⟩
  | 0, s => by
    simp only [times, Time.mk.injEq, and_true]
    omega
  | k + 1, s => by
    rw [times, AddDate_days_fixed ⟨s, 0, loc⟩ hf (by simp only [Time.Valid]; omega), times_week loc hf j k]
    simp only [Time.mk.injEq, and_true]
    rw [Int.natCast_add, Int.mul_add]
    omega

theorem forward_fixed (loc : Location) (hf : loc.Fixed) (y m N w : Int) (hm : 1 ≤ m ∧ m ≤ 12)
    (hN : 1 ≤ N) :
    forwardToWeekday (Date y m 1 0 0 0 0 loc) N w =
      Date y m (1 + ((if w - (dateDays y m 1 + 1) % 7 < 0 then w - (dateDays y m 1 + 1) % 7 + 7
        else w - (dateDays y m 1 + 1) % 7) + 7 * (N - 1))) 0 0 0 0 loc := by
  have hW := Weekday_Date loc hf y m 1 0 0 0 0 (by omega) (by omega) (by omega) (by omega)
  rw [civilDays_in _ _ _ hm] at hW
  unfold forwardToWeekday
  simp only [hW]
  rw [Date_any_fixed loc hf y m 1 0 0 0 0 (by omega) (by omega) (by omega) (by omega),
    AddDate_days_fixed ⟨_, 0, loc⟩ hf (by simp), times_week loc hf 7,
    Date_any_fixed loc hf y m _ 0 0 0 0 (by omega) (by omega) (by omega) (by omega),
    civilDays_in _ _ _ hm, civilDays_in _ _ _ hm, dateDays_day]
  simp only [Time.mk.injEq, and_true]
  have : (((N - 1).toNat : Nat) : Int) = N - 1 := by omega
  rw [this]
  split <;> omega

theorem backward_fixed (loc : Location) (hf : loc.Fixed) (y m N w : Int) (hm : 1 ≤ m ∧ m ≤ 12)
    (hN : 1 ≤ N) :
    backToWeekday (lastDay loc y m 1) N w =
      Date y m (daysIn m y - ((if (dateDays y m (daysIn m y) + 1) % 7 - w < 0
          then (dateDays y m (daysIn m y) + 1) % 7 - w + 7
        else (dateDays y m (daysIn m y) + 1) % 7 - w) + 7 * (N - 1))) 0 0 0 0 loc := by
  have hW := Weekday_Date loc hf y m (daysIn m y) 0 0 0 0 (by omega) (by omega) (by omega)
    (by omega)
  rw [civilDays_in _ _ _ hm] at hW
  unfold backToWeekday lastDay
  rw [show daysIn m y - (1 - 1) = daysIn m y by omega]
  simp only [hW]
  rw [Date_any_fixed loc hf y m (daysIn m y) 0 0 0 0 (by omega) (by omega) (by omega) (by omega),
    AddDate_days_fixed ⟨_, 0, loc⟩ hf (by simp), times_week loc hf (-7),
    Date_any_fixed loc hf y m _ 0 0 0 0 (by omega) (by omega) (by omega) (by omega),
    civilDays_in _ _ _ hm, civilDays_in _ _ _ hm]
  have e : ∀ k : Int, dateDays y m (daysIn m y - k) = dateDays y m (daysIn m y) - k := by
    intro k
    rw [show daysIn m y - k = daysIn m y + -k by omega, dateDays_day]
    omega
  rw [e]
  simp only [Time.mk.injEq, and_true]
  have : (((N - 1).toNat : Nat) : Int) = N - 1 := by omega
  rw [this]
  split <;> omega

theorem month_tail (U : RuneTables) :
    lex U "of the month" = .ok [⟨.tokenKeyword, "of"⟩, ⟨.tokenKeyword, "the"⟩, ⟨.tokenUnit, "month"⟩] ∧
    lex U "of last month" = .ok [⟨.tokenKeyword, "of"⟩, ⟨.tokenKeyword, "last"⟩, ⟨.tokenUnit, "month"⟩] ∧
    lex U "of next month" = .ok [⟨.tokenKeyword, "of"⟩, ⟨.tokenKeyword, "next"⟩, ⟨.tokenUnit, "month"⟩] :=
  ⟨lex_closed U _ _ (by decide) (by decide), lex_closed U _ _ (by decide) (by decide),
    lex_closed U _ _ (by decide) (by decide)⟩

theorem parse_nth_weekday (U : RuneTables) (now : Time) (ds : List Char) (x : String)
    (name : String) (w : Int) (hd : isCount ds) (hx : x ∈ suffixes)
    (h2 : (countValue ds : Int) ≤ maxInt64) (hw : (name, w) ∈ weekdayTable) :
    ParseNow U (String.mk ds ++ x ++ (" " ++ name ++ " " ++ "of the month")) now =
      .ok (forwardToWeekday (Date now.Date.1 now.Date.2.1 1 0 0 0 0 now.loc) (countValue ds : Int) w) ∧
    ParseNow U (String.mk ds ++ x ++ (" " ++ name ++ " " ++ "of last month")) now =
      .ok (forwardToWeekday ((Date now.Date.1 now.Date.2.1 1 0 0 0 0 now.loc).AddDate 0 (-1) 0) (countValue ds : Int) w) ∧
    ParseNow U (String.mk ds ++ x ++ (" " ++ name ++ " " ++ "of next month")) now =
      .ok (forwardToWeekday ((Date now.Date.1 now.Date.2.1 1 0 0 0 0 now.loc).AddDate 0 1 0) (countValue ds : Int) w) := by
  obtain ⟨z1, z2⟩ := zero_facts
  obtain ⟨t1, t2, t3⟩ := month_tail U
  have hA := Atoi_small ds hd h2
  obtain ⟨v1, -, -⟩ := weekday_value U name w hw
  refine ⟨?_, ?_, ?_⟩
  · rw [ParseNow_of_lex U _ now _ (lex_nth_then U ds x hd hx _ _
      (lex_sp_weekday U name w hw _ _ t1 (by simp)).1 (by simp)) (by simp)]
    simp [parseFuel, parseRun, parseStep, parser.parseExpr, parser.parseExprDigit,
      parser.parseDateTime, parser.parseKeyword, parser.parseDigitOrdinal,
      parser.parseDigitOrdinalKeyword, parser.parseDigitOrdinalLast,
      parser.parseDigitOrdinalLastWeekday, parser.parseDigitOrdinalLastWeekdayOf,
      parser.parseDigitOrdinalLastWeekdayOfKeyword, parser.parseDigitOrdinalWeekday,
      parser.parseDigitOrdinalWeekdayOf, parser.parseDigitOrdinalWeekdayOfKeyword,
      parser.parseTime, parser.peek, parser.next, Time.Location, Time.Year, Time.Month, z2,
      hA, v1]
  · rw [ParseNow_of_lex U _ now _ (lex_nth_then U ds x hd hx _ _
      (lex_sp_weekday U name w hw _ _ t2 (by simp)).1 (by simp)) (by simp)]
    simp [parseFuel, parseRun, parseStep, parser.parseExpr, parser.parseExprDigit,
      parser.parseDateTime, parser.parseKeyword, parser.parseDigitOrdinal,
      parser.parseDigitOrdinalKeyword, parser.parseDigitOrdinalLast,
      parser.parseDigitOrdinalLastWeekday, parser.parseDigitOrdinalLastWeekdayOf,
      parser.parseDigitOrdinalLastWeekdayOfKeyword, parser.parseDigitOrdinalWeekday,
      parser.parseDigitOrdinalWeekdayOf, parser.parseDigitOrdinalWeekdayOfKeyword,
      parser.parseTime, parser.peek, parser.next, Time.Location, Time.Year, Time.Month, z2,
      hA, v1]
  · rw [ParseNow_of_lex U _ now _ (lex_nth_then U ds x hd hx _ _
      (lex_sp_weekday U name w hw _ _ t3 (by simp)).1 (by simp)) (by simp)]
    simp [parseFuel, parseRun, parseStep, parser.parseExpr, parser.parseExprDigit,
      parser.parseDateTime, parser.parseKeyword, parser.parseDigitOrdinal,
      parser.parseDigitOrdinalKeyword, parser.parseDigitOrdinalLast,
      parser.parseDigitOrdinalLastWeekday, parser.parseDigitOrdinalLastWeekdayOf,
      parser.parseDigitOrdinalLastWeekdayOfKeyword, parser.parseDigitOrdinalWeekday,
      parser.parseDigitOrdinalWeekdayOf, parser.parseDigitOrdinalWeekdayOfKeyword,
      parser.parseTime, parser.peek, parser.next, Time.Location, Time.Year, Time.Month, z2,
      hA, v1]

theorem parse_nth_last_weekday (U : RuneTables) (now : Time) (ds : List Char) (x : String)
    (name : String) (w : Int) (hd : isCount ds) (hx : x ∈ suffixes)
    (h2 : (countValue ds : Int) ≤ maxInt64) (hw : (name, w) ∈ weekdayTable) :
    ParseNow U (String.mk ds ++ x ++ (" last " ++ (name ++ " " ++ "of the month"))) now =
      .ok (backToWeekday ((Date now.Date.1 now.Date.2.1 1 0 0 0 0 now.loc).AddDate 0 1 (-1)) (countValue ds : Int) w) ∧
    ParseNow U (String.mk ds ++ x ++ (" last " ++ (name ++ " " ++ "of last month"))) now =
      .ok (backToWeekday ((Date now.Date.1 now.Date.2.1 1 0 0 0 0 now.loc).AddDate 0 0 (-1)) (countValue ds : Int) w) ∧
    ParseNow U (String.mk ds ++ x ++ (" last " ++ (name ++ " " ++ "of next month"))) now =
      .ok (backToWeekday ((Date now.Date.1 now.Date.2.1 1 0 0 0 0 now.loc).AddDate 0 2 (-1)) (countValue ds : Int) w) := by
  obtain ⟨z1, z2⟩ := zero_facts
  obtain ⟨t1, t2, t3⟩ := month_tail U
  have hA := Atoi_small ds hd h2
  obtain ⟨v1, -, -⟩ := weekday_value U name w hw
  refine ⟨?_, ?_, ?_⟩
  · rw [ParseNow_of_lex U _ now _ (lex_nth_then U ds x hd hx _ _
      (lex_sp_weekday U name w hw _ _ t1 (by simp)).2.1 (by simp)) (by simp)]
    simp [parseFuel, parseRun, parseStep, parser.parseExpr, parser.parseExprDigit,
      parser.parseDateTime, parser.parseKeyword, parser.parseDigitOrdinal,
      parser.parseDigitOrdinalKeyword, parser.parseDigitOrdinalLast,
      parser.parseDigitOrdinalLastWeekday, parser.parseDigitOrdinalLastWeekdayOf,
      parser.parseDigitOrdinalLastWeekdayOfKeyword, parser.parseDigitOrdinalWeekday,
      parser.parseDigitOrdinalWeekdayOf, parser.parseDigitOrdinalWeekdayOfKeyword,
      parser.parseTime, parser.peek, parser.next, Time.Location, Time.Year, Time.Month, z2,
      hA, v1]
  · rw [ParseNow_of_lex U _ now _ (lex_nth_then U ds x hd hx _ _
      (lex_sp_weekday U name w hw _ _ t2 (by simp)).2.1 (by simp)) (by simp)]
    simp [parseFuel, parseRun, parseStep, parser.parseExpr, parser.parseExprDigit,
      parser.parseDateTime, parser.parseKeyword, parser.parseDigitOrdinal,
      parser.parseDigitOrdinalKeyword, parser.parseDigitOrdinalLast,
      parser.parseDigitOrdinalLastWeekday, parser.parseDigitOrdinalLastWeekdayOf,
      parser.parseDigitOrdinalLastWeekdayOfKeyword, parser.parseDigitOrdinalWeekday,
      parser.parseDigitOrdinalWeekdayOf, parser.parseDigitOrdinalWeekdayOfKeyword,
      parser.parseTime, parser.peek, parser.next, Time.Location, Time.Year, Time.Month, z2,
      hA, v1]
  · rw [ParseNow_of_lex U _ now _ (lex_nth_then U ds x hd hx _ _
      (lex_sp_weekday U name w hw _ _ t3 (by simp)).2.1 (by simp)) (by simp)]
    simp [parseFuel, parseRun, parseStep, parser.parseExpr, parser.parseExprDigit,
      parser.parseDateTime, parser.parseKeyword, parser.parseDigitOrdinal,
      parser.parseDigitOrdinalKeyword, parser.parseDigitOrdinalLast,
      parser.parseDigitOrdinalLastWeekday, parser.parseDigitOrdinalLastWeekdayOf,
      parser.parseDigitOrdinalLastWeekdayOfKeyword, parser.parseDigitOrdinalWeekday,
      parser.parseDigitOrdinalWeekdayOf, parser.parseDigitOrdinalWeekdayOfKeyword,
      parser.parseTime, parser.peek, parser.next, Time.Location, Time.Year, Time.Month, z2,
      hA, v1]

theorem parse_last_weekday_of (U : RuneTables) (now : Time)
    (name : String) (w : Int) (hw : (name, w) ∈ weekdayTable) :
    ParseNow U ("last " ++ (name ++ " " ++ "of the month")) now =
      .ok (backToWeekday ((Date now.Date.1 now.Date.2.1 1 0 0 0 0 now.loc).AddDate 0 1 (-1)) 1 w) ∧
    ParseNow U ("last " ++ (name ++ " " ++ "of last month")) now =
      .ok (backToWeekday ((Date now.Date.1 now.Date.2.1 1 0 0 0 0 now.loc).AddDate 0 0 (-1)) 1 w) ∧
    ParseNow U ("last " ++ (name ++ " " ++ "of next month")) now =
      .ok (backToWeekday ((Date now.Date.1 now.Date.2.1 1 0 0 0 0 now.loc).AddDate 0 2 (-1)) 1 w) := by
  obtain ⟨z1, z2⟩ := zero_facts
  obtain ⟨t1, t2, t3⟩ := month_tail U
  obtain ⟨v1, -, -⟩ := weekday_value U name w hw
  refine ⟨?_, ?_, ?_⟩
  · rw [ParseNow_of_lex U _ now _ (lex_sp_weekday U name w hw _ _ t1 (by simp)).2.2 (by simp)]
    simp [parseFuel, parseRun, parseStep, parser.parseExpr, parser.parseExprDigit,
      parser.parseDateTime, parser.parseKeyword, parser.parseDigitOrdinal,
      parser.parseDigitOrdinalKeyword, parser.parseDigitOrdinalLast,
      parser.parseDigitOrdinalLastWeekday, parser.parseDigitOrdinalLastWeekdayOf,
      parser.parseDigitOrdinalLastWeekdayOfKeyword, parser.parseDigitOrdinalWeekday,
      parser.parseDigitOrdinalWeekdayOf, parser.parseDigitOrdinalWeekdayOfKeyword,
      parser.parseTime, parser.peek, parser.next, Time.Location, Time.Year, Time.Month, z2,
      v1]
  · rw [ParseNow_of_lex U _ now _ (lex_sp_weekday U name w hw _ _ t2 (by simp)).2.2 (by simp)]
    simp [parseFuel, parseRun, parseStep, parser.parseExpr, parser.parseExprDigit,
      parser.parseDateTime, parser.parseKeyword, parser.parseDigitOrdinal,
      parser.parseDigitOrdinalKeyword, parser.parseDigitOrdinalLast,
      parser.parseDigitOrdinalLastWeekday, parser.parseDigitOrdinalLastWeekdayOf,
      parser.parseDigitOrdinalLastWeekdayOfKeyword, parser.parseDigitOrdinalWeekday,
      parser.parseDigitOrdinalWeekdayOf, parser.parseDigitOrdinalWeekdayOfKeyword,
      parser.parseTime, parser.peek, parser.next, Time.Location, Time.Year, Time.Month, z2,
      v1]
  · rw [ParseNow_of_lex U _ now _ (lex_sp_weekday U name w hw _ _ t3 (by simp)).2.2 (by simp)]
    simp [parseFuel, parseRun, parseStep, parser.parseExpr, parser.parseExprDigit,
      parser.parseDateTime, parser.parseKeyword, parser.parseDigitOrdinal,
      parser.parseDigitOrdinalKeyword, parser.parseDigitOrdinalLast,
      parser.parseDigitOrdinalLastWeekday, parser.parseDigitOrdinalLastWeekdayOf,
      parser.parseDigitOrdinalLastWeekdayOfKeyword, parser.parseDigitOrdinalWeekday,
      parser.parseDigitOrdinalWeekdayOf, parser.parseDigitOrdinalWeekdayOfKeyword,
      parser.parseTime, parser.peek, parser.next, Time.Location, Time.Year, Time.Month, z2,
      v1]

theorem weekday_day_facts (loc : Location) (hf : loc.Fixed) (y m N w : Int)
    (hm : 1 ≤ m ∧ m ≤ 12) (hw : 0 ≤ w ∧ w ≤ 6) (hN : 1 ≤ N ∧ N ≤ 4) :
    (7 * (N - 1) < nthWeekdayDay y m N w ∧ nthWeekdayDay y m N w ≤ 7 * N ∧
      (Date y m (nthWeekdayDay y m N w) 0 0 0 0 loc).Date = (y, m, nthWeekdayDay y m N w) ∧
      (Date y m (nthWeekdayDay y m N w) 0 0 0 0 loc).Weekday = w ∧
      (Date y m (nthWeekdayDay y m N w) 0 0 0 0 loc).Clock = (0, 0, 0)) ∧
    (daysIn m y - 7 * N < nthLastWeekdayDay y m N w ∧
      nthLastWeekdayDay y m N w ≤ daysIn m y - 7 * (N - 1) ∧
      (Date y m (nthLastWeekdayDay y m N w) 0 0 0 0 loc).Date = (y, m, nthLastWeekdayDay y m N w) ∧
      (Date y m (nthLastWeekdayDay y m N w) 0 0 0 0 loc).Weekday = w ∧
      (Date y m (nthLastWeekdayDay y m N w) 0 0 0 0 loc).Clock = (0, 0, 0)) := by
  have d0 := daysIn_range m y hm
  have a1 : 7 * (N - 1) < nthWeekdayDay y m N w ∧ nthWeekdayDay y m N w ≤ 7 * N := by
    unfold nthWeekdayDay
    split <;> omega
  have a2 : (dateDays y m 1 + (nthWeekdayDay y m N w - 1) + 1) % 7 = w := by
    unfold nthWeekdayDay
    split <;> omega
  have b1 : daysIn m y - 7 * N < nthLastWeekdayDay y m N w ∧
      nthLastWeekdayDay y m N w ≤ daysIn m y - 7 * (N - 1) := by
    unfold nthLastWeekdayDay
    split <;> omega
  have b2 : (dateDays y m (daysIn m y) + (nthLastWeekdayDay y m N w - daysIn m y) + 1) % 7 = w := by
    unfold nthLastWeekdayDay
    split <;> omega
  refine ⟨⟨a1.1, a1.2, ?_, ?_, ?_⟩, ⟨b1.1, b1.2, ?_, ?_, ?_⟩⟩
  · exact Date_Date loc hf y m _ 0 0 0 0 hm ⟨by omega, by omega⟩ (by omega) (by omega)
      (by omega) (by omega)
  · rw [Weekday_Date loc hf y m _ 0 0 0 0 (by omega) (by omega) (by omega) (by omega),
      civilDays_in _ _ _ hm,
      show nthWeekdayDay y m N w = 1 + (nthWeekdayDay y m N w - 1) by omega, dateDays_day]
    exact a2
  · exact Clock_Date loc hf _ _ _ 0 0 0 0 (by omega) (by omega) (by omega) (by omega)
  · exact Date_Date loc hf y m _ 0 0 0 0 hm ⟨by omega, by omega⟩ (by omega) (by omega)
      (by omega) (by omega)
  · rw [Weekday_Date loc hf y m _ 0 0 0 0 (by omega) (by omega) (by omega) (by omega),
      civilDays_in _ _ _ hm,
      show nthLastWeekdayDay y m N w = daysIn m y + (nthLastWeekdayDay y m N w - daysIn m y) by
        omega, dateDays_day]
    exact b2
  · exact Clock_Date loc hf _ _ _ 0 0 0 0 (by omega) (by omega) (by omega) (by omega)

theorem forward_day (loc : Location) (hf : loc.Fixed) (y m N w : Int) (hm : 1 ≤ m ∧ m ≤ 12)
    (hN : 1 ≤ N) :
    forwardToWeekday (Date y m 1 0 0 0 0 loc) N w =
      Date y m (nthWeekdayDay y m N w) 0 0 0 0 loc :=
  forward_fixed loc hf y m N w hm hN

theorem backward_day (loc : Location) (hf : loc.Fixed) (y m N w : Int) (hm : 1 ≤ m ∧ m ≤ 12)
    (hN : 1 ≤ N) :
    backToWeekday (lastDay loc y m 1) N w =
      Date y m (nthLastWeekdayDay y m N w) 0 0 0 0 loc :=
  backward_fixed loc hf y m N w hm hN

theorem phrase_assoc (a b c : String) :
    a ++ " " ++ b ++ (" " ++ c) = a ++ (" " ++ b ++ " " ++ c) ∧
    a ++ " last " ++ b ++ (" " ++ c) = a ++ (" last " ++ (b ++ " " ++ c)) ∧
    "last " ++ b ++ (" " ++ c) = "last " ++ (b ++ " " ++ c) := by
  simp [String.append_assoc]

theorem month_targets (now : Time) (hf : now.loc.Fixed) :
    ((Date now.Date.1 now.Date.2.1 1 0 0 0 0 now.loc).AddDate 0 (-1) 0 =
        Date (prevMonth now.Date.1 now.Date.2.1).1 (prevMonth now.Date.1 now.Date.2.1).2 1
          0 0 0 0 now.loc ∧
      (Date now.Date.1 now.Date.2.1 1 0 0 0 0 now.loc).AddDate 0 1 0 =
        Date (nextMonth now.Date.1 now.Date.2.1).1 (nextMonth now.Date.1 now.Date.2.1).2 1
          0 0 0 0 now.loc) ∧
    ((Date now.Date.1 now.Date.2.1 1 0 0 0 0 now.loc).AddDate 0 1 (-1) =
        lastDay now.loc now.Date.1 now.Date.2.1 1 ∧
      (Date now.Date.1 now.Date.2.1 1 0 0 0 0 now.loc).AddDate 0 0 (-1) =
        lastDay now.loc (prevMonth now.Date.1 now.Date.2.1).1
          (prevMonth now.Date.1 now.Date.2.1).2 1 ∧
      (Date now.Date.1 now.Date.2.1 1 0 0 0 0 now.loc).AddDate 0 2 (-1) =
        lastDay now.loc (nextMonth now.Date.1 now.Date.2.1).1
          (nextMonth now.Date.1 now.Date.2.1).2 1) := by
  obtain ⟨-, hM, -⟩ := now_day now
  obtain ⟨-, ⟨a, -, -⟩, ⟨b, -, -⟩⟩ := month_shift now.loc hf now.Date.1 now.Date.2.1 1 hM
    (by omega) (by omega)
  exact ⟨⟨a, b⟩, last_day_fixed now.loc hf now.Date.1 now.Date.2.1 1 hM⟩

/-- C28: when the date is rolled into the following year, the code adds one year to the
day it found in now's year, and the result no longer falls on the weekday asked for.  With
now = 2006-01-02T15:04:05, `1st Sunday of January` is 2007-01-01, a Monday (the first
Sunday of January 2006 is 1 January, that of January 2007 is 7 January); with
now = 2006-03-30T12:00:00, `last Tuesday of March` is 2007-03-28, a Wednesday.  Where no
year is added the examples hold: `2nd last Tuesday of March` is 2006-03-21 and
`on the 2nd Tuesday of March at noon` is 2006-03-14T12:00:00. -/
theorem weekday_of_month_rolled (U : RuneTables) :
    ParseNow U "1st Sunday of January" (refNow MST) = .ok (Date 2007 1 1 0 0 0 0 MST) ∧
    (Date 2007 1 1 0 0 0 0 MST).Weekday = 1 ∧
    (Date 2006 1 1 0 0 0 0 MST).Weekday = 0 ∧ (Date 2007 1 7 0 0 0 0 MST).Weekday = 0 ∧
    ParseNow U "last Tuesday of March" (Date 2006 3 30 12 0 0 0 MST) =
      .ok (Date 2007 3 28 0 0 0 0 MST) ∧
    (Date 2007 3 28 0 0 0 0 MST).Weekday = 3 ∧
    ParseNow U "2nd last Tuesday of March" (refNow MST) = .ok (Date 2006 3 21 0 0 0 0 MST) ∧
    ParseNow U "on the 2nd Tuesday of March at noon" (refNow MST) =
      .ok (Date 2006 3 14 12 0 0 0 MST) := by
  rw [ParseNow_tables U _ _ (by decide!), ParseNow_tables U _ _ (by decide!),
    ParseNow_tables U _ _ (by decide!), ParseNow_tables U _ _ (by decide!)]
  decide!

/-- C34: the order of the date part and the time part changes the result when the
reference instant lies on the day asked for, before the time asked for.  With
now = 2006-01-02T15:04:05, `on the 2nd at 4pm` is 2006-02-02T16:00:00 (day 2 at 00:00:00
is past, and the month is moved on before the time is read) while `at 4pm on the 2nd` is
2006-01-02T16:00:00; `on the 2nd of January at 4pm` is 2007-01-02T16:00:00 while
`at 4pm on the 2nd of January` is 2006-01-02T16:00:00.  The examples of the claim agree:
`on the 4th at 4pm` and `at 4pm on the 4th` are both 2006-01-04T16:00:00, and
`on Monday at 4pm` and `at 4pm on Monday` are both 2006-01-09T16:00:00. -/
theorem date_time_order (U : RuneTables) :
    ParseNow U "on the 2nd at 4pm" (refNow MST) = .ok (Date 2006 2 2 16 0 0 0 MST) ∧
    ParseNow U "at 4pm on the 2nd" (refNow MST) = .ok (Date 2006 1 2 16 0 0 0 MST) ∧
    ParseNow U "on the 2nd of January at 4pm" (refNow MST) = .ok (Date 2007 1 2 16 0 0 0 MST) ∧
    ParseNow U "at 4pm on the 2nd of January" (refNow MST) = .ok (Date 2006 1 2 16 0 0 0 MST) ∧
    ParseNow U "on the 4th at 4pm" (refNow MST) = .ok (Date 2006 1 4 16 0 0 0 MST) ∧
    ParseNow U "at 4pm on the 4th" (refNow MST) = .ok (Date 2006 1 4 16 0 0 0 MST) ∧
    ParseNow U "on Monday at 4pm" (refNow MST) = .ok (Date 2006 1 9 16 0 0 0 MST) ∧
    ParseNow U "at 4pm on Monday" (refNow MST) = .ok (Date 2006 1 9 16 0 0 0 MST) ∧
    Date 2006 2 2 16 0 0 0 MST ≠ Date 2006 1 2 16 0 0 0 MST ∧
    Date 2007 1 2 16 0 0 0 MST ≠ Date 2006 1 2 16 0 0 0 MST := by
  rw [ParseNow_tables U _ _ (by decide!), ParseNow_tables U _ _ (by decide!),
    ParseNow_tables U _ _ (by decide!), ParseNow_tables U _ _ (by decide!),
    ParseNow_tables U _ _ (by decide!), ParseNow_tables U _ _ (by decide!),
    ParseNow_tables U _ _ (by decide!), ParseNow_tables U _ _ (by decide!)]
  decide!

end When
